import Mathlib

/-! # TON Solidity compiler back-end: IR passes, printer, pusher and public selector

A shallow embedding of the parts of `libsolidity/codegen` that the properties
below are about:

* `TvmAst.hpp`: the instruction IR (`TvmAstNode`, `CodeBlock`, `Function`);
* `TvmAstVisitor.cpp`: `LocSquasher`, `DeleterAfterRet`, `DeleterCallX`,
  `LogCircuitExpander` and `Printer::visit(Stack)`;
* `TVMFunctionCompiler.cpp`: `buildPublicFunctionSelector`, `generateC4ToC7`,
  `visit(Return)`, `visit(ForStatement)` with `afterLoopCheck`,
  `visit(IfStatement)`, `visit(WhileStatement)` with `doWhile`;
* `TVMPusher.cpp`: the stack model of `StackPusher` (`change`, `startOpaque`,
  `endOpaque`, `drop`, `dropUnder`), `pushString`, the message headers
  (`int_msg_info`, `ext_msg_info`, `prepareMsg`), `generateC7ToT4Macro`, the
  tuple manipulators, the symbolic stack `TVMStack`, the assembly of `TvmIfElse`
  and loop nodes (`ifElse`, `_if`, `_while`, `repeat`), the bit strings
  (`tonsToBinaryString`, `binaryStringToSlice`, `toBitString`), the dictionary
  values (`prepareValueForDictOperations`, `doesDictStoreValueInRef`) and the
  call graph of `TVMCompilerContext` (`addAndDoesHaveLoop`, `dfs`);
* `GlobalContext.cpp`: `magicVariableToID`.

Vectors are lists, `Pointer<T>` is the value it points to, `int` is `Int`,
`solAssert` failures and out-of-range accesses are `none`.
-/

namespace TvmAst

/-! ## The IR of `TvmAst.hpp` -/

/-- The enum `Stack::Opcode`. -/
inductive StackOpcode where
  | DROP | BLKDROP2 | POP_S
  | BLKPUSH | PUSH2_S | PUSH3_S | PUSH_S
  | BLKSWAP | REVERSE | XCHG
  | TUCK | PUXC
  deriving DecidableEq, Repr

/-- The enum `Glob::Opcode`. -/
inductive GlobOpcode where
  | GetOrGetVar | SetOrSetVar
  | PUSHROOT | POPROOT
  | PUSH_C3 | POP_C3
  | PUSH_C7 | POP_C7
  deriving DecidableEq, Repr

/-- The enum `TvmReturn::Type`. -/
inductive ReturnType where
  | RET | IFRET | IFNOTRET
  deriving DecidableEq, Repr

/-- The enum `PushCellOrSlice::Type`. -/
inductive CellType where
  | PUSHREF | PUSHREFSLICE | CELL
  deriving DecidableEq, Repr

/-- The enum `CodeBlock::Type`. -/
inductive CodeBlockType where
  | None | PUSHCONT | PUSHREFCONT
  deriving DecidableEq, Repr

/-- The enum `SubProgram::Type`. -/
inductive SubProgramType where
  | CALLREF | CALLX
  deriving DecidableEq, Repr

/-- The enum `LogCircuit::Type`. -/
inductive LogCircuitType where
  | AND | OR
  deriving DecidableEq, Repr

/-- The enum `TvmIfElse::Type`. -/
inductive IfElseType where
  | IF | IFNOT
  | IFREF | IFNOTREF
  | IFJMP | IFNOTJMP
  | IFJMPREF | IFNOTJMPREF
  | IFELSE | IFELSE_WITH_JMP
  deriving DecidableEq, Repr

/-- The enum `Function::FunctionType`. -/
inductive FunctionType where
  | PrivateFunction | Macro | MacroGetter
  | MainInternal | MainExternal
  | OnCodeUpgrade | OnTickTock
  deriving DecidableEq, Repr

/-- The class `PushCellOrSlice`: a cell literal with an optional child cell
(`m_child` may be null). -/
inductive PushCellOrSlice where
  | mk (type : CellType) (blob : String) (child : Option PushCellOrSlice)

mutual
/-- The class hierarchy under `TvmAstNode` that can occur inside a block.
Every class derived from `Gen` carries the purity flag of the base class;
`Glob` also carries the values of its virtual `take()` and `ret()`, which the
source computes from the opcode outside the files at hand. `PushCell` holds a
`PushCellOrSlice` and `Block` a `CodeBlock`, which is itself an instruction. -/
inductive TvmAstNode where
  | Loc (file : String) (line : Int)
  | Stack (opcode : StackOpcode) (i j k : Int)
  | Glob (opcode : GlobOpcode) (index : Int) (take ret : Int) (isPure : Bool)
  | DeclRetFlag
  | Opaque (block : CodeBlock) (take ret : Int) (isPure : Bool)
  | AsymGen (opcode : String) (take retMin retMax : Int)
  | HardCode (code : List String) (take ret : Int) (isPure : Bool)
  | GenOpcode (opcode arg comment : String) (take ret : Int) (isPure : Bool)
  | TvmReturn (type : ReturnType)
  | ReturnOrBreakOrCont (take : Int) (body : CodeBlock)
  | TvmException (opcode arg : String) (take ret : Int)
  | PushCell (cell : PushCellOrSlice)
  | Block (block : CodeBlock)
  | SubProgram (take ret : Int) (type : SubProgramType) (block : CodeBlock)
  | TvmCondition (trueBody falseBody : CodeBlock) (ret : Int)
  | LogCircuit (canExpand : Bool) (type : LogCircuitType) (body : CodeBlock)
  | TvmIfElse (type : IfElseType) (trueBody : CodeBlock) (falseBody : Option CodeBlock)
  | TvmRepeat (body : CodeBlock)
  | TvmUntil (body : CodeBlock)
  | While (condition body : CodeBlock)
/-- The class `CodeBlock`: a block type and the instruction vector. -/
inductive CodeBlock where
  | mk (type : CodeBlockType) (instructions : List TvmAstNode)
end

/-- The accessor `CodeBlock::type()`. -/
def CodeBlock.type : CodeBlock → CodeBlockType
  | .mk t _ => t

/-- The accessor `CodeBlock::instructions()`. -/
def CodeBlock.instructions : CodeBlock → List TvmAstNode
  | .mk _ is => is

/-- The mutator `CodeBlock::upd`: replaces the instruction vector, keeps the type. -/
def CodeBlock.upd (b : CodeBlock) (instructions : List TvmAstNode) : CodeBlock :=
  .mk b.type instructions

/-- The class `Function`. -/
structure Function where
  take : Int
  ret : Int
  name : String
  type : FunctionType
  block : CodeBlock

/-- The cast `to<Loc>(node)` as a test. -/
def TvmAstNode.isLoc : TvmAstNode → Bool
  | .Loc _ _ => true
  | _ => false

/-- The cast `to<ReturnOrBreakOrCont>(node)` as a test. -/
def TvmAstNode.isReturnOrBreakOrCont : TvmAstNode → Bool
  | .ReturnOrBreakOrCont _ _ => true
  | _ => false

/-! ## `DeleterAfterRet::endVisit(CodeBlock&)` -/

/-- The body of the loop of `DeleterAfterRet::endVisit`: the state is
`(findRet, newInstrs)`. -/
def deleterAfterRetStep (st : Bool × List TvmAstNode) (opcode : TvmAstNode) :
    Bool × List TvmAstNode :=
  if !st.1 && opcode.isReturnOrBreakOrCont then
    (true, st.2 ++ [opcode])
  else if !st.1 || opcode.isLoc then
    (st.1, st.2 ++ [opcode])
  else
    st

/-- The new instruction vector that `DeleterAfterRet::endVisit` passes to `upd`. -/
def deleterAfterRetInstrs (instructions : List TvmAstNode) : List TvmAstNode :=
  (instructions.foldl deleterAfterRetStep (false, [])).2

/-- The pass `DeleterAfterRet::endVisit` on a block. -/
def DeleterAfterRet.endVisit (node : CodeBlock) : CodeBlock :=
  node.upd (deleterAfterRetInstrs node.instructions)

/-! ## `LocSquasher::visit(CodeBlock&)` -/

/-- The body of the first loop of `LocSquasher::visit`: when the last kept node
and the incoming node are both `Loc`, the last kept node is popped; the incoming
node is then pushed. -/
def locSquasherFirstStep (b : List TvmAstNode) (x : TvmAstNode) : List TvmAstNode :=
  if !b.isEmpty && (match b.getLast? with | some y => y.isLoc | none => false) && x.isLoc then
    b.dropLast ++ [x]
  else
    b ++ [x]

/-- The first block of `LocSquasher::visit`, which computes `res0`. -/
def locSquasherFirst (a : List TvmAstNode) : List TvmAstNode :=
  match a with
  | [] => []
  | front :: rest => rest.foldl locSquasherFirstStep [front]

/-- The body of the second loop of `LocSquasher::visit`: the state is
`(res, lastLoc)`, with `lastLoc` kept as the pair `(file, line)` that the source
compares. -/
def locSquasherSecondStep (st : List TvmAstNode × Option (String × Int)) (node : TvmAstNode) :
    List TvmAstNode × Option (String × Int) :=
  match node with
  | .Loc file line =>
    (if st.2.isNone || st.2 != some (file, line) then st.1 ++ [node] else st.1,
      some (file, line))
  | _ => (st.1 ++ [node], st.2)

/-- The second loop of `LocSquasher::visit`, which computes `res` from `res0`. -/
def locSquasherSecond (res0 : List TvmAstNode) : List TvmAstNode :=
  (res0.foldl locSquasherSecondStep ([], none)).1

/-- The new instruction vector that `LocSquasher::visit` passes to `upd`. -/
def locSquasherInstrs (instructions : List TvmAstNode) : List TvmAstNode :=
  locSquasherSecond (locSquasherFirst instructions)

/-- The pass `LocSquasher::visit` on a block. -/
def LocSquasher.visit (node : CodeBlock) : CodeBlock :=
  node.upd (locSquasherInstrs node.instructions)

/-- The pair `(file, line)` of a `Loc` node, `none` for every other node. -/
def TvmAstNode.locKey : TvmAstNode → Option (String × Int)
  | .Loc file line => some (file, line)
  | _ => none

/-! ## `DeleterCallX::visit(Function&)` -/

/-- Modelled from the spec: `qtyWithoutLoc`, defined outside the files at hand,
is the number of non-Loc instructions of a vector ("exactly one non-Loc
instruction"). -/
def qtyWithoutLoc (inst : List TvmAstNode) : Nat :=
  inst.countP (fun op => !op.isLoc)

/-- The cast `to<SubProgram>(node)` as a test. -/
def TvmAstNode.isSubProgram : TvmAstNode → Bool
  | .SubProgram _ _ _ _ => true
  | _ => false

/-- The loop of `DeleterCallX::visit` over the remaining instructions, with the
vector `newCmds` built so far; `none` is the early `return false`, which
leaves the block as it is. -/
def deleterCallXLoop : List TvmAstNode → List TvmAstNode → Option (List TvmAstNode)
  | [], newCmds => some newCmds
  | op :: rest, newCmds =>
    match op with
    | .Loc _ _ => deleterCallXLoop rest (newCmds ++ [op])
    | .SubProgram _ _ _ block => deleterCallXLoop rest (newCmds ++ block.instructions)
    | _ => none

/-- The pass `DeleterCallX::visit` on a function. -/
def DeleterCallX.visit (node : Function) : Function :=
  if qtyWithoutLoc node.block.instructions = 1 then
    match deleterCallXLoop node.block.instructions [] with
    | some newCmds => { node with block := node.block.upd newCmds }
    | none => node
  else
    node

/-! ## `LogCircuitExpander` -/

/-- The cast `to<Gen>(node)`: for the classes derived from `Gen`, the triple
`(isPure(), take(), ret())`; `PushCellOrSlice` is `Gen(true)` with take 0 and
ret 1, `SubProgram` is `Gen(false)`. -/
def TvmAstNode.asGen : TvmAstNode → Option (Bool × Int × Int)
  | .Glob _ _ take ret isPure => some (isPure, take, ret)
  | .Opaque _ take ret isPure => some (isPure, take, ret)
  | .HardCode _ take ret isPure => some (isPure, take, ret)
  | .GenOpcode _ _ _ take ret isPure => some (isPure, take, ret)
  | .PushCell _ => some (true, 0, 1)
  | .SubProgram take ret _ _ => some (false, take, ret)
  | _ => none

/-- The cast `to<LogCircuit>(node)` as a test. -/
def TvmAstNode.isLogCircuit : TvmAstNode → Bool
  | .LogCircuit _ _ _ => true
  | _ => false

/-- Modelled from the spec: `isDrop` of TvmAst.cpp gives the count of a `DROP`
stack op and nothing for every other node ("a DROP-1 of the replicated
operand"). -/
def isDrop : TvmAstNode → Option Int
  | .Stack .DROP n _ _ => some n
  | _ => none

/-- Modelled from the spec: `makePUSH(i)` of TvmAst.cpp creates the stack op
`PUSH Si`; the unused indices keep the default `-1` of the `Stack`
constructor. -/
def makePUSH (i : Int) : TvmAstNode :=
  .Stack .PUSH_S i (-1) (-1)

/-- Modelled from the spec: `gen(cmd)` of TvmAst.cpp for the two mnemonics the
expander creates, `AND` and `OR`: a gen-op without argument that takes two
values and returns one ("a direct AND/OR gen-op"). -/
def gen (cmd : String) : TvmAstNode :=
  .GenOpcode cmd "" "" 2 1 true

/-- The members `m_stackSize` and `m_newInst` of `LogCircuitExpander`. -/
structure ExpanderState where
  m_stackSize : Int
  m_newInst : List TvmAstNode

/-- The method `LogCircuitExpander::isPureOperation`: the returned flag and
the updated members. -/
def isPureOperation (op : TvmAstNode) (s : ExpanderState) : Bool × ExpanderState :=
  match op.asGen with
  | some (true, take, ret) =>
    (true, { m_stackSize := s.m_stackSize + (-take + ret), m_newInst := s.m_newInst ++ [op] })
  | _ =>
    if op.isLogCircuit then
      (true, { m_stackSize := s.m_stackSize + (-2 + 1), m_newInst := s.m_newInst ++ [op] })
    else
      match op with
      | .Stack .PUSH_S index _ _ =>
        if index + 1 < s.m_stackSize then
          (true, { m_stackSize := s.m_stackSize + 1,
                   m_newInst := s.m_newInst ++ [makePUSH index] })
        else
          (true, { m_stackSize := s.m_stackSize + 1,
                   m_newInst := s.m_newInst ++ [makePUSH (index + 1)] })
      | _ => (false, s)

/-- The iterations `i >= 1` of the loop over the body of a LogCircuit in
`LogCircuitExpander::endVisit`: a LogCircuit that is not the last instruction
clears `isPure`, and `isPureOperation` is called on every instruction. -/
def scanBody : List TvmAstNode → Bool → ExpanderState → Bool × ExpanderState
  | [], isPure, s => (isPure, s)
  | op :: rest, isPure, s =>
    let isPure1 := if op.isLogCircuit && !rest.isEmpty then false else isPure
    let r := isPureOperation op s
    scanBody rest (isPure1 && r.1) r.2

/-- The gen-op that the expander appends for a LogCircuit of the given type. -/
def logicGen : LogCircuitType → TvmAstNode
  | .AND => gen "AND"
  | .OR => gen "OR"

/-- What `LogCircuitExpander::endVisit` decides for one LogCircuit with
`canExpand` set: it fails by assertion, keeps the node, or replaces the node
and the instruction before it by a sequence. -/
inductive Expansion where
  | assertFailed
  | keep
  | replace (newInst : List TvmAstNode)

/-- The treatment of one LogCircuit with `canExpand` set, of the given type
and with the given body instructions, in `LogCircuitExpander::endVisit`. -/
def expandLogCircuit (type : LogCircuitType) (inst : List TvmAstNode) : Expansion :=
  match inst with
  | [] => .assertFailed
  | first :: rest =>
    if isDrop first != some 1 then .assertFailed
    else
      let r := scanBody rest true { m_stackSize := 1, m_newInst := [] }
      if r.1 then
        if r.2.m_stackSize != 2 then .assertFailed
        else
          match r.2.m_newInst.getLast? with
          | none => .assertFailed
          | some (.LogCircuit tailCanExpand tailType tailBody) =>
            if tailType != type then .keep
            else
              .replace (r.2.m_newInst.dropLast.dropLast ++
                [logicGen type, makePUSH 0, .LogCircuit tailCanExpand tailType tailBody])
          | some _ => .replace (r.2.m_newInst ++ [logicGen type])
      else .keep

/-- The body of the loop of `LogCircuitExpander::endVisit` over the
instructions of a block, with the vector `block` built so far; `none` is a
failed assertion, or `pop_back` on an empty `block`. -/
def logCircuitExpanderStep (block : List TvmAstNode) (opcode : TvmAstNode) :
    Option (List TvmAstNode) :=
  match opcode with
  | .LogCircuit true type body =>
    match expandLogCircuit type body.instructions with
    | .assertFailed => none
    | .keep => some (block ++ [opcode])
    | .replace newInst => if block.isEmpty then none else some (block.dropLast ++ newInst)
  | _ => some (block ++ [opcode])

/-- The loop of `LogCircuitExpander::endVisit` from the vector `block` built so
far over the remaining instructions. -/
def logCircuitExpanderLoop : List TvmAstNode → List TvmAstNode → Option (List TvmAstNode)
  | [], block => some block
  | opcode :: rest, block =>
    match logCircuitExpanderStep block opcode with
    | some block1 => logCircuitExpanderLoop rest block1
    | none => none

/-- The pass `LogCircuitExpander::endVisit` on a block. -/
def LogCircuitExpander.endVisit (node : CodeBlock) : Option CodeBlock :=
  (logCircuitExpanderLoop node.instructions []).map node.upd

/-- The stack effect of an instruction that may stand in the body of an
expanded LogCircuit: `ret - take` for a gen-op, `+1` for `PUSH Si`, `-1` for a
LogCircuit (it consumes the copy made by the `DUP` in front of it). -/
def stackDelta (op : TvmAstNode) : Int :=
  match op.asGen with
  | some (_, take, ret) => ret - take
  | none =>
    match op with
    | .Stack .PUSH_S _ _ _ => 1
    | .LogCircuit _ _ _ => -1
    | _ => 0

/-- The net stack effect of a sequence of such instructions. -/
def stackDeltaSum (l : List TvmAstNode) : Int :=
  (l.map stackDelta).sum

/-- The body of an expanded LogCircuit as the specification words it: every
instruction is kept in order, and `PUSH Si` becomes `PUSH S(i+1)` when `i` is
at least `pushed`, the number of values the body has pushed so far, and stays
`PUSH Si` otherwise. -/
def shiftedBody : Int → List TvmAstNode → List TvmAstNode
  | _, [] => []
  | pushed, op :: rest =>
    match op with
    | .Stack .PUSH_S i _ _ =>
      (if pushed ≤ i then makePUSH (i + 1) else makePUSH i) :: shiftedBody (pushed + 1) rest
    | _ => op :: shiftedBody (pushed + stackDelta op) rest

/-- The test `gen && gen->isPure()` of `isPureOperation`. -/
def TvmAstNode.isPureGen (op : TvmAstNode) : Bool :=
  match op.asGen with
  | some (true, _, _) => true
  | _ => false

/-- The test `stack && stack->opcode() == Stack::Opcode::PUSH_S` of
`isPureOperation`. -/
def TvmAstNode.isPushS : TvmAstNode → Bool
  | .Stack .PUSH_S _ _ _ => true
  | _ => false

/-- The instructions of a block that the specification says the expander
leaves in place: every node that is not a LogCircuit, a LogCircuit with
`canExpand = false`, a LogCircuit whose body holds after the leading `DROP 1`
an instruction that is neither a pure gen-op, nor `PUSH Si`, nor a LogCircuit in
last position, and a LogCircuit whose body is pure, leaves one value and ends
with a LogCircuit of the other kind. -/
inductive LeftInPlace : TvmAstNode → Prop where
  | other (op : TvmAstNode) (h : op.isLogCircuit = false) : LeftInPlace op
  | cannotExpand (type : LogCircuitType) (body : CodeBlock) :
      LeftInPlace (.LogCircuit false type body)
  | impure (type : LogCircuitType) (bodyType : CodeBlockType) (first : TvmAstNode)
      (pre : List TvmAstNode) (x : TvmAstNode) (post : List TvmAstNode)
      (hdrop : isDrop first = some 1)
      (hgen : x.isPureGen = false) (hpush : x.isPushS = false)
      (hlast : x.isLogCircuit = false ∨ post ≠ []) :
      LeftInPlace (.LogCircuit true type (.mk bodyType (first :: (pre ++ x :: post))))
  | otherKind (type : LogCircuitType) (bodyType : CodeBlockType) (first : TvmAstNode)
      (mid : List TvmAstNode) (tailCanExpand : Bool) (tailType : LogCircuitType)
      (tailBody : CodeBlock)
      (hdrop : isDrop first = some 1)
      (hmid : ∀ op ∈ mid, op.isPureGen = true ∨ op.isPushS = true)
      (hsize : stackDeltaSum (mid ++ [.LogCircuit tailCanExpand tailType tailBody]) = 1)
      (hkind : tailType ≠ type) :
      LeftInPlace (.LogCircuit true type
        (.mk bodyType (first :: (mid ++ [.LogCircuit tailCanExpand tailType tailBody]))))

/-! ## `Printer::visit(Stack&)` -/

/-- The method `Printer::tabs`: `m_tab` tab characters. -/
def tabs (m_tab : Nat) : String :=
  String.mk (List.replicate m_tab '\t')

/-- The stream manipulator `std::endl`. -/
def endl : String := "\n"

/-- The lambda `printSS` of `Printer::visit(Stack&)`. -/
def printSS (i j k : Int) : String :=
  " S" ++ toString i ++
    (if j != -1 then ", S" ++ toString j ++ (if k != -1 then ", S" ++ toString k else "") else "")

/-- The lambda `printIndexes` of `Printer::visit(Stack&)`; `none` is a failed
`solAssert`. -/
def printIndexes (i j k : Int) : Option String :=
  if i == -1 then none
  else if j != -1 then
    if k == -1 then some (" " ++ toString i ++ ", " ++ toString j) else none
  else some (" " ++ toString i)

/-- The lambda `drop` of `Printer::visit(Stack&)`, which captures the indices
of the node being printed. -/
def drop (m_tab : Nat) (i j k : Int) (n : Int) : Option String :=
  if n == 1 then some "DROP"
  else if n == 2 then some "DROP2"
  else if n ≤ 15 then (printIndexes i j k).map ("BLKDROP" ++ ·)
  else some ("PUSHINT " ++ toString n ++ endl ++ tabs m_tab ++ "DROPX")

/-- The `while (rest > 0)` loop of the `BLKPUSH` case, run for at most `fuel`
rounds. -/
def blkPushLoop (m_tab : Nat) (j : Int) : Nat → Int → Bool → String
  | 0, _, _ => ""
  | fuel + 1, rest, first =>
    if rest > 0 then
      (if !first then endl ++ tabs m_tab else "") ++
        "BLKPUSH " ++ toString (min 15 rest) ++ ", " ++ toString j ++
        blkPushLoop m_tab j fuel (rest - 15) false
    else ""

/-- The text that the `switch` of `Printer::visit(Stack&)` writes for a node
`Stack(opcode, i, j, k)`; `none` is a failed `solAssert`. -/
def printStackOpcode (m_tab : Nat) (opcode : StackOpcode) (i j k : Int) : Option String :=
  match opcode with
  | .DROP => drop m_tab i j k i
  | .PUSH_S =>
    if j != -1 then none
    else if i == 0 then some "DUP"
    else if i == 1 then some "OVER"
    else some ("PUSH S" ++ toString i)
  | .XCHG =>
    if i == 0 then
      if j == 1 then some "SWAP" else some ("XCHG S" ++ toString j)
    else some ("XCHG S" ++ toString i ++ ", S" ++ toString j)
  | .BLKDROP2 =>
    if i > 15 || j > 15 then
      (drop m_tab i j k i).map (fun d =>
        "PUSHINT " ++ toString i ++ endl ++ tabs m_tab ++
        "PUSHINT " ++ toString j ++ endl ++ tabs m_tab ++
        "BLKSWX" ++ endl ++ tabs m_tab ++ d)
    else if (i ≥ 2 && j ≥ 1) || (i ≥ 1 && j ≥ 2) then
      (printIndexes i j k).map ("BLKDROP2" ++ ·)
    else none
  | .PUSH2_S =>
    if i == 1 && j == 0 then some "DUP2"
    else if i == 3 && j == 2 then some "OVER2"
    else some ("PUSH2" ++ printSS i j k)
  | .POP_S =>
    if i == 1 then some "NIP" else some ("POP" ++ printSS i j k)
  | .BLKSWAP =>
    let bottom := i
    let top := j
    if bottom == 1 && top == 1 then some "SWAP"
    else if bottom == 1 && top == 2 then some "ROT"
    else if bottom == 2 && top == 1 then some "ROTREV"
    else if bottom == 2 && top == 2 then some "SWAP2"
    else if 1 ≤ bottom && bottom ≤ 16 && 1 ≤ top && top ≤ 16 then
      if bottom == 1 then some ("ROLL " ++ toString top)
      else if top == 1 then some ("ROLLREV " ++ toString bottom)
      else (printIndexes i j k).map ("BLKSWAP" ++ ·)
    else
      some ("PUSHINT " ++ toString bottom ++ endl ++ tabs m_tab ++
        "PUSHINT " ++ toString top ++ endl ++ tabs m_tab ++ "BLKSWX")
  | .REVERSE =>
    if !(2 ≤ i) then none
    else if i == 2 && j == 0 then some "SWAP"
    else if i == 3 && j == 0 then some "XCHG S2"
    else if 2 ≤ i && i ≤ 17 && 0 ≤ j && j ≤ 15 then (printIndexes i j k).map ("REVERSE" ++ ·)
    else
      some ("PUSHINT " ++ toString i ++ endl ++ tabs m_tab ++
        "PUSHINT " ++ toString j ++ endl ++ tabs m_tab ++ "REVX")
  | .BLKPUSH =>
    if i == 2 && j == 1 then some "DUP2"
    else if i == 2 && j == 3 then some "OVER2"
    else if i > 15 && j != 0 then none
    else some (blkPushLoop m_tab j i.toNat i true)
  | .PUSH3_S => some ("PUSH3" ++ printSS i j k)
  | .TUCK => some "TUCK"
  | .PUXC => some ("PUXC S" ++ toString i ++ ", S" ++ toString j)

/-- The method `Printer::visit(Stack&)` at indentation `m_tab`: the text
appended to the output stream, `none` when a `solAssert` fails. -/
def Printer.visitStack (m_tab : Nat) (opcode : StackOpcode) (i j k : Int) : Option String :=
  (printStackOpcode m_tab opcode i j k).map (fun body => tabs m_tab ++ body ++ endl)

/-! ## `Printer::visit(Glob&)` -/

/-- The text that the `switch` of `Printer::visit(Glob&)` writes for a node
`Glob(opcode, index)`. -/
def printGlobOpcode (m_tab : Nat) (opcode : GlobOpcode) (index : Int) : String :=
  match opcode with
  | .GetOrGetVar =>
    if 1 ≤ index && index ≤ 31 then "GETGLOB " ++ toString index
    else "PUSHINT " ++ toString index ++ endl ++ tabs m_tab ++ "GETGLOBVAR"
  | .SetOrSetVar =>
    if 1 ≤ index && index ≤ 31 then "SETGLOB " ++ toString index
    else "PUSHINT " ++ toString index ++ endl ++ tabs m_tab ++ "SETGLOBVAR"
  | .POPROOT => "POPROOT"
  | .PUSHROOT => "PUSHROOT"
  | .POP_C3 => "POP C3"
  | .PUSH_C7 => "PUSH C7"
  | .PUSH_C3 => "PUSH C3"
  | .POP_C7 => "POP C7"

/-- The method `Printer::visit(Glob&)` at indentation `m_tab`: the text
appended to the output stream. -/
def Printer.visitGlob (m_tab : Nat) (opcode : GlobOpcode) (index : Int) : String :=
  tabs m_tab ++ printGlobOpcode m_tab opcode index ++ endl

/-! ## `TVMFunctionCompiler::buildPublicFunctionSelector` -/

/-- The instructions that `buildPublicFunctionSelector` appends through the
pusher: `pushS(i)`, `pushInt(n)`, `push(-2 + 1, cmd)` for a comparison,
`pushCall(0, 0, name)`, and `ifJmpRef()` closing the continuation opened by
`startContinuation()`. -/
inductive SelInst where
  | pushS (i : Nat)
  | pushInt (n : Nat)
  | gen (cmd : String)
  | call (name : String)
  | ifJmpRef (body : List SelInst)

/-- The loop `while (4 * blockSize < qty) blockSize *= 4`, run for at most
`fuel` rounds. -/
def blockSizeLoop : Nat → Nat → Nat → Nat
  | 0, _, blockSize => blockSize
  | fuel + 1, qty, blockSize =>
    if 4 * blockSize < qty then blockSizeLoop fuel qty (blockSize * 4) else blockSize

/-- The value of `blockSize` after the loop, started at `1`. -/
def selectorBlockSize (qty : Nat) : Nat :=
  blockSizeLoop qty qty 1

/-- The lambda `pushOne` of `buildPublicFunctionSelector`; `push(-1, "")` only
adjusts the modelled depth and appends nothing. -/
def pushOne (functionId : Nat) (name : String) : List SelInst :=
  [.pushS 0, .pushInt functionId, .gen "EQUAL", .ifJmpRef [.call name]]

/-- The loop `for (i = left; i < right; ++i)` of the case `right - left <= 4`,
run for at most `fuel` rounds; `none` is `functions.at(i)` out of range or
spent fuel. -/
def selectorLeaves (functions : List (Nat × String)) (right : Nat) :
    Nat → Nat → Option (List SelInst)
  | 0, i => if i < right then none else some []
  | fuel + 1, i =>
    if i < right then
      match functions[i]? with
      | none => none
      | some (functionId, name) =>
        match selectorLeaves functions right fuel (i + 1) with
        | none => none
        | some rest => some (pushOne functionId name ++ rest)
    else some []

/-- The loop `for (i = left; i < right; i += blockSize)` of the other case, run
for at most `fuel` rounds; `sub i j` is the recursive call on the range
`[i, j)`. -/
def selectorNodes (sub : Nat → Nat → Option (List SelInst)) (functions : List (Nat × String))
    (blockSize right : Nat) : Nat → Nat → Option (List SelInst)
  | 0, i => if i < right then none else some []
  | fuel + 1, i =>
    if i < right then
      let j := min (i + blockSize) right
      match functions[j - 1]? with
      | none => none
      | some (functionId, name) =>
        if j - i = 1 then
          match selectorNodes sub functions blockSize right fuel (i + blockSize) with
          | none => none
          | some rest => some (pushOne functionId name ++ rest)
        else
          match sub i j, selectorNodes sub functions blockSize right fuel (i + blockSize) with
          | some body, some rest =>
            some ([.pushS 0, .pushInt functionId, .gen "LEQ", .ifJmpRef body] ++ rest)
          | _, _ => none
    else some []

/-- The method `buildPublicFunctionSelector(functions, left, right)` with a
bound `fuel` on the recursion depth: the instructions appended to the current
block. -/
def buildPublicFunctionSelector (functions : List (Nat × String)) :
    Nat → Nat → Nat → Option (List SelInst)
  | 0, _, _ => none
  | fuel + 1, left, right =>
    let qty := right - left
    let blockSize := selectorBlockSize qty
    if 4 * blockSize < qty then none
    else if right - left ≤ 4 then selectorLeaves functions right (right - left) left
    else
      selectorNodes (buildPublicFunctionSelector functions fuel) functions blockSize right
        (right - left) left

/-- The body of the function that `generatePublicFunctionSelector` builds:
`buildPublicFunctionSelector(functions, 0, functions.size())`. -/
def generatePublicFunctionSelector (functions : List (Nat × String)) : Option (List SelInst) :=
  buildPublicFunctionSelector functions (functions.length + 1) 0 functions.length

/-- The state of the machine while it runs the selector: the value stack (top
first) and the macros called so far. -/
structure Vm where
  stack : List Int
  calls : List String
  deriving DecidableEq, Repr

/-- The outcome of running instructions: control reaches the next instruction,
control has left through a taken jump, or the machine fails. -/
inductive Outcome where
  | next (s : Vm)
  | jumped (s : Vm)
  | fail
  deriving DecidableEq, Repr

mutual
/-- One selector instruction on the machine: `PUSH Si` copies slot `i`,
`PUSHINT n` pushes `n`, `EQUAL` and `LEQ` replace the two top values `x, y` by
`-1` when `x = y` (resp. `x <= y`) and by `0` otherwise, `CALL` runs the macro
(recorded in `calls`; its declared effect is take 0, ret 0), and `IFJMPREF` pops
a flag and, when it is non-zero, jumps into the continuation and does not come
back. -/
def execInst : SelInst → Vm → Outcome
  | .pushS i, s =>
    match s.stack[i]? with
    | some v => .next { s with stack := v :: s.stack }
    | none => .fail
  | .pushInt n, s => .next { s with stack := (n : Int) :: s.stack }
  | .gen cmd, s =>
    match s.stack with
    | y :: x :: st =>
      if cmd = "EQUAL" then .next { s with stack := (if x = y then -1 else 0) :: st }
      else if cmd = "LEQ" then .next { s with stack := (if x ≤ y then -1 else 0) :: st }
      else .fail
    | _ => .fail
  | .call name, s => .next { s with calls := s.calls ++ [name] }
  | .ifJmpRef body, s =>
    match s.stack with
    | f :: st =>
      if f ≠ 0 then
        match execList body { s with stack := st } with
        | .next s1 => .jumped s1
        | r => r
      else .next { s with stack := st }
    | [] => .fail
termination_by structural x => x
/-- A sequence of selector instructions on the machine. -/
def execList : List SelInst → Vm → Outcome
  | [], s => .next s
  | inst :: rest, s =>
    match execInst inst s with
    | .next s1 => execList rest s1
    | r => r
termination_by structural x => x
end

/-- The run of a selector on the function id `k`: the input stack holds `k`. -/
def runSelector (prog : List SelInst) (k : Nat) : Outcome :=
  execList prog { stack := [(k : Int)], calls := [] }

/-! ## `TVMStack` and `StackPusher` (TVMPusher.cpp) -/

/-- The class `TVMStack`: the modelled depth `m_size` and the vector
`m_stackSize` of the declarations bound to the slots (a declaration is a
number, a null pointer is `none`). -/
structure TVMStack where
  m_size : Int
  m_stackSize : List (Option Nat)

/-- The method `TVMStack::size`. -/
def TVMStack.size (s : TVMStack) : Int :=
  s.m_size

/-- The method `TVMStack::change(int diff)`; `none` is the failed assertion
`m_size >= 0`. -/
def TVMStack.change (s : TVMStack) (diff : Int) : Option TVMStack :=
  if diff != 0 then
    if s.m_size + diff ≥ 0 then some { s with m_size := s.m_size + diff } else none
  else some s

/-- The loop of `TVMStack::getStackSize` over the indices `n - 1, ..., 0`: the
first index, from the top, that is inside `m_stackSize` and holds `name`, or
`-1`. -/
def getStackSizeLoop (m_stackSize : List (Option Nat)) (name : Option Nat) : Nat → Int
  | 0 => -1
  | n + 1 =>
    if n < m_stackSize.length ∧ m_stackSize.getD n none = name then (n : Int)
    else getStackSizeLoop m_stackSize name n

/-- The method `TVMStack::getStackSize`; the loop starts at `m_size - 1` and
does not run for `m_size <= 0`. A declaration is a number, `none` the null
pointer. -/
def TVMStack.getStackSize (s : TVMStack) (name : Option Nat) : Int :=
  getStackSizeLoop s.m_stackSize name s.m_size.toNat

/-- The method `TVMStack::isParam`. -/
def TVMStack.isParam (s : TVMStack) (name : Option Nat) : Bool :=
  s.getStackSize name != -1

/-- The method `TVMStack::change(int take, int ret)`; `none` is a failed
assertion. -/
def TVMStack.changeTakeRet (s : TVMStack) (take ret : Int) : Option TVMStack :=
  if take ≥ 0 then
    if ret ≥ 0 then s.change (-take + ret) else none
  else none

/-- The call `v.resize(n)` of a vector of pointers: cut to `n` elements or
filled up with null pointers. -/
def resize (v : List (Option Nat)) (n : Nat) : List (Option Nat) :=
  v.take n ++ List.replicate (n - v.length) none

/-- The method `TVMStack::add`; `none` is the failed assertion on a null `name`
or the exception of `m_stackSize.at(m_size - 1)` out of range. -/
def TVMStack.add (s : TVMStack) (name : Option Nat) (doAllocation : Bool) : Option TVMStack :=
  if name.isNone then none
  else
    let m_size := if doAllocation then s.m_size + 1 else s.m_size
    let m_stackSize :=
      if (s.m_stackSize.length : Int) < m_size then resize s.m_stackSize m_size.toNat
      else s.m_stackSize
    if 0 ≤ m_size - 1 ∧ m_size - 1 < m_stackSize.length then
      some { m_size := m_size, m_stackSize := m_stackSize.set (m_size - 1).toNat name }
    else none

/-- The method `TVMStack::getOffset(int stackSize)`. -/
def TVMStack.getOffsetOfSlot (s : TVMStack) (stackSize : Int) : Int :=
  s.m_size - 1 - stackSize

/-- The method `TVMStack::getOffset(Declaration const*)`; `none` is the failed
assertion `isParam(name)`. -/
def TVMStack.getOffset (s : TVMStack) (name : Option Nat) : Option Int :=
  if s.isParam name then some (s.getOffsetOfSlot (s.getStackSize name)) else none

/-- A call on the symbolic stack. -/
inductive StackCall where
  | change (diff : Int)
  | changeTakeRet (take ret : Int)
  | add (name : Option Nat) (doAllocation : Bool)

/-- One call on the symbolic stack; `none` is a failure of the call. -/
def TVMStack.call (s : TVMStack) : StackCall → Option TVMStack
  | .change diff => s.change diff
  | .changeTakeRet take ret => s.changeTakeRet take ret
  | .add name doAllocation => s.add name doAllocation

/-- A sequence of calls on the symbolic stack, stopped by the first failure. -/
def TVMStack.calls (s : TVMStack) : List StackCall → Option TVMStack
  | [] => some s
  | c :: cs => (s.call c).bind (fun s1 => s1.calls cs)

/-- A later call that cannot bring the declaration `d` back below the depth: a
change that does not raise the depth, or an `add` of another declaration. -/
def StackCall.keepsUnbound (d : Nat) : StackCall → Bool
  | .change diff => decide (diff ≤ 0)
  | .changeTakeRet take ret => decide (ret ≤ take)
  | .add name _ => decide (name ≠ some d)

/-- The state of a `StackPusher` that the operations below read and write: the
stack model `m_stack2`, the lock counter `lockStack`, and the vector
`m_instructions` of open blocks, each with its `opcodes`; the list starts with
the innermost open block, `m_instructions.back()`. -/
structure StackPusher where
  m_stack2 : TVMStack
  lockStack : Int
  m_instructions : List (List TvmAstNode)

/-- The method `StackPusher::stackSize`. -/
def StackPusher.stackSize (p : StackPusher) : Int :=
  p.m_stack2.size

/-- The method `StackPusher::change(int delta)`; `none` is a failed assertion,
here or in `TVMStack::change`. -/
def StackPusher.change (p : StackPusher) (delta : Int) : Option StackPusher :=
  if p.lockStack ≥ 0 then
    if p.lockStack == 0 then
      (p.m_stack2.change delta).map (fun st => { p with m_stack2 := st })
    else some p
  else none

/-- The method `StackPusher::change(int take, int ret)`. -/
def StackPusher.changeTakeRet (p : StackPusher) (take ret : Int) : Option StackPusher :=
  p.change (-take + ret)

/-- The method `StackPusher::ensureSize`; `none` is the failed assertion of
`TVMStack::ensureSize`. -/
def StackPusher.ensureSize (p : StackPusher) (savedStackSize : Int) : Option StackPusher :=
  if p.lockStack == 0 then
    if savedStackSize = p.m_stack2.m_size then some p else none
  else some p

/-- The statement `m_instructions.back().opcodes.push_back(opcode)`, which is
also the whole of `StackPusher::push(Pointer<Stack>)`; `none` is `back()` on
an empty vector. -/
def StackPusher.pushOpcode (p : StackPusher) (opcode : TvmAstNode) : Option StackPusher :=
  match p.m_instructions with
  | block :: outer => some { p with m_instructions := (block ++ [opcode]) :: outer }
  | [] => none

/-- The method `StackPusher::startContinuation`. -/
def StackPusher.startContinuation (p : StackPusher) : StackPusher :=
  { p with m_instructions := [] :: p.m_instructions }

/-- The method `StackPusher::endCont(type)`; `none` is a failed assertion. -/
def StackPusher.endCont (p : StackPusher) (type : CodeBlockType) : Option StackPusher :=
  match p.m_instructions with
  | block :: outer :: rest =>
    some { p with m_instructions := (outer ++ [.Block (.mk type block)]) :: rest }
  | _ => none

/-- The method `StackPusher::startOpaque`. -/
def StackPusher.startOpaque (p : StackPusher) : StackPusher :=
  { p with lockStack := p.lockStack + 1, m_instructions := [] :: p.m_instructions }

/-- The method `StackPusher::endOpaque(take, ret, isPure)`; `none` is a failed
assertion. -/
def StackPusher.endOpaque (p : StackPusher) (take ret : Int) (isPure : Bool) :
    Option StackPusher :=
  match p.m_instructions with
  | block :: outer :: rest =>
    StackPusher.changeTakeRet
      { p with
        lockStack := p.lockStack - 1
        m_instructions := (outer ++ [.Opaque (.mk .None block) take ret isPure]) :: rest }
      take ret
  | _ => none

/-- Modelled from the spec: `makeDROP(cnt)` of TvmAst.cpp creates the stack op
`DROP cnt`; the unused indices keep the default `-1`. -/
def makeDROP (cnt : Int) : TvmAstNode :=
  .Stack .DROP cnt (-1) (-1)

/-- Modelled from the spec: `makePOP(i)` of TvmAst.cpp creates the stack op
`POP Si`; the unused indices keep the default `-1`. -/
def makePOP (i : Int) : TvmAstNode :=
  .Stack .POP_S i (-1) (-1)

/-- The method `StackPusher::drop(cnt)`; the call `push(-cnt, "")` with an empty
mnemonic is `change(-cnt)`. -/
def StackPusher.drop (p : StackPusher) (cnt : Int) : Option StackPusher :=
  if cnt ≥ 1 then
    (p.change (-cnt)).bind (fun q => q.pushOpcode (makeDROP cnt))
  else some p

/-- The method `StackPusher::popS(i)`; `none` is a failed assertion. -/
def StackPusher.popS (p : StackPusher) (i : Int) : Option StackPusher :=
  if i ≥ 1 then
    (p.pushOpcode (makePOP i)).bind (fun q => q.change (-1))
  else none

/-- The method `StackPusher::dropUnder(droppedCount, leftCount)`; `none` is a
failed assertion. -/
def StackPusher.dropUnder (p : StackPusher) (droppedCount leftCount : Int) :
    Option StackPusher :=
  if !(leftCount ≥ 0) then none
  else if !(droppedCount ≥ 0) then none
  else if droppedCount == 0 then some p
  else if leftCount == 0 then p.drop droppedCount
  else if droppedCount == 1 && leftCount == 1 then p.popS 1
  else
    (p.pushOpcode (.Stack .BLKDROP2 droppedCount leftCount (-1))).bind
      (fun q => q.change (-droppedCount))

/-- An operation of the emitter that reaches the stack model only through
`StackPusher::change`: `emit opcode delta` appends one instruction and calls
`change(delta)`; `fix delta` is `push(delta, "")`; `continuation type body` is
`startContinuation()`, the operations of `body`, `endCont(type)`; and
`locked body take ret isPure` is `startOpaque()`, the operations of `body`,
`endOpaque(take, ret, isPure)`. -/
inductive EmitterOp where
  | emit (opcode : TvmAstNode) (delta : Int)
  | fix (delta : Int)
  | continuation (type : CodeBlockType) (body : List EmitterOp)
  | locked (body : List EmitterOp) (take ret : Int) (isPure : Bool)

mutual
/-- One emitter operation on the pusher state. -/
def EmitterOp.run : EmitterOp → StackPusher → Option StackPusher
  | .emit opcode delta, p => (p.pushOpcode opcode).bind (fun q => q.change delta)
  | .fix delta, p => p.change delta
  | .continuation type body, p =>
    (EmitterOp.runAll body p.startContinuation).bind (fun q => q.endCont type)
  | .locked body take ret isPure, p =>
    (EmitterOp.runAll body p.startOpaque).bind (fun q => q.endOpaque take ret isPure)
termination_by structural x => x
/-- A sequence of emitter operations on the pusher state. -/
def EmitterOp.runAll : List EmitterOp → StackPusher → Option StackPusher
  | [], p => some p
  | op :: ops, p => (EmitterOp.run op p).bind (fun q => EmitterOp.runAll ops q)
termination_by structural x => x
end

mutual
/-- The instructions that an emitter operation appends to the open block. -/
def EmitterOp.emitted : EmitterOp → List TvmAstNode
  | .emit opcode _ => [opcode]
  | .fix _ => []
  | .continuation type body => [.Block (.mk type (EmitterOp.emittedAll body))]
  | .locked body take ret isPure =>
    [.Opaque (.mk .None (EmitterOp.emittedAll body)) take ret isPure]
termination_by structural x => x
/-- The instructions that a sequence of emitter operations appends to the open
block, in order. -/
def EmitterOp.emittedAll : List EmitterOp → List TvmAstNode
  | [] => []
  | op :: ops => EmitterOp.emitted op ++ EmitterOp.emittedAll ops
termination_by structural x => x
end

/-! ## `StackPusher::pushString` -/

/-- The general case of `StackPusher::push(int stackDiff, const string& cmd)`:
an empty mnemonic only changes the model; otherwise the opcode made by
`gen(cmd)` must declare the effect `stackDiff` and is appended. The parser
`gen` of TvmAst.cpp is the parameter `genOpcode`; `none` is a failed
assertion. -/
def StackPusher.push (genOpcode : String → Option TvmAstNode) (p : StackPusher)
    (stackDiff : Int) (cmd : String) : Option StackPusher :=
  if cmd.isEmpty then p.change stackDiff
  else
    match genOpcode cmd with
    | none => none
    | some opcode =>
      match opcode.asGen with
      | none => none
      | some (_, take, ret) =>
        if stackDiff == -take + ret then
          (p.changeTakeRet take ret).bind (fun q => q.pushOpcode opcode)
        else none

/-- The hexadecimal digit of a number below 16. -/
def hexDigit (d : Nat) : Char :=
  "0123456789abcdef".data.getD d '0'

/-- Modelled from the spec: `stringToBytes` encodes every byte of the string as
two hexadecimal digits ("2 * len(_str) == len(hexStr)"); a `std::string` is the
list of its bytes. -/
def stringToBytes (_str : List Nat) : String :=
  String.mk (_str.flatMap fun b => [hexDigit ((b % 256) / 16), hexDigit ((b % 256) % 16)])

/-- The call `s.substr(pos, len)` of `std::string` for `pos <= s.size()`. -/
def substr (s : String) (pos len : Nat) : String :=
  String.mk ((s.data.drop pos).take len)

/-- The `do ... while (start < length)` loop of `pushString`, which fills the
vector `data`, run for at most `fuel` rounds (`none` when the fuel is spent);
the unused counter `builderQty` is left out. -/
def pushStringData (hexStr : String) (symbolQty : Nat) :
    Nat → Nat → CellType → Option (List (CellType × String))
  | 0, _, _ => none
  | fuel + 1, start, type =>
    let slice := substr hexStr start (min symbolQty (hexStr.length - start))
    let entry := (type, ".blob x" ++ slice)
    if start + symbolQty < hexStr.length then
      (pushStringData hexStr symbolQty fuel (start + symbolQty) .CELL).map (fun d => entry :: d)
    else some [entry]

/-- The loop of `pushString` over `data` in reverse, which links the cells:
`cell = createNode<PushCellOrSlice>(t, d, cell)`, starting from the null
pointer. -/
def buildCellChain (data : List (CellType × String)) : Option PushCellOrSlice :=
  data.reverse.foldl (fun cell td => some (.mk td.1 td.2 cell)) none

/-- The method `StackPusher::pushString(_str, toSlice)`, with the constants
`TvmConst::CellBitLength` and `TvmConst::MaxPushSliceBitLength` and the parser
`gen` as parameters; `none` is a failed assertion. -/
def StackPusher.pushString (genOpcode : String → Option TvmAstNode)
    (CellBitLength MaxPushSliceBitLength : Nat) (p : StackPusher) (_str : List Nat)
    (toSlice : Bool) : Option StackPusher :=
  let hexStr := stringToBytes _str
  if 4 * hexStr.length ≤ MaxPushSliceBitLength && toSlice then
    p.push genOpcode 1 ("PUSHSLICE x" ++ hexStr)
  else
    let saveStackSize := p.stackSize
    let length := hexStr.length
    let symbolQty := ((CellBitLength / 8) * 8) / 4
    let type := if toSlice then CellType.PUSHREFSLICE else CellType.PUSHREF
    match pushStringData hexStr symbolQty (length + 1) 0 type with
    | none => none
    | some data =>
      match buildCellChain data with
      | none => none
      | some cell =>
        ((p.pushOpcode (.PushCell cell)).bind (fun q => q.changeTakeRet 0 1)).bind
          (fun q => q.ensureSize (saveStackSize + 1))

/-- The chain of cells that the specification describes for a list of chunks:
the first cell has the given type, every other cell the type `CELL`, and the
blob of a cell is `.blob x` followed by its chunk. -/
def cellChain : CellType → List String → Option PushCellOrSlice
  | _, [] => none
  | type, chunk :: rest => some (.mk type (".blob x" ++ chunk) (cellChain .CELL rest))

/-! ## Further methods of `StackPusher` (TVMPusher.cpp) -/

/-- The effect `-take + ret` that the parser `gen` declares for a mnemonic, when
it accepts the mnemonic and the node made is a gen-op. -/
def declaredEffect (genOpcode : String → Option TvmAstNode) (cmd : String) : Option Int :=
  match genOpcode cmd with
  | none => none
  | some opcode =>
    match opcode.asGen with
    | none => none
    | some (_, take, ret) => some (-take + ret)

/-- Modelled from the spec: the constructor `GenOpcode(opcode, take, ret)` of
TvmAst.cpp with the default `_isPure = false`; the split of the mnemonic into
opcode, argument and comment is not modelled, the whole string is the opcode. -/
def makeGenOpcode (opcode : String) (take ret : Int) : TvmAstNode :=
  .GenOpcode opcode "" "" take ret false

/-- Modelled from the spec: `makeRET()` of TvmAst.cpp creates the return op
`RET`. -/
def makeRET : TvmAstNode :=
  .TvmReturn .RET

/-- Modelled from the spec: `makeIFRET()` of TvmAst.cpp creates the return op
`IFRET`. -/
def makeIFRET : TvmAstNode :=
  .TvmReturn .IFRET

/-- The method `StackPusher::pushInt`. -/
def StackPusher.pushInt (genOpcode : String → Option TvmAstNode) (p : StackPusher) (i : Int) :
    Option StackPusher :=
  p.push genOpcode 1 ("PUSHINT " ++ toString i)

/-- The method `StackPusher::untuple(n)`; `none` is a failed assertion. -/
def StackPusher.untuple (genOpcode : String → Option TvmAstNode) (p : StackPusher) (n : Int) :
    Option StackPusher :=
  if !(0 ≤ n) then none
  else if n ≤ 15 then p.push genOpcode (-1 + n) ("UNTUPLE " ++ toString n)
  else if !(n ≤ 255) then none
  else
    (p.pushInt genOpcode n).bind fun q =>
      (q.pushOpcode (makeGenOpcode "UNTUPLEVAR" 2 n)).bind fun q1 => q1.changeTakeRet 2 n

/-- The method `StackPusher::setIndexQ(index)`; `none` is a failed assertion. -/
def StackPusher.setIndexQ (genOpcode : String → Option TvmAstNode) (p : StackPusher)
    (index : Int) : Option StackPusher :=
  if !(0 ≤ index) then none
  else if index ≤ 15 then p.push genOpcode (-2 + 1) ("SETINDEXQ " ++ toString index)
  else if !(index ≤ 254) then none
  else
    (p.pushInt genOpcode index).bind fun q => q.push genOpcode (-1 - 2 + 1) "SETINDEXVARQ"

/-- The method `StackPusher::tuple(qty)`; `none` is a failed assertion. -/
def StackPusher.tuple (genOpcode : String → Option TvmAstNode) (p : StackPusher) (qty : Int) :
    Option StackPusher :=
  if !(0 ≤ qty) then none
  else if qty ≤ 15 then p.push genOpcode (-qty + 1) ("TUPLE " ++ toString qty)
  else if !(qty ≤ 255) then none
  else
    (p.pushInt genOpcode qty).bind fun q =>
      (q.pushOpcode (makeGenOpcode "TUPLEVAR" (qty + 1) 1)).bind fun q1 =>
        q1.changeTakeRet (qty + 1) 1

/-- The method `StackPusher::pushS(i)`; `none` is a failed assertion. -/
def StackPusher.pushS (p : StackPusher) (i : Int) : Option StackPusher :=
  if i ≥ 0 then (p.pushOpcode (makePUSH i)).bind fun q => q.change 1
  else none

/-- The method `StackPusher::declRetFlag`. -/
def StackPusher.declRetFlag (p : StackPusher) : Option StackPusher :=
  (p.pushOpcode .DeclRetFlag).bind fun q => q.changeTakeRet 0 1

/-- The method `StackPusher::ret`. -/
def StackPusher.ret (p : StackPusher) : Option StackPusher :=
  p.pushOpcode makeRET

/-- The method `StackPusher::ifret`. -/
def StackPusher.ifret (p : StackPusher) : Option StackPusher :=
  (p.pushOpcode makeIFRET).bind fun q => q.changeTakeRet 1 0

/-- The method `StackPusher::endContinuation`. -/
def StackPusher.endContinuation (p : StackPusher) : Option StackPusher :=
  p.endCont .PUSHCONT

/-- The method `StackPusher::endRetOrBreakOrCont(_take)`; `none` is a failed
assertion. -/
def StackPusher.endRetOrBreakOrCont (p : StackPusher) (_take : Int) : Option StackPusher :=
  match p.m_instructions with
  | block :: outer :: rest =>
    some { p with
      m_instructions := (outer ++ [.ReturnOrBreakOrCont _take (.mk .None block)]) :: rest }
  | _ => none

/-- The method `StackPusher::endLogCircuit(_canExpand, type)`; `none` is a failed
assertion. -/
def StackPusher.endLogCircuit (p : StackPusher) ( _canExpand : Bool) (type : LogCircuitType) :
    Option StackPusher :=
  match p.m_instructions with
  | block :: outer :: rest =>
    some { p with
      m_instructions := (outer ++ [.LogCircuit _canExpand type (.mk .None block)]) :: rest }
  | _ => none

/-- The method `StackPusher::callRefOrCallX(take, ret, type)`; `none` is a failed
assertion. -/
def StackPusher.callRefOrCallX (p : StackPusher) (take ret : Int) (type : SubProgramType) :
    Option StackPusher :=
  match p.m_instructions with
  | block :: outer :: rest =>
    some { p with
      m_instructions := (outer ++ [.SubProgram take ret type (.mk .None block)]) :: rest }
  | _ => none

/-- The method `StackPusher::callX(take, ret)`. -/
def StackPusher.callX (p : StackPusher) (take ret : Int) : Option StackPusher :=
  p.callRefOrCallX take ret .CALLX

/-- The last element of a vector and the elements before it. -/
def popBack (opcodes : List TvmAstNode) : Option (List TvmAstNode × TvmAstNode) :=
  match opcodes.reverse with
  | [] => none
  | last :: front => some (front.reverse, last)

/-- The cast `dynamic_pointer_cast<CodeBlock>(node)`. -/
def TvmAstNode.asCodeBlock : TvmAstNode → Option CodeBlock
  | .Block b => some b
  | _ => none

/-- The method `StackPusher::if_or_ifnot(t)`; `none` is a failed assertion or
`back()` on an empty vector. -/
def StackPusher.if_or_ifnot (p : StackPusher) (t : IfElseType) : Option StackPusher :=
  match p.m_instructions with
  | [] => none
  | block :: outer =>
    match popBack block with
    | none => none
    | some (front, last) =>
      match last.asCodeBlock with
      | none => none
      | some trueBlock =>
        some { p with m_instructions := (front ++ [.TvmIfElse t trueBlock none]) :: outer }

/-- The method `StackPusher::ifJmpRef`. -/
def StackPusher.ifJmpRef (p : StackPusher) : Option StackPusher :=
  p.endContinuation.bind fun q => q.if_or_ifnot .IFJMPREF

/-- The method `StackPusher::_while`; `none` is a failed assertion or `back()`
on an empty vector. -/
def StackPusher._while (p : StackPusher) : Option StackPusher :=
  match p.m_instructions with
  | [] => none
  | block :: outer =>
    if block.length ≥ 3 then
      match popBack block with
      | none => none
      | some (front1, last1) =>
        match last1.asCodeBlock with
        | none => none
        | some body =>
          match popBack front1 with
          | none => none
          | some (front2, last2) =>
            match last2.asCodeBlock with
            | none => none
            | some condition =>
              some { p with m_instructions := (front2 ++ [.While condition body]) :: outer }
    else none

/-- The method `StackPusher::pushCall(take, ret, functionName)`. -/
def StackPusher.pushCall (p : StackPusher) (take ret : Int) (functionName : String) :
    Option StackPusher :=
  (p.changeTakeRet take ret).bind fun q =>
    q.pushOpcode (makeGenOpcode ("CALL $" ++ functionName ++ "$") take ret)

/-! ## Message headers (TVMPusher.cpp): `int_msg_info`, `ext_msg_info`, `prepareMsg`

The message and storage functions only issue calls on the pusher. They are
embedded as the list of those calls in program order; the encoder, the decoder
and the two callbacks of `prepareMsg` are calls of their own in that list. -/

/-- A call on the pusher, its arguments included. -/
inductive PusherCall where
  | push (stackDiff : Int) (cmd : String)
  | exchange (i : Int)
  | appendToBuilder (bitString : String)
  | appendStateInit
  | appendBody (builderSize : Int)
  | pushC4
  | pushC7
  | popC7
  | popRoot
  | getGlob (index : Int)
  | setGlob (index : Int)
  | setIndexQ (index : Int)
  | untuple (n : Int)
  | tuple (qty : Int)
  | drop (cnt : Int)
  | dropUnder (droppedCount leftCount : Int)
  | reverse (i j : Int)
  | blockSwap (down up : Int)
  | stackChange (diff : Int)
  | encodeParameters (offset : Int) (usedRefs : Int)
  | decodeData (offset : Int) (usedRefs : Int)
  deriving DecidableEq, Repr

/-- `enum class MsgType`. -/
inductive MsgType where
  | Internal
  | ExternalOut
  | ExternalIn
  deriving DecidableEq, Repr

/-- Modelled from the spec: `TvmConst::int_msg_info::bounce` (TVMConstants.hpp is
not among the sources); the header comment of `int_msg_info` marks the field
`#1`, the second in the wire order. -/
def int_msg_info.bounce : Nat := 1

/-- Modelled from the spec: `TvmConst::int_msg_info::dest`, marked `#4`, the
fifth field in the wire order. -/
def int_msg_info.dest : Nat := 4

/-- Modelled from the spec: `TvmConst::int_msg_info::tons`, marked `#5`, the
grams of the value. -/
def int_msg_info.tons : Nat := 5

/-- Modelled from the spec: `TvmConst::int_msg_info::currency`, marked `#6`, the
extra-currency dictionary of the value. -/
def int_msg_info.currency : Nat := 6

/-- Modelled from the spec: `TvmConst::ext_msg_info::src`, the first field of an
external header. -/
def ext_msg_info.src : Nat := 0

/-- Modelled from the spec: `TvmConst::ext_msg_info::dest`, the second field of
an external header. -/
def ext_msg_info.dest : Nat := 1

/-- The C++ `std::string(n, '0')`. -/
def zeroString (n : Nat) : String := String.mk (List.replicate n '0')

/-- The locals of the loop of `int_msg_info` and `ext_msg_info`, with the calls
made so far. -/
structure MsgInfoLoop where
  bitString : String
  maxBitStringSize : Int
  calls : List PusherCall
  deriving DecidableEq, Repr

/-- The table `zeroes` of `int_msg_info`. -/
def int_msg_info.zeroes : List Nat := [1, 1, 1, 2, 2, 4, 1, 4, 4, 64, 32]

/-- One iteration of the loop of `int_msg_info`; `none` is a failed `solAssert`
or `solUnimplemented`. `addressMaxBitLength` is `AddressInfo::maxBitLength()`
and `maxTonBitLength` is `VarUIntegerInfo::maxTonBitLength()`. -/
def int_msg_info.step (addressMaxBitLength maxTonBitLength : Int)
    (isParamOnStack : Nat → Bool) (constParams : Nat → Option String) (isDestBuilder : Bool)
    (st : MsgInfoLoop) (param : Nat) : Option MsgInfoLoop :=
  if (constParams param).isSome && isParamOnStack param then none
  else
    match constParams param with
    | some c =>
      some { st with bitString := st.bitString ++ c,
                     maxBitStringSize := st.maxBitStringSize + c.length }
    | none =>
      if !isParamOnStack param then
        if param = int_msg_info.dest then none
        else
          some { st with bitString := st.bitString ++ zeroString (int_msg_info.zeroes.getD param 0),
                         maxBitStringSize :=
                          st.maxBitStringSize + int_msg_info.zeroes.getD param 0 }
      else
        let calls := st.calls ++ [.appendToBuilder st.bitString]
        if param = int_msg_info.bounce then
          some { bitString := "", calls := calls ++ [.push (-1) "STI 1"],
                 maxBitStringSize := st.maxBitStringSize + 1 }
        else if param = int_msg_info.dest then
          some { bitString := "",
                 calls := calls ++ [.push (-1) (if isDestBuilder then "STB" else "STSLICE")],
                 maxBitStringSize := st.maxBitStringSize + addressMaxBitLength }
        else if param = int_msg_info.tons then
          some { bitString := "", calls := calls ++ [.exchange 1, .push (-1) "STGRAMS"],
                 maxBitStringSize := st.maxBitStringSize + maxTonBitLength }
        else if param = int_msg_info.currency then
          some { bitString := "", calls := calls ++ [.push (-1) "STDICT"],
                 maxBitStringSize := st.maxBitStringSize + 1 }
        else none

/-- The loop `for (param = 0; param < zeroes.size(); ++param)` over the listed
parameters; it stops at the first failure. -/
def msgInfoLoop (step : MsgInfoLoop → Nat → Option MsgInfoLoop) :
    List Nat → MsgInfoLoop → Option MsgInfoLoop
  | [], st => some st
  | param :: rest, st =>
    match step st param with
    | none => none
    | some st1 => msgInfoLoop step rest st1

/-- `StackPusher::int_msg_info`: the calls it makes and the integer it returns. -/
def int_msg_info (addressMaxBitLength maxTonBitLength : Int)
    (isParamOnStack : Nat → Bool) (constParams : Nat → Option String) (isDestBuilder : Bool) :
    Option (List PusherCall × Int) :=
  match msgInfoLoop
      (int_msg_info.step addressMaxBitLength maxTonBitLength isParamOnStack constParams
        isDestBuilder)
      (List.range int_msg_info.zeroes.length)
      { bitString := "0", maxBitStringSize := 0, calls := [.push 1 "NEWC"] } with
  | none => none
  | some st => some (st.calls ++ [.appendToBuilder st.bitString], st.maxBitStringSize)

/-- The vector `zeroes` of `ext_msg_info`. -/
def ext_msg_info.zeroes (isOut : Bool) : List Nat :=
  [2, 2] ++ (if isOut then [64, 32] else [4])

/-- One iteration of the loop of `ext_msg_info`. `ExtInboundSrcLength` is
`TvmConst::ExtInboundSrcLength`. -/
def ext_msg_info.step (addressMaxBitLength ExtInboundSrcLength : Int)
    (isParamOnStack : Nat → Bool) (isOut : Bool) (st : MsgInfoLoop) (param : Nat) :
    Option MsgInfoLoop :=
  if !isParamOnStack param then
    some { st with bitString := st.bitString ++ zeroString ((ext_msg_info.zeroes isOut).getD param 0) }
  else
    let maxBitStringSize := st.maxBitStringSize + st.bitString.length
    let calls := st.calls ++ [.appendToBuilder st.bitString]
    if param = ext_msg_info.dest then
      some { bitString := "", calls := calls ++ [.push (-1) "STSLICE"],
             maxBitStringSize := maxBitStringSize + addressMaxBitLength }
    else if param = ext_msg_info.src then
      some { bitString := "", calls := calls ++ [.push (-1) "STB"],
             maxBitStringSize := maxBitStringSize + ExtInboundSrcLength }
    else none

/-- `StackPusher::ext_msg_info`: the calls it makes and the integer it returns. -/
def ext_msg_info (addressMaxBitLength ExtInboundSrcLength : Int)
    (isParamOnStack : Nat → Bool) (isOut : Bool) : Option (List PusherCall × Int) :=
  match msgInfoLoop
      (ext_msg_info.step addressMaxBitLength ExtInboundSrcLength isParamOnStack isOut)
      (List.range (ext_msg_info.zeroes isOut).length)
      { bitString := if isOut then "11" else "10", maxBitStringSize := 0,
        calls := [.push 1 "NEWC"] } with
  | none => none
  | some st =>
    some (st.calls ++ [.appendToBuilder st.bitString],
          st.maxBitStringSize + st.bitString.length)

/-- `StackPusher::prepareMsg`: the calls it makes. `appendBody` and
`appendStateInit` tell whether the callback is given (a non-empty
`std::function`); a given callback is recorded as a call, `appendBody` with the
integer it receives. -/
def prepareMsg (addressMaxBitLength maxTonBitLength ExtInboundSrcLength : Int)
    (isParamOnStack : Nat → Bool) (constParams : Nat → Option String)
    (appendBody appendStateInit : Bool) (messageType : MsgType) (isDestBuilder : Bool) :
    Option (List PusherCall) :=
  let info :=
    match messageType with
    | .Internal =>
      int_msg_info addressMaxBitLength maxTonBitLength isParamOnStack constParams isDestBuilder
    | .ExternalOut => ext_msg_info addressMaxBitLength ExtInboundSrcLength isParamOnStack true
    | .ExternalIn => ext_msg_info addressMaxBitLength ExtInboundSrcLength isParamOnStack false
  match info with
  | none => none
  | some (calls0, msgInfoSize0) =>
    let calls1 :=
      if appendStateInit then calls0 ++ [.appendToBuilder "1", .appendStateInit]
      else calls0 ++ [.appendToBuilder "0"]
    let msgInfoSize1 := if appendStateInit then msgInfoSize0 + 1 else msgInfoSize0
    let msgInfoSize := msgInfoSize1 + 1
    let calls2 :=
      if appendBody then calls1 ++ [.appendBody msgInfoSize]
      else calls1 ++ [.appendToBuilder "0"]
    some (calls2 ++ [.push 0 "ENDC"])

/-- The number of bits that the calls of `appendToBuilder` in a list of calls
append to the builder: the lengths of their bit strings. -/
def bitsAppended : List PusherCall → Nat
  | [] => 0
  | .appendToBuilder bitString :: rest => bitString.length + bitsAppended rest
  | _ :: rest => bitsAppended rest

/-- The bit strings handed to `appendToBuilder`, concatenated in call order:
what the calls write into the builder. -/
def builderBits : List PusherCall → String
  | [] => ""
  | .appendToBuilder bitString :: rest => bitString ++ builderBits rest
  | _ :: rest => builderBits rest

/-- The content of a header field as the specification words it: the constant
when one is supplied, a run of `width` zero bits otherwise. -/
def headerField (constParams : Nat → Option String) (param width : Nat) : String :=
  match constParams param with
  | some c => c
  | none => zeroString width

/-- The header of an internal message as the specification lays it out: the tag
bit `0`, then the eleven fields in wire order, `dest` being the supplied
constant `dst` and every other field its constant or a zero run of its default
width. -/
def internalHeaderBits (constParams : Nat → Option String) (dst : String) : String :=
  "0" ++ headerField constParams 0 1 ++ headerField constParams 1 1
    ++ headerField constParams 2 1 ++ headerField constParams 3 2 ++ dst
    ++ headerField constParams 5 4 ++ headerField constParams 6 1
    ++ headerField constParams 7 4 ++ headerField constParams 8 4
    ++ headerField constParams 9 64 ++ headerField constParams 10 32

/-- The header of an external message with every field at its default: the two
tag bits, then zero runs of the widths of the table. -/
def externalHeaderBits (isOut : Bool) : String :=
  if isOut then "11" ++ zeroString 2 ++ zeroString 2 ++ zeroString 64 ++ zeroString 32
  else "10" ++ zeroString 2 ++ zeroString 2 ++ zeroString 4

/-- The argument of the `appendBody` call of a list of calls, if there is one. -/
def bodyCallbackArgument : List PusherCall → Option Int
  | [] => none
  | .appendBody builderSize :: _ => some builderSize
  | _ :: rest => bodyCallbackArgument rest

/-- The calls made before the `appendBody` call. -/
def callsBeforeBody : List PusherCall → List PusherCall
  | [] => []
  | .appendBody _ :: _ => []
  | c :: rest => c :: callsBeforeBody rest

/-! ## Persistent storage header: `generateC7ToT4Macro`, `generateC4ToC7`, `getOffsetC4` -/

/-- `TVMCompilerContext::getOffsetC4`. -/
def getOffsetC4 (storeTimestampInC4 hasAwaitCall : Bool) : Int :=
  256 + (if storeTimestampInC4 then 64 else 0) + 1 + (if hasAwaitCall then 1 else 0)

/-- `StackPusher::generateC7ToT4Macro`: the calls that build the body of
`c7_to_c4`. `FirstIndexForVariables`, `ReplayProtTime` and `TvmPubkey` are the
constants of `TvmConst::C7`; `stateVarQty` is the number of non-constant state
variables. The `solAssert` on the modelled depth after the tuple branch is not
part of the call list. -/
def generateC7ToT4Macro (FirstIndexForVariables : Nat) (ReplayProtTime TvmPubkey : Int)
    (stateVarQty : Nat) (tooMuchStateVariables storeTimestampInC4 hasAwaitCall : Bool) :
    List PusherCall :=
  (if tooMuchStateVariables then
    [.pushC7, .push 1 "FALSE",
     .setIndexQ (stateVarQty + FirstIndexForVariables),
     .untuple (stateVarQty + FirstIndexForVariables + 1),
     .drop 1,
     .reverse (stateVarQty + FirstIndexForVariables) 0,
     .drop FirstIndexForVariables]
   else
    (List.range stateVarQty).reverse.map
      (fun i => PusherCall.getGlob (FirstIndexForVariables + i)))
  ++ (if storeTimestampInC4 then [.getGlob ReplayProtTime] else [])
  ++ [.getGlob TvmPubkey, .push 1 "NEWC", .push (-2 + 1) "STU 256"]
  ++ (if storeTimestampInC4 then [.push (-2 + 1) "STU 64"] else [])
  ++ [.push (-1 + 1) "STONE"]
  ++ (if hasAwaitCall then [.push (-1 + 1) "STZERO"] else [])
  ++ (if stateVarQty ≠ 0 then
        [.encodeParameters (getOffsetC4 storeTimestampInC4 hasAwaitCall)
          (if hasAwaitCall then 1 else 0)]
      else [])
  ++ [.push (-1 + 1) "ENDC", .popRoot]

/-- `TVMFunctionCompiler::generateC4ToC7`: the calls that build the body of
`c4_to_c7`. -/
def generateC4ToC7 (FirstIndexForVariables : Nat) (ReplayProtTime TvmPubkey : Int)
    (stateVarQty : Nat) (tooMuchStateVariables storeTimestampInC4 hasAwaitCall : Bool) :
    List PusherCall :=
  [.pushC4, .push (-1 + 1) "CTOS", .push (-1 + 2) "LDU 256      ; pubkey c4"]
  ++ (if storeTimestampInC4 then [.push 1 "LDU 64       ; pubkey timestamp c4"] else [])
  ++ [.push 1 "LDU 1      ; ctor flag", .dropUnder 1 1]
  ++ (if hasAwaitCall then [.push (-1 + 2) "LDI 1       ; await flag", .dropUnder 1 1] else [])
  ++ (if stateVarQty ≠ 0 then
        [.stackChange 1,
         .decodeData (getOffsetC4 storeTimestampInC4 hasAwaitCall)
           (if hasAwaitCall then 1 else 0)]
        ++ (if tooMuchStateVariables then
              (List.range FirstIndexForVariables).map (fun i => PusherCall.getGlob i)
              ++ [.blockSwap stateVarQty FirstIndexForVariables,
                  .tuple (stateVarQty + FirstIndexForVariables), .popC7]
            else
              (List.range stateVarQty).reverse.map
                (fun i => PusherCall.setGlob (FirstIndexForVariables + i)))
      else [.push (-1) "ENDS"])
  ++ (if storeTimestampInC4 then [.setGlob ReplayProtTime] else [])
  ++ [.push 1 "", .setGlob TvmPubkey]

/-- The width in bits of the field that a store of the storage header writes,
by its mnemonic: `STU n` stores `n` bits, `STONE` and `STZERO` one bit. Other
calls store no header field. -/
def storedBits : PusherCall → Option Int
  | .push _ cmd =>
    if cmd = "STU 256" then some 256
    else if cmd = "STU 64" then some 64
    else if cmd = "STONE" then some 1
    else if cmd = "STZERO" then some 1
    else none
  | _ => none

/-- The width in bits of the field that a load of the storage header reads, by
the mnemonic as `generateC4ToC7` writes it (comment included): `LDU n` and
`LDI n` read `n` bits. Other calls read no header field. -/
def loadedBits : PusherCall → Option Int
  | .push _ cmd =>
    if cmd = "LDU 256      ; pubkey c4" then some 256
    else if cmd = "LDU 64       ; pubkey timestamp c4" then some 64
    else if cmd = "LDU 1      ; ctor flag" then some 1
    else if cmd = "LDI 1       ; await flag" then some 1
    else none
  | _ => none

/-- The header as the specification lays it out: `pubkey:uint256`, then
`timestamp:uint64` when stored, then the constructor flag, then the await flag
when there is an await call. -/
def storageHeaderWidths (storeTimestampInC4 hasAwaitCall : Bool) : List Int :=
  [256] ++ (if storeTimestampInC4 then [64] else []) ++ [1]
    ++ (if hasAwaitCall then [1] else [])

/-! ## Magic variables (GlobalContext.cpp) -/

/-- The function `magicVariableToID`; the error is the message of the failed
`solAssert`. -/
def magicVariableToID (_name : String) : Except String Int :=
  if _name = "abi" then .ok (-1)
  else if _name = "addmod" then .ok (-2)
  else if _name = "assert" then .ok (-3)
  else if _name = "block" then .ok (-4)
  else if _name = "blockhash" then .ok (-5)
  else if _name = "ecrecover" then .ok (-6)
  else if _name = "format" then .ok (-105)
  else if _name = "gasleft" then .ok (-7)
  else if _name = "keccak256" then .ok (-8)
  else if _name = "log0" then .ok (-10)
  else if _name = "log1" then .ok (-11)
  else if _name = "log2" then .ok (-12)
  else if _name = "log3" then .ok (-13)
  else if _name = "log4" then .ok (-14)
  else if _name = "logtvm" then .ok (-102)
  else if _name = "math" then .ok (-103)
  else if _name = "rnd" then .ok (-105)
  else if _name = "msg" then .ok (-15)
  else if _name = "mulmod" then .ok (-16)
  else if _name = "now" then .ok (-17)
  else if _name = "require" then .ok (-18)
  else if _name = "revert" then .ok (-19)
  else if _name = "ripemd160" then .ok (-20)
  else if _name = "selfdestruct" then .ok (-21)
  else if _name = "sha256" then .ok (-22)
  else if _name = "sha3" then .ok (-23)
  else if _name = "stoi" then .ok (-106)
  else if _name = "suicide" then .ok (-24)
  else if _name = "super" then .ok (-25)
  else if _name = "tvm" then .ok (-101)
  else if _name = "tx" then .ok (-26)
  else if _name = "type" then .ok (-27)
  else if _name = "this" then .ok (-28)
  else if _name = "gasToValue" then .ok (-60)
  else if _name = "valueToGas" then .ok (-61)
  else if _name = "bitSize" then .ok (-62)
  else if _name = "uBitSize" then .ok (-63)
  else .error ("Unknown magic variable: \"" ++ _name ++ "\".")

/-- The names that `magicVariableToID` compares its argument with, in the order
of the comparisons. -/
def magicVariableNames : List String :=
  ["abi", "addmod", "assert", "block", "blockhash", "ecrecover", "format", "gasleft",
   "keccak256", "log0", "log1", "log2", "log3", "log4", "logtvm", "math", "rnd", "msg",
   "mulmod", "now", "require", "revert", "ripemd160", "selfdestruct", "sha256", "sha3",
   "stoi", "suicide", "super", "tvm", "tx", "type", "this", "gasToValue", "valueToGas",
   "bitSize", "uBitSize"]

/-- The identifiers of the table, as pairs of a name and the value returned. -/
def magicVariableTable : List (String × Int) :=
  [("abi", -1), ("addmod", -2), ("assert", -3), ("block", -4), ("blockhash", -5),
   ("ecrecover", -6), ("format", -105), ("gasleft", -7), ("keccak256", -8), ("log0", -10),
   ("log1", -11), ("log2", -12), ("log3", -13), ("log4", -14), ("logtvm", -102),
   ("math", -103), ("rnd", -105), ("msg", -15), ("mulmod", -16), ("now", -17),
   ("require", -18), ("revert", -19), ("ripemd160", -20), ("selfdestruct", -21),
   ("sha256", -22), ("sha3", -23), ("stoi", -106), ("suicide", -24), ("super", -25),
   ("tvm", -101), ("tx", -26), ("type", -27), ("this", -28), ("gasToValue", -60),
   ("valueToGas", -61), ("bitSize", -62), ("uBitSize", -63)]

/-! ## The function compiler (TVMFunctionCompiler.cpp)

The lowering of a sub-statement or sub-expression (`accept`, `acceptExpr`) is a
function on the pusher state that may fail. -/

/-- The struct `ControlFlowInfo`. -/
structure ControlFlowInfo where
  stackSize : Int
  isLoop : Bool
  useJmp : Bool
  deriving DecidableEq, Repr

/-- The flags of the struct `ContInfo` that the lowering of loops reads. -/
structure ContInfo where
  canReturn : Bool
  canBreak : Bool
  canContinue : Bool
  deriving DecidableEq, Repr

/-- Modelled from the spec: `ContInfo::RETURN_FLAG` ("Flag values are fixed:
RETURN=3, BREAK=2, CONTINUE=1"). -/
def ContInfo.RETURN_FLAG : Int := 3

/-- Modelled from the spec: `ContInfo::CONTINUE_FLAG`; the source also asserts
`ContInfo::CONTINUE_FLAG == 1`. -/
def ContInfo.CONTINUE_FLAG : Int := 1

/-- The method `TVMFunctionCompiler::allJmp`. -/
def allJmp (m_controlFlowInfo : List ControlFlowInfo) : Bool :=
  m_controlFlowInfo.all fun info => info.useJmp

/-- Modelled from the spec: the node `Glob(GetOrGetVar, index)` of TvmAst.cpp,
a pure global read that takes nothing and returns one value. -/
def makeGetGlob (index : Int) : TvmAstNode :=
  .Glob .GetOrGetVar index 0 1 true

/-- Modelled from the spec: `makeSetGlob(index)` of TvmAst.cpp, a global write
that takes one value and returns nothing. -/
def makeSetGlob (index : Int) : TvmAstNode :=
  .Glob .SetOrSetVar index 1 0 false

/-- The method `StackPusher::getGlob(int index)`; `none` is a failed assertion. -/
def StackPusher.getGlob (p : StackPusher) (index : Int) : Option StackPusher :=
  if index ≥ 0 then (p.change 1).bind fun q => q.pushOpcode (makeGetGlob index)
  else none

/-- The method `StackPusher::setGlob(int index)`. -/
def StackPusher.setGlob (p : StackPusher) (index : Int) : Option StackPusher :=
  (p.change (-1)).bind fun q => q.pushOpcode (makeSetGlob index)

/-! ### `buildPublicFunctionSelector` on the pusher -/

/-- The lambda `pushOne` of `buildPublicFunctionSelector`, as calls on the
pusher. -/
def TVMFunctionCompiler.pushOne (genOpcode : String → Option TvmAstNode) (p : StackPusher)
    (functionId : Nat) (name : String) : Option StackPusher :=
  (p.pushS 0).bind fun p1 =>
  (p1.pushInt genOpcode functionId).bind fun p2 =>
  (p2.push genOpcode (-2 + 1) "EQUAL").bind fun p3 =>
  (p3.push genOpcode (-1) "").bind fun p4 =>
  (p4.startContinuation.pushCall 0 0 name).bind fun p5 =>
  p5.ifJmpRef

/-- The loop `for (i = left; i < right; ++i)` of the case `right - left <= 4`,
run for at most `fuel` rounds; `none` is a failure or spent fuel. -/
def TVMFunctionCompiler.selectorLeaves (genOpcode : String → Option TvmAstNode)
    (functions : List (Nat × String)) (right : Nat) : Nat → Nat → StackPusher → Option StackPusher
  | 0, i, p => if i < right then none else some p
  | fuel + 1, i, p =>
    if i < right then
      match functions[i]? with
      | none => none
      | some (functionId, name) =>
        (TVMFunctionCompiler.pushOne genOpcode p functionId name).bind fun p1 =>
          TVMFunctionCompiler.selectorLeaves genOpcode functions right fuel (i + 1) p1
    else some p

/-- The loop `for (i = left; i < right; i += blockSize)` of the other case, run
for at most `fuel` rounds; `sub i j` is the recursive call on `[i, j)`. -/
def TVMFunctionCompiler.selectorNodes (genOpcode : String → Option TvmAstNode)
    (sub : Nat → Nat → StackPusher → Option StackPusher) (functions : List (Nat × String))
    (blockSize right : Nat) : Nat → Nat → StackPusher → Option StackPusher
  | 0, i, p => if i < right then none else some p
  | fuel + 1, i, p =>
    if i < right then
      let j := min (i + blockSize) right
      match functions[j - 1]? with
      | none => none
      | some (functionId, name) =>
        if j - i = 1 then
          (TVMFunctionCompiler.pushOne genOpcode p functionId name).bind fun p1 =>
            TVMFunctionCompiler.selectorNodes genOpcode sub functions blockSize right fuel
              (i + blockSize) p1
        else
          (p.pushS 0).bind fun p1 =>
          (p1.pushInt genOpcode functionId).bind fun p2 =>
          (p2.push genOpcode (-2 + 1) "LEQ").bind fun p3 =>
          (sub i j p3.startContinuation).bind fun p4 =>
          p4.ifJmpRef.bind fun p5 =>
            TVMFunctionCompiler.selectorNodes genOpcode sub functions blockSize right fuel
              (i + blockSize) p5
    else some p

/-- The method `TVMFunctionCompiler::buildPublicFunctionSelector(functions, left,
right)` as calls on the pusher, with a bound `fuel` on the recursion depth. -/
def TVMFunctionCompiler.buildPublicFunctionSelector (genOpcode : String → Option TvmAstNode)
    (functions : List (Nat × String)) : Nat → Nat → Nat → StackPusher → Option StackPusher
  | 0, _, _, _ => none
  | fuel + 1, left, right, p =>
    let qty := right - left
    let blockSize := selectorBlockSize qty
    if 4 * blockSize < qty then none
    else if right - left ≤ 4 then
      TVMFunctionCompiler.selectorLeaves genOpcode functions right (right - left) left p
    else
      TVMFunctionCompiler.selectorNodes genOpcode
        (TVMFunctionCompiler.buildPublicFunctionSelector genOpcode functions fuel) functions
        blockSize right (right - left) left p

/-- The pusher after `generatePublicFunctionSelector` has built the body of the
selector: `buildPublicFunctionSelector(functions, 0, functions.size())`. -/
def TVMFunctionCompiler.generatePublicFunctionSelector
    (genOpcode : String → Option TvmAstNode) (functions : List (Nat × String))
    (p : StackPusher) : Option StackPusher :=
  TVMFunctionCompiler.buildPublicFunctionSelector genOpcode functions (functions.length + 1) 0
    functions.length p

/-- A parser that declares the effects that `buildPublicFunctionSelector` states
at its calls of `push`: every `PUSHINT n` adds one value, `EQUAL` and `LEQ`
replace two values by one. -/
def SelectorGen (genOpcode : String → Option TvmAstNode) : Prop :=
  (∀ n : Nat, declaredEffect genOpcode ("PUSHINT " ++ toString (n : Int)) = some 1) ∧
  declaredEffect genOpcode "EQUAL" = some (-1) ∧ declaredEffect genOpcode "LEQ" = some (-1)

/-- An unlocked pusher with an open block above the blocks `outer`. -/
def OpenOn (p : StackPusher) (outer : List (List TvmAstNode)) : Prop :=
  p.lockStack = 0 ∧ ∃ block, p.m_instructions = block :: outer

/-! ### `visit(Return)` -/

/-- The parts of a `Return` node that `visit(Return)` reads: the option names
with the lowering of each option expression, the lowering of the returned
expression if there is one, and the number of return parameters of the
function if `functionReturnParameters` is set. -/
structure ReturnStatement where
  names : List String
  options : List (StackPusher → Option StackPusher)
  expression : Option (StackPusher → Option StackPusher)
  functionReturnParameters : Option Nat

/-- The value of the local `retCount` of `visit(Return)`: the number of return
parameters of the function, 0 when `functionReturnParameters` is not set. -/
def ReturnStatement.retCount (_return : ReturnStatement) : Int :=
  match _return.functionReturnParameters with
  | some params => params
  | none => 0

/-- The loop over `_return.names()`: each option expression is lowered and
stored with `setIndexQ(nameToInt.at(optionName))`; `none` is a failure of
`at`. -/
def TVMFunctionCompiler.visitReturnNames (genOpcode : String → Option TvmAstNode)
    (nameToInt : String → Option Int) :
    List String → List (StackPusher → Option StackPusher) → StackPusher → Option StackPusher
  | [], _, p => some p
  | _ :: _, [], _ => none
  | optionName :: names, option :: options, p =>
    (option p).bind fun p1 =>
      match nameToInt optionName with
      | none => none
      | some index =>
        (p1.setIndexQ genOpcode index).bind fun p2 =>
          TVMFunctionCompiler.visitReturnNames genOpcode nameToInt names options p2

/-- The first part of `visit(Return)`: the options of the return and the
returned expression are lowered. `ReturnParams` is
`TvmConst::C7::ReturnParams`. -/
def TVMFunctionCompiler.visitReturnExpressions (genOpcode : String → Option TvmAstNode)
    (ReturnParams : Int) (nameToInt : String → Option Int) (p : StackPusher)
    (_return : ReturnStatement) : Option StackPusher :=
  (if !_return.names.isEmpty then
    (p.getGlob ReturnParams).bind fun p1 =>
    (TVMFunctionCompiler.visitReturnNames genOpcode nameToInt _return.names _return.options
      p1).bind fun p2 =>
    p2.setGlob ReturnParams
   else some p).bind fun p3 =>
  match _return.expression with
  | some expr => expr p3
  | none => some p3

/-- The method `TVMFunctionCompiler::visit(Return)`. `modifiers` is
`m_function->modifiers().size()`; `none` is a failed assertion. -/
def TVMFunctionCompiler.visitReturn (genOpcode : String → Option TvmAstNode)
    (ReturnParams : Int) (nameToInt : String → Option Int) (m_startStackSize : Int)
    (m_isLibraryWithObj : Bool) (m_currentModifier : Int) (modifiers : Nat)
    (m_controlFlowInfo : List ControlFlowInfo) (p : StackPusher) (_return : ReturnStatement) :
    Option StackPusher :=
  (TVMFunctionCompiler.visitReturnExpressions genOpcode ReturnParams nameToInt p _return).bind
    fun p1 =>
  let retCount : Int := _return.retCount
  let p2 := p1.startContinuation
  let trashSlots0 := p2.stackSize - m_startStackSize
  let last := m_isLibraryWithObj && m_currentModifier == (modifiers : Int)
  if last && !(trashSlots0 - 1 ≥ 0) then none
  else
    let trashSlots := if last then trashSlots0 - 1 else trashSlots0
    let revertDelta := trashSlots - retCount
    (p2.dropUnder (trashSlots - retCount) retCount).bind fun p3 =>
    (if !allJmp m_controlFlowInfo then
      (p3.pushInt genOpcode ContInfo.RETURN_FLAG).bind fun p4 =>
        p4.push genOpcode (revertDelta - 1) ""
     else p3.push genOpcode revertDelta "").bind fun p5 =>
    p5.ret.bind fun p6 =>
    p6.endRetOrBreakOrCont retCount

/-- The instructions that `dropUnder(droppedCount, leftCount)` appends for
arguments that are not negative: the four cases of the method. -/
def dropUnderInstructions (droppedCount leftCount : Int) : List TvmAstNode :=
  if droppedCount = 0 then []
  else if leftCount = 0 then [makeDROP droppedCount]
  else if droppedCount = 1 ∧ leftCount = 1 then [makePOP 1]
  else [.Stack .BLKDROP2 droppedCount leftCount (-1)]

/-- The count that `visit(Return)` passes to `dropUnder` as `droppedCount`, from
the depth `depth` after the returned expression: `trashSlots - retCount` with
`trashSlots = depth - m_startStackSize`, less one when `last` holds (a library
function with object at its last modifier). -/
def returnDroppedCount (depth m_startStackSize : Int) (last : Bool) (retCount : Int) : Int :=
  depth - m_startStackSize - (if last then 1 else 0) - retCount

/-! ### `visit(ForStatement)` -/

/-- The parts of a `ForStatement` that its lowering reads: the lowering of the
initialization, of the condition and of the loop expression where present, the
lowering of the body, and the `ContInfo` that `getInfo` finds for the body. -/
structure ForStatement where
  initializationExpression : Option (StackPusher → Option StackPusher)
  condition : Option (StackPusher → Option StackPusher)
  loopExpression : Option (StackPusher → Option StackPusher)
  body : StackPusher → Option StackPusher
  bodyInfo : ContInfo

/-- The method `pushControlFlowFlagAndReturnControlFlowInfo(ci, isLoop)`: the
pusher and the info returned. -/
def TVMFunctionCompiler.pushControlFlowFlagAndReturnControlFlowInfo (p : StackPusher)
    (ci : ContInfo) (isLoop : Bool) : Option (StackPusher × ControlFlowInfo) :=
  (if ci.canReturn || ci.canBreak || ci.canContinue then p.declRetFlag else some p).bind
    fun p1 => some (p1, { stackSize := p1.stackSize, isLoop := isLoop, useJmp := false })

/-- The method `visitForOrWhileCondition(ci, info, pushCondition)`. -/
def TVMFunctionCompiler.visitForOrWhileCondition (genOpcode : String → Option TvmAstNode)
    (p : StackPusher) (ci : ContInfo) (info : ControlFlowInfo)
    (pushCondition : Option (StackPusher → Option StackPusher)) : Option StackPusher :=
  let stackSize := p.stackSize
  let p1 := p.startContinuation
  (if ci.canBreak || ci.canReturn then
    (p1.pushS (p1.stackSize - info.stackSize)).bind fun p2 =>
    (p2.push genOpcode 0 "LESSINT 2").bind fun p3 =>
    (p3.push genOpcode (-1) "").bind fun p4 =>
    match pushCondition with
    | some cond =>
      (p4.pushS 0).bind fun p5 =>
      (p5.startContinuation.drop 1).bind fun p6 =>
      (cond p6).bind fun p7 =>
      (p7.endLogCircuit (!ci.canReturn) .AND).bind fun p8 =>
      p8.push genOpcode (-1) ""
    | none => some p4
   else
    match pushCondition with
    | some cond => (cond p1).bind fun p2 => p2.push genOpcode (-1) ""
    | none => (p1.push genOpcode 1 "TRUE").bind fun p2 => p2.push genOpcode (-1) "").bind
    fun p9 =>
  p9.endContinuation.bind fun p10 =>
  p10.ensureSize stackSize

/-- The method `visitBodyOfForLoop(ci, pushStartBody, body, loopExpression)`:
the pusher and the vector `m_controlFlowInfo` after the call. -/
def TVMFunctionCompiler.visitBodyOfForLoop (genOpcode : String → Option TvmAstNode)
    (p : StackPusher) (m_controlFlowInfo : List ControlFlowInfo) (ci : ContInfo)
    (pushStartBody : Option (StackPusher → Option StackPusher))
    (body : StackPusher → Option StackPusher)
    (loopExpression : Option (StackPusher → Option StackPusher)) :
    Option (StackPusher × List ControlFlowInfo) :=
  let p1 := p.startContinuation
  (match pushStartBody with
   | some start => start p1
   | none => some p1).bind fun p2 =>
  (if ci.canReturn || ci.canBreak || ci.canContinue then
    let ss := p2.stackSize
    (body p2.startContinuation).bind fun p3 =>
    (p3.drop (p3.stackSize - ss)).bind fun p4 =>
    (p4.callX 0 0).bind fun p5 =>
    if ci.canReturn || ci.canBreak then
      if ContInfo.CONTINUE_FLAG == 1 then
        (p5.startOpaque.pushS 0).bind fun p6 =>
        (if ci.canContinue then
          p6.push genOpcode (-1 + 1) ("GTINT " ++ toString ContInfo.CONTINUE_FLAG)
         else some p6).bind fun p7 =>
        p7.ifret.bind fun p8 =>
        p8.endOpaque 1 1 false
      else none
    else some p5
   else
    let ss := p2.stackSize
    (body p2).bind fun p3 => p3.drop (p3.stackSize - ss)).bind fun p9 =>
  (match loopExpression with
   | some expr => expr p9
   | none => some p9).bind fun p10 =>
  p10.endContinuation.bind fun p11 =>
  p11._while.bind fun p12 =>
  some (p12, m_controlFlowInfo.dropLast)

/-- The method `afterLoopCheck(ci, loopVarQty)`. -/
def TVMFunctionCompiler.afterLoopCheck (genOpcode : String → Option TvmAstNode)
    (p : StackPusher) (m_controlFlowInfo : List ControlFlowInfo) (ci : ContInfo)
    (loopVarQty : Int) : Option StackPusher :=
  (if ci.canReturn then
    let p1 := p.startOpaque
    (if allJmp m_controlFlowInfo then
      (p1.push genOpcode 0 ("EQINT " ++ toString ContInfo.RETURN_FLAG)).bind fun p2 => p2.ifret
     else
      (p1.pushS 0).bind fun p2 =>
      (if ci.canBreak || ci.canContinue then
        p2.push genOpcode 0 ("EQINT " ++ toString ContInfo.RETURN_FLAG)
       else some p2).bind fun p3 =>
      p3.ifret.bind fun p4 =>
      p4.drop 1).bind fun p5 =>
    p5.endOpaque 1 0 false
   else if ci.canBreak || ci.canContinue then p.drop 1
   else some p).bind fun p6 =>
  p6.drop loopVarQty

/-- The method `TVMFunctionCompiler::visit(ForStatement)`. The flag
`haveDeclLoopVar` is passed to the parameter `const int& loopVarQty` of
`afterLoopCheck`, where it is 1 or 0. -/
def TVMFunctionCompiler.visitFor (genOpcode : String → Option TvmAstNode) (p : StackPusher)
    (m_controlFlowInfo : List ControlFlowInfo) (_forStatement : ForStatement) :
    Option StackPusher :=
  let saveStackSize := p.stackSize
  (match _forStatement.initializationExpression with
   | some init =>
     let saveStack := p.stackSize
     (init p).bind fun p1 => some (p1, p1.stackSize != saveStack)
   | none => some (p, false)).bind fun (p1, haveDeclLoopVar) =>
  let ci := _forStatement.bodyInfo
  (TVMFunctionCompiler.pushControlFlowFlagAndReturnControlFlowInfo p1 ci true).bind
    fun (p2, info) =>
  let m_controlFlowInfo1 := m_controlFlowInfo ++ [info]
  (TVMFunctionCompiler.visitForOrWhileCondition genOpcode p2 ci info
    _forStatement.condition).bind fun p3 =>
  (TVMFunctionCompiler.visitBodyOfForLoop genOpcode p3 m_controlFlowInfo1 ci none
    _forStatement.body _forStatement.loopExpression).bind fun (p4, m_controlFlowInfo2) =>
  (TVMFunctionCompiler.afterLoopCheck genOpcode p4 m_controlFlowInfo2 ci
    (if haveDeclLoopVar then 1 else 0)).bind fun p5 =>
  p5.ensureSize saveStackSize

/-- The lowering `f` of a sub-statement or sub-expression is regular with the
effect `delta`: on an unlocked pusher of non-negative depth it succeeds, leaves
the pusher unlocked, appends instructions to the open block and moves the
modelled depth by `delta`. -/
def Lowers (f : StackPusher → Option StackPusher) (delta : Int) : Prop :=
  ∀ (st : TVMStack) (block : List TvmAstNode) (outer : List (List TvmAstNode)),
    0 ≤ st.m_size →
    ∃ v emitted,
      f { m_stack2 := st, lockStack := 0, m_instructions := block :: outer }
        = some { m_stack2 := { m_size := st.m_size + delta, m_stackSize := v }, lockStack := 0,
                 m_instructions := (block ++ emitted) :: outer }

/-- A parser that declares the effects that the lowering of a for-statement
states at its calls of `push`. -/
def LoopGen (genOpcode : String → Option TvmAstNode) : Prop :=
  declaredEffect genOpcode "LESSINT 2" = some 0 ∧
  declaredEffect genOpcode "TRUE" = some 1 ∧
  declaredEffect genOpcode ("GTINT " ++ toString ContInfo.CONTINUE_FLAG) = some 0 ∧
  declaredEffect genOpcode ("EQINT " ++ toString ContInfo.RETURN_FLAG) = some 0

/-- The number of slots that `pushControlFlowFlag` declares for a statement: one
return flag when the statement can return, break or continue. -/
def ContInfo.flagQty (ci : ContInfo) : Int :=
  if ci.canReturn || ci.canBreak || ci.canContinue then 1 else 0

/-! ### The recursive calls of `buildPublicFunctionSelector` -/

/-- The ranges `(i, j)` at which the loop `for (i = left; i < right; i +=
blockSize)` of `buildPublicFunctionSelector` calls the method again: the rounds
with `j - i != 1`, where `j = min(i + blockSize, right)`; the loop is run for at
most `fuel` rounds, as in `selectorNodes`. -/
def selectorSubRanges (blockSize right : Nat) : Nat → Nat → List (Nat × Nat)
  | 0, _ => []
  | fuel + 1, i =>
    if i < right then
      let j := min (i + blockSize) right
      if j - i = 1 then selectorSubRanges blockSize right fuel (i + blockSize)
      else (i, j) :: selectorSubRanges blockSize right fuel (i + blockSize)
    else []

/-- The ranges of the recursive calls that one call
`buildPublicFunctionSelector(functions, left, right)` makes itself: none when
`right - left <= 4`, where the leaf loop runs. -/
def selectorRecursiveCalls (left right : Nat) : List (Nat × Nat) :=
  if right - left ≤ 4 then []
  else selectorSubRanges (selectorBlockSize (right - left)) right (right - left) left

/-! ### `ifElse`, `_if`, `_ifNot`, `ifJmp`, `repeat` and `until` -/

/-- The method `StackPusher::ifElse(withJmp)`; `none` is a failed assertion or
`back()` on an empty vector. -/
def StackPusher.ifElse (p : StackPusher) (withJmp : Bool) : Option StackPusher :=
  match p.m_instructions with
  | [] => none
  | block :: outer =>
    if block.length ≥ 3 then
      match popBack block with
      | none => none
      | some (front1, last1) =>
        match last1.asCodeBlock with
        | none => none
        | some falseBlock =>
          match popBack front1 with
          | none => none
          | some (front2, last2) =>
            match last2.asCodeBlock with
            | none => none
            | some trueBlock =>
              let type := if withJmp then IfElseType.IFELSE_WITH_JMP else IfElseType.IFELSE
              some { p with
                m_instructions := (front2 ++ [.TvmIfElse type trueBlock (some falseBlock)]) :: outer }
    else none

/-- The method `StackPusher::_if`. -/
def StackPusher._if (p : StackPusher) : Option StackPusher :=
  p.if_or_ifnot .IF

/-- The method `StackPusher::_ifNot`. -/
def StackPusher._ifNot (p : StackPusher) : Option StackPusher :=
  p.if_or_ifnot .IFNOT

/-- The method `StackPusher::ifJmp`. -/
def StackPusher.ifJmp (p : StackPusher) : Option StackPusher :=
  p.if_or_ifnot .IFJMP

/-- The method `StackPusher::repeatOrUntil(isRepeat)`; `none` is a failed
assertion or `back()` on an empty vector. -/
def StackPusher.repeatOrUntil (p : StackPusher) (isRepeat : Bool) : Option StackPusher :=
  match p.m_instructions with
  | [] => none
  | block :: outer =>
    match popBack block with
    | none => none
    | some (front, last) =>
      match last.asCodeBlock with
      | none => none
      | some loopBody =>
        let b := if isRepeat then TvmAstNode.TvmRepeat loopBody else TvmAstNode.TvmUntil loopBody
        some { p with m_instructions := (front ++ [b]) :: outer }

/-- The method `StackPusher::repeat`. -/
def StackPusher.repeat (p : StackPusher) : Option StackPusher :=
  p.repeatOrUntil true

/-- The method `StackPusher::until`. -/
def StackPusher.until (p : StackPusher) : Option StackPusher :=
  p.repeatOrUntil false

/-! ### Dictionary values: `prepareValueForDictOperations` and `doesDictStoreValueInRef` -/

/-- The categories of `enum class DictValueType`, as the switches of
`prepareValueForDictOperations` and `doesDictStoreValueInRef` list them. -/
inductive DictValueType where
  | Address
  | Array
  | Bool
  | Contract
  | Enum
  | ExtraCurrencyCollection
  | FixedBytes
  | FixedPoint
  | Function
  | Integer
  | Mapping
  | Optional
  | Struct
  | TvmCell
  | TvmSlice
  | VarInteger
  deriving DecidableEq, Repr

/-- The values of `enum class DataType` that `prepareValueForDictOperations`
returns. -/
inductive DataType where
  | Builder
  | Cell
  | Slice
  deriving DecidableEq, Repr

/-- What the two functions read of the value type: `toDictValueType` of its
category, the result of `isByteArrayOrString`, and the result of
`maxBitLengthOfDictValue`, `none` where that call throws (a slice, or a struct
with a slice among its members). -/
structure DictValue where
  category : DictValueType
  isByteArrayOrString : Bool
  maxBitLengthOfDictValue : Option Int
  deriving DecidableEq, Repr

/-- A call that `prepareValueForDictOperations` makes: `push(stackDiff, cmd)`,
`store(valueType, false)`, or `StructCompiler::tupleToBuilder()`. -/
inductive DictPrepareCall where
  | push (stackDiff : Int) (cmd : String)
  | store
  | tupleToBuilder
  deriving DecidableEq, Repr

/-- The method `StackPusher::doesFitInOneCellAndHaveNoStruct(key, value)`;
`keyLength` is the result of `lengthOfDictKey(key)`, the two constants of
`TvmConst` are parameters, and `none` is the exception of
`maxBitLengthOfDictValue`. -/
def doesFitInOneCellAndHaveNoStruct (MAX_HASH_MAP_INFO_ABOUT_KEY CellBitLength : Int)
    (keyLength : Int) (value : DictValue) : Option Bool :=
  value.maxBitLengthOfDictValue.map fun maxBitLength =>
    decide (MAX_HASH_MAP_INFO_ABOUT_KEY + keyLength + maxBitLength < CellBitLength)

/-- The method `StackPusher::prepareValueForDictOperations(keyType, valueType,
isValueBuilder)`: the returned `DataType` and the calls it makes, in order;
`none` is a failed assertion or an exception. -/
def prepareValueForDictOperations (MAX_HASH_MAP_INFO_ABOUT_KEY CellBitLength : Int)
    (keyLength : Int) (valueType : DictValue) (isValueBuilder : Bool) :
    Option (DataType × List DictPrepareCall) :=
  let fits := doesFitInOneCellAndHaveNoStruct MAX_HASH_MAP_INFO_ABOUT_KEY CellBitLength
    keyLength valueType
  let general : Option (DataType × List DictPrepareCall) :=
    let first : List DictPrepareCall :=
      if !isValueBuilder then [.push 1 "NEWC", .store] else []
    fits.bind fun fit =>
      if !fit then some (.Builder, first ++ [.push 1 "NEWC", .push (-1) "STBREF"])
      else some (.Builder, first)
  match valueType.category with
  | .TvmSlice => some (if isValueBuilder then .Builder else .Slice, [])
  | .Address | .Contract =>
    fits.bind fun fit =>
      if !fit then
        if !isValueBuilder then
          some (.Cell, [.push 1 "NEWC", .push (-1) "STSLICE", .push 0 "ENDC"])
        else none
      else some (if isValueBuilder then .Builder else .Slice, [])
  | .Array =>
    if valueType.isByteArrayOrString then
      some (.Cell, if isValueBuilder then [.push (-1 + 1) "ENDC"] else [])
    else general
  | .Bool | .Enum | .ExtraCurrencyCollection | .FixedBytes | .FixedPoint | .Integer
  | .Mapping | .Optional | .VarInteger | .Function => general
  | .Struct =>
    let first : List DictPrepareCall := if !isValueBuilder then [.tupleToBuilder] else []
    fits.bind fun fit =>
      if !fit then some (.Cell, first ++ [.push 0 "ENDC"])
      else some (.Builder, first)
  | .TvmCell => some (.Cell, if isValueBuilder then [.push 0 "ENDC"] else [])

/-- The method `StackPusher::doesDictStoreValueInRef(keyType, valueType)`;
`none` is an exception. -/
def doesDictStoreValueInRef (MAX_HASH_MAP_INFO_ABOUT_KEY CellBitLength : Int)
    (keyLength : Int) (valueType : DictValue) : Option Bool :=
  let fits := doesFitInOneCellAndHaveNoStruct MAX_HASH_MAP_INFO_ABOUT_KEY CellBitLength
    keyLength valueType
  match valueType.category with
  | .TvmCell => some true
  | .TvmSlice => some false
  | .Array =>
    if valueType.isByteArrayOrString then some true
    else fits.map fun fit => !fit
  | .Address | .Bool | .Contract | .Enum | .ExtraCurrencyCollection | .FixedBytes
  | .FixedPoint | .Integer | .Mapping | .Optional | .VarInteger | .Struct | .Function =>
    fits.map fun fit => !fit

/-- Whether a result of `prepareValueForDictOperations` places the value behind
a reference: it returns `DataType::Cell`, or it emits `STBREF` (into the builder
made by the `NEWC` before it). -/
def placesValueInRef (result : DataType × List DictPrepareCall) : Bool :=
  result.1 == DataType.Cell || result.2.contains (.push (-1) "STBREF")

/-! ### Bit strings: `tonsToBinaryString`, `binaryStringToSlice`, `toBitString` -/

/-- The call `std::reverse(s.rbegin(), s.rbegin() + n)`: the last `n` characters
of `s` in reverse order, after the characters before them. -/
def reverseLast (s : List Char) (n : Nat) : List Char :=
  s.take (s.length - n) ++ (s.drop (s.length - n)).reverse

/-- The loop `for (int i = 0; i < 256; ++i)` of `tonsToBinaryString` from round
`i` on, with `rounds = 256 - i` rounds left: the string `s` and the value of
`len` after it (`256` unless the `break` sets it). -/
def tonsBitsLoop : Nat → Nat → Nat → List Char → List Char × Nat
  | 0, _, _, s => (s, 256)
  | rounds + 1, i, value, s =>
    if value = 0 then (s, i)
    else tonsBitsLoop rounds (i + 1) (value / 2) (s ++ [if value % 2 = 0 then '0' else '1'])

/-- The loop `while (len % 8 != 0) { s += "0"; len++; }`, run for at most
`fuel` rounds. -/
def tonsPadLoop : Nat → List Char → Nat → List Char × Nat
  | 0, s, len => (s, len)
  | fuel + 1, s, len =>
    if len % 8 ≠ 0 then tonsPadLoop fuel (s ++ ['0']) (len + 1) else (s, len)

/-- The loop `for (int i = 0; i < 4; ++i)` that writes `len` into `res`, least
bit first, with `rounds` rounds left. -/
def tonsLenLoop : Nat → Nat → List Char → List Char
  | 0, _, res => res
  | rounds + 1, len, res =>
    tonsLenLoop rounds (len / 2) (res ++ [if len % 2 = 0 then '0' else '1'])

/-- The method `StackPusher::tonsToBinaryString(bigint value)`; the callers
pass a `u256`, so the value is a natural number. `none` is the failed
`solAssert(len < 120, "Ton value should fit 120 bit")`. The padding loop needs
at most 7 rounds. -/
def tonsToBinaryString (value : Nat) : Option String :=
  let (s, len) := tonsBitsLoop 256 0 value []
  if len < 120 then
    let (s, len) := tonsPadLoop 8 s len
    let s := reverseLast s len
    let len := len / 8
    let res := tonsLenLoop 4 len []
    let res := reverseLast res 4
    some (String.mk (res ++ s))
  else none

/-- The number that a string of the characters `0` and `1` writes, most
significant bit first. -/
def binaryValue (s : List Char) : Nat :=
  s.foldl (fun acc c => 2 * acc + (if c = '1' then 1 else 0)) 0

/-- The call `std::stoi(str, nullptr, 2)` on a non-empty string of the digits
`0` and `1`; on every other string (empty, signed, with white space or another
character) the result is left open as `none`. -/
def stoiBinary (str : List Char) : Option Int :=
  if str ≠ [] ∧ str.all (fun c => c = '0' || c = '1') then some (binaryValue str : Nat)
  else none

/-- The call `std::stoi(str, &pos, 16)` on a string of one character with the
assertion `pos == 1` after it: the value of a hexadecimal digit, `none` (an
exception) on another character. -/
def stoiHexDigit (c : Char) : Option Int :=
  if '0'.toNat ≤ c.toNat ∧ c.toNat ≤ '9'.toNat then some ((c.toNat - '0'.toNat : Nat) : Int)
  else if 'a'.toNat ≤ c.toNat ∧ c.toNat ≤ 'f'.toNat then
    some ((c.toNat - 'a'.toNat + 10 : Nat) : Int)
  else if 'A'.toNat ≤ c.toNat ∧ c.toNat ≤ 'F'.toNat then
    some ((c.toNat - 'A'.toNat + 10 : Nat) : Int)
  else none

/-- The loop `for (int i = 0; i < bitlen; ++i)` of `addBinaryNumberToString`,
with `rounds` rounds left. -/
def addBinaryLoop : Nat → Int → List Char → List Char
  | 0, _, s => s
  | rounds + 1, value, s =>
    addBinaryLoop rounds (value / 2) (s ++ [if value % 2 = 0 then '0' else '1'])

/-- The method `StackPusher::addBinaryNumberToString(s, value, bitlen)`: the
string `s` after the call; `none` is the failed `solAssert(value >= 0, "")`. -/
def addBinaryNumberToString (s : List Char) (value : Int) (bitlen : Int) :
    Option (List Char) :=
  if value ≥ 0 then some (reverseLast (addBinaryLoop bitlen.toNat value s) bitlen.toNat)
  else none

/-- The loop `for (i = 0; i < s.length(); i += 4)` of `binaryStringToSlice` on
the rest of `s` from position `i` on: one hexadecimal digit (`std::hex`) for
`s.substr(i, 4)`, which is shorter than 4 at the end of a string whose length is
not divisible by 4; `none` is an exception of `std::stoi`. -/
def sliceDigits : List Char → Option (List Char)
  | [] => some []
  | a :: b :: c :: d :: rest =>
    match stoiBinary [a, b, c, d], sliceDigits rest with
    | some x, some ans => some (hexDigit x.toNat :: ans)
    | _, _ => none
  | a :: rest =>
    match stoiBinary (a :: rest) with
    | some x => some [hexDigit x.toNat]
    | none => none

/-- The method `StackPusher::binaryStringToSlice(_s)`; `none` is an exception of
`std::stoi`. -/
def binaryStringToSlice (_s : String) : Option String :=
  let s := _s.data
  let haveCompletionTag : Bool := s.length % 4 != 0
  let s :=
    if s.length % 4 != 0 then
      let s := s ++ ['1']
      s ++ List.replicate ((4 - s.length % 4) % 4) '0'
    else s
  (sliceDigits s).map fun ans => String.mk (if haveCompletionTag then ans ++ ['_'] else ans)

/-- The loop `while (true)` of `toBitString`, which takes the completion tag off
the last digit: the values of `value` and `bitLen` after the `break`. A digit
other than 0 has a one among its four bits, so that four rounds are enough for
it; on the digit 0 the loop does not end, which is `none`. -/
def completionTagLoop : Nat → Int → Int → Option (Int × Int)
  | 0, _, _ => none
  | fuel + 1, value, bitLen =>
    let isOne : Bool := value % 2 == 1
    if isOne then some (value / 2, bitLen - 1)
    else completionTagLoop fuel (value / 2) (bitLen - 1)

/-- The loop `for (i = 1; i < slice.size(); ++i)` of `toBitString` on the rest
of the slice from position `i` on, with the string `bitString` built so far; the
test `i + 2 == slice.size() && slice[i + 1] == '_'` holds when the rest is one
character and `_`. `none` is an exception, a failed assertion or the loop on the
digit 0 that does not end. -/
def toBitStringLoop : List Char → List Char → Option (List Char)
  | [], bitString => some bitString
  | c :: rest, bitString =>
    if rest = ['_'] then
      match stoiHexDigit c with
      | none => none
      | some value =>
        match completionTagLoop 4 value 4 with
        | none => none
        | some (value, bitLen) => addBinaryNumberToString bitString value bitLen
    else
      match stoiHexDigit c with
      | none => none
      | some value =>
        match addBinaryNumberToString bitString value 4 with
        | none => none
        | some bitString => toBitStringLoop rest bitString

/-- The method `StackPusher::toBitString(slice)`; `none` is an exception
(`slice.at(0)` on the empty string, `std::stoi`, `solUnimplemented`), a failed
assertion or a loop that does not end. -/
def toBitString (slice : String) : Option String :=
  match slice.data with
  | [] => none
  | c :: rest =>
    if c = 'x' then (toBitStringLoop rest []).map String.mk
    else if slice = "0" ∨ slice = "1" then some slice
    else none

/-- The string that `binaryStringToSlice` makes of a last block `t` of fewer
than four characters: the block, a one, and zeroes up to four characters. -/
def paddedTail (t : List Char) : List Char :=
  (t ++ ['1']) ++ List.replicate ((4 - (t ++ ['1']).length % 4) % 4) '0'

/-! ### `visit(WhileStatement)` -/

/-- The enum `WhileStatement::LoopType`. -/
inductive LoopType where
  | WHILE_DO
  | DO_WHILE
  | REPEAT
  deriving DecidableEq, Repr

/-- The parts of a `WhileStatement` that its lowering reads: the loop type, the
lowering of the condition (`acceptExpr`) and of the body, the `ContInfo` that
`getInfo` finds for the body, and the result of `ci.mayDoThat()` on it (the
method is declared in a header that is not among the sources). -/
structure WhileStatement where
  loopType : LoopType
  condition : StackPusher → Option StackPusher
  body : StackPusher → Option StackPusher
  bodyInfo : ContInfo
  mayDoThat : Bool

/-- The outcome of the lowering of a statement: the pusher after it, the
user-level error that `cast_error` throws, or a failed assertion. -/
inductive Lowered where
  | ok (p : StackPusher)
  | cast_error (message : String)
  | assertion

/-- An outcome without user-level error: `none` is a failed assertion. -/
def Lowered.ofOption : Option StackPusher → Lowered
  | some p => .ok p
  | none => .assertion

/-- The method `TVMFunctionCompiler::doWhile`. -/
def TVMFunctionCompiler.doWhile (genOpcode : String → Option TvmAstNode) (p : StackPusher)
    (m_controlFlowInfo : List ControlFlowInfo) (_whileStatement : WhileStatement) :
    Option StackPusher :=
  let saveStackSize := p.stackSize
  let ci := _whileStatement.bodyInfo
  (TVMFunctionCompiler.pushControlFlowFlagAndReturnControlFlowInfo p ci true).bind
    fun (p1, info) =>
  let m_controlFlowInfo1 := m_controlFlowInfo ++ [info]
  let p2 := p1.startContinuation
  let ss := p2.stackSize
  (if ci.canReturn || ci.canBreak || ci.canContinue then
    (_whileStatement.body p2.startContinuation).bind fun p3 =>
    (p3.drop (p3.stackSize - ss)).bind fun p4 =>
    p4.callX 0 0
   else
    (_whileStatement.body p2).bind fun p3 => p3.drop (p3.stackSize - ss)).bind fun p5 =>
  (if ci.canBreak || ci.canReturn then
    (p5.pushS 0).bind fun p6 =>
    (if ci.canContinue then
      p6.push genOpcode (-1 + 1) ("GTINT " ++ toString ContInfo.CONTINUE_FLAG)
     else some p6).bind fun p7 =>
    (p7.pushS 0).bind fun p8 =>
    (p8.push genOpcode (-2) "").bind fun p9 =>
    (p9.startContinuation.push genOpcode 1 "").bind fun p10 =>
    (p10.drop 1).bind fun p11 =>
    (_whileStatement.condition p11).bind fun p12 =>
    (p12.push genOpcode 0 "NOT").bind fun p13 =>
    p13.endLogCircuit (!ci.canReturn) .OR
   else
    (_whileStatement.condition p5).bind fun p6 => p6.push genOpcode 0 "NOT").bind fun p14 =>
  (p14.push genOpcode (-1) "").bind fun p15 =>
  p15.endContinuation.bind fun p16 =>
  p16.until.bind fun p17 =>
  let m_controlFlowInfo2 := m_controlFlowInfo1.dropLast
  (TVMFunctionCompiler.afterLoopCheck genOpcode p17 m_controlFlowInfo2 ci 0).bind fun p18 =>
  p18.ensureSize saveStackSize

/-- The method `TVMFunctionCompiler::visit(WhileStatement)`. -/
def TVMFunctionCompiler.visitWhile (genOpcode : String → Option TvmAstNode) (p : StackPusher)
    (m_controlFlowInfo : List ControlFlowInfo) (_whileStatement : WhileStatement) : Lowered :=
  let saveStackSizeForWhile := p.stackSize
  if _whileStatement.loopType = .DO_WHILE then
    Lowered.ofOption
      (TVMFunctionCompiler.doWhile genOpcode p m_controlFlowInfo _whileStatement)
  else
    let ci := _whileStatement.bodyInfo
    match TVMFunctionCompiler.pushControlFlowFlagAndReturnControlFlowInfo p ci true with
    | none => .assertion
    | some (p1, info) =>
      let m_controlFlowInfo1 := m_controlFlowInfo ++ [info]
      let saveStackSize := p1.stackSize
      let condition : Lowered :=
        if _whileStatement.loopType = .REPEAT then
          if _whileStatement.mayDoThat then
            .cast_error "Using 'break', 'continue' or 'return' is not supported yet."
          else
            Lowered.ofOption
              ((_whileStatement.condition p1).bind fun p2 => p2.push genOpcode (-1) "")
        else
          Lowered.ofOption
            (TVMFunctionCompiler.visitForOrWhileCondition genOpcode p1 ci info
              (some _whileStatement.condition))
      match condition with
      | .ok p3 =>
        Lowered.ofOption
          ((p3.ensureSize saveStackSize).bind fun p4 =>
           (_whileStatement.body p4.startContinuation).bind fun p5 =>
           (p5.drop (p5.stackSize - saveStackSize)).bind fun p6 =>
           p6.endContinuation.bind fun p7 =>
           (if _whileStatement.loopType = .REPEAT then p7.repeat else p7._while).bind fun p8 =>
           let m_controlFlowInfo2 := m_controlFlowInfo1.dropLast
           (TVMFunctionCompiler.afterLoopCheck genOpcode p8 m_controlFlowInfo2 ci 0).bind
             fun p9 =>
           p9.ensureSize saveStackSizeForWhile)
      | other => other

/-! ### `visit(IfStatement)` -/

/-- The parts of an `IfStatement` that its lowering reads: the lowering of the
condition and of the branches, the `ContInfo` that `getInfo` finds for the
statement, the results of `getInfo(...).doThatAlways()` for the true branch
and for the else branch (read only where there is one; the method is declared
in a header that is not among the sources), and what `pushLocation` reads of
the location of the statement: the path `sourceName` of the source relative to
the current directory and the line `positionLine` that
`SourceReferenceExtractor` finds (`sr.position.line`). -/
structure IfStatement where
  condition : StackPusher → Option StackPusher
  trueStatement : StackPusher → Option StackPusher
  falseStatement : Option (StackPusher → Option StackPusher)
  info : ContInfo
  trueDoThatAlways : Bool
  falseDoThatAlways : Bool
  sourceName : String
  positionLine : Int

/-- The method `StackPusher::pushLoc(file, line)`; `none` is `back()` on an
empty vector. -/
def StackPusher.pushLoc (p : StackPusher) (file : String) (line : Int) : Option StackPusher :=
  p.pushOpcode (.Loc file line)

/-- The method `TVMFunctionCompiler::pushLocation(node, reset)` for a node at
the line `positionLine` of the source `sourceName`. -/
def TVMFunctionCompiler.pushLocation (p : StackPusher) (sourceName : String)
    (positionLine : Int) (reset : Bool) : Option StackPusher :=
  let line := if reset then 0 else positionLine + 1
  p.pushLoc sourceName line

/-- The local `canUseJmp` of `visit(IfStatement)`. -/
def IfStatement.canUseJmp (_ifStatement : IfStatement) : Bool :=
  match _ifStatement.falseStatement with
  | some _ => _ifStatement.trueDoThatAlways && _ifStatement.falseDoThatAlways
  | none => _ifStatement.trueDoThatAlways

/-- The method `TVMFunctionCompiler::endContinuation2(doDrop)`; `none` is a
failed assertion or `back()` on an empty vector. -/
def TVMFunctionCompiler.endContinuation2 (genOpcode : String → Option TvmAstNode)
    (p : StackPusher) (m_controlFlowInfo : List ControlFlowInfo) (doDrop : Bool) :
    Option StackPusher :=
  match m_controlFlowInfo.getLast? with
  | none => none
  | some back =>
    let delta := p.stackSize - back.stackSize
    (if doDrop then p.drop delta else p.push genOpcode (-delta) "").bind fun p1 =>
    p1.endContinuation

/-- The statements of `visit(IfStatement)` for one branch: `startContinuation()`,
the branch, `endContinuation2(!canUseJmp)`. -/
def TVMFunctionCompiler.visitIfBranch (genOpcode : String → Option TvmAstNode)
    (p : StackPusher) (m_controlFlowInfo : List ControlFlowInfo)
    (statement : StackPusher → Option StackPusher) (canUseJmp : Bool) : Option StackPusher :=
  (statement p.startContinuation).bind fun p1 =>
  TVMFunctionCompiler.endContinuation2 genOpcode p1 m_controlFlowInfo (!canUseJmp)

/-- The statements of `visit(IfStatement)` under the comment `bottom`, for
`canUseJmp = false`: the check of the flag. -/
def TVMFunctionCompiler.visitIfBottom (genOpcode : String → Option TvmAstNode)
    (p : StackPusher) (m_controlFlowInfo : List ControlFlowInfo) (ci : ContInfo) :
    Option StackPusher :=
  if ci.canReturn || ci.canBreak || ci.canContinue then
    let p1 := p.startOpaque
    (if ci.canReturn then
      if allJmp m_controlFlowInfo then
        (p1.push genOpcode 0 ("EQINT " ++ toString ContInfo.RETURN_FLAG)).bind fun p2 =>
        p2.ifret
      else
        (p1.pushS 0).bind fun p2 => p2.ifret.bind fun p3 => p3.drop 1
     else
      (p1.pushS 0).bind fun p2 => p2.ifret.bind fun p3 => p3.drop 1).bind fun p4 =>
    p4.endOpaque 1 0 false
  else some p

/-- The method `TVMFunctionCompiler::visit(IfStatement)`. -/
def TVMFunctionCompiler.visitIf (genOpcode : String → Option TvmAstNode) (p : StackPusher)
    (m_controlFlowInfo : List ControlFlowInfo) (_ifStatement : IfStatement) :
    Option StackPusher :=
  let saveStackSize := p.stackSize
  let ci := _ifStatement.info
  let canUseJmp := _ifStatement.canUseJmp
  (if canUseJmp then
    some (p, ({ stackSize := p.stackSize, isLoop := false, useJmp := true } : ControlFlowInfo))
   else
    TVMFunctionCompiler.pushControlFlowFlagAndReturnControlFlowInfo p ci false).bind
    fun (p1, info) =>
  let m_controlFlowInfo1 := m_controlFlowInfo ++ [info]
  (_ifStatement.condition p1).bind fun p2 =>
  (p2.push genOpcode (-1) "").bind fun p3 =>
  (TVMFunctionCompiler.visitIfBranch genOpcode p3 m_controlFlowInfo1
    _ifStatement.trueStatement canUseJmp).bind fun p4 =>
  (match _ifStatement.falseStatement with
   | some falseStatement =>
     (TVMFunctionCompiler.visitIfBranch genOpcode p4 m_controlFlowInfo1 falseStatement
       canUseJmp).bind fun p5 =>
     if canUseJmp then p5.ifElse true else p5.ifElse false
   | none =>
     (if canUseJmp then p4.ifJmp else p4._if).bind fun p5 =>
     TVMFunctionCompiler.pushLocation p5 _ifStatement.sourceName _ifStatement.positionLine
       true).bind fun p6 =>
  let m_controlFlowInfo2 := m_controlFlowInfo1.dropLast
  (if !canUseJmp then
    TVMFunctionCompiler.visitIfBottom genOpcode p6 m_controlFlowInfo2 ci
   else some p6).bind fun p7 =>
  p7.ensureSize saveStackSize

/-- The type of the `TvmIfElse` node for an if-statement with or without an
else branch, with or without the jump form. -/
def ifElseVariant (hasElse canUseJmp : Bool) : IfElseType :=
  if canUseJmp then (if hasElse then .IFELSE_WITH_JMP else .IFJMP)
  else (if hasElse then .IFELSE else .IF)

/-! ### The call graph of `TVMCompilerContext`: `addAndDoesHaveLoop` and `dfs` -/

/-- The enum `TVMCompilerContext::Color`. -/
inductive Color where
  | White
  | Red
  | Black
  deriving DecidableEq, Repr

/-- The members `graph` and `color` of `TVMCompilerContext`. A function
definition is the number of its address. The map `graph` from a function to the
set of the functions it calls is the list `graphKeys` of its keys with the set
`graph k` of every key `k`, and the map `color` gives `none` where it has no
entry. -/
structure TVMCompilerContext where
  graphKeys : List Nat
  graph : Nat → List Nat
  color : Nat → Option Color

/-- The context before the first call: both maps are empty. -/
def TVMCompilerContext.empty : TVMCompilerContext :=
  { graphKeys := [], graph := fun _ => [], color := fun _ => none }

/-- The call `insert(x)` on a `std::set` or the creation of the key `x` of a
`std::map`, on the ordered list of the elements: nothing changes when `x` is
there. -/
def setInsert (x : Nat) (l : List Nat) : List Nat :=
  if x ∈ l then l else l.orderedInsert (fun a b => a ≤ b) x

/-- The call `erase(x)` on a `std::set`. -/
def setErase (x : Nat) (l : List Nat) : List Nat :=
  l.filter (fun y => y != x)

/-- A loop that calls `dfs` on the elements of a list in turn and stops at the
first call that returns true: the loop `for (_to : graph.at(v))` of `dfs`, and
the second loop of `addAndDoesHaveLoop` (where the removal of the edge follows
the result). The colours after the loop come with the result. -/
def dfsAll (dfs : (Nat → Option Color) → Nat → Option (Bool × (Nat → Option Color))) :
    List Nat → (Nat → Option Color) → Option (Bool × (Nat → Option Color))
  | [], color => some (false, color)
  | k :: rest, color =>
    match dfs color k with
    | none => none
    | some (true, color1) => some (true, color1)
    | some (false, color1) => dfsAll dfs rest color1

/-- The method `TVMCompilerContext::dfs(v)` with a bound `fuel` on the depth of
the recursion: the result and the map `color` after the call; `none` is an
exception of `at` or spent fuel. -/
def TVMCompilerContext.dfs (graphKeys : List Nat) (graph : Nat → List Nat) :
    Nat → (Nat → Option Color) → Nat → Option (Bool × (Nat → Option Color))
  | 0, _, _ => none
  | fuel + 1, color, v =>
    match color v with
    | none => none
    | some .Black => some (false, color)
    | some .Red => some (true, color)
    | some .White =>
      if v ∈ graphKeys then
        match dfsAll (TVMCompilerContext.dfs graphKeys graph fuel) (graph v)
            (fun k => if k = v then some .Red else color k) with
        | none => none
        | some (true, color1) => some (true, color1)
        | some (false, color1) =>
          some (false, fun k => if k = v then some .Black else color1 k)
      else none

/-- The method `TVMCompilerContext::addAndDoesHaveLoop(_v, _to)`: the result and
the context after the call. The recursion of `dfs` is bounded by the number of
keys plus one. -/
def TVMCompilerContext.addAndDoesHaveLoop (ctx : TVMCompilerContext) (_v _to : Nat) :
    Option (Bool × TVMCompilerContext) :=
  let keys1 := setInsert _v ctx.graphKeys
  let graph1 : Nat → List Nat := fun k =>
    if k = _v then setInsert _to (if _v ∈ ctx.graphKeys then ctx.graph _v else [])
    else ctx.graph k
  let keys2 := setInsert _to keys1
  let graph2 : Nat → List Nat := fun k =>
    if k = _to then (if _to ∈ keys1 then graph1 _to else []) else graph1 k
  let color1 : Nat → Option Color := fun k => if k ∈ keys2 then some .White else ctx.color k
  match dfsAll (TVMCompilerContext.dfs keys2 graph2 (keys2.length + 1)) keys2 color1 with
  | none => none
  | some (true, color2) =>
    some (true,
      { graphKeys := keys2,
        graph := fun k => if k = _v then setErase _to (graph2 _v) else graph2 k,
        color := color2 })
  | some (false, color2) =>
    some (false, { graphKeys := keys2, graph := graph2, color := color2 })

/-- A sequence of calls of `addAndDoesHaveLoop`, the results dropped. -/
def TVMCompilerContext.addAll (ctx : TVMCompilerContext) :
    List (Nat × Nat) → Option TVMCompilerContext
  | [] => some ctx
  | (_v, _to) :: rest =>
    match ctx.addAndDoesHaveLoop _v _to with
    | none => none
    | some (_, ctx1) => TVMCompilerContext.addAll ctx1 rest

/-- An edge of the call graph: `b` is in the set of `a`. -/
def CallEdge (graph : Nat → List Nat) (a b : Nat) : Prop :=
  b ∈ graph a

/-- The graph has no directed cycle. -/
def Acyclic (graph : Nat → List Nat) : Prop :=
  ∀ a, ¬ Relation.TransGen (CallEdge graph) a a

/-- The number of keys that are white. -/
def whiteCount (keys : List Nat) (color : Nat → Option Color) : Nat :=
  keys.countP (fun k => color k == some Color.White)

/-- The state of the colours between two calls of `dfs`: every key has a
colour, the successors of a black node are black, and no black node lies on a
cycle. -/
structure DfsInv (keys : List Nat) (graph : Nat → List Nat) (color : Nat → Option Color) :
    Prop where
  defined : ∀ k ∈ keys, color k ≠ none
  closed : ∀ b t, color b = some Color.Black → t ∈ graph b → color t = some Color.Black
  noCycle : ∀ b, color b = some Color.Black → ¬ Relation.TransGen (CallEdge graph) b b

/-- What a call of `dfs` that returns false does to the colours: black stays
black, the red nodes are the same, and no node becomes white. -/
def ColorMono (keys : List Nat) (c c1 : Nat → Option Color) : Prop :=
  (∀ k, c k = some Color.Black → c1 k = some Color.Black) ∧
  (∀ k, c1 k = some Color.Red ↔ c k = some Color.Red) ∧
  whiteCount keys c1 ≤ whiteCount keys c

/-- Every edge of the graph joins two keys. -/
def GraphClosed (keys : List Nat) (graph : Nat → List Nat) : Prop :=
  ∀ a b, b ∈ graph a → a ∈ keys ∧ b ∈ keys

/-- The state of the context between two calls of `addAndDoesHaveLoop`: the
edges of the graph join keys, and the graph is acyclic. -/
def ContextInv (ctx : TVMCompilerContext) : Prop :=
  GraphClosed ctx.graphKeys ctx.graph ∧ Acyclic ctx.graph

/-! # Properties -/

/-! ## Public function selector -/

theorem blockSizeLoop_pos (fuel : Nat) :
    ∀ (qty blockSize : Nat), 1 ≤ blockSize → 1 ≤ blockSizeLoop fuel qty blockSize := by
  induction fuel with
  | zero => intro qty bs h; simpa [blockSizeLoop] using h
  | succ n ih =>
    intro qty bs h
    rw [blockSizeLoop]
    split
    · exact ih qty (bs * 4) (by omega)
    · exact h

theorem blockSizeLoop_lt (fuel : Nat) :
    ∀ (qty blockSize : Nat), blockSize < qty → blockSizeLoop fuel qty blockSize < qty := by
  induction fuel with
  | zero => intro qty bs h; simpa [blockSizeLoop] using h
  | succ n ih =>
    intro qty bs h
    rw [blockSizeLoop]
    split
    · exact ih qty (bs * 4) (by omega)
    · exact h

theorem blockSizeLoop_enough (fuel : Nat) :
    ∀ (qty blockSize : Nat), 1 ≤ blockSize → qty ≤ 4 * blockSize + fuel →
      qty ≤ 4 * blockSizeLoop fuel qty blockSize := by
  induction fuel with
  | zero => intro qty bs _ h; simpa [blockSizeLoop] using h
  | succ n ih =>
    intro qty bs h1 h
    rw [blockSizeLoop]
    split
    · exact ih qty (bs * 4) (by omega) (by omega)
    · omega

theorem selectorBlockSize_props (qty : Nat) :
    1 ≤ selectorBlockSize qty ∧ qty ≤ 4 * selectorBlockSize qty ∧
      (1 < qty → selectorBlockSize qty < qty) :=
  ⟨blockSizeLoop_pos qty qty 1 (le_refl 1),
   blockSizeLoop_enough qty qty 1 (le_refl 1) (by omega),
   fun h => blockSizeLoop_lt qty qty 1 h⟩

theorem execList_pushOne (functionId : Nat) (name : String) (rest : List SelInst)
    (k : Nat) (calls : List String) :
    execList (pushOne functionId name ++ rest) { stack := [(k : Int)], calls := calls }
      = if k = functionId then .jumped { stack := [(k : Int)], calls := calls ++ [name] }
        else execList rest { stack := [(k : Int)], calls := calls } := by
  by_cases h : k = functionId
  · simp [pushOne, execList, execInst, h]
  · have : ¬ ((k : Int) = (functionId : Int)) := by omega
    simp [pushOne, execList, execInst, h, this]

theorem execList_leq (functionId : Nat) (body rest : List SelInst)
    (k : Nat) (calls : List String) :
    execList ([.pushS 0, .pushInt functionId, .gen "LEQ", .ifJmpRef body] ++ rest)
        { stack := [(k : Int)], calls := calls }
      = if k ≤ functionId then
          (match execList body { stack := [(k : Int)], calls := calls } with
            | .next s1 => .jumped s1
            | r => r)
        else execList rest { stack := [(k : Int)], calls := calls } := by
  by_cases h : k ≤ functionId
  · have : (k : Int) ≤ (functionId : Int) := by omega
    simp only [List.cons_append, List.nil_append, execList, execInst, h, this, if_true,
      List.getElem?_cons_zero]
    simp
    cases execList body { stack := [(k : Int)], calls := calls } <;> rfl
  · have : ¬ ((k : Int) ≤ (functionId : Int)) := by omega
    simp [execList, execInst, h, this]

theorem selectorLeaves_total (functions : List (Nat × String)) (right : Nat)
    (hr : right ≤ functions.length) (fuel : Nat) :
    ∀ i, right - i ≤ fuel → ∃ prog, selectorLeaves functions right fuel i = some prog := by
  induction fuel with
  | zero =>
    intro i h
    have : ¬ i < right := by omega
    exact ⟨[], by simp [selectorLeaves, this]⟩
  | succ n ih =>
    intro i h
    rw [selectorLeaves]
    by_cases hi : i < right
    · have hil : i < functions.length := by omega
      obtain ⟨rest, hrest⟩ := ih (i + 1) (by omega)
      rcases hfi : functions[i] with ⟨functionId, name⟩
      have hget : functions[i]? = some (functionId, name) := by
        rw [List.getElem?_eq_getElem hil, hfi]
      exact ⟨pushOne functionId name ++ rest, by simp [hi, hget, hrest]⟩
    · exact ⟨[], by simp [hi]⟩

theorem selectorLeaves_covers (functions : List (Nat × String)) (right p k : Nat)
    (name : String) (hr : right ≤ functions.length) (hp : p < right)
    (hfp : functions[p]? = some (k, name))
    (hlt : ∀ i functionId nm, i < p → functions[i]? = some (functionId, nm) → functionId < k)
    (fuel : Nat) :
    ∀ i, i ≤ p → right - i ≤ fuel →
      ∃ prog, selectorLeaves functions right fuel i = some prog ∧
        ∀ calls, execList prog { stack := [(k : Int)], calls := calls }
          = .jumped { stack := [(k : Int)], calls := calls ++ [name] } := by
  induction fuel with
  | zero => intro i hi h; omega
  | succ n ih =>
    intro i hip h
    rw [selectorLeaves]
    have hi : i < right := by omega
    have hil : i < functions.length := by omega
    rcases hfi : functions[i] with ⟨functionId, nm⟩
    have hget : functions[i]? = some (functionId, nm) := by
      rw [List.getElem?_eq_getElem hil, hfi]
    by_cases hieq : i = p
    · subst hieq
      rw [hget] at hfp
      simp only [Option.some.injEq, Prod.mk.injEq] at hfp
      obtain ⟨rfl, rfl⟩ := hfp
      obtain ⟨rest, hrest⟩ := selectorLeaves_total functions right hr n (i + 1) (by omega)
      refine ⟨pushOne functionId nm ++ rest, by simp [hi, hget, hrest], ?_⟩
      intro calls
      rw [execList_pushOne]
      simp
    · obtain ⟨rest, hrest, hrun⟩ := ih (i + 1) (by omega) (by omega)
      refine ⟨pushOne functionId nm ++ rest, by simp [hi, hget, hrest], ?_⟩
      intro calls
      have hne : ¬ (k = functionId) := by
        have := hlt i functionId nm (by omega) hget
        omega
      rw [execList_pushOne, if_neg hne]
      exact hrun calls

theorem selectorNodes_total (sub : Nat → Nat → Option (List SelInst))
    (functions : List (Nat × String)) (blockSize right : Nat)
    (hbs : 1 ≤ blockSize) (hr : right ≤ functions.length)
    (hsub : ∀ i j, j ≤ right → j - i ≤ blockSize → ∃ prog, sub i j = some prog)
    (fuel : Nat) :
    ∀ i, right - i ≤ fuel →
      ∃ prog, selectorNodes sub functions blockSize right fuel i = some prog := by
  induction fuel with
  | zero =>
    intro i h
    have : ¬ i < right := by omega
    exact ⟨[], by simp [selectorNodes, this]⟩
  | succ n ih =>
    intro i h
    rw [selectorNodes]
    by_cases hi : i < right
    · have hj : min (i + blockSize) right - 1 < functions.length := by omega
      obtain ⟨rest, hrest⟩ := ih (i + blockSize) (by omega)
      rcases hfj : functions[min (i + blockSize) right - 1] with ⟨functionId, name⟩
      have hget : functions[min (i + blockSize) right - 1]? = some (functionId, name) := by
        rw [List.getElem?_eq_getElem hj, hfj]
      obtain ⟨body, hbody⟩ := hsub i (min (i + blockSize) right) (by omega) (by omega)
      by_cases h1 : min (i + blockSize) right - i = 1
      · exact ⟨pushOne functionId name ++ rest, by simp [hi, hget, hrest, h1]⟩
      · exact ⟨[.pushS 0, .pushInt functionId, .gen "LEQ", .ifJmpRef body] ++ rest,
          by simp [hi, hget, hrest, h1, hbody]⟩
    · exact ⟨[], by simp [hi]⟩

theorem selectorNodes_covers (sub : Nat → Nat → Option (List SelInst))
    (functions : List (Nat × String)) (blockSize right p k : Nat) (name : String)
    (hbs : 1 ≤ blockSize) (hr : right ≤ functions.length) (hp : p < right)
    (hfp : functions[p]? = some (k, name))
    (hlt : ∀ i functionId nm, i < p → functions[i]? = some (functionId, nm) → functionId < k)
    (hge : ∀ i functionId nm, p ≤ i → functions[i]? = some (functionId, nm) → k ≤ functionId)
    (hsub : ∀ i j, j ≤ right → j - i ≤ blockSize → ∃ prog, sub i j = some prog)
    (hcov : ∀ i j, i ≤ p → p < j → j ≤ right → j - i ≤ blockSize →
      ∃ prog, sub i j = some prog ∧
        ∀ calls, execList prog { stack := [(k : Int)], calls := calls }
          = .jumped { stack := [(k : Int)], calls := calls ++ [name] })
    (fuel : Nat) :
    ∀ i, i ≤ p → right - i ≤ fuel →
      ∃ prog, selectorNodes sub functions blockSize right fuel i = some prog ∧
        ∀ calls, execList prog { stack := [(k : Int)], calls := calls }
          = .jumped { stack := [(k : Int)], calls := calls ++ [name] } := by
  induction fuel with
  | zero => intro i hi h; omega
  | succ n ih =>
    intro i hip h
    rw [selectorNodes]
    have hi : i < right := by omega
    have hj : min (i + blockSize) right - 1 < functions.length := by omega
    rcases hfj : functions[min (i + blockSize) right - 1] with ⟨functionId, nm⟩
    have hget : functions[min (i + blockSize) right - 1]? = some (functionId, nm) := by
      rw [List.getElem?_eq_getElem hj, hfj]
    by_cases hpj : p < min (i + blockSize) right
    · -- the block of `p`
      obtain ⟨rest, hrest⟩ :=
        selectorNodes_total sub functions blockSize right hbs hr hsub n (i + blockSize)
          (by omega)
      by_cases h1 : min (i + blockSize) right - i = 1
      · have hpe : min (i + blockSize) right - 1 = p := by omega
        have hget1 := hget
        rw [hpe, hfp] at hget1
        simp only [Option.some.injEq, Prod.mk.injEq] at hget1
        obtain ⟨hk, hn⟩ := hget1
        subst hk
        subst hn
        refine ⟨pushOne k name ++ rest, by simp [hi, hget, hrest, h1], ?_⟩
        intro calls
        rw [execList_pushOne]
        simp
      · obtain ⟨body, hbody, hrun⟩ :=
          hcov i (min (i + blockSize) right) hip hpj (by omega) (by omega)
        refine ⟨[.pushS 0, .pushInt functionId, .gen "LEQ", .ifJmpRef body] ++ rest,
          by simp [hi, hget, hrest, h1, hbody], ?_⟩
        intro calls
        have hle : k ≤ functionId := hge _ functionId nm (by omega) hget
        rw [execList_leq, if_pos hle, hrun calls]
    · -- a block before the block of `p`
      have hjp : min (i + blockSize) right - 1 < p := by omega
      have hidlt : functionId < k := hlt _ functionId nm hjp hget
      obtain ⟨rest, hrest, hrun⟩ := ih (i + blockSize) (by omega) (by omega)
      obtain ⟨body, hbody⟩ := hsub i (min (i + blockSize) right) (by omega) (by omega)
      by_cases h1 : min (i + blockSize) right - i = 1
      · refine ⟨pushOne functionId nm ++ rest, by simp [hi, hget, hrest, h1], ?_⟩
        intro calls
        rw [execList_pushOne, if_neg (by omega)]
        exact hrun calls
      · refine ⟨[.pushS 0, .pushInt functionId, .gen "LEQ", .ifJmpRef body] ++ rest,
          by simp [hi, hget, hrest, h1, hbody], ?_⟩
        intro calls
        rw [execList_leq, if_neg (by omega)]
        exact hrun calls

theorem buildPublicFunctionSelector_total (functions : List (Nat × String)) (fuel : Nat) :
    ∀ left right, right ≤ functions.length → right - left < fuel →
      ∃ prog, buildPublicFunctionSelector functions fuel left right = some prog := by
  induction fuel with
  | zero => intro left right _ h; omega
  | succ n ih =>
    intro left right hr h
    obtain ⟨hpos, henough, hlt⟩ := selectorBlockSize_props (right - left)
    rw [buildPublicFunctionSelector]
    simp only [if_neg (show ¬ 4 * selectorBlockSize (right - left) < right - left by omega)]
    by_cases hq : right - left ≤ 4
    · simp only [if_pos hq]
      exact selectorLeaves_total functions right hr (right - left) left (le_refl _)
    · simp only [if_neg hq]
      exact selectorNodes_total _ functions _ right hpos hr
        (fun i j hj hij => ih i j (by omega) (by have := hlt (by omega); omega))
        (right - left) left (le_refl _)

theorem buildPublicFunctionSelector_covers (functions : List (Nat × String)) (p k : Nat)
    (name : String) (hfp : functions[p]? = some (k, name))
    (hlt : ∀ i functionId nm, i < p → functions[i]? = some (functionId, nm) → functionId < k)
    (hge : ∀ i functionId nm, p ≤ i → functions[i]? = some (functionId, nm) → k ≤ functionId)
    (fuel : Nat) :
    ∀ left right, left ≤ p → p < right → right ≤ functions.length → right - left < fuel →
      ∃ prog, buildPublicFunctionSelector functions fuel left right = some prog ∧
        ∀ calls, execList prog { stack := [(k : Int)], calls := calls }
          = .jumped { stack := [(k : Int)], calls := calls ++ [name] } := by
  induction fuel with
  | zero => intro left right _ _ _ h; omega
  | succ n ih =>
    intro left right hlp hpr hr h
    obtain ⟨hpos, henough, hbslt⟩ := selectorBlockSize_props (right - left)
    rw [buildPublicFunctionSelector]
    simp only [if_neg (show ¬ 4 * selectorBlockSize (right - left) < right - left by omega)]
    by_cases hq : right - left ≤ 4
    · simp only [if_pos hq]
      exact selectorLeaves_covers functions right p k name hr hpr hfp hlt (right - left) left
        hlp (le_refl _)
    · simp only [if_neg hq]
      exact selectorNodes_covers _ functions _ right p k name hpos hr hpr hfp hlt hge
        (fun i j hj hij => buildPublicFunctionSelector_total functions n i j (by omega)
          (by have := hbslt (by omega); omega))
        (fun i j hip hpj hj hij => ih i j hip hpj (by omega)
          (by have := hbslt (by omega); omega))
        (right - left) left hlp (le_refl _)

theorem sorted_distinct_ids (functions : List (Nat × String))
    (hsorted : functions.Pairwise (fun a b => a.1 ≤ b.1))
    (hdistinct : (functions.map Prod.fst).Nodup) :
    ∀ (i j : Nat) (hi : i < functions.length) (hj : j < functions.length), i < j →
      (functions[i]).1 < (functions[j]).1 := by
  have hne : functions.Pairwise (fun a b => a.1 ≠ b.1) := by
    have := hdistinct
    rw [List.Nodup, List.pairwise_map] at this
    exact this
  have hlt : functions.Pairwise (fun a b => a.1 < b.1) :=
    (hsorted.and hne).imp (fun h => lt_of_le_of_ne h.1 h.2)
  exact List.pairwise_iff_getElem.mp hlt

/-- C1: for a list of `(function-id, macro-name)` pairs sorted by id with
pairwise distinct ids, the selector is built, and run on the id `k` of any
entry it jumps to the leaf of that entry: the macro paired with `k` is called
and no other, with `k` still on the stack. -/
theorem publicFunctionSelector_dispatches (functions : List (Nat × String))
    (hsorted : functions.Pairwise (fun a b => a.1 ≤ b.1))
    (hdistinct : (functions.map Prod.fst).Nodup)
    (p : Nat) (hp : p < functions.length) :
    ∃ prog, generatePublicFunctionSelector functions = some prog ∧
      runSelector prog (functions[p]).1
        = .jumped { stack := [(((functions[p]).1 : Nat) : Int)], calls := [(functions[p]).2] } := by
  have hord := sorted_distinct_ids functions hsorted hdistinct
  have hfp : functions[p]? = some ((functions[p]).1, (functions[p]).2) := by
    rw [List.getElem?_eq_getElem hp]
  have hlt : ∀ i functionId nm, i < p → functions[i]? = some (functionId, nm) →
      functionId < (functions[p]).1 := by
    intro i functionId nm hip hget
    have hi : i < functions.length := by omega
    rw [List.getElem?_eq_getElem hi] at hget
    have := hord i p hi hp hip
    simp only [Option.some.injEq] at hget
    rw [hget] at this
    exact this
  have hge : ∀ i functionId nm, p ≤ i → functions[i]? = some (functionId, nm) →
      (functions[p]).1 ≤ functionId := by
    intro i functionId nm hpi hget
    obtain ⟨hi, hgi⟩ := List.getElem?_eq_some_iff.mp hget
    rcases Nat.eq_or_lt_of_le hpi with heq | hlt'
    · subst heq
      rw [hgi]
    · have := hord p i hp hi hlt'
      rw [hgi] at this
      exact le_of_lt this
  obtain ⟨prog, hprog, hrun⟩ :=
    buildPublicFunctionSelector_covers functions p _ _ hfp hlt hge (functions.length + 1)
      0 functions.length (Nat.zero_le _) hp (le_refl _) (by omega)
  exact ⟨prog, hprog, by simpa [runSelector] using hrun []⟩

/-- C1 at the five ids of the specification's scenario: the id `3` reaches the
macro `c` through the `LEQ` node of the root, the id `5` reaches `e`. -/
theorem publicFunctionSelector_dispatches_witness :
    (∃ prog, generatePublicFunctionSelector
          [(1, "a"), (2, "b"), (3, "c"), (4, "d"), (5, "e")] = some prog ∧
        runSelector prog 3 = .jumped { stack := [3], calls := ["c"] }) ∧
    (∃ prog, generatePublicFunctionSelector
          [(1, "a"), (2, "b"), (3, "c"), (4, "d"), (5, "e")] = some prog ∧
        runSelector prog 5 = .jumped { stack := [5], calls := ["e"] }) :=
  ⟨publicFunctionSelector_dispatches [(1, "a"), (2, "b"), (3, "c"), (4, "d"), (5, "e")]
      (by decide) (by decide) 2 (by decide),
   publicFunctionSelector_dispatches [(1, "a"), (2, "b"), (3, "c"), (4, "d"), (5, "e")]
      (by decide) (by decide) 4 (by decide)⟩

/-! ## DeleterAfterRet -/

theorem deleterAfterRet_foldl_before (l : List TvmAstNode) :
    ∀ acc : List TvmAstNode, (∀ x ∈ l, x.isReturnOrBreakOrCont = false) →
      l.foldl deleterAfterRetStep (false, acc) = (false, acc ++ l) := by
  induction l with
  | nil => intro acc _; simp
  | cons x xs ih =>
    intro acc h
    have hx : x.isReturnOrBreakOrCont = false := h x (List.mem_cons_self _ _)
    have hxs : ∀ y ∈ xs, y.isReturnOrBreakOrCont = false :=
      fun y hy => h y (List.mem_cons_of_mem _ hy)
    simp [List.foldl_cons, deleterAfterRetStep, hx, ih _ hxs]

theorem deleterAfterRet_foldl_after (l : List TvmAstNode) :
    ∀ acc : List TvmAstNode,
      l.foldl deleterAfterRetStep (true, acc) = (true, acc ++ l.filter (fun x => x.isLoc)) := by
  induction l with
  | nil => intro acc; simp
  | cons x xs ih =>
    intro acc
    cases hx : x.isLoc <;> simp [List.foldl_cons, deleterAfterRetStep, hx, ih]

/-- C2: `DeleterAfterRet::endVisit` keeps the block type; a block without a
`ReturnOrBreakOrCont` keeps its instruction list; otherwise the new list is the
part up to and including the first `ReturnOrBreakOrCont`, followed by exactly
the `Loc` nodes of the remainder, in their original order. -/
theorem deleterAfterRet_endVisit_spec (node : CodeBlock) :
    (DeleterAfterRet.endVisit node).type = node.type ∧
    ((∀ x ∈ node.instructions, x.isReturnOrBreakOrCont = false) →
      (DeleterAfterRet.endVisit node).instructions = node.instructions) ∧
    (∀ (pre : List TvmAstNode) (r : TvmAstNode) (post : List TvmAstNode),
      node.instructions = pre ++ r :: post →
      (∀ x ∈ pre, x.isReturnOrBreakOrCont = false) →
      r.isReturnOrBreakOrCont = true →
      (DeleterAfterRet.endVisit node).instructions
        = pre ++ r :: post.filter (fun x => x.isLoc)) := by
  refine ⟨rfl, ?_, ?_⟩
  · intro h
    show deleterAfterRetInstrs node.instructions = node.instructions
    simp [deleterAfterRetInstrs, deleterAfterRet_foldl_before _ [] h]
  · intro pre r post hsplit hpre hr
    show deleterAfterRetInstrs node.instructions = _
    rw [hsplit]
    simp [deleterAfterRetInstrs, List.foldl_append, deleterAfterRet_foldl_before _ [] hpre,
      deleterAfterRetStep, hr, deleterAfterRet_foldl_after]

/-- C2 at a block with two `ReturnOrBreakOrCont` nodes: everything after the
first one is dropped except the two `Loc` nodes. -/
theorem deleterAfterRet_endVisit_spec_witness :
    (DeleterAfterRet.endVisit (.mk .None
      [.DeclRetFlag, .ReturnOrBreakOrCont 0 (.mk .None []), .Loc "a.sol" 1, .DeclRetFlag,
        .ReturnOrBreakOrCont 1 (.mk .None []), .Loc "a.sol" 2])).instructions
      = [.DeclRetFlag, .ReturnOrBreakOrCont 0 (.mk .None []), .Loc "a.sol" 1, .Loc "a.sol" 2] :=
  (deleterAfterRet_endVisit_spec (.mk .None
      [.DeclRetFlag, .ReturnOrBreakOrCont 0 (.mk .None []), .Loc "a.sol" 1, .DeclRetFlag,
        .ReturnOrBreakOrCont 1 (.mk .None []), .Loc "a.sol" 2])).2.2
    [.DeclRetFlag] (.ReturnOrBreakOrCont 0 (.mk .None []))
    [.Loc "a.sol" 1, .DeclRetFlag, .ReturnOrBreakOrCont 1 (.mk .None []), .Loc "a.sol" 2]
    rfl (by simp [TvmAstNode.isReturnOrBreakOrCont]) rfl

/-! ## LocSquasher -/

theorem locSquasherFirstStep_concat (l : List TvmAstNode) (y x : TvmAstNode) :
    locSquasherFirstStep (l ++ [y]) x
      = if y.isLoc && x.isLoc then l ++ [x] else l ++ [y, x] := by
  cases hy : y.isLoc <;> cases hx : x.isLoc <;>
    simp [locSquasherFirstStep, hy, hx, List.dropLast_concat]

theorem chain_concat_loc_swap (l : List TvmAstNode) (y x : TvmAstNode)
    (hy : y.isLoc = true)
    (h : List.Chain' (fun a b : TvmAstNode => ¬(a.isLoc = true ∧ b.isLoc = true)) (l ++ [y])) :
    List.Chain' (fun a b : TvmAstNode => ¬(a.isLoc = true ∧ b.isLoc = true)) (l ++ [x]) := by
  rw [List.chain'_append] at h ⊢
  refine ⟨h.1, List.chain'_singleton _, ?_⟩
  intro a ha b hb
  have := h.2.2 a ha y (by simp)
  intro hab
  exact this ⟨hab.1, hy⟩

theorem locSquasherFirst_foldl (rest : List TvmAstNode) :
    ∀ (l : List TvmAstNode) (y : TvmAstNode),
      (rest.foldl locSquasherFirstStep (l ++ [y])).Sublist (l ++ y :: rest) ∧
      (rest.foldl locSquasherFirstStep (l ++ [y])).filter (fun x => !x.isLoc)
        = (l ++ y :: rest).filter (fun x => !x.isLoc) ∧
      (List.Chain' (fun a b : TvmAstNode => ¬(a.isLoc = true ∧ b.isLoc = true)) (l ++ [y]) →
        List.Chain' (fun a b : TvmAstNode => ¬(a.isLoc = true ∧ b.isLoc = true))
          (rest.foldl locSquasherFirstStep (l ++ [y]))) := by
  induction rest with
  | nil => intro l y; simp
  | cons x xs ih =>
    intro l y
    rw [List.foldl_cons, locSquasherFirstStep_concat]
    by_cases hboth : (y.isLoc && x.isLoc) = true
    · have hy : y.isLoc = true := by simp at hboth; exact hboth.1
      rw [if_pos hboth]
      obtain ⟨h1, h2, h3⟩ := ih l x
      refine ⟨?_, ?_, ?_⟩
      · exact h1.trans (List.Sublist.append_left (List.sublist_cons_self y (x :: xs)) l)
      · rw [h2]; simp [List.filter_cons, hy]
      · intro hc
        exact h3 (chain_concat_loc_swap l y x hy hc)
    · rw [if_neg hboth]
      obtain ⟨h1, h2, h3⟩ := ih (l ++ [y]) x
      have e1 : l ++ [y, x] = (l ++ [y]) ++ [x] := by simp
      have e2 : l ++ y :: x :: xs = (l ++ [y]) ++ x :: xs := by simp
      rw [e1, e2]
      refine ⟨h1, h2, ?_⟩
      intro hc
      apply h3
      rw [List.chain'_append]
      refine ⟨hc, List.chain'_singleton _, ?_⟩
      intro a ha b hb
      simp at ha hb
      subst ha; subst hb
      intro hab
      exact hboth (by simp [hab.1, hab.2])

theorem locSquasherFirst_props (a : List TvmAstNode) :
    (locSquasherFirst a).Sublist a ∧
    (locSquasherFirst a).filter (fun x => !x.isLoc) = a.filter (fun x => !x.isLoc) ∧
    List.Chain' (fun a b : TvmAstNode => ¬(a.isLoc = true ∧ b.isLoc = true))
      (locSquasherFirst a) := by
  cases a with
  | nil => simp [locSquasherFirst]
  | cons front rest =>
    obtain ⟨h1, h2, h3⟩ := locSquasherFirst_foldl rest [] front
    exact ⟨h1, h2, h3 (List.chain'_singleton _)⟩

theorem locSquasherSecond_foldl (l : List TvmAstNode) :
    ∀ (res : List TvmAstNode) (last : Option (String × Int)),
      ∃ t : List TvmAstNode,
        (l.foldl locSquasherSecondStep (res, last)).1 = res ++ t ∧
        t.Sublist l ∧
        t.filter (fun x => !x.isLoc) = l.filter (fun x => !x.isLoc) ∧
        List.Chain' (fun a b : String × Int => a ≠ b) (t.filterMap TvmAstNode.locKey) ∧
        (∀ k ∈ (t.filterMap TvmAstNode.locKey).head?, last ≠ some k) := by
  induction l with
  | nil => intro res last; exact ⟨[], by simp⟩
  | cons x xs ih =>
    intro res last
    rw [List.foldl_cons]
    cases x with
    | Loc file line =>
      by_cases hk : last = some (file, line)
      · obtain ⟨t, h1, h2, h3, h4, h5⟩ := ih res (some (file, line))
        refine ⟨t, ?_, h2.trans (List.sublist_cons_self _ _), ?_, h4, ?_⟩
        · simpa [locSquasherSecondStep, hk] using h1
        · simpa [List.filter_cons, TvmAstNode.isLoc] using h3
        · intro k hkk; rw [hk]; exact h5 k hkk
      · obtain ⟨t, h1, h2, h3, h4, h5⟩ := ih (res ++ [.Loc file line]) (some (file, line))
        refine ⟨.Loc file line :: t, ?_, h2.cons₂ _, ?_, ?_, ?_⟩
        · have hne : (last.isNone || last != some (file, line)) = true := by
            cases last with
            | none => simp
            | some v =>
              have : v ≠ (file, line) := fun e => hk (by rw [e])
              simp [this]
          simpa [locSquasherSecondStep, hne] using h1
        · simpa [List.filter_cons, TvmAstNode.isLoc] using h3
        · simp only [List.filterMap_cons, TvmAstNode.locKey]
          rw [List.chain'_cons']
          refine ⟨?_, h4⟩
          intro k hkk e
          exact h5 k hkk (by rw [e])
        · intro k hkk
          simp [TvmAstNode.locKey] at hkk
          subst hkk
          exact hk
    | _ =>
      obtain ⟨t, h1, h2, h3, h4, h5⟩ := ih (res ++ [_]) last
      refine ⟨_ :: t, ?_, h2.cons₂ _, ?_, ?_, ?_⟩
      · simpa [locSquasherSecondStep] using h1
      · simpa [List.filter_cons, TvmAstNode.isLoc] using h3
      · simpa [TvmAstNode.locKey] using h4
      · simpa [TvmAstNode.locKey] using h5

theorem sublist_filter_eq_head (x : TvmAstNode) (hx : x.isLoc = false) :
    ∀ (out inp : List TvmAstNode), out.Sublist (x :: inp) →
      out.filter (fun a => !a.isLoc) = (x :: inp).filter (fun a => !a.isLoc) →
      ∃ out1, out = x :: out1 ∧ out1.Sublist inp ∧
        out1.filter (fun a => !a.isLoc) = inp.filter (fun a => !a.isLoc) := by
  intro out inp hs hf
  cases hs with
  | cons _ h =>
    exfalso
    have hlen := (h.filter (fun a => !a.isLoc)).length_le
    rw [hf] at hlen
    simp [List.filter_cons, hx] at hlen
  | cons₂ _ h =>
    rename_i out1
    refine ⟨out1, rfl, h, ?_⟩
    simpa [List.filter_cons, hx] using hf

theorem chain_of_sublist_keeping_nonLoc :
    ∀ (inp out : List TvmAstNode), out.Sublist inp →
      out.filter (fun a => !a.isLoc) = inp.filter (fun a => !a.isLoc) →
      List.Chain' (fun a b : TvmAstNode => ¬(a.isLoc = true ∧ b.isLoc = true)) inp →
      List.Chain' (fun a b : TvmAstNode => ¬(a.isLoc = true ∧ b.isLoc = true)) out := by
  intro inp
  induction inp with
  | nil => intro out hs _ _; rw [List.sublist_nil.mp hs]; exact List.chain'_nil
  | cons x xs ih =>
    intro out hs hf hc
    cases hxl : x.isLoc with
    | false =>
      obtain ⟨out1, rfl, hs1, hf1⟩ := sublist_filter_eq_head x hxl out xs hs hf
      rw [List.chain'_cons']
      refine ⟨?_, ih out1 hs1 hf1 hc.tail⟩
      intro b _ hab
      rw [hxl] at hab
      exact Bool.false_ne_true hab.1
    | true =>
      have hfx : (x :: xs).filter (fun a => !a.isLoc) = xs.filter (fun a => !a.isLoc) := by
        simp [List.filter_cons, hxl]
      cases hs with
      | cons _ h => exact ih out h (hf.trans hfx) hc.tail
      | cons₂ _ h =>
        rename_i out1
        have hf1 : out1.filter (fun a => !a.isLoc) = xs.filter (fun a => !a.isLoc) := by
          simpa [List.filter_cons, hxl] using hf
        rw [List.chain'_cons']
        refine ⟨?_, ih out1 h hf1 hc.tail⟩
        intro b hb hab
        cases xs with
        | nil =>
          rw [List.sublist_nil.mp h] at hb
          simp at hb
        | cons z zs =>
          have hz : z.isLoc = false := by
            cases hzl : z.isLoc with
            | false => rfl
            | true => exact absurd ⟨hxl, hzl⟩ (List.chain'_cons.mp hc).1
          obtain ⟨out2, rfl, _, _⟩ := sublist_filter_eq_head z hz out1 zs h hf1
          simp at hb
          subst hb
          rw [hz] at hab
          exact Bool.false_ne_true hab.2

theorem locSquasherInstrs_props (a : List TvmAstNode) :
    (locSquasherInstrs a).Sublist a ∧
    (locSquasherInstrs a).filter (fun x => !x.isLoc) = a.filter (fun x => !x.isLoc) ∧
    List.Chain' (fun a b : TvmAstNode => ¬(a.isLoc = true ∧ b.isLoc = true))
      (locSquasherInstrs a) ∧
    List.Chain' (fun a b : String × Int => a ≠ b)
      ((locSquasherInstrs a).filterMap TvmAstNode.locKey) := by
  obtain ⟨f1, f2, f3⟩ := locSquasherFirst_props a
  obtain ⟨t, h1, h2, h3, h4, _⟩ := locSquasherSecond_foldl (locSquasherFirst a) [] none
  have ht : locSquasherInstrs a = t := by
    simpa [locSquasherInstrs, locSquasherSecond] using h1
  rw [ht]
  exact ⟨h2.trans f1, h3.trans f2, chain_of_sublist_keeping_nonLoc _ _ h2 h3 f3, h4⟩

/-- C3, as the code has it: after `LocSquasher::visit`, among the `Loc` nodes
that remain in the block no two consecutive ones (with only non-Loc
instructions between them) have the same `(file, line)`. -/
theorem locSquasher_visit_no_repeated_loc (node : CodeBlock) :
    List.Chain' (fun a b : String × Int => a ≠ b)
      ((LocSquasher.visit node).instructions.filterMap TvmAstNode.locKey) :=
  (locSquasherInstrs_props node.instructions).2.2.2

/-- C3 fails as stated: in the block `.loc a.sol, 1; DeclRetFlag; .loc a.sol, 2;
DeclRetFlag; .loc a.sol, 1` the pass keeps all five nodes, so two `Loc` nodes
with the same `(file, line)` remain. -/
theorem locSquasher_visit_keeps_distant_duplicate :
    (LocSquasher.visit (.mk .None
      [.Loc "a.sol" 1, .DeclRetFlag, .Loc "a.sol" 2, .DeclRetFlag, .Loc "a.sol" 1])).instructions
      = [.Loc "a.sol" 1, .DeclRetFlag, .Loc "a.sol" 2, .DeclRetFlag, .Loc "a.sol" 1] ∧
    ¬ ((LocSquasher.visit (.mk .None
      [.Loc "a.sol" 1, .DeclRetFlag, .Loc "a.sol" 2, .DeclRetFlag,
        .Loc "a.sol" 1])).instructions.filterMap TvmAstNode.locKey).Nodup := by
  constructor
  · rfl
  · decide

/-- C4: `LocSquasher::visit` keeps the block type, leaves no two adjacent `Loc`
nodes, keeps the subsequence of non-Loc instructions exactly as it was, and
only deletes: the new list is a subsequence of the old one. -/
theorem locSquasher_visit_frame (node : CodeBlock) :
    (LocSquasher.visit node).type = node.type ∧
    List.Chain' (fun a b : TvmAstNode => ¬(a.isLoc = true ∧ b.isLoc = true))
      (LocSquasher.visit node).instructions ∧
    (LocSquasher.visit node).instructions.filter (fun x => !x.isLoc)
      = node.instructions.filter (fun x => !x.isLoc) ∧
    (LocSquasher.visit node).instructions.Sublist node.instructions :=
  ⟨rfl, (locSquasherInstrs_props node.instructions).2.2.1,
    (locSquasherInstrs_props node.instructions).2.1,
    (locSquasherInstrs_props node.instructions).1⟩

/-! ## DeleterCallX -/

theorem deleterCallXLoop_locs (pre : List TvmAstNode) (hpre : ∀ x ∈ pre, x.isLoc = true) :
    ∀ (rest newCmds : List TvmAstNode),
      deleterCallXLoop (pre ++ rest) newCmds = deleterCallXLoop rest (newCmds ++ pre) := by
  induction pre with
  | nil => intro rest newCmds; simp
  | cons x xs ih =>
    intro rest newCmds
    have hx : x.isLoc = true := hpre x (List.mem_cons_self _ _)
    have hxs : ∀ y ∈ xs, y.isLoc = true := fun y hy => hpre y (List.mem_cons_of_mem _ hy)
    cases x <;> simp [TvmAstNode.isLoc] at hx
    simp [deleterCallXLoop, ih hxs]

theorem deleterCallXLoop_other (l : List TvmAstNode) :
    ∀ (newCmds : List TvmAstNode) (x : TvmAstNode), x ∈ l → x.isLoc = false →
      x.isSubProgram = false → deleterCallXLoop l newCmds = none := by
  induction l with
  | nil => intro _ x hx; simp at hx
  | cons y ys ih =>
    intro newCmds x hx hl hs
    rcases List.mem_cons.mp hx with rfl | hmem
    · cases x <;> simp [TvmAstNode.isLoc, TvmAstNode.isSubProgram] at hl hs <;>
        simp [deleterCallXLoop]
    · cases y <;> simp [deleterCallXLoop] <;> exact ih _ x hmem hl hs

theorem qtyWithoutLoc_single (pre post : List TvmAstNode) (x : TvmAstNode)
    (hpre : ∀ a ∈ pre, a.isLoc = true) (hpost : ∀ a ∈ post, a.isLoc = true)
    (hx : x.isLoc = false) : qtyWithoutLoc (pre ++ x :: post) = 1 := by
  have h1 : pre.countP (fun op => !op.isLoc) = 0 := by
    rw [List.countP_eq_zero]; intro a ha; simp [hpre a ha]
  have h2 : post.countP (fun op => !op.isLoc) = 0 := by
    rw [List.countP_eq_zero]; intro a ha; simp [hpost a ha]
  simp [qtyWithoutLoc, List.countP_append, List.countP_cons, h1, h2, hx]

/-- C5: when the only non-Loc instruction of a function body is a `CALLX`
SubProgram, `DeleterCallX::visit` puts the instructions of the SubProgram's
block in its place, between the `Loc` nodes that stood before and after it;
the block type and the function's take, ret, name and kind stay. -/
theorem deleterCallX_visit_inlines (node : Function) (pre post : List TvmAstNode)
    (take ret : Int) (block : CodeBlock)
    (hsplit : node.block.instructions = pre ++ .SubProgram take ret .CALLX block :: post)
    (hpre : ∀ x ∈ pre, x.isLoc = true) (hpost : ∀ x ∈ post, x.isLoc = true) :
    (DeleterCallX.visit node).block.instructions = pre ++ block.instructions ++ post ∧
    (DeleterCallX.visit node).block.type = node.block.type ∧
    (DeleterCallX.visit node).take = node.take ∧
    (DeleterCallX.visit node).ret = node.ret ∧
    (DeleterCallX.visit node).name = node.name ∧
    (DeleterCallX.visit node).type = node.type := by
  have hq : qtyWithoutLoc node.block.instructions = 1 := by
    rw [hsplit]; exact qtyWithoutLoc_single pre post _ hpre hpost rfl
  have hloop : deleterCallXLoop node.block.instructions []
      = some (pre ++ block.instructions ++ post) := by
    rw [hsplit, deleterCallXLoop_locs pre hpre]
    have := deleterCallXLoop_locs post hpost [] ([] ++ pre ++ block.instructions)
    simp only [List.append_nil, List.nil_append] at this
    simp [deleterCallXLoop, this]
  have hv : DeleterCallX.visit node
      = { node with block := node.block.upd (pre ++ block.instructions ++ post) } := by
    simp only [DeleterCallX.visit, hq, hloop, if_true]
  rw [hv]
  exact ⟨rfl, rfl, rfl, rfl, rfl, rfl⟩

/-- C5 at the body `.loc; PUSHCONT (DeclRetFlag; RET) CALLX; .loc`. -/
theorem deleterCallX_visit_inlines_witness :
    (DeleterCallX.visit
      { take := 1, ret := 1, name := "f", type := .Macro,
        block := .mk .None [.Loc "a.sol" 3,
          .SubProgram 1 1 .CALLX (.mk .None [.DeclRetFlag, .TvmReturn .RET]),
          .Loc "a.sol" 0] }).block.instructions
      = [.Loc "a.sol" 3, .DeclRetFlag, .TvmReturn .RET, .Loc "a.sol" 0] :=
  (deleterCallX_visit_inlines
      { take := 1, ret := 1, name := "f", type := .Macro,
        block := .mk .None [.Loc "a.sol" 3,
          .SubProgram 1 1 .CALLX (.mk .None [.DeclRetFlag, .TvmReturn .RET]),
          .Loc "a.sol" 0] }
      [.Loc "a.sol" 3] [.Loc "a.sol" 0] 1 1 (.mk .None [.DeclRetFlag, .TvmReturn .RET])
      rfl (by simp [TvmAstNode.isLoc]) (by simp [TvmAstNode.isLoc])).1

/-- C6, as the code has it: `DeleterCallX::visit` leaves the function as it is
whenever the body does not consist of exactly one non-Loc instruction that is
a SubProgram, that is when the number of non-Loc instructions is not one, or
some non-Loc instruction is not a SubProgram. -/
theorem deleterCallX_visit_unchanged (node : Function)
    (h : qtyWithoutLoc node.block.instructions = 1 →
      ∃ x ∈ node.block.instructions, x.isLoc = false ∧ x.isSubProgram = false) :
    DeleterCallX.visit node = node := by
  unfold DeleterCallX.visit
  split
  · rename_i hq
    obtain ⟨x, hmem, hl, hs⟩ := h hq
    rw [deleterCallXLoop_other _ [] x hmem hl hs]
  · rfl

/-- C6 (amended) at a body with two non-Loc instructions and at a body whose
only non-Loc instruction is not a SubProgram. -/
theorem deleterCallX_visit_unchanged_witness :
    DeleterCallX.visit
        { take := 0, ret := 0, name := "f", type := .Macro,
          block := .mk .None [.Loc "a.sol" 3, .DeclRetFlag, .TvmReturn .RET] }
      = { take := 0, ret := 0, name := "f", type := .Macro,
          block := .mk .None [.Loc "a.sol" 3, .DeclRetFlag, .TvmReturn .RET] } ∧
    DeleterCallX.visit
        { take := 0, ret := 0, name := "g", type := .Macro,
          block := .mk .None [.Loc "a.sol" 5, .TvmReturn .RET] }
      = { take := 0, ret := 0, name := "g", type := .Macro,
          block := .mk .None [.Loc "a.sol" 5, .TvmReturn .RET] } :=
  ⟨deleterCallX_visit_unchanged _ (fun hq => absurd hq (by decide)),
   deleterCallX_visit_unchanged _
     (fun _ => ⟨.TvmReturn .RET, by simp [CodeBlock.instructions], rfl, rfl⟩)⟩

/-- C6 fails as stated: a body whose only non-Loc instruction is a SubProgram
of type `CALLREF` is rewritten as well, the SubProgram being replaced by the
instructions of its block. -/
theorem deleterCallX_visit_inlines_callref :
    (DeleterCallX.visit
      { take := 0, ret := 0, name := "f", type := .PrivateFunction,
        block := .mk .None [.Loc "a.sol" 3,
          .SubProgram 0 0 .CALLREF (.mk .None [.DeclRetFlag, .TvmReturn .RET]),
          .Loc "a.sol" 0] }).block.instructions
      = [.Loc "a.sol" 3, .DeclRetFlag, .TvmReturn .RET, .Loc "a.sol" 0] ∧
    (DeleterCallX.visit
      { take := 0, ret := 0, name := "f", type := .PrivateFunction,
        block := .mk .None [.Loc "a.sol" 3,
          .SubProgram 0 0 .CALLREF (.mk .None [.DeclRetFlag, .TvmReturn .RET]),
          .Loc "a.sol" 0] }).block.instructions
      ≠ [.Loc "a.sol" 3,
          .SubProgram 0 0 .CALLREF (.mk .None [.DeclRetFlag, .TvmReturn .RET]),
          .Loc "a.sol" 0] := by
  refine ⟨rfl, ?_⟩
  intro h
  exact absurd (congrArg List.length h) (by decide)

/-! ## LogCircuitExpander -/

theorem stackDeltaSum_append (l₁ l₂ : List TvmAstNode) :
    stackDeltaSum (l₁ ++ l₂) = stackDeltaSum l₁ + stackDeltaSum l₂ := by
  simp [stackDeltaSum]

theorem stackDeltaSum_cons (x : TvmAstNode) (l : List TvmAstNode) :
    stackDeltaSum (x :: l) = stackDelta x + stackDeltaSum l := by
  simp [stackDeltaSum]

theorem stackDelta_makePUSH (i : Int) : stackDelta (makePUSH i) = 1 := rfl

theorem stackDelta_logicGen (type : LogCircuitType) : stackDelta (logicGen type) = -1 := by
  cases type <;> rfl

theorem eq_pushS_of_isPushS (op : TvmAstNode) (h : op.isPushS = true) :
    ∃ i j k, op = .Stack .PUSH_S i j k := by
  cases op with
  | Stack opcode i j k =>
    cases opcode <;> simp [TvmAstNode.isPushS] at h
    exact ⟨i, j, k, rfl⟩
  | _ => simp [TvmAstNode.isPushS] at h

theorem shiftedBody_single_pushS (pushed i j k : Int) :
    shiftedBody pushed [.Stack .PUSH_S i j k]
      = [if pushed ≤ i then makePUSH (i + 1) else makePUSH i] := rfl

theorem stackDelta_pushS (op : TvmAstNode) (h : op.isPushS = true) : stackDelta op = 1 := by
  obtain ⟨i, j, k, rfl⟩ := eq_pushS_of_isPushS op h
  rfl

theorem asGen_of_isPureGen (op : TvmAstNode) (h : op.isPureGen = true) :
    ∃ take ret, op.asGen = some (true, take, ret) := by
  unfold TvmAstNode.isPureGen at h
  cases hg : op.asGen with
  | none => rw [hg] at h; simp at h
  | some v =>
    obtain ⟨b, t, r⟩ := v
    cases b
    · rw [hg] at h; simp at h
    · exact ⟨t, r, rfl⟩

theorem shiftedBody_single_gen (pushed : Int) (op : TvmAstNode) (v : Bool × Int × Int)
    (h : op.asGen = some v) : shiftedBody pushed [op] = [op] := by
  cases op <;> simp [TvmAstNode.asGen] at h <;> simp [shiftedBody]

theorem isPureOperation_pureOrPush (op : TvmAstNode) (s : ExpanderState)
    (h : op.isPureGen = true ∨ op.isPushS = true) :
    isPureOperation op s
      = (true, { m_stackSize := s.m_stackSize + stackDelta op,
                 m_newInst := s.m_newInst ++ shiftedBody (s.m_stackSize - 1) [op] }) ∧
    op.isLogCircuit = false := by
  rcases h with h | h
  · obtain ⟨take, ret, hg⟩ := asGen_of_isPureGen op h
    have hd : stackDelta op = ret - take := by simp [stackDelta, hg]
    have hl : op.isLogCircuit = false := by
      cases op <;> simp [TvmAstNode.asGen] at hg <;> rfl
    refine ⟨?_, hl⟩
    rw [shiftedBody_single_gen _ op _ hg, hd]
    simp only [isPureOperation, hg]
    congr 2
    ring
  · obtain ⟨i, j, k, rfl⟩ := eq_pushS_of_isPushS op h
    by_cases hlt : i + 1 < s.m_stackSize
    · have : ¬ (s.m_stackSize - 1 ≤ i) := by omega
      simp [isPureOperation, TvmAstNode.asGen, TvmAstNode.isLogCircuit, hlt, stackDelta,
        shiftedBody, this]
    · have : s.m_stackSize - 1 ≤ i := by omega
      simp [isPureOperation, TvmAstNode.asGen, TvmAstNode.isLogCircuit, hlt, stackDelta,
        shiftedBody, this]

theorem shiftedBody_cons (pushed : Int) (op : TvmAstNode) (rest : List TvmAstNode) :
    shiftedBody pushed (op :: rest)
      = shiftedBody pushed [op] ++ shiftedBody (pushed + stackDelta op) rest := by
  cases op <;> simp [shiftedBody]
  rename_i opcode i j k
  cases opcode <;> simp [shiftedBody, stackDelta, TvmAstNode.asGen]

theorem scanBody_pureOrPush (mid : List TvmAstNode) :
    ∀ (tl : List TvmAstNode) (isPure : Bool) (s : ExpanderState),
      (∀ op ∈ mid, op.isPureGen = true ∨ op.isPushS = true) →
      scanBody (mid ++ tl) isPure s
        = scanBody tl isPure
            { m_stackSize := s.m_stackSize + stackDeltaSum mid,
              m_newInst := s.m_newInst ++ shiftedBody (s.m_stackSize - 1) mid } := by
  induction mid with
  | nil => intro tl isPure s _; simp [stackDeltaSum, shiftedBody]
  | cons op rest ih =>
    intro tl isPure s h
    have hop := isPureOperation_pureOrPush op s (h op (List.mem_cons_self _ _))
    have hrest : ∀ x ∈ rest, x.isPureGen = true ∨ x.isPushS = true :=
      fun x hx => h x (List.mem_cons_of_mem _ hx)
    rw [List.cons_append, scanBody]
    simp only [hop.1, hop.2, Bool.false_and, Bool.and_true]
    rw [ih tl _ _ hrest, shiftedBody_cons (s.m_stackSize - 1) op rest, stackDeltaSum_cons]
    have e : s.m_stackSize + stackDelta op - 1 = s.m_stackSize - 1 + stackDelta op := by ring
    simp [e, List.append_assoc, add_assoc]

theorem getLast?_shiftedBody_not_logCircuit (mid : List TvmAstNode) :
    ∀ (pushed : Int), (∀ op ∈ mid, op.isPureGen = true ∨ op.isPushS = true) →
      ∀ x ∈ shiftedBody pushed mid, x.isLogCircuit = false := by
  induction mid with
  | nil => intro _ _ x hx; simp [shiftedBody] at hx
  | cons op rest ih =>
    intro pushed h x hx
    rw [shiftedBody_cons] at hx
    rcases List.mem_append.mp hx with hx | hx
    · rcases h op (List.mem_cons_self _ _) with hg | hp
      · obtain ⟨take, ret, hg⟩ := asGen_of_isPureGen op hg
        rw [shiftedBody_single_gen _ op _ hg] at hx
        simp at hx
        subst hx
        cases x <;> simp [TvmAstNode.asGen] at hg <;> rfl
      · obtain ⟨i, j, k, rfl⟩ := eq_pushS_of_isPushS op hp
        rw [shiftedBody_single_pushS] at hx
        simp only [List.mem_singleton] at hx
        subst hx
        split <;> rfl
    · exact ih _ (fun y hy => h y (List.mem_cons_of_mem _ hy)) x hx

theorem stackDelta_shiftedBody_single (pushed : Int) (op : TvmAstNode) :
    stackDeltaSum (shiftedBody pushed [op]) = stackDelta op := by
  by_cases hp : op.isPushS = true
  · obtain ⟨i, j, k, rfl⟩ := eq_pushS_of_isPushS op hp
    rw [shiftedBody_single_pushS]
    split <;> rfl
  · have : shiftedBody pushed [op] = [op] := by
      cases op with
      | Stack opcode i j k =>
        cases opcode <;> first | rfl | exact absurd rfl hp
      | _ => rfl
    rw [this]
    simp [stackDeltaSum]

theorem stackDeltaSum_shiftedBody (mid : List TvmAstNode) :
    ∀ (pushed : Int), stackDeltaSum (shiftedBody pushed mid) = stackDeltaSum mid := by
  induction mid with
  | nil => intro _; rfl
  | cons op rest ih =>
    intro pushed
    rw [shiftedBody_cons, stackDeltaSum_append, stackDelta_shiftedBody_single, ih,
      stackDeltaSum_cons]

/-- The expansion of a LogCircuit whose body is `DROP 1` followed by pure
gen-ops and `PUSH Si` only and leaves one value. -/
theorem expandLogCircuit_plain (type : LogCircuitType) (first : TvmAstNode)
    (rest : List TvmAstNode) (hdrop : isDrop first = some 1)
    (hrest : ∀ op ∈ rest, op.isPureGen = true ∨ op.isPushS = true)
    (hsize : stackDeltaSum rest = 1) :
    expandLogCircuit type (first :: rest)
      = .replace (shiftedBody 0 rest ++ [logicGen type]) := by
  have hscan := scanBody_pureOrPush rest [] true { m_stackSize := 1, m_newInst := [] } hrest
  simp only [List.append_nil, List.nil_append, scanBody, hsize] at hscan
  have hne : shiftedBody 0 rest ≠ [] := by
    intro h0
    have := stackDeltaSum_shiftedBody rest 0
    rw [h0, hsize] at this
    simp [stackDeltaSum] at this
  have hlast := getLast?_shiftedBody_not_logCircuit rest 0 hrest
  simp only [expandLogCircuit, hdrop, hscan]
  simp only [bne_self_eq_false, Bool.false_eq_true, if_false, if_true]
  norm_num
  cases hl : (shiftedBody 0 rest).getLast? with
  | none => exact absurd (List.getLast?_eq_none_iff.mp hl) hne
  | some x =>
    have hx := hlast x (List.mem_of_getLast?_eq_some hl)
    cases x <;> simp [TvmAstNode.isLogCircuit] at hx <;> rfl

theorem expandLogCircuit_plain_assert (type : LogCircuitType) (first : TvmAstNode)
    (rest : List TvmAstNode) (hdrop : isDrop first = some 1)
    (hrest : ∀ op ∈ rest, op.isPureGen = true ∨ op.isPushS = true)
    (hsize : stackDeltaSum rest ≠ 1) :
    expandLogCircuit type (first :: rest) = .assertFailed := by
  have hscan := scanBody_pureOrPush rest [] true { m_stackSize := 1, m_newInst := [] } hrest
  simp only [List.append_nil, List.nil_append, scanBody] at hscan
  have hne : (1 + stackDeltaSum rest != 2) = true := by
    simp only [bne_iff_ne, ne_eq]
    omega
  simp only [expandLogCircuit, hdrop, hscan]
  simp [hne]

theorem shiftedBody_append (a : List TvmAstNode) :
    ∀ (pushed : Int) (b : List TvmAstNode),
      shiftedBody pushed (a ++ b)
        = shiftedBody pushed a ++ shiftedBody (pushed + stackDeltaSum a) b := by
  induction a with
  | nil => intro pushed b; simp [shiftedBody, stackDeltaSum]
  | cons op rest ih =>
    intro pushed b
    rw [List.cons_append, shiftedBody_cons, ih, shiftedBody_cons pushed op rest,
      stackDeltaSum_cons, List.append_assoc, add_assoc]

/-- The expansion of a LogCircuit whose body is `DROP 1`, then pure gen-ops and
`PUSH Si`, then a LogCircuit, and leaves one value: it is kept when the kinds
differ, and fused otherwise. -/
theorem expandLogCircuit_tail (type : LogCircuitType) (first : TvmAstNode)
    (mid : List TvmAstNode) (c : Bool) (t : LogCircuitType) (b : CodeBlock)
    (hdrop : isDrop first = some 1)
    (hmid : ∀ op ∈ mid, op.isPureGen = true ∨ op.isPushS = true)
    (hsize : stackDeltaSum (mid ++ [.LogCircuit c t b]) = 1) :
    expandLogCircuit type (first :: (mid ++ [.LogCircuit c t b]))
      = if t ≠ type then .keep
        else .replace ((shiftedBody 0 mid).dropLast ++
          [logicGen type, makePUSH 0, .LogCircuit c t b]) := by
  have hscan := scanBody_pureOrPush mid [.LogCircuit c t b] true
    { m_stackSize := 1, m_newInst := [] } hmid
  have hsum : stackDeltaSum mid = 2 := by
    rw [stackDeltaSum_append] at hsize
    have : stackDeltaSum [TvmAstNode.LogCircuit c t b] = -1 := rfl
    omega
  simp only [List.nil_append, hsum] at hscan
  have hstep : scanBody [TvmAstNode.LogCircuit c t b] true
      { m_stackSize := 1 + 2, m_newInst := shiftedBody (1 - 1) mid }
      = (true, { m_stackSize := 2,
                 m_newInst := shiftedBody 0 mid ++ [TvmAstNode.LogCircuit c t b] }) := by
    simp [scanBody, isPureOperation, TvmAstNode.asGen, TvmAstNode.isLogCircuit]
  rw [hstep] at hscan
  simp only [expandLogCircuit, hdrop, hscan]
  simp only [bne_self_eq_false, Bool.false_eq_true, if_false, if_true, List.getLast?_concat,
    List.dropLast_concat]
  by_cases hk : t = type
  · simp [hk]
  · simp [hk]

theorem isPureOperation_impure (x : TvmAstNode) (s : ExpanderState)
    (hgen : x.isPureGen = false) (hpush : x.isPushS = false) (hlc : x.isLogCircuit = false) :
    isPureOperation x s = (false, s) := by
  cases x with
  | Stack opcode i j k =>
    cases opcode <;> first | rfl | exact absurd hpush (by simp [TvmAstNode.isPushS])
  | LogCircuit c t b => exact absurd hlc (by simp [TvmAstNode.isLogCircuit])
  | Glob o i t r p =>
    cases p
    · rfl
    · exact absurd hgen (by simp [TvmAstNode.isPureGen, TvmAstNode.asGen])
  | Opaque b t r p =>
    cases p
    · rfl
    · exact absurd hgen (by simp [TvmAstNode.isPureGen, TvmAstNode.asGen])
  | HardCode cd t r p =>
    cases p
    · rfl
    · exact absurd hgen (by simp [TvmAstNode.isPureGen, TvmAstNode.asGen])
  | GenOpcode o a cm t r p =>
    cases p
    · rfl
    · exact absurd hgen (by simp [TvmAstNode.isPureGen, TvmAstNode.asGen])
  | PushCell cell => exact absurd hgen (by simp [TvmAstNode.isPureGen, TvmAstNode.asGen])
  | _ => rfl

theorem scanBody_false (l : List TvmAstNode) :
    ∀ (s : ExpanderState), (scanBody l false s).1 = false := by
  induction l with
  | nil => intro s; rfl
  | cons op rest ih => intro s; simp [scanBody, ih]

theorem scanBody_impure (pre : List TvmAstNode) (x : TvmAstNode) (post : List TvmAstNode)
    (hgen : x.isPureGen = false) (hpush : x.isPushS = false)
    (hlast : x.isLogCircuit = false ∨ post ≠ []) :
    ∀ (isPure : Bool) (s : ExpanderState), (scanBody (pre ++ x :: post) isPure s).1 = false := by
  induction pre with
  | nil =>
    intro isPure s
    rw [List.nil_append, scanBody]
    cases hx : x.isLogCircuit with
    | true =>
      have hpost : post ≠ [] := by
        rcases hlast with h | h
        · rw [hx] at h; exact absurd h (by simp)
        · exact h
      have : post.isEmpty = false := by cases post <;> simp at hpost ⊢
      simp [this, scanBody_false]
    | false =>
      rw [isPureOperation_impure x s hgen hpush hx]
      simp [scanBody_false]
  | cons y ys ih => intro isPure s; rw [List.cons_append, scanBody]; exact ih _ _

theorem logCircuitExpanderStep_leftInPlace (block : List TvmAstNode) (op : TvmAstNode)
    (h : LeftInPlace op) : logCircuitExpanderStep block op = some (block ++ [op]) := by
  cases h with
  | other _ h =>
    cases op with
    | LogCircuit c t b => exact absurd h (by simp [TvmAstNode.isLogCircuit])
    | _ => rfl
  | cannotExpand type body => rfl
  | impure type bodyType first pre x post hdrop hgen hpush hlast =>
    have hs := scanBody_impure pre x post hgen hpush hlast true
      { m_stackSize := 1, m_newInst := [] }
    simp [logCircuitExpanderStep, CodeBlock.instructions, expandLogCircuit, hdrop, hs]
  | otherKind type bodyType first mid c t b hdrop hmid hsize hkind =>
    simp [logCircuitExpanderStep, CodeBlock.instructions,
      expandLogCircuit_tail type first mid c t b hdrop hmid hsize, hkind]

theorem logCircuitExpanderLoop_leftInPlace (l : List TvmAstNode) :
    ∀ (rest block : List TvmAstNode), (∀ op ∈ l, LeftInPlace op) →
      logCircuitExpanderLoop (l ++ rest) block = logCircuitExpanderLoop rest (block ++ l) := by
  induction l with
  | nil => intro rest block _; simp
  | cons op ops ih =>
    intro rest block h
    rw [List.cons_append, logCircuitExpanderLoop,
      logCircuitExpanderStep_leftInPlace block op (h op (List.mem_cons_self _ _))]
    simp only
    rw [ih rest _ (fun y hy => h y (List.mem_cons_of_mem _ hy))]
    simp

theorem logCircuitExpanderStep_replace (block : List TvmAstNode) (dup : TvmAstNode)
    (type : LogCircuitType) (body : CodeBlock) (newInst : List TvmAstNode)
    (h : expandLogCircuit type body.instructions = .replace newInst) :
    logCircuitExpanderStep (block ++ [dup]) (.LogCircuit true type body)
      = some (block ++ newInst) := by
  simp [logCircuitExpanderStep, h]

theorem codeBlock_upd_instructions (node : CodeBlock) : node.upd node.instructions = node := by
  cases node; rfl

/-- For a LogCircuit with `canExpand` set whose body is `DROP 1` followed by pure
gen-ops and `PUSH Si` and leaves one value, with or without a final LogCircuit
of the same kind that stands right after a `PUSH Si` (its `DUP`), the sequence
put in place of the `DUP` + LogCircuit pair has net stack effect 0, the effect
of the pair. -/
theorem logCircuitExpander_stack_effect (type : LogCircuitType) (bodyType : CodeBlockType)
    (first : TvmAstNode) (mid : List TvmAstNode)
    (hdrop : isDrop first = some 1)
    (hmid : ∀ op ∈ mid, op.isPureGen = true ∨ op.isPushS = true) :
    (∀ body, stackDeltaSum [makePUSH 0, .LogCircuit true type body] = 0) ∧
    (stackDeltaSum mid = 1 →
      ∃ newInst,
        (∀ block dup, logCircuitExpanderStep (block ++ [dup])
            (.LogCircuit true type (.mk bodyType (first :: mid))) = some (block ++ newInst)) ∧
        stackDeltaSum newInst = 0) ∧
    (∀ i j k c b,
      stackDeltaSum (mid ++ [.Stack .PUSH_S i j k, .LogCircuit c type b]) = 1 →
      ∃ newInst,
        (∀ block dup, logCircuitExpanderStep (block ++ [dup])
            (.LogCircuit true type
              (.mk bodyType (first :: (mid ++ [.Stack .PUSH_S i j k, .LogCircuit c type b]))))
            = some (block ++ newInst)) ∧
        stackDeltaSum newInst = 0) := by
  refine ⟨fun _ => rfl, ?_, ?_⟩
  · intro hsize
    refine ⟨shiftedBody 0 mid ++ [logicGen type], ?_, ?_⟩
    · intro block dup
      exact logCircuitExpanderStep_replace block dup type _ _
        (expandLogCircuit_plain type first mid hdrop hmid hsize)
    · rw [stackDeltaSum_append, stackDeltaSum_shiftedBody, hsize, stackDeltaSum_cons,
        stackDelta_logicGen]
      rfl
  · intro i j k c b hsize
    have hmid1 : ∀ op ∈ mid ++ [TvmAstNode.Stack .PUSH_S i j k],
        op.isPureGen = true ∨ op.isPushS = true := by
      intro op hop
      rcases List.mem_append.mp hop with h | h
      · exact hmid op h
      · simp only [List.mem_singleton] at h
        subst h
        exact Or.inr rfl
    have hsize1 : stackDeltaSum ((mid ++ [TvmAstNode.Stack .PUSH_S i j k]) ++
        [TvmAstNode.LogCircuit c type b]) = 1 := by
      simpa using hsize
    have hexp := expandLogCircuit_tail type first (mid ++ [TvmAstNode.Stack .PUSH_S i j k])
      c type b hdrop hmid1 hsize1
    have hdl : (shiftedBody 0 (mid ++ [TvmAstNode.Stack .PUSH_S i j k])).dropLast
        = shiftedBody 0 mid := by
      rw [shiftedBody_append, shiftedBody_single_pushS, List.dropLast_concat]
    rw [hdl] at hexp
    simp only [ne_eq, not_true_eq_false, if_false, List.append_assoc, List.singleton_append]
      at hexp
    have hsum : stackDeltaSum mid = 1 := by
      rw [stackDeltaSum_append, stackDeltaSum_cons, stackDeltaSum_cons] at hsize
      have h1 : stackDelta (TvmAstNode.Stack .PUSH_S i j k) = 1 := rfl
      have h2 : stackDelta (TvmAstNode.LogCircuit c type b) = -1 := rfl
      have h3 : stackDeltaSum [] = 0 := rfl
      omega
    refine ⟨shiftedBody 0 mid ++ [logicGen type, makePUSH 0, .LogCircuit c type b], ?_, ?_⟩
    · intro block dup
      exact logCircuitExpanderStep_replace block dup type _ _ hexp
    · rw [stackDeltaSum_append, stackDeltaSum_shiftedBody, hsum, stackDeltaSum_cons,
        stackDeltaSum_cons, stackDeltaSum_cons, stackDelta_logicGen, stackDelta_makePUSH]
      rfl

/-- C7 (amended) at the body `DROP; PUSH S2; DUP; LogCircuit AND`: the fused
expansion `PUSH S3; AND; DUP; LogCircuit` has net effect 0. -/
theorem logCircuitExpander_stack_effect_witness :
    ∃ newInst,
      (∀ block dup, logCircuitExpanderStep (block ++ [dup])
          (.LogCircuit true .AND (.mk .None (.Stack .DROP 1 (-1) (-1) ::
            ([.Stack .PUSH_S 2 (-1) (-1)] ++ [.Stack .PUSH_S 0 (-1) (-1),
              .LogCircuit false .AND (.mk .None [.Stack .DROP 1 (-1) (-1),
                .Stack .PUSH_S 3 (-1) (-1)])]))))
          = some (block ++ newInst)) ∧
      stackDeltaSum newInst = 0 :=
  (logCircuitExpander_stack_effect .AND .None (.Stack .DROP 1 (-1) (-1))
      [.Stack .PUSH_S 2 (-1) (-1)] rfl
      (by intro op hop; simp only [List.mem_singleton] at hop; subst hop; exact Or.inr rfl)).2.2
    0 (-1) (-1) false (.mk .None [.Stack .DROP 1 (-1) (-1), .Stack .PUSH_S 3 (-1) (-1)]) rfl

/-- C8: for a LogCircuit with `canExpand` set whose body is `DROP 1` followed by
pure gen-ops and `PUSH Si` only, the expander removes the instruction before the
LogCircuit and the LogCircuit and puts in their place the body without the
`DROP`, each `PUSH Si` that reaches below the values pushed so far turned into
`PUSH S(i+1)`, followed by one `AND` (resp. `OR`); the rest of the block is
untouched. The only other outcome is the failed assertion `m_stackSize == 2`,
which does not occur when the body leaves one value. -/
theorem logCircuitExpander_expands_pure_body (type : LogCircuitType)
    (bodyType : CodeBlockType) (first : TvmAstNode) (rest : List TvmAstNode)
    (hdrop : isDrop first = some 1)
    (hrest : ∀ op ∈ rest, op.isPureGen = true ∨ op.isPushS = true) :
    (∀ block dup out, logCircuitExpanderStep (block ++ [dup])
        (.LogCircuit true type (.mk bodyType (first :: rest))) = some out →
        out = block ++ shiftedBody 0 rest ++ [logicGen type]) ∧
    (stackDeltaSum rest = 1 →
      ∀ block dup, logCircuitExpanderStep (block ++ [dup])
        (.LogCircuit true type (.mk bodyType (first :: rest)))
        = some (block ++ shiftedBody 0 rest ++ [logicGen type])) ∧
    (stackDeltaSum rest = 1 →
      ∀ blockType pre dup post, (∀ op ∈ pre, LeftInPlace op) → LeftInPlace dup →
      (∀ op ∈ post, LeftInPlace op) →
      LogCircuitExpander.endVisit (.mk blockType
          (pre ++ dup :: .LogCircuit true type (.mk bodyType (first :: rest)) :: post))
        = some (.mk blockType (pre ++ shiftedBody 0 rest ++ logicGen type :: post))) ∧
    logicGen .AND = gen "AND" ∧ logicGen .OR = gen "OR" := by
  have hstep : stackDeltaSum rest = 1 → ∀ block dup, logCircuitExpanderStep (block ++ [dup])
      (.LogCircuit true type (.mk bodyType (first :: rest)))
      = some (block ++ shiftedBody 0 rest ++ [logicGen type]) := by
    intro hsize block dup
    rw [logCircuitExpanderStep_replace block dup type (.mk bodyType (first :: rest)) _
      (expandLogCircuit_plain type first rest hdrop hrest hsize), List.append_assoc]
  refine ⟨?_, hstep, ?_, rfl, rfl⟩
  · intro block dup out hout
    by_cases hsize : stackDeltaSum rest = 1
    · rw [hstep hsize block dup] at hout
      exact (Option.some.inj hout).symm
    · have hfail := expandLogCircuit_plain_assert type first rest hdrop hrest hsize
      simp [logCircuitExpanderStep, CodeBlock.instructions, hfail] at hout
  intro hsize blockType pre dup post hpre hdup hpost
  have hpre1 : ∀ op ∈ pre ++ [dup], LeftInPlace op := by
    intro op hop
    rcases List.mem_append.mp hop with h | h
    · exact hpre op h
    · simp only [List.mem_singleton] at h
      subst h
      exact hdup
  have e : pre ++ dup :: .LogCircuit true type (.mk bodyType (first :: rest)) :: post
      = (pre ++ [dup]) ++ (.LogCircuit true type (.mk bodyType (first :: rest)) :: post) := by
    simp
  have hloop : logCircuitExpanderLoop
      (pre ++ dup :: .LogCircuit true type (.mk bodyType (first :: rest)) :: post) []
      = some (pre ++ shiftedBody 0 rest ++ logicGen type :: post) := by
    rw [e, logCircuitExpanderLoop_leftInPlace (pre ++ [dup]) _ [] hpre1, List.nil_append,
      logCircuitExpanderLoop, hstep hsize]
    simp only
    have := logCircuitExpanderLoop_leftInPlace post []
      (pre ++ shiftedBody 0 rest ++ [logicGen type]) hpost
    rw [List.append_nil] at this
    rw [this]
    simp [logCircuitExpanderLoop]
  simp [LogCircuitExpander.endVisit, CodeBlock.instructions, hloop, CodeBlock.upd,
    CodeBlock.type]

/-- C8 at the block `X; DUP; LogCircuit OR (DROP; PUSH S0; PUSHINT 7; PUSH S1; LESS; OR); RET`:
the first `PUSH S0` reaches below the operand and becomes `PUSH S1`, the
`PUSH S1` refers to a value pushed by the body and stays. -/
theorem logCircuitExpander_expands_pure_body_witness :
    LogCircuitExpander.endVisit (.mk .PUSHCONT
        ([.DeclRetFlag] ++ makePUSH 0 :: .LogCircuit true .OR (.mk .None
          (.Stack .DROP 1 (-1) (-1) ::
            [.Stack .PUSH_S 0 (-1) (-1), .GenOpcode "PUSHINT" "7" "" 0 1 true,
              .Stack .PUSH_S 1 (-1) (-1), .GenOpcode "LESS" "" "" 2 1 true,
              .GenOpcode "OR" "" "" 2 1 true])) :: [.TvmReturn .RET]))
      = some (.mk .PUSHCONT
        [.DeclRetFlag, .Stack .PUSH_S 1 (-1) (-1), .GenOpcode "PUSHINT" "7" "" 0 1 true,
          .Stack .PUSH_S 1 (-1) (-1), .GenOpcode "LESS" "" "" 2 1 true,
          .GenOpcode "OR" "" "" 2 1 true, .GenOpcode "OR" "" "" 2 1 true,
          .TvmReturn .RET]) :=
  (logCircuitExpander_expands_pure_body .OR .None (.Stack .DROP 1 (-1) (-1))
      [.Stack .PUSH_S 0 (-1) (-1), .GenOpcode "PUSHINT" "7" "" 0 1 true,
        .Stack .PUSH_S 1 (-1) (-1), .GenOpcode "LESS" "" "" 2 1 true,
        .GenOpcode "OR" "" "" 2 1 true]
      rfl
      (by
        intro op hop
        simp only [List.mem_cons, List.mem_singleton, List.not_mem_nil, or_false] at hop
        rcases hop with h | h | h | h | h <;> subst h <;>
          first | exact Or.inl rfl | exact Or.inr rfl)).2.2.1
    rfl .PUSHCONT [.DeclRetFlag] (makePUSH 0) [.TvmReturn .RET]
    (by
      intro op hop
      simp only [List.mem_singleton] at hop
      subst hop
      exact LeftInPlace.other _ rfl)
    (LeftInPlace.other _ rfl)
    (by
      intro op hop
      simp only [List.mem_singleton] at hop
      subst hop
      exact LeftInPlace.other _ rfl)

/-- C9: a block in which every LogCircuit has `canExpand = false`, or has after
the leading `DROP 1` an instruction that is neither a pure gen-op, nor `PUSH Si`,
nor a LogCircuit in last position, or is pure, leaves one value and ends with a
LogCircuit of the other kind, comes out of `LogCircuitExpander::endVisit` with
the instruction list it had. -/
theorem logCircuitExpander_leaves_in_place (node : CodeBlock)
    (h : ∀ op ∈ node.instructions, LeftInPlace op) :
    LogCircuitExpander.endVisit node = some node := by
  have hloop := logCircuitExpanderLoop_leftInPlace node.instructions [] [] h
  rw [List.append_nil, List.nil_append] at hloop
  simp [LogCircuitExpander.endVisit, hloop, logCircuitExpanderLoop,
    codeBlock_upd_instructions]

/-- C9 at a block that holds one LogCircuit of each kind that is left in place:
one with `canExpand = false`, one whose body holds a `RET`, and a pure `OR`
circuit whose body ends with an `AND` circuit. -/
theorem logCircuitExpander_leaves_in_place_witness :
    LogCircuitExpander.endVisit (.mk .None
        [makePUSH 0,
          .LogCircuit false .AND (.mk .None [.Stack .DROP 1 (-1) (-1), makePUSH 1]),
          makePUSH 0,
          .LogCircuit true .AND (.mk .None
            [.Stack .DROP 1 (-1) (-1), makePUSH 1, .TvmReturn .IFRET]),
          makePUSH 0,
          .LogCircuit true .OR (.mk .None
            [.Stack .DROP 1 (-1) (-1), makePUSH 1, makePUSH 0,
              .LogCircuit false .AND (.mk .None [.Stack .DROP 1 (-1) (-1), makePUSH 2])])])
      = some (.mk .None
        [makePUSH 0,
          .LogCircuit false .AND (.mk .None [.Stack .DROP 1 (-1) (-1), makePUSH 1]),
          makePUSH 0,
          .LogCircuit true .AND (.mk .None
            [.Stack .DROP 1 (-1) (-1), makePUSH 1, .TvmReturn .IFRET]),
          makePUSH 0,
          .LogCircuit true .OR (.mk .None
            [.Stack .DROP 1 (-1) (-1), makePUSH 1, makePUSH 0,
              .LogCircuit false .AND (.mk .None [.Stack .DROP 1 (-1) (-1), makePUSH 2])])]) :=
  logCircuitExpander_leaves_in_place _ (by
    intro op hop
    simp only [CodeBlock.instructions, List.mem_cons, List.mem_singleton, List.not_mem_nil,
      or_false] at hop
    rcases hop with h | h | h | h | h | h <;> subst h
    · exact LeftInPlace.other _ rfl
    · exact LeftInPlace.cannotExpand _ _
    · exact LeftInPlace.other _ rfl
    · exact LeftInPlace.impure .AND .None (.Stack .DROP 1 (-1) (-1)) [makePUSH 1]
        (.TvmReturn .IFRET) [] rfl rfl rfl (Or.inl rfl)
    · exact LeftInPlace.other _ rfl
    · exact LeftInPlace.otherKind .OR .None (.Stack .DROP 1 (-1) (-1))
        [makePUSH 1, makePUSH 0] false .AND
        (.mk .None [.Stack .DROP 1 (-1) (-1), makePUSH 2]) rfl
        (by
          intro op hop
          simp only [List.mem_cons, List.mem_singleton, List.not_mem_nil, or_false] at hop
          rcases hop with h | h <;> subst h <;> exact Or.inr rfl)
        rfl (by decide))

/-! ## Printer: BLKDROP2 -/

/-- C10, as the code has it: for a `BLKDROP2` node `(i, j)` with `i, j >= 1`, the
printer writes the line `BLKDROP2 i, j` when both are at most 15 and the pair
is not `(1, 1)`, and fails by assertion at `(1, 1)`; when `i > 15` or `j > 15`
it writes `PUSHINT i`, `PUSHINT j`, `BLKSWX` and then `DROP` for `i = 1`,
`DROP2` for `i = 2`, and `PUSHINT i`, `DROPX` for `i > 15`. -/
theorem printer_blkdrop2 (m_tab : Nat) (i j : Int) (hi : 1 ≤ i) (hj : 1 ≤ j) :
    (i ≤ 15 → j ≤ 15 → ¬(i = 1 ∧ j = 1) →
      Printer.visitStack m_tab .BLKDROP2 i j (-1)
        = some (tabs m_tab ++ ("BLKDROP2" ++ (" " ++ toString i ++ ", " ++ toString j))
            ++ endl)) ∧
    (i = 1 → j = 1 → Printer.visitStack m_tab .BLKDROP2 i j (-1) = none) ∧
    (i = 1 → 15 < j →
      Printer.visitStack m_tab .BLKDROP2 i j (-1)
        = some (tabs m_tab ++ ("PUSHINT " ++ toString i ++ endl ++ tabs m_tab ++
            "PUSHINT " ++ toString j ++ endl ++ tabs m_tab ++
            "BLKSWX" ++ endl ++ tabs m_tab ++ "DROP") ++ endl)) ∧
    (i = 2 → 15 < j →
      Printer.visitStack m_tab .BLKDROP2 i j (-1)
        = some (tabs m_tab ++ ("PUSHINT " ++ toString i ++ endl ++ tabs m_tab ++
            "PUSHINT " ++ toString j ++ endl ++ tabs m_tab ++
            "BLKSWX" ++ endl ++ tabs m_tab ++ "DROP2") ++ endl)) ∧
    (15 < i →
      Printer.visitStack m_tab .BLKDROP2 i j (-1)
        = some (tabs m_tab ++ ("PUSHINT " ++ toString i ++ endl ++ tabs m_tab ++
            "PUSHINT " ++ toString j ++ endl ++ tabs m_tab ++
            "BLKSWX" ++ endl ++ tabs m_tab ++
            ("PUSHINT " ++ toString i ++ endl ++ tabs m_tab ++ "DROPX")) ++ endl)) := by
  refine ⟨?_, ?_, ?_, ?_, ?_⟩
  · intro hi15 hj15 hne
    have h1 : ¬ (15 < i) := by omega
    have h2 : ¬ (15 < j) := by omega
    have h3 : (2 ≤ i ∧ 1 ≤ j) ∨ (1 ≤ i ∧ 2 ≤ j) := by omega
    have h4 : ¬ (i = -1) := by omega
    have h5 : ¬ (j = -1) := by omega
    simp [Printer.visitStack, printStackOpcode, printIndexes, h1, h2, h3, h4, h5]
  · intro hi1 hj1
    subst hi1; subst hj1
    rfl
  · intro hi1 hj15
    subst hi1
    simp [Printer.visitStack, printStackOpcode, drop, hj15]
  · intro hi2 hj15
    subst hi2
    simp [Printer.visitStack, printStackOpcode, drop, hj15]
  · intro hi15
    have h1 : ¬ (i = 1) := by omega
    have h2 : ¬ (i = 2) := by omega
    have h3 : ¬ (i ≤ 15) := by omega
    simp [Printer.visitStack, printStackOpcode, drop, hi15, h1, h2, h3]

/-- C10 (amended) at `(2, 3)`, `(1, 1)`, `(1, 16)`, `(2, 16)` and `(16, 1)`, at one
level of indentation. -/
theorem printer_blkdrop2_witness :
    Printer.visitStack 1 .BLKDROP2 2 3 (-1) = some "\tBLKDROP2 2, 3\n" ∧
    Printer.visitStack 1 .BLKDROP2 1 1 (-1) = none ∧
    Printer.visitStack 1 .BLKDROP2 1 16 (-1)
      = some "\tPUSHINT 1\n\tPUSHINT 16\n\tBLKSWX\n\tDROP\n" ∧
    Printer.visitStack 1 .BLKDROP2 2 16 (-1)
      = some "\tPUSHINT 2\n\tPUSHINT 16\n\tBLKSWX\n\tDROP2\n" ∧
    Printer.visitStack 1 .BLKDROP2 16 1 (-1)
      = some "\tPUSHINT 16\n\tPUSHINT 1\n\tBLKSWX\n\tPUSHINT 16\n\tDROPX\n" :=
  ⟨(printer_blkdrop2 1 2 3 (by decide) (by decide)).1 (by decide) (by decide) (by decide),
   (printer_blkdrop2 1 1 1 (by decide) (by decide)).2.1 rfl rfl,
   (printer_blkdrop2 1 1 16 (by decide) (by decide)).2.2.1 rfl (by decide),
   (printer_blkdrop2 1 2 16 (by decide) (by decide)).2.2.2.1 rfl (by decide),
   (printer_blkdrop2 1 16 1 (by decide) (by decide)).2.2.2.2 (by decide)⟩

/-- C10 fails as stated: the node `BLKDROP2 1, 1` has `i, j >= 1` and both at
most 15, but the printer's assertion `(i >= 2 && j >= 1) || (i >= 1 && j >= 2)`
rejects it and no line `BLKDROP2 1, 1` is written. -/
theorem printer_blkdrop2_one_one_asserts :
    Printer.visitStack 0 .BLKDROP2 1 1 (-1) = none ∧
    Printer.visitStack 0 .BLKDROP2 1 1 (-1) ≠ some "BLKDROP2 1, 1\n" := by
  constructor
  · rfl
  · decide

/-- The general form for a `BLKDROP2` node with `3 <= i <= 15` and `j > 15`: the
lambda `drop` prints the node's indices after `BLKDROP`, both of them, so the
last line is `BLKDROP 3, 16` with two arguments. -/
theorem printer_blkdrop2_general_form_two_arguments :
    Printer.visitStack 0 .BLKDROP2 3 16 (-1)
      = some "PUSHINT 3\nPUSHINT 16\nBLKSWX\nBLKDROP 3, 16\n" := by
  rfl

/-! ## Printer: DROP, REVERSE -/

/-- C11: for a `DROP` node with count `n >= 1` the printer writes `DROP` for
`n = 1`, `DROP2` for `n = 2`, `BLKDROP n` for `3 <= n <= 15`, and the two lines
`PUSHINT n`, `DROPX` for `n > 15`. -/
theorem printer_drop (m_tab : Nat) (n : Int) (hn : 1 ≤ n) :
    (n = 1 → Printer.visitStack m_tab .DROP n (-1) (-1) = some (tabs m_tab ++ "DROP" ++ endl)) ∧
    (n = 2 → Printer.visitStack m_tab .DROP n (-1) (-1) = some (tabs m_tab ++ "DROP2" ++ endl)) ∧
    (3 ≤ n → n ≤ 15 →
      Printer.visitStack m_tab .DROP n (-1) (-1)
        = some (tabs m_tab ++ ("BLKDROP" ++ (" " ++ toString n)) ++ endl)) ∧
    (15 < n →
      Printer.visitStack m_tab .DROP n (-1) (-1)
        = some (tabs m_tab ++ ("PUSHINT " ++ toString n ++ endl ++ tabs m_tab ++ "DROPX")
            ++ endl)) := by
  refine ⟨?_, ?_, ?_, ?_⟩
  · intro h; subst h; rfl
  · intro h; subst h; rfl
  · intro h3 h15
    have h1 : ¬ (n = 1) := by omega
    have h2 : ¬ (n = 2) := by omega
    have h4 : ¬ (n = -1) := by omega
    simp [Printer.visitStack, printStackOpcode, drop, printIndexes, h1, h2, h4, h15]
  · intro h15
    have h1 : ¬ (n = 1) := by omega
    have h2 : ¬ (n = 2) := by omega
    have h3 : ¬ (n ≤ 15) := by omega
    simp [Printer.visitStack, printStackOpcode, drop, h1, h2, h3]

/-- C11 at the counts 1, 2, 3, 15 and 16, at one level of indentation. -/
theorem printer_drop_witness :
    Printer.visitStack 1 .DROP 1 (-1) (-1) = some "\tDROP\n" ∧
    Printer.visitStack 1 .DROP 2 (-1) (-1) = some "\tDROP2\n" ∧
    Printer.visitStack 1 .DROP 3 (-1) (-1) = some "\tBLKDROP 3\n" ∧
    Printer.visitStack 1 .DROP 15 (-1) (-1) = some "\tBLKDROP 15\n" ∧
    Printer.visitStack 1 .DROP 16 (-1) (-1) = some "\tPUSHINT 16\n\tDROPX\n" :=
  ⟨(printer_drop 1 1 (by decide)).1 rfl,
   (printer_drop 1 2 (by decide)).2.1 rfl,
   (printer_drop 1 3 (by decide)).2.2.1 (by decide) (by decide),
   (printer_drop 1 15 (by decide)).2.2.1 (by decide) (by decide),
   (printer_drop 1 16 (by decide)).2.2.2 (by decide)⟩

/-- C13: for a `REVERSE` node `(i, j)` with `i >= 2` the printer writes `SWAP` for
`(2, 0)`, `XCHG S2` for `(3, 0)`, otherwise `REVERSE i, j` when `i <= 17` and
`0 <= j <= 15`, and otherwise `PUSHINT i`, `PUSHINT j`, `REVX`; a node with
`i < 2` fails by assertion. -/
theorem printer_reverse (m_tab : Nat) (i j : Int) :
    (i = 2 → j = 0 →
      Printer.visitStack m_tab .REVERSE i j (-1) = some (tabs m_tab ++ "SWAP" ++ endl)) ∧
    (i = 3 → j = 0 →
      Printer.visitStack m_tab .REVERSE i j (-1) = some (tabs m_tab ++ "XCHG S2" ++ endl)) ∧
    (2 ≤ i → ¬(i = 2 ∧ j = 0) → ¬(i = 3 ∧ j = 0) → i ≤ 17 → 0 ≤ j → j ≤ 15 →
      Printer.visitStack m_tab .REVERSE i j (-1)
        = some (tabs m_tab ++ ("REVERSE" ++ (" " ++ toString i ++ ", " ++ toString j))
            ++ endl)) ∧
    (2 ≤ i → ¬(i = 2 ∧ j = 0) → ¬(i = 3 ∧ j = 0) → ¬(i ≤ 17 ∧ 0 ≤ j ∧ j ≤ 15) →
      Printer.visitStack m_tab .REVERSE i j (-1)
        = some (tabs m_tab ++ ("PUSHINT " ++ toString i ++ endl ++ tabs m_tab ++
            "PUSHINT " ++ toString j ++ endl ++ tabs m_tab ++ "REVX") ++ endl)) ∧
    (i < 2 → Printer.visitStack m_tab .REVERSE i j (-1) = none) := by
  refine ⟨?_, ?_, ?_, ?_, ?_⟩
  · intro hi hj; subst hi; subst hj; rfl
  · intro hi hj; subst hi; subst hj; rfl
  · intro h2 hn2 hn3 h17 hj0 hj15
    have a1 : ¬ (i = 2 ∧ j = 0) := hn2
    have a2 : ¬ (i = 3 ∧ j = 0) := hn3
    have a3 : ¬ (i = -1) := by omega
    have a4 : ¬ (j = -1) := by omega
    simp [Printer.visitStack, printStackOpcode, printIndexes, h2, a1, a2, a3, a4, h17, hj0,
      hj15]
  · intro h2 hn2 hn3 hnc
    have a3 : ¬ ((i ≤ 17 ∧ 0 ≤ j) ∧ j ≤ 15) := fun h => hnc ⟨h.1.1, h.1.2, h.2⟩
    simp [Printer.visitStack, printStackOpcode, h2, hn2, hn3, a3]
  · intro hlt
    have : ¬ (2 ≤ i) := by omega
    simp [Printer.visitStack, printStackOpcode, this]

/-- C13 at `(2, 0)`, `(3, 0)`, `(17, 15)`, `(18, 0)`, `(4, 16)` and `(1, 0)`, at one
level of indentation. -/
theorem printer_reverse_witness :
    Printer.visitStack 1 .REVERSE 2 0 (-1) = some "\tSWAP\n" ∧
    Printer.visitStack 1 .REVERSE 3 0 (-1) = some "\tXCHG S2\n" ∧
    Printer.visitStack 1 .REVERSE 17 15 (-1) = some "\tREVERSE 17, 15\n" ∧
    Printer.visitStack 1 .REVERSE 18 0 (-1) = some "\tPUSHINT 18\n\tPUSHINT 0\n\tREVX\n" ∧
    Printer.visitStack 1 .REVERSE 4 16 (-1) = some "\tPUSHINT 4\n\tPUSHINT 16\n\tREVX\n" ∧
    Printer.visitStack 1 .REVERSE 1 0 (-1) = none :=
  ⟨(printer_reverse 1 2 0).1 rfl rfl,
   (printer_reverse 1 3 0).2.1 rfl rfl,
   (printer_reverse 1 17 15).2.2.1 (by decide) (by decide) (by decide) (by decide) (by decide)
     (by decide),
   (printer_reverse 1 18 0).2.2.2.1 (by decide) (by decide) (by decide) (by decide),
   (printer_reverse 1 4 16).2.2.2.1 (by decide) (by decide) (by decide) (by decide),
   (printer_reverse 1 1 0).2.2.2.2 (by decide)⟩

/-! ## Printer: Glob, BLKPUSH -/

/-- C14: for a `Glob` node `GetOrGetVar` (resp. `SetOrSetVar`) with index `g` the
printer writes `GETGLOB g` (resp. `SETGLOB g`) when `1 <= g <= 31`, and for
every other index `PUSHINT g` followed by `GETGLOBVAR` (resp. `SETGLOBVAR`). -/
theorem printer_glob (m_tab : Nat) (g : Int) :
    (1 ≤ g ∧ g ≤ 31 →
      Printer.visitGlob m_tab .GetOrGetVar g
        = tabs m_tab ++ ("GETGLOB " ++ toString g) ++ endl ∧
      Printer.visitGlob m_tab .SetOrSetVar g
        = tabs m_tab ++ ("SETGLOB " ++ toString g) ++ endl) ∧
    (¬(1 ≤ g ∧ g ≤ 31) →
      Printer.visitGlob m_tab .GetOrGetVar g
        = tabs m_tab ++ ("PUSHINT " ++ toString g ++ endl ++ tabs m_tab ++ "GETGLOBVAR")
            ++ endl ∧
      Printer.visitGlob m_tab .SetOrSetVar g
        = tabs m_tab ++ ("PUSHINT " ++ toString g ++ endl ++ tabs m_tab ++ "SETGLOBVAR")
            ++ endl) := by
  constructor
  · intro h
    simp [Printer.visitGlob, printGlobOpcode, h.1, h.2]
  · intro h
    simp [Printer.visitGlob, printGlobOpcode, h]

/-- C14 at the indices 1, 31, 0 and 32, at one level of indentation. -/
theorem printer_glob_witness :
    Printer.visitGlob 1 .GetOrGetVar 1 = "\tGETGLOB 1\n" ∧
    Printer.visitGlob 1 .SetOrSetVar 31 = "\tSETGLOB 31\n" ∧
    Printer.visitGlob 1 .GetOrGetVar 0 = "\tPUSHINT 0\n\tGETGLOBVAR\n" ∧
    Printer.visitGlob 1 .SetOrSetVar 32 = "\tPUSHINT 32\n\tSETGLOBVAR\n" :=
  ⟨((printer_glob 1 1).1 (by decide)).1,
   ((printer_glob 1 31).1 (by decide)).2,
   ((printer_glob 1 0).2 (by decide)).1,
   ((printer_glob 1 32).2 (by decide)).2⟩

theorem string_foldl_append (l : List String) :
    ∀ acc : String, l.foldl (fun r s => r ++ s) acc = acc ++ l.foldl (fun r s => r ++ s) "" := by
  induction l with
  | nil => intro acc; simp
  | cons a as ih =>
    intro acc
    simp only [List.foldl_cons]
    rw [ih (acc ++ a), ih ("" ++ a), String.empty_append, String.append_assoc]

theorem string_join_cons (a : String) (l : List String) :
    String.join (a :: l) = a ++ String.join l := by
  simp only [String.join, List.foldl_cons]
  rw [string_foldl_append, String.empty_append]

theorem string_join_nil : String.join [] = "" := rfl

theorem blkPushLoop_counts (m_tab : Nat) (j : Int) (fuel : Nat) :
    ∀ rest : Int, rest ≤ fuel →
      ∃ counts : List Int,
        blkPushLoop m_tab j fuel rest false
          = String.join (counts.map fun c =>
              endl ++ tabs m_tab ++ ("BLKPUSH " ++ toString c ++ ", " ++ toString j)) ∧
        (counts.length : Int) = (max rest 0 + 14) / 15 ∧
        (∀ c ∈ counts, 1 ≤ c ∧ c ≤ 15) ∧
        counts.sum = max rest 0 := by
  induction fuel with
  | zero =>
    intro rest h
    refine ⟨[], by simp [blkPushLoop, string_join_nil], ?_, by simp, ?_⟩
    · simp only [List.length_nil]; push_cast at h ⊢; omega
    · simp only [List.sum_nil]; push_cast at h; omega
  | succ n ih =>
    intro rest h
    by_cases hpos : rest > 0
    · obtain ⟨counts, h1, h2, h3, h4⟩ := ih (rest - 15) (by push_cast at h; omega)
      refine ⟨min 15 rest :: counts, ?_, ?_, ?_, ?_⟩
      · simp only [blkPushLoop, hpos, if_true, h1, List.map_cons, string_join_cons,
          Bool.not_false, String.append_assoc]
      · simp only [List.length_cons]; push_cast; omega
      · intro c hc
        rcases List.mem_cons.mp hc with rfl | hc
        · omega
        · exact h3 c hc
      · simp only [List.sum_cons]; omega
    · refine ⟨[], by simp [blkPushLoop, hpos, string_join_nil], ?_, by simp, ?_⟩
      · simp only [List.length_nil]; push_cast; omega
      · simp only [List.sum_nil]; omega

theorem join_lines_shift (m_tab : Nat) (line : Int → String) (counts : List Int) :
    String.join (counts.map fun c => endl ++ tabs m_tab ++ line c) ++ endl
      = endl ++ String.join (counts.map fun c => tabs m_tab ++ line c ++ endl) := by
  induction counts with
  | nil => simp [string_join_nil]
  | cons c cs ih =>
    simp only [List.map_cons, string_join_cons, String.append_assoc] at ih ⊢
    rw [ih]

/-- C12: for a `BLKPUSH` node `(i, j)` other than `(2, 1)` and `(2, 3)` with
`i >= 1`: when `j = 0` or `i <= 15` the printer writes `ceil(i / 15)` lines
`BLKPUSH c, j` whose counts `c` lie between 1 and 15 and sum to `i`; when
`i > 15` and `j != 0` it fails by assertion. -/
theorem printer_blkpush (m_tab : Nat) (i j : Int) (hi : 1 ≤ i)
    (h21 : ¬(i = 2 ∧ j = 1)) (h23 : ¬(i = 2 ∧ j = 3)) :
    ((15 < i → j = 0) →
      ∃ counts : List Int,
        Printer.visitStack m_tab .BLKPUSH i j (-1)
          = some (String.join (counts.map fun c =>
              tabs m_tab ++ ("BLKPUSH " ++ toString c ++ ", " ++ toString j) ++ endl)) ∧
        (counts.length : Int) = (i + 14) / 15 ∧
        (∀ c ∈ counts, 1 ≤ c ∧ c ≤ 15) ∧
        counts.sum = i) ∧
    (15 < i → j ≠ 0 → Printer.visitStack m_tab .BLKPUSH i j (-1) = none) := by
  constructor
  · intro hj
    obtain ⟨n, hn⟩ : ∃ n : Nat, i.toNat = n + 1 := ⟨i.toNat - 1, by omega⟩
    obtain ⟨counts, h1, h2, h3, h4⟩ := blkPushLoop_counts m_tab j n (i - 15) (by omega)
    have hassert : ¬ (15 < i ∧ ¬ j = 0) := fun h => h.2 (hj h.1)
    have hpos : i > 0 := by omega
    refine ⟨min 15 i :: counts, ?_, ?_, ?_, ?_⟩
    · have hbody : printStackOpcode m_tab .BLKPUSH i j (-1)
          = some (("BLKPUSH " ++ toString (min 15 i) ++ ", " ++ toString j) ++
              String.join (counts.map fun c =>
                endl ++ tabs m_tab ++ ("BLKPUSH " ++ toString c ++ ", " ++ toString j))) := by
        simp [printStackOpcode, h21, h23, hassert, hn, blkPushLoop, hpos, h1,
          String.append_assoc]
      simp only [Printer.visitStack, hbody, Option.map_some', List.map_cons, string_join_cons,
        String.append_assoc]
      have := join_lines_shift m_tab
        (fun c => "BLKPUSH " ++ toString c ++ ", " ++ toString j) counts
      simp only [String.append_assoc] at this
      rw [this]
    · simp only [List.length_cons]; push_cast; omega
    · intro c hc
      rcases List.mem_cons.mp hc with rfl | hc
      · omega
      · exact h3 c hc
    · simp only [List.sum_cons]; omega
  · intro h15 hj
    have h1 : ¬ (i = 2) := by omega
    simp [Printer.visitStack, printStackOpcode, h1, h15, hj]

/-- C12 at `(31, 0)`: three lines with the counts 15, 15 and 1; and at
`(16, 1)`, which fails. -/
theorem printer_blkpush_witness :
    (∃ counts : List Int,
        Printer.visitStack 1 .BLKPUSH 31 0 (-1)
          = some (String.join (counts.map fun c =>
              tabs 1 ++ ("BLKPUSH " ++ toString c ++ ", " ++ toString (0 : Int)) ++ endl)) ∧
        (counts.length : Int) = (31 + 14) / 15 ∧
        (∀ c ∈ counts, 1 ≤ c ∧ c ≤ 15) ∧
        counts.sum = 31) ∧
    Printer.visitStack 1 .BLKPUSH 16 1 (-1) = none :=
  ⟨(printer_blkpush 1 31 0 (by decide) (by decide) (by decide)).1 (fun _ => rfl),
   (printer_blkpush 1 16 1 (by decide) (by decide) (by decide)).2 (by decide) (by decide)⟩

/-! ## StackPusher: dropUnder, startOpaque / endOpaque -/

theorem stackPusher_change_unlocked (p : StackPusher) (delta : Int) (hlock : p.lockStack = 0)
    (h : 0 ≤ p.m_stack2.m_size + delta) :
    p.change delta
      = some { p with m_stack2 := { p.m_stack2 with m_size := p.m_stack2.m_size + delta } } := by
  by_cases hd : delta = 0
  · subst hd
    simp [StackPusher.change, TVMStack.change, hlock]
  · simp [StackPusher.change, TVMStack.change, hlock, hd, h]

theorem stackPusher_change_negative (p : StackPusher) (delta : Int) (hlock : p.lockStack = 0)
    (hsize : 0 ≤ p.m_stack2.m_size) (h : p.m_stack2.m_size + delta < 0) :
    p.change delta = none := by
  have hd : ¬ delta = 0 := by omega
  have hn : ¬ (0 ≤ p.m_stack2.m_size + delta) := by omega
  simp [StackPusher.change, TVMStack.change, hlock, hd, hn]

theorem stackPusher_change_locked (p : StackPusher) (delta : Int) (hlock : 1 ≤ p.lockStack) :
    p.change delta = some p := by
  have h1 : p.lockStack ≥ 0 := by omega
  have h2 : ¬ p.lockStack = 0 := by omega
  simp [StackPusher.change, h1, h2]

/-- C20: with the lock counter 0, an open block and a modelled depth of at
least `droppedCount`, `dropUnder(droppedCount, leftCount)` with both arguments
non-negative lowers the depth by `droppedCount` and appends nothing for
`droppedCount = 0`, one `DROP droppedCount` for `leftCount = 0`, one `POP S1`
when both are 1, and one `BLKDROP2 droppedCount, leftCount` otherwise; with a
negative argument it fails by assertion. -/
theorem stackPusher_dropUnder (p : StackPusher) (droppedCount leftCount : Int)
    (block : List TvmAstNode) (outer : List (List TvmAstNode))
    (hlock : p.lockStack = 0) (hblocks : p.m_instructions = block :: outer) :
    (0 ≤ droppedCount → 0 ≤ leftCount → droppedCount ≤ p.stackSize →
      ∃ appended : List TvmAstNode,
        p.dropUnder droppedCount leftCount
          = some { m_stack2 := { p.m_stack2 with m_size := p.m_stack2.m_size - droppedCount }
                   lockStack := 0
                   m_instructions := (block ++ appended) :: outer } ∧
        appended =
          (if droppedCount = 0 then []
           else if leftCount = 0 then [makeDROP droppedCount]
           else if droppedCount = 1 ∧ leftCount = 1 then [makePOP 1]
           else [.Stack .BLKDROP2 droppedCount leftCount (-1)])) ∧
    (droppedCount < 0 ∨ leftCount < 0 → p.dropUnder droppedCount leftCount = none) := by
  obtain ⟨st, lock, instrs⟩ := p
  simp only at hlock hblocks
  subst hlock
  subst hblocks
  constructor
  · intro hd hl hsize
    simp only [StackPusher.stackSize, TVMStack.size] at hsize
    refine ⟨_, ?_, rfl⟩
    by_cases h0 : droppedCount = 0
    · subst h0
      simp [StackPusher.dropUnder, hl]
    · by_cases hl0 : leftCount = 0
      · subst hl0
        have hc := stackPusher_change_unlocked
          { m_stack2 := st, lockStack := 0, m_instructions := block :: outer } (-droppedCount)
          rfl (by simp only; omega)
        have h1 : droppedCount ≥ 1 := by omega
        simp [StackPusher.dropUnder, hd, h0, StackPusher.drop, h1, hc, StackPusher.pushOpcode,
          sub_eq_add_neg]
      · by_cases h11 : droppedCount = 1 ∧ leftCount = 1
        · obtain ⟨rfl, rfl⟩ := h11
          have hc := stackPusher_change_unlocked
            { m_stack2 := st, lockStack := 0,
              m_instructions := (block ++ [makePOP 1]) :: outer } (-1)
            rfl (by simp only; omega)
          simp [StackPusher.dropUnder, StackPusher.popS, StackPusher.pushOpcode, hc,
            sub_eq_add_neg]
        · have hc := stackPusher_change_unlocked
            { m_stack2 := st, lockStack := 0,
              m_instructions :=
                (block ++ [.Stack .BLKDROP2 droppedCount leftCount (-1)]) :: outer }
            (-droppedCount) rfl (by simp only; omega)
          simp [StackPusher.dropUnder, hd, hl, h0, hl0, h11, StackPusher.pushOpcode, hc,
            sub_eq_add_neg]
  · intro h
    rcases h with h | h
    · by_cases hl : leftCount ≥ 0
      · have : ¬ (droppedCount ≥ 0) := by omega
        simp [StackPusher.dropUnder, hl, this]
      · simp [StackPusher.dropUnder, hl]
    · have : ¬ (leftCount ≥ 0) := by omega
      simp [StackPusher.dropUnder, this]

/-- C20 at depth 5: `dropUnder(0, 2)`, `dropUnder(3, 0)`, `dropUnder(1, 1)`,
`dropUnder(2, 3)` and `dropUnder(-1, 0)`. -/
theorem stackPusher_dropUnder_witness :
    StackPusher.dropUnder
        { m_stack2 := { m_size := 5, m_stackSize := [] }, lockStack := 0,
          m_instructions := [[.DeclRetFlag]] } 0 2
      = some { m_stack2 := { m_size := 5, m_stackSize := [] }, lockStack := 0,
               m_instructions := [[.DeclRetFlag]] } ∧
    StackPusher.dropUnder
        { m_stack2 := { m_size := 5, m_stackSize := [] }, lockStack := 0,
          m_instructions := [[.DeclRetFlag]] } 3 0
      = some { m_stack2 := { m_size := 2, m_stackSize := [] }, lockStack := 0,
               m_instructions := [[.DeclRetFlag, .Stack .DROP 3 (-1) (-1)]] } ∧
    StackPusher.dropUnder
        { m_stack2 := { m_size := 5, m_stackSize := [] }, lockStack := 0,
          m_instructions := [[.DeclRetFlag]] } 1 1
      = some { m_stack2 := { m_size := 4, m_stackSize := [] }, lockStack := 0,
               m_instructions := [[.DeclRetFlag, .Stack .POP_S 1 (-1) (-1)]] } ∧
    StackPusher.dropUnder
        { m_stack2 := { m_size := 5, m_stackSize := [] }, lockStack := 0,
          m_instructions := [[.DeclRetFlag]] } 2 3
      = some { m_stack2 := { m_size := 3, m_stackSize := [] }, lockStack := 0,
               m_instructions := [[.DeclRetFlag, .Stack .BLKDROP2 2 3 (-1)]] } ∧
    StackPusher.dropUnder
        { m_stack2 := { m_size := 5, m_stackSize := [] }, lockStack := 0,
          m_instructions := [[.DeclRetFlag]] } (-1) 0
      = none := by
  have h := fun d l => stackPusher_dropUnder
    { m_stack2 := { m_size := 5, m_stackSize := [] }, lockStack := 0,
      m_instructions := [[.DeclRetFlag]] } d l [.DeclRetFlag] [] rfl rfl
  refine ⟨?_, ?_, ?_, ?_, (h (-1) 0).2 (Or.inl (by decide))⟩
  · obtain ⟨a, h1, h2⟩ := (h 0 2).1 (by decide) (by decide) (by decide)
    rw [h1, h2]; rfl
  · obtain ⟨a, h1, h2⟩ := (h 3 0).1 (by decide) (by decide) (by decide)
    rw [h1, h2]; rfl
  · obtain ⟨a, h1, h2⟩ := (h 1 1).1 (by decide) (by decide) (by decide)
    rw [h1, h2]; rfl
  · obtain ⟨a, h1, h2⟩ := (h 2 3).1 (by decide) (by decide) (by decide)
    rw [h1, h2]; rfl

mutual
theorem emitterOp_run_locked : ∀ (op : EmitterOp) (p : StackPusher) (block : List TvmAstNode)
    (outer : List (List TvmAstNode)), 1 ≤ p.lockStack → p.m_instructions = block :: outer →
    EmitterOp.run op p
      = some { p with m_instructions := (block ++ EmitterOp.emitted op) :: outer }
  | .emit opcode delta, p, block, outer, hlock, hb => by
    simp only [EmitterOp.run, StackPusher.pushOpcode, hb, Option.some_bind, EmitterOp.emitted]
    exact stackPusher_change_locked _ delta hlock
  | .fix delta, p, block, outer, hlock, hb => by
    simp only [EmitterOp.run, EmitterOp.emitted, List.append_nil]
    rw [stackPusher_change_locked p delta hlock, ← hb]
  | .continuation type body, p, block, outer, hlock, hb => by
    have h := emitterOp_runAll_locked body p.startContinuation [] (block :: outer) hlock
      (by simp [StackPusher.startContinuation, hb])
    simp only [EmitterOp.run, h, Option.some_bind, EmitterOp.emitted]
    simp [StackPusher.endCont, StackPusher.startContinuation]
  | .locked body take ret isPure, p, block, outer, hlock, hb => by
    have h := emitterOp_runAll_locked body p.startOpaque [] (block :: outer)
      (by simp only [StackPusher.startOpaque]; omega)
      (by simp [StackPusher.startOpaque, hb])
    simp only [EmitterOp.run, h, Option.some_bind, EmitterOp.emitted]
    simp only [StackPusher.endOpaque, StackPusher.startOpaque, List.nil_append,
      StackPusher.changeTakeRet]
    rw [stackPusher_change_locked _ _ (by simp only; omega)]
    simp
theorem emitterOp_runAll_locked : ∀ (ops : List EmitterOp) (p : StackPusher)
    (block : List TvmAstNode) (outer : List (List TvmAstNode)), 1 ≤ p.lockStack →
    p.m_instructions = block :: outer →
    EmitterOp.runAll ops p
      = some { p with m_instructions := (block ++ EmitterOp.emittedAll ops) :: outer }
  | [], p, block, outer, _, hb => by
    simp only [EmitterOp.runAll, EmitterOp.emittedAll, List.append_nil]
    rw [← hb]
  | op :: ops, p, block, outer, hlock, hb => by
    have h1 := emitterOp_run_locked op p block outer hlock hb
    have h2 := emitterOp_runAll_locked ops
      { p with m_instructions := (block ++ EmitterOp.emitted op) :: outer }
      (block ++ EmitterOp.emitted op) outer hlock rfl
    simp only [EmitterOp.runAll, h1, Option.some_bind, h2, EmitterOp.emittedAll,
      List.append_assoc]
end

/-- C19: with the lock counter 0 and an open block, for every sequence `body` of
emitter operations between `startOpaque` and its `endOpaque(take, ret, isPure)`:
after every part of `body` the stack model is the one before `startOpaque`;
when the depth minus `take` plus `ret` is not negative, the depth after
`endOpaque` is that number, the lock counter is 0 again, the open blocks are the
same in number, and one `Opaque` node with `take`, `ret`, `isPure` that wraps
the instructions of `body` in order is appended to the enclosing block; when
that number is negative, `endOpaque` fails by the assertion of the stack
model. -/
theorem stackPusher_opaque_region (p : StackPusher) (body : List EmitterOp) (take ret : Int)
    (isPure : Bool) (block : List TvmAstNode) (outer : List (List TvmAstNode))
    (hlock : p.lockStack = 0) (hblocks : p.m_instructions = block :: outer) :
    (∀ pre post, body = pre ++ post →
      ∃ q, EmitterOp.runAll pre p.startOpaque = some q ∧ q.m_stack2 = p.m_stack2 ∧
        q.lockStack = 1) ∧
    (0 ≤ p.stackSize - take + ret →
      EmitterOp.run (.locked body take ret isPure) p
        = some { m_stack2 := { p.m_stack2 with m_size := p.m_stack2.m_size - take + ret }
                 lockStack := 0
                 m_instructions :=
                  (block ++ [.Opaque (.mk .None (EmitterOp.emittedAll body)) take ret isPure])
                    :: outer }) ∧
    (0 ≤ p.stackSize → p.stackSize - take + ret < 0 →
      EmitterOp.run (.locked body take ret isPure) p = none) := by
  obtain ⟨st, lock, instrs⟩ := p
  simp only at hlock hblocks
  subst hlock
  subst hblocks
  have hrun : ∀ ops : List EmitterOp,
      EmitterOp.runAll ops
          (StackPusher.startOpaque
            { m_stack2 := st, lockStack := 0, m_instructions := block :: outer })
        = some { m_stack2 := st, lockStack := 1,
                 m_instructions := EmitterOp.emittedAll ops :: block :: outer } := by
    intro ops
    have := emitterOp_runAll_locked ops
      (StackPusher.startOpaque
        { m_stack2 := st, lockStack := 0, m_instructions := block :: outer })
      [] (block :: outer) (by simp [StackPusher.startOpaque]) rfl
    simpa [StackPusher.startOpaque] using this
  refine ⟨?_, ?_, ?_⟩
  · intro pre post _
    exact ⟨_, hrun pre, rfl, rfl⟩
  · intro h
    simp only [StackPusher.stackSize, TVMStack.size] at h
    simp only [EmitterOp.run, hrun body, Option.some_bind, StackPusher.endOpaque,
      StackPusher.changeTakeRet]
    rw [stackPusher_change_unlocked _ _ (by simp) (by simp only; omega)]
    simp only [Option.some.injEq, StackPusher.mk.injEq, TVMStack.mk.injEq, and_true, true_and]
    constructor
    · omega
    · simp
  · intro h0 h
    simp only [StackPusher.stackSize, TVMStack.size] at h0 h
    simp only [EmitterOp.run, hrun body, Option.some_bind, StackPusher.endOpaque,
      StackPusher.changeTakeRet]
    exact stackPusher_change_negative _ _ (by simp) (by simpa using h0) (by simp only; omega)

/-- C19 at depth 3 with the body `PUSHINT 7; PUSHCONT (NOT); fix(-1)` closed by
`endOpaque(1, 2, true)`: the depth becomes 4; and closed by `endOpaque(4, 0,
true)`, which fails. -/
theorem stackPusher_opaque_region_witness :
    EmitterOp.run
        (.locked [.emit (.GenOpcode "PUSHINT" "7" "" 0 1 true) 1,
            .continuation .PUSHCONT [.emit (.GenOpcode "NOT" "" "" 1 1 true) 0],
            .fix (-1)] 1 2 true)
        { m_stack2 := { m_size := 3, m_stackSize := [] }, lockStack := 0,
          m_instructions := [[.DeclRetFlag], []] }
      = some { m_stack2 := { m_size := 4, m_stackSize := [] }, lockStack := 0,
               m_instructions :=
                [[.DeclRetFlag,
                  .Opaque (.mk .None [.GenOpcode "PUSHINT" "7" "" 0 1 true,
                    .Block (.mk .PUSHCONT [.GenOpcode "NOT" "" "" 1 1 true])]) 1 2 true],
                 []] } ∧
    EmitterOp.run (.locked [.emit (.GenOpcode "PUSHINT" "7" "" 0 1 true) 1] 4 0 true)
        { m_stack2 := { m_size := 3, m_stackSize := [] }, lockStack := 0,
          m_instructions := [[.DeclRetFlag], []] }
      = none :=
  ⟨(stackPusher_opaque_region
      { m_stack2 := { m_size := 3, m_stackSize := [] }, lockStack := 0,
        m_instructions := [[.DeclRetFlag], []] }
      [.emit (.GenOpcode "PUSHINT" "7" "" 0 1 true) 1,
        .continuation .PUSHCONT [.emit (.GenOpcode "NOT" "" "" 1 1 true) 0],
        .fix (-1)] 1 2 true [.DeclRetFlag] [[]] rfl rfl).2.1 (by decide),
   (stackPusher_opaque_region
      { m_stack2 := { m_size := 3, m_stackSize := [] }, lockStack := 0,
        m_instructions := [[.DeclRetFlag], []] }
      [.emit (.GenOpcode "PUSHINT" "7" "" 0 1 true) 1] 4 0 true [.DeclRetFlag] [[]]
      rfl rfl).2.2 (by decide) (by decide)⟩

/-! ## StackPusher: pushString -/

theorem stringToBytes_length (_str : List Nat) :
    (stringToBytes _str).length = 2 * _str.length := by
  simp only [stringToBytes, String.length]
  induction _str with
  | nil => rfl
  | cons b bs ih =>
    simp only [List.flatMap_cons, List.length_append, List.length_cons, List.length_nil, ih]
    omega

theorem buildCellChain_cons (t : CellType) (d : String) (rest : List (CellType × String)) :
    buildCellChain ((t, d) :: rest) = some (.mk t d (buildCellChain rest)) := by
  simp [buildCellChain, List.foldl_append]

theorem string_mk_append (a b : List Char) : String.mk a ++ String.mk b = String.mk (a ++ b) :=
  rfl

theorem pushStringData_chunks (hexStr : String) (n : Nat) (hn : 1 ≤ n) (hneven : n % 2 = 0)
    (hlen : hexStr.length % 2 = 0) (fuel : Nat) :
    ∀ (start : Nat) (type : CellType), hexStr.length - start < fuel → start % 2 = 0 →
      ∃ (chunks : List String) (data : List (CellType × String)),
        pushStringData hexStr n fuel start type = some data ∧
        buildCellChain data = cellChain type chunks ∧
        String.join chunks = String.mk (hexStr.data.drop start) ∧
        chunks.length
          = (if hexStr.length - start = 0 then 1 else (hexStr.length - start + n - 1) / n) ∧
        ∀ c ∈ chunks, c.length % 2 = 0 ∧ c.length ≤ n := by
  induction fuel with
  | zero => intro start type h; omega
  | succ f ih =>
    intro start type hfuel hstart
    have hslice : (substr hexStr start (min n (hexStr.length - start))).length
        = min n (hexStr.length - start) := by
      simp only [substr, String.length, List.length_take, List.length_drop]
      omega
    by_cases hcont : start + n < hexStr.length
    · obtain ⟨chunks, data, h1, h2, h3, h4, h5⟩ :=
        ih (start + n) .CELL (by omega) (by omega)
      refine ⟨substr hexStr start (min n (hexStr.length - start)) :: chunks,
        (type, ".blob x" ++ substr hexStr start (min n (hexStr.length - start))) :: data,
        ?_, ?_, ?_, ?_, ?_⟩
      · simp [pushStringData, hcont, h1]
      · rw [buildCellChain_cons, h2]; rfl
      · rw [string_join_cons, h3]
        have hmin : min n (hexStr.length - start) = n := by omega
        simp only [substr, hmin, string_mk_append]
        congr 1
        rw [← List.drop_drop, List.take_append_drop]
      · simp only [List.length_cons, h4]
        have e1 : ¬ (hexStr.length - (start + n) = 0) := by omega
        have e2 : ¬ (hexStr.length - start = 0) := by omega
        rw [if_neg e1, if_neg e2]
        have e3 : hexStr.length - start + n - 1 = (hexStr.length - (start + n) + n - 1) + n := by
          omega
        rw [e3, Nat.add_div_right _ (by omega)]
      · intro c hc
        rcases List.mem_cons.mp hc with rfl | hc
        · rw [hslice]; omega
        · exact h5 c hc
    · refine ⟨[substr hexStr start (min n (hexStr.length - start))],
        [(type, ".blob x" ++ substr hexStr start (min n (hexStr.length - start)))],
        ?_, ?_, ?_, ?_, ?_⟩
      · simp [pushStringData, hcont]
      · rw [buildCellChain_cons]; rfl
      · rw [string_join_cons, string_join_nil]
        have hmin : min n (hexStr.length - start) = hexStr.length - start := by omega
        simp only [substr, hmin, String.append_empty]
        congr 1
        apply List.take_of_length_le
        simp only [List.length_drop, String.length]
        exact le_refl _
      · simp only [List.length_singleton]
        by_cases e : hexStr.length - start = 0
        · rw [if_pos e]
        · rw [if_neg e]
          symm
          apply Nat.div_eq_of_lt_le <;> omega
      · intro c hc
        simp only [List.mem_singleton] at hc
        subst hc
        rw [hslice]; omega

/-- C15: with the lock counter 0, an open block, a non-negative depth and
`CellBitLength >= 8`, whenever `pushString` does not take the short `PUSHSLICE`
form it appends one chain of cells and raises the depth by 1. With `hex` the
two-digits-per-byte encoding and `n = ((CellBitLength / 8) * 8) / 4`, the chain
has `ceil(len(hex) / n)` cells (one for the empty string), the first of type
`PUSHREFSLICE` if `toSlice` and `PUSHREF` otherwise, the others of type `CELL`;
the chunks after `.blob x` concatenate to `hex`; and every chunk has an even
length of at most `n`, hence at most `CellBitLength` bits. -/
theorem stackPusher_pushString (genOpcode : String → Option TvmAstNode)
    (CellBitLength MaxPushSliceBitLength : Nat) (p : StackPusher) (_str : List Nat)
    (toSlice : Bool) (block : List TvmAstNode) (outer : List (List TvmAstNode))
    (hcell : 8 ≤ CellBitLength) (hlock : p.lockStack = 0)
    (hblocks : p.m_instructions = block :: outer) (hdepth : 0 ≤ p.stackSize)
    (hlong : ¬(4 * (stringToBytes _str).length ≤ MaxPushSliceBitLength ∧ toSlice = true)) :
    ∃ (chunks : List String) (cell : PushCellOrSlice),
      p.pushString genOpcode CellBitLength MaxPushSliceBitLength _str toSlice
        = some { m_stack2 := { p.m_stack2 with m_size := p.m_stack2.m_size + 1 }
                 lockStack := 0
                 m_instructions := (block ++ [.PushCell cell]) :: outer } ∧
      some cell = cellChain (if toSlice then .PUSHREFSLICE else .PUSHREF) chunks ∧
      chunks.length
        = (if (stringToBytes _str).length = 0 then 1
           else ((stringToBytes _str).length + ((CellBitLength / 8) * 8) / 4 - 1)
             / (((CellBitLength / 8) * 8) / 4)) ∧
      String.join chunks = stringToBytes _str ∧
      ∀ c ∈ chunks, c.length % 2 = 0 ∧ c.length ≤ ((CellBitLength / 8) * 8) / 4 ∧
        4 * c.length ≤ CellBitLength := by
  obtain ⟨st, lock, instrs⟩ := p
  simp only at hlock hblocks
  subst hlock
  subst hblocks
  simp only [StackPusher.stackSize, TVMStack.size] at hdepth
  have hlen := stringToBytes_length _str
  obtain ⟨chunks, data, h1, h2, h3, h4, h5⟩ :=
    pushStringData_chunks (stringToBytes _str) (((CellBitLength / 8) * 8) / 4) (by omega)
      (by omega) (by omega) ((stringToBytes _str).length + 1) 0
      (if toSlice then .PUSHREFSLICE else .PUSHREF) (by omega) rfl
  have hne : chunks ≠ [] := by
    intro h0
    rw [h0] at h4
    simp only [List.length_nil, Nat.sub_zero] at h4
    split at h4
    · omega
    · have : 1 ≤ ((stringToBytes _str).length + ((CellBitLength / 8) * 8) / 4 - 1)
          / (((CellBitLength / 8) * 8) / 4) := by
        rw [Nat.le_div_iff_mul_le (by omega)]
        omega
      omega
  obtain ⟨c0, cs, hcs⟩ : ∃ c0 cs, chunks = c0 :: cs := by
    cases chunks with
    | nil => exact absurd rfl hne
    | cons c0 cs => exact ⟨c0, cs, rfl⟩
  have hchain : ∃ cell, buildCellChain data = some cell := by
    rw [h2, hcs]; exact ⟨_, rfl⟩
  obtain ⟨cell, hcell'⟩ := hchain
  refine ⟨chunks, cell, ?_, ?_, ?_, ?_, ?_⟩
  · have hshort : (decide (4 * (stringToBytes _str).length ≤ MaxPushSliceBitLength) && toSlice)
        = false := by
      cases toSlice with
      | false => simp
      | true =>
        have : ¬ (4 * (stringToBytes _str).length ≤ MaxPushSliceBitLength) :=
          fun h => hlong ⟨h, rfl⟩
        simp [this]
    have hc := stackPusher_change_unlocked
      { m_stack2 := st, lockStack := 0, m_instructions := (block ++ [.PushCell cell]) :: outer }
      (-0 + 1) rfl (by simp only; omega)
    simp only [StackPusher.pushString, hshort, Bool.false_eq_true, if_false, h1, hcell',
      StackPusher.pushOpcode, Option.some_bind, StackPusher.changeTakeRet, hc]
    simp [StackPusher.ensureSize, StackPusher.stackSize, TVMStack.size]
  · rw [← hcell', h2]
  · simpa using h4
  · rw [h3]; rfl
  · intro c hc
    obtain ⟨e1, e2⟩ := h5 c hc
    exact ⟨e1, e2, by omega⟩

/-- C15 at the three bytes `Hi!` with a cell of 16 bits (`n = 4`) and
`toSlice = false`: two cells, `.blob x4869` of type `PUSHREF` and `.blob x21` of
type `CELL`. -/
theorem stackPusher_pushString_witness :
    ∃ (chunks : List String) (cell : PushCellOrSlice),
      StackPusher.pushString (fun _ => none) 16 248
          { m_stack2 := { m_size := 2, m_stackSize := [] }, lockStack := 0,
            m_instructions := [[]] } [72, 105, 33] false
        = some { m_stack2 := { m_size := 2 + 1, m_stackSize := [] }
                 lockStack := 0
                 m_instructions := ([] ++ [.PushCell cell]) :: [] } ∧
      some cell = cellChain (if false then .PUSHREFSLICE else .PUSHREF) chunks ∧
      chunks.length
        = (if (stringToBytes [72, 105, 33]).length = 0 then 1
           else ((stringToBytes [72, 105, 33]).length + ((16 / 8) * 8) / 4 - 1)
             / (((16 / 8) * 8) / 4)) ∧
      String.join chunks = stringToBytes [72, 105, 33] ∧
      ∀ c ∈ chunks, c.length % 2 = 0 ∧ c.length ≤ ((16 / 8) * 8) / 4 ∧ 4 * c.length ≤ 16 :=
  stackPusher_pushString (fun _ => none) 16 248
    { m_stack2 := { m_size := 2, m_stackSize := [] }, lockStack := 0, m_instructions := [[]] }
    [72, 105, 33] false [] [] (by decide) rfl rfl (by decide) (by decide)

/-- The three bytes `Hi!` with a 16-bit cell evaluate to a chain of two nodes:
`PUSHREF` carrying `4869` and a `CELL` child carrying `21`. -/
theorem stackPusher_pushString_two_cells :
    StackPusher.pushString (fun _ => none) 16 248
        { m_stack2 := { m_size := 2, m_stackSize := [] }, lockStack := 0,
          m_instructions := [[]] } [72, 105, 33] false
      = some { m_stack2 := { m_size := 3, m_stackSize := [] }, lockStack := 0,
               m_instructions :=
                [[.PushCell (.mk .PUSHREF ".blob x4869" (some (.mk .CELL ".blob x21" none)))]] } := by
  rfl

theorem zeroString_length (n : Nat) : (zeroString n).length = n := by
  simp [zeroString, String.length]

theorem int_msg_info_range :
    List.range int_msg_info.zeroes.length = [0, 1, 2, 3, 4, 5, 6, 7, 8, 9, 10] := by
  rfl

/-- With nothing on the stack, a step at a field other than `dest` appends the
constant, or the zero run of the table, to the pending bit string and adds its
length to the size. -/
theorem int_msg_info_step_field (a m : Int) (constParams : Nat → Option String)
    (isDestBuilder : Bool) (st : MsgInfoLoop) (param : Nat)
    (hp : param ≠ int_msg_info.dest) :
    int_msg_info.step a m (fun _ => false) constParams isDestBuilder st param
      = some { st with
          bitString :=
            st.bitString ++ headerField constParams param (int_msg_info.zeroes.getD param 0)
          maxBitStringSize :=
            st.maxBitStringSize
              + ((headerField constParams param (int_msg_info.zeroes.getD param 0)).length
                  : Int) } := by
  cases h : constParams param with
  | none => simp [int_msg_info.step, headerField, h, hp, zeroString_length]
  | some c => simp [int_msg_info.step, headerField, h]

/-- With nothing on the stack, the step at `dest` appends the constant. -/
theorem int_msg_info_step_dest (a m : Int) (constParams : Nat → Option String)
    (isDestBuilder : Bool) (st : MsgInfoLoop) (dst : String)
    (h : constParams int_msg_info.dest = some dst) :
    int_msg_info.step a m (fun _ => false) constParams isDestBuilder st int_msg_info.dest
      = some { st with bitString := st.bitString ++ dst
                       maxBitStringSize := st.maxBitStringSize + (dst.length : Int) } := by
  simp [int_msg_info.step, h]

/-- A step that fails in every state makes the loop fail. -/
theorem msgInfoLoop_none (step : MsgInfoLoop → Nat → Option MsgInfoLoop) (param : Nat)
    (hfail : ∀ st, step st param = none) :
    ∀ (params : List Nat) (st : MsgInfoLoop), param ∈ params →
      msgInfoLoop step params st = none := by
  intro params
  induction params with
  | nil => intro st h; simp at h
  | cons p rest ih =>
    intro st hmem
    simp only [msgInfoLoop]
    by_cases hp : p = param
    · subst hp
      rw [hfail st]
    · have hrest : param ∈ rest := by
        rcases List.mem_cons.mp hmem with h | h
        · exact absurd h.symm hp
        · exact h
      cases hs : step st p with
      | none => rfl
      | some st1 => exact ih st1 hrest

/-- With nothing on the stack and `dest` supplied, `int_msg_info` makes one
`NEWC` and one `appendToBuilder` with the whole header, and returns the length
of the header without its tag bit. -/
theorem int_msg_info_constants (a m : Int) (constParams : Nat → Option String)
    (isDestBuilder : Bool) (dst : String) (h : constParams int_msg_info.dest = some dst) :
    int_msg_info a m (fun _ => false) constParams isDestBuilder
      = some ([.push 1 "NEWC", .appendToBuilder (internalHeaderBits constParams dst)],
              ((internalHeaderBits constParams dst).length : Int) - 1) := by
  have h4 := int_msg_info_step_dest a m constParams isDestBuilder
  have hf := int_msg_info_step_field a m constParams isDestBuilder
  have e4 : (4 : Nat) = int_msg_info.dest := rfl
  simp only [int_msg_info, int_msg_info_range, msgInfoLoop]
  rw [hf _ 0 (by decide)]
  simp only []
  rw [hf _ 1 (by decide)]
  simp only []
  rw [hf _ 2 (by decide)]
  simp only []
  rw [hf _ 3 (by decide)]
  simp only []
  rw [e4, h4 _ dst h]
  simp only []
  rw [hf _ 5 (by decide)]
  simp only []
  rw [hf _ 6 (by decide)]
  simp only []
  rw [hf _ 7 (by decide)]
  simp only []
  rw [hf _ 8 (by decide)]
  simp only []
  rw [hf _ 9 (by decide)]
  simp only []
  rw [hf _ 10 (by decide)]
  simp only [int_msg_info.zeroes, List.getD_cons_zero, List.getD_cons_succ, internalHeaderBits,
    List.cons_append, List.nil_append, String.length_append]
  congr 1
  congr 1
  push_cast
  have : ("0" : String).length = 1 := rfl
  rw [this]
  push_cast
  ring

/-- C16: when no header field is on the stack and `dest` is supplied as a
constant, `int_msg_info` writes into the builder, after `NEWC`, the tag bit `0`
followed in this order by ihr_disabled, bounce, bounced, src, dest, value,
currency, ihr_fee, fwd_fee, created_lt, created_at, an unsupplied field being a
zero run of width 1, 1, 1, 2, (dest), 4, 1, 4, 4, 64, 32; a field given both as
a constant and on the stack, and a `dest` given neither way, fail by
assertion. -/
theorem int_msg_info_header (a m : Int) (isParamOnStack : Nat → Bool)
    (constParams : Nat → Option String) (isDestBuilder : Bool) :
    (∀ dst, (∀ param, isParamOnStack param = false) →
      constParams int_msg_info.dest = some dst →
      ∃ size, int_msg_info a m isParamOnStack constParams isDestBuilder
        = some ([.push 1 "NEWC",
                 .appendToBuilder
                  ("0" ++ headerField constParams 0 1 ++ headerField constParams 1 1
                    ++ headerField constParams 2 1 ++ headerField constParams 3 2 ++ dst
                    ++ headerField constParams 5 4 ++ headerField constParams 6 1
                    ++ headerField constParams 7 4 ++ headerField constParams 8 4
                    ++ headerField constParams 9 64 ++ headerField constParams 10 32)],
                size)) ∧
    (∀ param, param < 11 → (constParams param).isSome = true → isParamOnStack param = true →
      int_msg_info a m isParamOnStack constParams isDestBuilder = none) ∧
    (constParams int_msg_info.dest = none → isParamOnStack int_msg_info.dest = false →
      int_msg_info a m isParamOnStack constParams isDestBuilder = none) := by
  refine ⟨?_, ?_, ?_⟩
  · intro dst hstack hdst
    have hfun : isParamOnStack = fun _ => false := funext hstack
    subst hfun
    exact ⟨_, int_msg_info_constants a m constParams isDestBuilder dst hdst⟩
  · intro param hlt hconst hstack
    have hmem : param ∈ List.range int_msg_info.zeroes.length := by
      rw [List.mem_range]
      exact hlt
    have hfail : ∀ st, int_msg_info.step a m isParamOnStack constParams isDestBuilder st param
        = none := by
      intro st
      simp [int_msg_info.step, hconst, hstack]
    simp only [int_msg_info,
      msgInfoLoop_none _ param hfail (List.range int_msg_info.zeroes.length) _ hmem]
  · intro hconst hstack
    have hmem : int_msg_info.dest ∈ List.range int_msg_info.zeroes.length := by
      rw [List.mem_range]
      decide
    have hfail : ∀ st, int_msg_info.step a m isParamOnStack constParams isDestBuilder st
        int_msg_info.dest = none := by
      intro st
      simp [int_msg_info.step, hconst, hstack]
    simp only [int_msg_info,
      msgInfoLoop_none _ int_msg_info.dest hfail (List.range int_msg_info.zeroes.length) _ hmem]

/-- C16 at a header with the constants `bounce = 1` and a standard address for
`dest` (the tag `100`, workchain 0 and 256 address bits, here zeros): the one
bit string written starts `0`, `0`, `1`, `0`, `00`, then the address. The same
constants with `bounce` also on the stack fail, and so does a header with no
`dest`. -/
theorem int_msg_info_header_witness :
    (∃ size, int_msg_info 267 124 (fun _ => false)
        (fun param => if param = 4 then some ("100" ++ zeroString 264)
                      else if param = 1 then some "1" else none) false
      = some ([.push 1 "NEWC",
               .appendToBuilder
                ("0" ++ zeroString 1 ++ "1" ++ zeroString 1 ++ zeroString 2
                  ++ ("100" ++ zeroString 264)
                  ++ zeroString 4 ++ zeroString 1 ++ zeroString 4 ++ zeroString 4
                  ++ zeroString 64 ++ zeroString 32)],
              size)) ∧
    int_msg_info 267 124 (fun param => decide (param = 1))
        (fun param => if param = 4 then some ("100" ++ zeroString 264)
                      else if param = 1 then some "1" else none) false = none ∧
    int_msg_info 267 124 (fun _ => false) (fun _ => none) false = none :=
  ⟨(int_msg_info_header 267 124 (fun _ => false)
      (fun param => if param = 4 then some ("100" ++ zeroString 264)
                    else if param = 1 then some "1" else none) false).1
      ("100" ++ zeroString 264) (fun _ => rfl) rfl,
   (int_msg_info_header 267 124 (fun param => decide (param = 1))
      (fun param => if param = 4 then some ("100" ++ zeroString 264)
                    else if param = 1 then some "1" else none) false).2.1
      1 (by decide) rfl (by decide),
   (int_msg_info_header 267 124 (fun _ => false) (fun _ => none) false).2.2 rfl rfl⟩

/-- With nothing on the stack, `ext_msg_info` makes one `NEWC` and one
`appendToBuilder` with the whole header, and returns the length of the header,
tag bits included. -/
theorem ext_msg_info_defaults (a e : Int) (isOut : Bool) :
    ext_msg_info a e (fun _ => false) isOut
      = some ([.push 1 "NEWC", .appendToBuilder (externalHeaderBits isOut)],
              ((externalHeaderBits isOut).length : Int)) := by
  cases isOut
  · have hr : List.range (ext_msg_info.zeroes false).length = [0, 1, 2] := rfl
    simp [ext_msg_info, hr, msgInfoLoop, ext_msg_info.step, ext_msg_info.zeroes,
      externalHeaderBits, String.append_assoc]
  · have hr : List.range (ext_msg_info.zeroes true).length = [0, 1, 2, 3] := rfl
    simp [ext_msg_info, hr, msgInfoLoop, ext_msg_info.step, ext_msg_info.zeroes,
      externalHeaderBits, String.append_assoc]

theorem externalHeaderBits_length (isOut : Bool) :
    (externalHeaderBits isOut).length = if isOut then 102 else 10 := by
  have h11 : ("11" : String).length = 2 := rfl
  have h10 : ("10" : String).length = 2 := rfl
  cases isOut <;> simp [externalHeaderBits, String.length_append, zeroString_length, h11, h10]

/-- For the two external message types with every header field at its default,
the integer handed to the body callback is the number of bits appended so far
by `appendToBuilder` (tag bits, header fields, state-init presence bit), plus
the one bit that `prepareMsg` counts for the state-init callback when it is
given. -/
theorem prepareMsg_external_builderSize (a m e : Int) (constParams : Nat → Option String)
    (appendStateInit isOut isDestBuilder : Bool) :
    ∃ calls,
      prepareMsg a m e (fun _ => false) constParams true appendStateInit
          (if isOut then .ExternalOut else .ExternalIn) isDestBuilder = some calls ∧
      bodyCallbackArgument calls
        = some ((bitsAppended (callsBeforeBody calls) : Int)
                + (if appendStateInit then 1 else 0)) := by
  have h1 : ("1" : String).length = 1 := rfl
  have h0 : ("0" : String).length = 1 := rfl
  cases isOut <;> cases appendStateInit <;>
    simp [prepareMsg, ext_msg_info_defaults, bodyCallbackArgument, callsBeforeBody,
      bitsAppended, h1, h0]

/-- For an internal message with no field on the stack and `dest` supplied, the
integer handed to the body callback is one less than that number: the tag bit
`0` of the header is written but not counted. -/
theorem prepareMsg_internal_builderSize (a m e : Int) (constParams : Nat → Option String)
    (appendStateInit isDestBuilder : Bool) (dst : String)
    (h : constParams int_msg_info.dest = some dst) :
    ∃ calls,
      prepareMsg a m e (fun _ => false) constParams true appendStateInit .Internal
          isDestBuilder = some calls ∧
      bodyCallbackArgument calls
        = some ((bitsAppended (callsBeforeBody calls) : Int)
                + (if appendStateInit then 1 else 0) - 1) := by
  have h1 : ("1" : String).length = 1 := rfl
  have h0 : ("0" : String).length = 1 := rfl
  cases appendStateInit <;>
    simp [prepareMsg, int_msg_info_constants a m constParams isDestBuilder dst h,
      bodyCallbackArgument, callsBeforeBody, bitsAppended, h1, h0]

/-- C17, the code at an internal message whose only constant is a standard
address for `dest` and that has a body callback and no state init: the calls
append `1 + 381 + 1 = 383` bits to the builder before the body callback, which
receives 382. -/
theorem prepareMsg_internal_standard_address :
    prepareMsg 267 124 72 (fun _ => false)
        (fun param => if param = 4 then some ("100" ++ zeroString 264) else none)
        true false .Internal false
      = some [.push 1 "NEWC",
              .appendToBuilder
                ("0" ++ zeroString 1 ++ zeroString 1 ++ zeroString 1 ++ zeroString 2
                  ++ ("100" ++ zeroString 264)
                  ++ zeroString 4 ++ zeroString 1 ++ zeroString 4 ++ zeroString 4
                  ++ zeroString 64 ++ zeroString 32),
              .appendToBuilder "0",
              .appendBody 382,
              .push 0 "ENDC"] ∧
    bitsAppended
        [.push 1 "NEWC",
         .appendToBuilder
          ("0" ++ zeroString 1 ++ zeroString 1 ++ zeroString 1 ++ zeroString 2
            ++ ("100" ++ zeroString 264)
            ++ zeroString 4 ++ zeroString 1 ++ zeroString 4 ++ zeroString 4
            ++ zeroString 64 ++ zeroString 32),
         .appendToBuilder "0"] = 383 := by
  have h1 : ("100" : String).length = 3 := rfl
  have h0 : ("0" : String).length = 1 := rfl
  constructor
  · rw [prepareMsg, int_msg_info_constants 267 124 _ false ("100" ++ zeroString 264) rfl]
    simp [internalHeaderBits, headerField, int_msg_info.dest, String.length_append,
      zeroString_length, h1, h0]
  · simp [bitsAppended, String.length_append, zeroString_length, h1, h0]

/-- An external outbound message with every header field at its default, a body
callback and no state init: 103 bits are appended before the body callback,
which receives 103. -/
theorem prepareMsg_externalOut_defaults :
    prepareMsg 267 124 72 (fun _ => false) (fun _ => none) true false .ExternalOut false
      = some [.push 1 "NEWC",
              .appendToBuilder
                ("11" ++ zeroString 2 ++ zeroString 2 ++ zeroString 64 ++ zeroString 32),
              .appendToBuilder "0",
              .appendBody 103,
              .push 0 "ENDC"] ∧
    bitsAppended
        [.push 1 "NEWC",
         .appendToBuilder
          ("11" ++ zeroString 2 ++ zeroString 2 ++ zeroString 64 ++ zeroString 32),
         .appendToBuilder "0"] = 103 := by
  have h1 : ("11" : String).length = 2 := rfl
  have h0 : ("0" : String).length = 1 := rfl
  constructor
  · rw [prepareMsg, ext_msg_info_defaults]
    simp [externalHeaderBits, String.length_append, zeroString_length, h1]
  · simp [bitsAppended, String.length_append, zeroString_length, h1, h0]

theorem storedBits_getGlob_map (f : Nat → Int) (l : List Nat) :
    (l.map (fun i => PusherCall.getGlob (f i))).filterMap storedBits = [] := by
  induction l with
  | nil => rfl
  | cons x xs ih => simp [List.filterMap_cons, storedBits]

theorem loadedBits_getGlob_map (f : Nat → Int) (l : List Nat) :
    (l.map (fun i => PusherCall.getGlob (f i))).filterMap loadedBits = [] := by
  induction l with
  | nil => rfl
  | cons x xs ih => simp [List.filterMap_cons, loadedBits]

theorem loadedBits_setGlob_map (f : Nat → Int) (l : List Nat) :
    (l.map (fun i => PusherCall.setGlob (f i))).filterMap loadedBits = [] := by
  induction l with
  | nil => rfl
  | cons x xs ih => simp [List.filterMap_cons, loadedBits]

/-- C18: for every combination of `storeTimestampInC4` and `hasAwaitCall` (and
any number of state variables, in either layout of c7), `c7_to_c4` stores after
`NEWC` exactly `STU 256`, `STU 64` iff the timestamp is stored, `STONE`, and
`STZERO` iff there is an await call, then calls the encoder (when there are
state variables) and `ENDC`; `c4_to_c7` loads exactly `LDU 256`, `LDU 64` iff
the timestamp is stored, `LDU 1`, and `LDI 1` iff there is an await call, before
the decoder; the widths stored and loaded are the same list, and `getOffsetC4`
is their sum, `256 + (64 if storeTimestampInC4) + 1 + (1 if hasAwaitCall)`. -/
theorem storage_header_layout (FirstIndexForVariables : Nat) (ReplayProtTime TvmPubkey : Int)
    (stateVarQty : Nat) (tooMuchStateVariables storeTimestampInC4 hasAwaitCall : Bool) :
    (∃ before,
      generateC7ToT4Macro FirstIndexForVariables ReplayProtTime TvmPubkey stateVarQty
          tooMuchStateVariables storeTimestampInC4 hasAwaitCall
        = before ++ [.push 1 "NEWC", .push (-2 + 1) "STU 256"]
            ++ (if storeTimestampInC4 then [.push (-2 + 1) "STU 64"] else [])
            ++ [.push (-1 + 1) "STONE"]
            ++ (if hasAwaitCall then [.push (-1 + 1) "STZERO"] else [])
            ++ (if stateVarQty ≠ 0 then
                  [.encodeParameters (getOffsetC4 storeTimestampInC4 hasAwaitCall)
                    (if hasAwaitCall then 1 else 0)]
                else [])
            ++ [.push (-1 + 1) "ENDC", .popRoot] ∧
      before.filterMap storedBits = []) ∧
    (generateC7ToT4Macro FirstIndexForVariables ReplayProtTime TvmPubkey stateVarQty
        tooMuchStateVariables storeTimestampInC4 hasAwaitCall).filterMap storedBits
      = storageHeaderWidths storeTimestampInC4 hasAwaitCall ∧
    (∃ rest,
      generateC4ToC7 FirstIndexForVariables ReplayProtTime TvmPubkey stateVarQty
          tooMuchStateVariables storeTimestampInC4 hasAwaitCall
        = [.pushC4, .push (-1 + 1) "CTOS", .push (-1 + 2) "LDU 256      ; pubkey c4"]
            ++ (if storeTimestampInC4 then [.push 1 "LDU 64       ; pubkey timestamp c4"]
                else [])
            ++ [.push 1 "LDU 1      ; ctor flag", .dropUnder 1 1]
            ++ (if hasAwaitCall then [.push (-1 + 2) "LDI 1       ; await flag", .dropUnder 1 1]
                else [])
            ++ rest ∧
      rest.filterMap loadedBits = [] ∧
      (stateVarQty ≠ 0 →
        ∃ tail, rest = [.stackChange 1,
                        .decodeData (getOffsetC4 storeTimestampInC4 hasAwaitCall)
                          (if hasAwaitCall then 1 else 0)] ++ tail)) ∧
    (generateC4ToC7 FirstIndexForVariables ReplayProtTime TvmPubkey stateVarQty
        tooMuchStateVariables storeTimestampInC4 hasAwaitCall).filterMap loadedBits
      = storageHeaderWidths storeTimestampInC4 hasAwaitCall ∧
    getOffsetC4 storeTimestampInC4 hasAwaitCall
      = (storageHeaderWidths storeTimestampInC4 hasAwaitCall).sum ∧
    getOffsetC4 storeTimestampInC4 hasAwaitCall
      = 256 + (if storeTimestampInC4 then 64 else 0) + 1 + (if hasAwaitCall then 1 else 0) := by
  refine ⟨?_, ?_, ?_, ?_, ?_, ?_⟩
  · refine ⟨(if tooMuchStateVariables then
        [.pushC7, .push 1 "FALSE",
         .setIndexQ (stateVarQty + FirstIndexForVariables),
         .untuple (stateVarQty + FirstIndexForVariables + 1),
         .drop 1,
         .reverse (stateVarQty + FirstIndexForVariables) 0,
         .drop FirstIndexForVariables]
       else
        (List.range stateVarQty).reverse.map
          (fun i => PusherCall.getGlob (FirstIndexForVariables + i)))
      ++ (if storeTimestampInC4 then [.getGlob ReplayProtTime] else [])
      ++ [.getGlob TvmPubkey], ?_, ?_⟩
    · simp only [generateC7ToT4Macro, List.append_assoc, List.cons_append, List.nil_append]
    · cases tooMuchStateVariables <;> cases storeTimestampInC4 <;>
        simp [List.filterMap_append, storedBits_getGlob_map, storedBits]
  · cases tooMuchStateVariables <;> cases storeTimestampInC4 <;> cases hasAwaitCall <;>
      by_cases hq : stateVarQty = 0 <;>
      simp [generateC7ToT4Macro, List.filterMap_append, storedBits_getGlob_map, storedBits,
        storageHeaderWidths, hq]
  · refine ⟨(if stateVarQty ≠ 0 then
          [.stackChange 1,
           .decodeData (getOffsetC4 storeTimestampInC4 hasAwaitCall)
             (if hasAwaitCall then 1 else 0)]
          ++ (if tooMuchStateVariables then
                (List.range FirstIndexForVariables).map (fun i => PusherCall.getGlob i)
                ++ [.blockSwap stateVarQty FirstIndexForVariables,
                    .tuple (stateVarQty + FirstIndexForVariables), .popC7]
              else
                (List.range stateVarQty).reverse.map
                  (fun i => PusherCall.setGlob (FirstIndexForVariables + i)))
        else [.push (-1) "ENDS"])
      ++ (if storeTimestampInC4 then [.setGlob ReplayProtTime] else [])
      ++ [.push 1 "", .setGlob TvmPubkey], ?_, ?_, ?_⟩
    · simp only [generateC4ToC7, List.append_assoc]
    · cases tooMuchStateVariables <;> cases storeTimestampInC4 <;>
        by_cases hq : stateVarQty = 0 <;>
        simp [List.filterMap_append, loadedBits_getGlob_map, loadedBits_setGlob_map,
          loadedBits, hq]
    · intro hq
      simp [hq]
  · cases tooMuchStateVariables <;> cases storeTimestampInC4 <;> cases hasAwaitCall <;>
      by_cases hq : stateVarQty = 0 <;>
      simp [generateC4ToC7, List.filterMap_append, loadedBits_getGlob_map,
        loadedBits_setGlob_map, loadedBits, storageHeaderWidths, hq]
  · cases storeTimestampInC4 <;> cases hasAwaitCall <;>
      simp [getOffsetC4, storageHeaderWidths]
  · rfl

/-- C18 with the timestamp stored and an await call, three state variables kept
as globals from index 10: both macros handle the widths 256, 64, 1, 1 in this
order, and the offset is 322. -/
theorem storage_header_layout_witness :
    (generateC7ToT4Macro 10 3 2 3 false true true).filterMap storedBits = [256, 64, 1, 1] ∧
    (generateC4ToC7 10 3 2 3 false true true).filterMap loadedBits = [256, 64, 1, 1] ∧
    getOffsetC4 true true = 322 :=
  ⟨(storage_header_layout 10 3 2 3 false true true).2.1,
   (storage_header_layout 10 3 2 3 false true true).2.2.2.1,
   (storage_header_layout 10 3 2 3 false true true).2.2.2.2.2⟩

theorem magicVariableToID_unknown (_name : String) (h : _name ∉ magicVariableNames) :
    magicVariableToID _name = .error ("Unknown magic variable: \"" ++ _name ++ "\".") := by
  simp only [magicVariableNames, List.mem_cons, List.mem_singleton, not_or, List.mem_nil_iff,
    not_false_eq_true, and_true] at h
  simp only [magicVariableToID, h, if_false]

theorem magicVariableToID_table :
    ∀ entry ∈ magicVariableTable, magicVariableToID entry.1 = .ok entry.2 := by
  simp [magicVariableTable, magicVariableToID]

theorem magicVariableNames_table : magicVariableNames = magicVariableTable.map Prod.fst := by
  rfl

theorem magicVariableTable_negative : ∀ entry ∈ magicVariableTable, entry.2 < 0 := by
  decide

theorem magicVariableTable_collision :
    ∀ ea ∈ magicVariableTable, ∀ eb ∈ magicVariableTable, ea.2 = eb.2 →
      ea.1 = eb.1 ∨ (ea.1 = "format" ∧ eb.1 = "rnd") ∨ (ea.1 = "rnd" ∧ eb.1 = "format") := by
  decide

theorem magicVariableTable_of_name (_name : String) (h : _name ∈ magicVariableNames) :
    ∃ entry ∈ magicVariableTable, entry.1 = _name := by
  rw [magicVariableNames_table, List.mem_map] at h
  exact h

theorem unknown_message_injective (a b : String)
    (h : "Unknown magic variable: \"" ++ a ++ "\"." = "Unknown magic variable: \"" ++ b ++ "\".") :
    a = b := by
  have h1 := congrArg String.data h
  simp only [String.data_append, List.append_assoc] at h1
  have h2 := List.append_cancel_left h1
  have h3 := List.append_cancel_right h2
  exact String.ext h3


/-- C24: `magicVariableToID` returns a strictly negative identifier for every
name of its table and fails with the assertion `Unknown magic variable` for
every other name. -/
theorem magicVariableToID_negative (_name : String) :
    (_name ∈ magicVariableNames → ∃ id, magicVariableToID _name = .ok id ∧ id < 0) ∧
    (_name ∉ magicVariableNames →
      magicVariableToID _name = .error ("Unknown magic variable: \"" ++ _name ++ "\".")) := by
  constructor
  · intro h
    obtain ⟨entry, hmem, hname⟩ := magicVariableTable_of_name _name h
    refine ⟨entry.2, ?_, magicVariableTable_negative entry hmem⟩
    rw [← hname]
    exact magicVariableToID_table entry hmem
  · exact magicVariableToID_unknown _name

/-- C24 at the name `tvm` of the table and at the name `foo`, which is not in
it. -/
theorem magicVariableToID_negative_witness :
    (∃ id, magicVariableToID "tvm" = .ok id ∧ id < 0) ∧
    magicVariableToID "foo" = .error "Unknown magic variable: \"foo\"." :=
  ⟨(magicVariableToID_negative "tvm").1 (by decide),
   (magicVariableToID_negative "foo").2 (by decide)⟩

/-- C25: `magicVariableToID` maps `format` and `rnd` to -105, and two distinct
names with the same result are that pair; names outside the table have no
identifier. -/
theorem magicVariableToID_collision (a b : String) :
    magicVariableToID "format" = .ok (-105) ∧ magicVariableToID "rnd" = .ok (-105) ∧
    (a ≠ b → magicVariableToID a = magicVariableToID b →
      (a = "format" ∧ b = "rnd") ∨ (a = "rnd" ∧ b = "format")) := by
  refine ⟨by simp [magicVariableToID], by simp [magicVariableToID], ?_⟩
  intro hne heq
  by_cases ha : a ∈ magicVariableNames
  · obtain ⟨ea, hea, hna⟩ := magicVariableTable_of_name a ha
    have hida := magicVariableToID_table ea hea
    rw [hna] at hida
    by_cases hb : b ∈ magicVariableNames
    · obtain ⟨eb, heb, hnb⟩ := magicVariableTable_of_name b hb
      have hidb := magicVariableToID_table eb heb
      rw [hnb] at hidb
      rw [hida, hidb] at heq
      have hid : ea.2 = eb.2 := by
        injection heq
      rcases magicVariableTable_collision ea hea eb heb hid with h | h | h
      · exact absurd (hna ▸ hnb ▸ h) hne
      · exact Or.inl ⟨hna ▸ h.1, hnb ▸ h.2⟩
      · exact Or.inr ⟨hna ▸ h.1, hnb ▸ h.2⟩
    · rw [hida, magicVariableToID_unknown b hb] at heq
      cases heq
  · rw [magicVariableToID_unknown a ha] at heq
    by_cases hb : b ∈ magicVariableNames
    · obtain ⟨eb, heb, hnb⟩ := magicVariableTable_of_name b hb
      have hidb := magicVariableToID_table eb heb
      rw [hnb] at hidb
      rw [hidb] at heq
      cases heq
    · rw [magicVariableToID_unknown b hb] at heq
      have hmsg : "Unknown magic variable: \"" ++ a ++ "\"."
          = "Unknown magic variable: \"" ++ b ++ "\"." := by
        injection heq
      exact absurd (unknown_message_injective a b hmsg) hne

/-- C25 at the pair itself: the two names differ and have the same result. -/
theorem magicVariableToID_collision_witness :
    "format" ≠ "rnd" ∧ magicVariableToID "format" = magicVariableToID "rnd" ∧
    (("format" = "format" ∧ "rnd" = "rnd") ∨ ("format" = "rnd" ∧ "rnd" = "format")) :=
  ⟨by decide, by simp [magicVariableToID],
   (magicVariableToID_collision "format" "rnd").2.2 (by decide) (by simp [magicVariableToID])⟩

theorem blockSizeLoop_pow (fuel : Nat) :
    ∀ (qty blockSize : Nat), (∃ k, blockSize = 4 ^ k) →
      ∃ k, blockSizeLoop fuel qty blockSize = 4 ^ k := by
  induction fuel with
  | zero => intro qty bs h; simpa [blockSizeLoop] using h
  | succ n ih =>
    intro qty bs h
    rw [blockSizeLoop]
    split
    · obtain ⟨k, hk⟩ := h
      exact ih qty (bs * 4) ⟨k + 1, by rw [hk, pow_succ]⟩
    · exact h

/-- C26 as stated fails at a range of 16 functions: the block size is 4, and
the largest power of 4 that is at most 16 is 16. -/
theorem selectorBlockSize_sixteen :
    selectorBlockSize 16 = 4 ∧
    ¬ ((∃ k, selectorBlockSize 16 = 4 ^ k) ∧ selectorBlockSize 16 ≤ 16 ∧
        ∀ k, 4 ^ k ≤ 16 → 4 ^ k ≤ selectorBlockSize 16) := by
  have h : selectorBlockSize 16 = 4 := by decide
  refine ⟨h, ?_⟩
  rintro ⟨_, _, hmax⟩
  have h2 := hmax 2 (by norm_num)
  rw [h] at h2
  norm_num at h2

/-- C26, amended: for every range of `qty > 4` functions the block size is the
largest power of 4 that is strictly less than `qty`; hence four blocks cover
the range (`qty <= 4 * blockSize`), as the assertion after the loop says. -/
theorem selectorBlockSize_largest_power_below (qty : Nat) (h : 4 < qty) :
    (∃ k, selectorBlockSize qty = 4 ^ k) ∧ selectorBlockSize qty < qty ∧
    (∀ k, 4 ^ k < qty → 4 ^ k ≤ selectorBlockSize qty) ∧
    qty ≤ 4 * selectorBlockSize qty := by
  obtain ⟨_, hcover, hlt⟩ := selectorBlockSize_props qty
  obtain ⟨k0, hk0⟩ := blockSizeLoop_pow qty qty 1 ⟨0, rfl⟩
  have hk0' : selectorBlockSize qty = 4 ^ k0 := hk0
  refine ⟨⟨k0, hk0'⟩, hlt (by omega), ?_, hcover⟩
  intro k hk
  rw [hk0'] at hcover ⊢
  have h1 : 4 ^ k < 4 ^ (k0 + 1) := by
    rw [pow_succ]
    omega
  have h2 : k < k0 + 1 := (Nat.pow_lt_pow_iff_right (by norm_num)).mp h1
  exact Nat.pow_le_pow_right (by norm_num) (by omega)

/-- C26, amended, at a range of 16 functions: the block size 4 is a power of 4
below 16, and four blocks cover the range. -/
theorem selectorBlockSize_largest_power_below_witness :
    (∃ k, selectorBlockSize 16 = 4 ^ k) ∧ selectorBlockSize 16 < 16 ∧
    (∀ k, 4 ^ k < 16 → 4 ^ k ≤ selectorBlockSize 16) ∧
    16 ≤ 4 * selectorBlockSize 16 :=
  selectorBlockSize_largest_power_below 16 (by decide)

theorem getStackSizeLoop_spec (v : List (Option Nat)) (name : Option Nat) :
    ∀ n : Nat,
      (getStackSizeLoop v name n = -1 ∧ ∀ j, j < n → v[j]? ≠ some name) ∨
      (∃ slot : Nat, getStackSizeLoop v name n = (slot : Int) ∧ slot < n ∧
        v[slot]? = some name ∧ ∀ j, slot < j → j < n → v[j]? ≠ some name) := by
  intro n
  induction n with
  | zero =>
    left
    exact ⟨rfl, fun j hj => absurd hj (Nat.not_lt_zero j)⟩
  | succ n ih =>
    rw [getStackSizeLoop]
    by_cases h : n < v.length ∧ v.getD n none = name
    · right
      rw [if_pos h]
      refine ⟨n, rfl, Nat.lt_succ_self n, ?_, ?_⟩
      · obtain ⟨h1, h2⟩ := h
        rw [List.getD_eq_getElem?_getD, List.getElem?_eq_getElem h1] at h2
        rw [List.getElem?_eq_getElem h1]
        simpa using h2
      · intro j h1 h2
        omega
    · rw [if_neg h]
      have hn : v[n]? ≠ some name := by
        intro hc
        apply h
        have hlt : n < v.length := by
          by_contra hge
          rw [List.getElem?_eq_none (by omega)] at hc
          cases hc
        refine ⟨hlt, ?_⟩
        rw [List.getD_eq_getElem?_getD, hc]
        rfl
      rcases ih with ⟨h1, h2⟩ | ⟨slot, h1, h2, h3, h4⟩
      · left
        refine ⟨h1, ?_⟩
        intro j hj
        by_cases hjn : j = n
        · rw [hjn]; exact hn
        · exact h2 j (by omega)
      · right
        refine ⟨slot, h1, by omega, h3, ?_⟩
        intro j hj1 hj2
        by_cases hjn : j = n
        · rw [hjn]; exact hn
        · exact h4 j hj1 (by omega)

/-- `isParam` is false exactly when no slot below the depth holds the name. -/
theorem isParam_false_iff (s : TVMStack) (name : Option Nat) :
    s.isParam name = false ↔ ∀ j : Nat, (j : Int) < s.m_size → s.m_stackSize[j]? ≠ some name := by
  have hspec := getStackSizeLoop_spec s.m_stackSize name s.m_size.toNat
  simp only [TVMStack.isParam, TVMStack.getStackSize, bne_eq_false_iff_eq, beq_iff_eq]
  constructor
  · intro h j hj
    rcases hspec with ⟨_, h2⟩ | ⟨slot, h1, _, _, _⟩
    · exact h2 j (by omega)
    · rw [h1] at h
      omega
  · intro h
    rcases hspec with ⟨h1, _⟩ | ⟨slot, _, h2, h3, _⟩
    · exact h1
    · exact absurd h3 (h slot (by omega))

theorem tvmStack_call_nonneg (s s1 : TVMStack) (c : StackCall) (h : 0 ≤ s.m_size)
    (hc : s.call c = some s1) : 0 ≤ s1.m_size := by
  cases c with
  | change diff =>
    simp only [TVMStack.call, TVMStack.change] at hc
    split at hc
    · split at hc
      · cases hc
        simp only
        omega
      · cases hc
    · cases hc
      exact h
  | changeTakeRet take ret =>
    simp only [TVMStack.call, TVMStack.changeTakeRet, TVMStack.change] at hc
    split at hc
    · split at hc
      · split at hc
        · split at hc
          · cases hc
            simp only
            omega
          · cases hc
        · cases hc
          exact h
      · cases hc
    · cases hc
  | add name doAllocation =>
    simp only [TVMStack.call, TVMStack.add] at hc
    by_cases hn : name.isNone = true
    · rw [if_pos hn] at hc
      cases hc
    · rw [if_neg hn] at hc
      cases doAllocation <;> simp only [if_true, if_false, Bool.false_eq_true] at hc <;>
        split_ifs at hc <;> cases hc <;> simp only <;> omega

theorem tvmStack_calls_nonneg (cs : List StackCall) :
    ∀ (s s1 : TVMStack), 0 ≤ s.m_size → s.calls cs = some s1 → 0 ≤ s1.m_size := by
  induction cs with
  | nil =>
    intro s s1 h hc
    simp only [TVMStack.calls] at hc
    cases hc
    exact h
  | cons c cs ih =>
    intro s s1 h hc
    simp only [TVMStack.calls] at hc
    cases hcall : s.call c with
    | none => rw [hcall] at hc; cases hc
    | some s2 =>
      rw [hcall] at hc
      exact ih s2 s1 (tvmStack_call_nonneg s s2 c h hcall) hc

theorem tvmStack_add_alloc (s : TVMStack) (d : Nat) (h : 0 ≤ s.m_size) :
    ∃ s1, s.add (some d) true = some s1 ∧ s1.m_size = s.m_size + 1 ∧
      s1.getStackSize (some d) = s.m_size := by
  obtain ⟨m, v⟩ := s
  simp only at h
  obtain ⟨k, rfl⟩ := Int.eq_ofNat_of_zero_le h
  have hk : ((k : Int) + 1).toNat = k + 1 := by omega
  have hk1 : ((k : Int) + 1 - 1).toNat = k := by omega
  by_cases hlen : v.length < k + 1
  · have hlen' : ((v.length : Int) < (k : Int) + 1) := by omega
    have hrl : (resize v (k + 1)).length = k + 1 := by
      simp only [resize, List.length_append, List.length_take, List.length_replicate]
      omega
    refine ⟨{ m_size := (k : Int) + 1, m_stackSize := (resize v (k + 1)).set k (some d) },
      ?_, rfl, ?_⟩
    · simp only [TVMStack.add, Option.isNone_some, Bool.false_eq_true, if_false, if_true,
        hlen', hk, hk1, hrl]
      rw [if_pos]
      constructor
      · omega
      · push_cast
        omega
    · simp only [TVMStack.getStackSize, hk, getStackSizeLoop, List.length_set, hrl]
      rw [if_pos]
      refine ⟨Nat.lt_succ_self k, ?_⟩
      rw [List.getD_eq_getElem?_getD, List.getElem?_set_self (by omega)]
      rfl
  · have hlen' : ¬ ((v.length : Int) < (k : Int) + 1) := by omega
    refine ⟨{ m_size := (k : Int) + 1, m_stackSize := v.set k (some d) }, ?_, rfl, ?_⟩
    · simp only [TVMStack.add, Option.isNone_some, Bool.false_eq_true, if_false, if_true,
        hlen', hk1]
      rw [if_pos]
      constructor
      · omega
      · omega
    · simp only [TVMStack.getStackSize, hk, getStackSizeLoop, List.length_set]
      rw [if_pos]
      refine ⟨by omega, ?_⟩
      rw [List.getD_eq_getElem?_getD, List.getElem?_set_self (by omega)]
      rfl

theorem getStackSize_of_highest (s : TVMStack) (name : Option Nat) (slot : Nat)
    (hslot : (slot : Int) < s.m_size) (hbound : s.m_stackSize[slot]? = some name)
    (hhigh : ∀ j : Nat, slot < j → (j : Int) < s.m_size → s.m_stackSize[j]? ≠ some name) :
    s.getStackSize name = (slot : Int) := by
  have hspec := getStackSizeLoop_spec s.m_stackSize name s.m_size.toNat
  simp only [TVMStack.getStackSize]
  rcases hspec with ⟨_, h2⟩ | ⟨slot1, h1, h2, h3, h4⟩
  · exact absurd hbound (h2 slot (by omega))
  · rw [h1]
    have ha : ¬ slot < slot1 := fun hlt => hhigh slot1 hlt (by omega) h3
    have hb : ¬ slot1 < slot := fun hlt => h4 slot hlt (by omega) hbound
    omega

/-- C23: from a symbolic stack of non-negative depth, every sequence of calls
of `change` and `add` that succeeds ends at a non-negative depth, and a change
that would make the depth negative fails by assertion; `add(d, true)` raises
the depth by one and leaves `getOffset(d) = 0`; `getOffset(d)` is
`depth - 1 - slot` for the highest slot below the depth that is bound to `d`;
and `getOffset` of a declaration bound to no slot below the depth fails by
assertion. -/
theorem tvmStack_depth_and_offset (s : TVMStack) (hdepth : 0 ≤ s.m_size) :
    (∀ cs s1, s.calls cs = some s1 → 0 ≤ s1.m_size) ∧
    (∀ diff, s.m_size + diff < 0 → s.change diff = none) ∧
    (∀ d : Nat, ∃ s1, s.add (some d) true = some s1 ∧ s1.m_size = s.m_size + 1 ∧
      s1.getOffset (some d) = some 0) ∧
    (∀ (name : Option Nat) (slot : Nat), (slot : Int) < s.m_size →
      s.m_stackSize[slot]? = some name →
      (∀ j : Nat, slot < j → (j : Int) < s.m_size → s.m_stackSize[j]? ≠ some name) →
      s.getOffset name = some (s.m_size - 1 - slot)) ∧
    (∀ name : Option Nat,
      (∀ j : Nat, (j : Int) < s.m_size → s.m_stackSize[j]? ≠ some name) →
      s.getOffset name = none) := by
  refine ⟨fun cs s1 h => tvmStack_calls_nonneg cs s s1 hdepth h, ?_, ?_, ?_, ?_⟩
  · intro diff hneg
    have h0 : diff ≠ 0 := by omega
    have h1 : ¬ (s.m_size + diff ≥ 0) := by omega
    simp [TVMStack.change, h0, h1]
  · intro d
    obtain ⟨s1, h1, h2, h3⟩ := tvmStack_add_alloc s d hdepth
    refine ⟨s1, h1, h2, ?_⟩
    have hne : ¬ (s.m_size = -1) := by omega
    simp only [TVMStack.getOffset, TVMStack.isParam, h3, TVMStack.getOffsetOfSlot, h2]
    simp [hne]
  · intro name slot hslot hbound hhigh
    have h := getStackSize_of_highest s name slot hslot hbound hhigh
    have hne : ¬ ((slot : Int) = -1) := by omega
    simp only [TVMStack.getOffset, TVMStack.isParam, h, TVMStack.getOffsetOfSlot]
    simp [hne]
  · intro name hfree
    have h := (isParam_false_iff s name).mpr hfree
    simp [TVMStack.getOffset, h]

/-- C23 on the stack of depth 3 whose slots 0 and 1 are bound to the declarations
7 and 8: a change by -4 fails, `add(9, true)` gives depth 4 and offset 0, the
offset of 7 is 2, and `getOffset(5)` fails. -/
theorem tvmStack_depth_and_offset_witness :
    TVMStack.change { m_size := 3, m_stackSize := [some 7, some 8] } (-4) = none ∧
    (∃ s1, TVMStack.add { m_size := 3, m_stackSize := [some 7, some 8] } (some 9) true = some s1 ∧
      s1.m_size = 3 + 1 ∧ s1.getOffset (some 9) = some 0) ∧
    TVMStack.getOffset { m_size := 3, m_stackSize := [some 7, some 8] } (some 7)
      = some (3 - 1 - (0 : Nat)) ∧
    TVMStack.getOffset { m_size := 3, m_stackSize := [some 7, some 8] } (some 5) = none :=
  ⟨(tvmStack_depth_and_offset { m_size := 3, m_stackSize := [some 7, some 8] }
      (by decide)).2.1 (-4) (by decide),
   (tvmStack_depth_and_offset { m_size := 3, m_stackSize := [some 7, some 8] }
      (by decide)).2.2.1 9,
   (tvmStack_depth_and_offset { m_size := 3, m_stackSize := [some 7, some 8] }
      (by decide)).2.2.2.1 (some 7) 0 (by decide) rfl
      (by
        intro j h1 h2
        simp only at h2
        have hj : j = 1 ∨ j = 2 := by omega
        rcases hj with rfl | rfl <;> simp),
   (tvmStack_depth_and_offset { m_size := 3, m_stackSize := [some 7, some 8] }
      (by decide)).2.2.2.2 (some 5)
      (by
        intro j h2
        simp only at h2
        have hj : j = 0 ∨ j = 1 ∨ j = 2 := by omega
        rcases hj with rfl | rfl | rfl <;> simp)⟩

theorem resize_getElem? (v : List (Option Nat)) (n j : Nat) (x : Option Nat)
    (h : (resize v n)[j]? = some x) : v[j]? = some x ∨ x = none := by
  simp only [resize] at h
  by_cases hj : j < (v.take n).length
  · rw [List.getElem?_append_left hj] at h
    left
    rw [List.getElem?_take] at h
    split at h
    · exact h
    · cases h
  · rw [List.getElem?_append_right (by omega)] at h
    right
    have hmem := List.getElem?_mem h
    exact (List.mem_replicate.mp hmem).2

theorem tvmStack_call_keepsUnbound (s s1 : TVMStack) (d : Nat) (c : StackCall)
    (hc : c.keepsUnbound d = true) (hrun : s.call c = some s1)
    (hfree : ∀ j : Nat, (j : Int) < s.m_size → s.m_stackSize[j]? ≠ some (some d)) :
    ∀ j : Nat, (j : Int) < s1.m_size → s1.m_stackSize[j]? ≠ some (some d) := by
  cases c with
  | change diff =>
    simp only [StackCall.keepsUnbound, decide_eq_true_eq] at hc
    simp only [TVMStack.call, TVMStack.change] at hrun
    split_ifs at hrun <;> cases hrun
    · intro j hj
      simp only at hj
      exact hfree j (by omega)
    · exact hfree
  | changeTakeRet take ret =>
    simp only [StackCall.keepsUnbound, decide_eq_true_eq] at hc
    simp only [TVMStack.call, TVMStack.changeTakeRet, TVMStack.change] at hrun
    split_ifs at hrun <;> cases hrun
    · intro j hj
      simp only at hj
      exact hfree j (by omega)
    · exact hfree
  | add name doAllocation =>
    simp only [StackCall.keepsUnbound, decide_eq_true_eq] at hc
    simp only [TVMStack.call, TVMStack.add] at hrun
    by_cases hn : name.isNone = true
    · rw [if_pos hn] at hrun
      cases hrun
    · rw [if_neg hn] at hrun
      have hkey : ∀ (m : Int) (v : List (Option Nat)),
          (∀ j : Nat, (j : Int) < m - 1 → v[j]? ≠ some (some d)) →
          ∀ j : Nat, (j : Int) < m → (v.set (m - 1).toNat name)[j]? ≠ some (some d) := by
        intro m v hv j hj
        by_cases hjm : (m - 1).toNat = j
        · rw [hjm, List.getElem?_set_self']
          cases hvj : v[j]? with
          | none => simp
          | some y =>
            intro hcon
            apply hc
            simpa using hcon
        · rw [List.getElem?_set_ne hjm]
          exact hv j (by omega)
      have hres : ∀ (n : Nat) (j : Nat), (j : Int) < s.m_size →
          (resize s.m_stackSize n)[j]? ≠ some (some d) := by
        intro n j hj hcon
        rcases resize_getElem? s.m_stackSize n j (some d) hcon with h | h
        · exact hfree j hj h
        · cases h
      cases doAllocation <;> simp only [if_true, if_false, Bool.false_eq_true] at hrun <;>
        split_ifs at hrun <;> cases hrun <;> simp only
      · exact hkey _ _ (fun j hj => hres _ j (by omega))
      · exact hkey _ _ (fun j hj => hfree j (by omega))
      · exact hkey _ _ (fun j hj => hres _ j (by omega))
      · exact hkey _ _ (fun j hj => hfree j (by omega))

theorem tvmStack_calls_keepsUnbound (d : Nat) (cs : List StackCall) :
    ∀ (s s1 : TVMStack), (∀ c ∈ cs, c.keepsUnbound d = true) → s.calls cs = some s1 →
      (∀ j : Nat, (j : Int) < s.m_size → s.m_stackSize[j]? ≠ some (some d)) →
      ∀ j : Nat, (j : Int) < s1.m_size → s1.m_stackSize[j]? ≠ some (some d) := by
  induction cs with
  | nil =>
    intro s s1 _ hrun hfree
    simp only [TVMStack.calls] at hrun
    cases hrun
    exact hfree
  | cons c cs ih =>
    intro s s1 hall hrun hfree
    simp only [TVMStack.calls] at hrun
    cases hcall : s.call c with
    | none => rw [hcall] at hrun; cases hrun
    | some s2 =>
      rw [hcall] at hrun
      exact ih s2 s1 (fun c1 hc1 => hall c1 (List.mem_cons_of_mem c hc1)) hrun
        (tvmStack_call_keepsUnbound s s2 d c (hall c (List.mem_cons_self c cs)) hcall hfree)

/-- C22 as stated fails: declaration 7 is added to the empty stack (slot 0), the
depth is lowered to 0, where `isParam(7)` is false, and is raised again by
`change(+1)` without any `add`: `isParam(7)` is true again, because `change`
leaves `m_stackSize` as it is. -/
theorem tvmStack_stale_binding_returns :
    ∃ s1 s2 s3 : TVMStack,
      TVMStack.add { m_size := 0, m_stackSize := [] } (some 7) true = some s1 ∧
      s1.m_stackSize[0]? = some (some 7) ∧
      s1.change (-1) = some s2 ∧ s2.m_size ≤ 0 ∧ s2.isParam (some 7) = false ∧
      s2.change 1 = some s3 ∧ s3.isParam (some 7) = true :=
  ⟨{ m_size := 1, m_stackSize := [some 7] }, { m_size := 0, m_stackSize := [some 7] },
   { m_size := 1, m_stackSize := [some 7] }, rfl, rfl, rfl, by decide,
   by decide, rfl, by decide⟩

/-- C22, amended: when a declaration `d` is bound to slot `i` and to no slot
below it, and the depth is reduced to `i` or less, `isParam(d)` is false, and
it stays false through every later sequence of calls that lower the depth or
add other declarations (an `add` rebinds the slot it allocates); a later
`change` that brings slot `i` back below the depth makes `isParam(d)` true
again. -/
theorem tvmStack_dropped_declaration_unbound (s s1 : TVMStack) (d i : Nat) (diff : Int)
    (hbound : s.m_stackSize[i]? = some (some d)) (hdepth : (i : Int) < s.m_size)
    (honly : ∀ j : Nat, j < i → s.m_stackSize[j]? ≠ some (some d))
    (hdrop : s.change diff = some s1) (hle : s1.m_size ≤ i) :
    s.isParam (some d) = true ∧ s1.isParam (some d) = false ∧
    (∀ (cs : List StackCall) (s2 : TVMStack), (∀ c ∈ cs, c.keepsUnbound d = true) →
      s1.calls cs = some s2 → s2.isParam (some d) = false) ∧
    (∀ (diff2 : Int) (s3 : TVMStack), s1.change diff2 = some s3 → (i : Int) < s3.m_size →
      s3.isParam (some d) = true) := by
  have hkeep : ∀ (a a1 : TVMStack) (delta : Int), a.change delta = some a1 →
      a1.m_stackSize = a.m_stackSize := by
    intro a a1 delta h
    simp only [TVMStack.change] at h
    split_ifs at h <;> cases h <;> rfl
  have hv : s1.m_stackSize = s.m_stackSize := hkeep s s1 diff hdrop
  have hfree : ∀ j : Nat, (j : Int) < s1.m_size → s1.m_stackSize[j]? ≠ some (some d) := by
    intro j hj
    rw [hv]
    exact honly j (by omega)
  refine ⟨?_, (isParam_false_iff s1 (some d)).mpr hfree, ?_, ?_⟩
  · cases hp : s.isParam (some d) with
    | true => rfl
    | false => exact absurd hbound ((isParam_false_iff s (some d)).mp hp i hdepth)
  · intro cs s2 hall hrun
    exact (isParam_false_iff s2 (some d)).mpr
      (tvmStack_calls_keepsUnbound d cs s1 s2 hall hrun hfree)
  · intro diff2 s3 hup hi
    have hv3 : s3.m_stackSize = s.m_stackSize := by
      rw [hkeep s1 s3 diff2 hup, hv]
    cases hp : s3.isParam (some d) with
    | true => rfl
    | false =>
      exact absurd (hv3 ▸ hbound) ((isParam_false_iff s3 (some d)).mp hp i hi)

/-- C22, amended, on the stack of depth 2 with slot 1 bound to declaration 7:
after the drop of one slot, an `add(8, true)` that takes slot 1 again and a
`change(-1)`, declaration 7 is unbound. -/
theorem tvmStack_dropped_declaration_unbound_witness :
    TVMStack.isParam { m_size := 2, m_stackSize := [none, some 7] } (some 7) = true ∧
    TVMStack.isParam { m_size := 1, m_stackSize := [none, some 7] } (some 7) = false ∧
    (∀ (cs : List StackCall) (s2 : TVMStack), (∀ c ∈ cs, c.keepsUnbound 7 = true) →
      TVMStack.calls { m_size := 1, m_stackSize := [none, some 7] } cs = some s2 →
      s2.isParam (some 7) = false) ∧
    (∀ (diff2 : Int) (s3 : TVMStack),
      TVMStack.change { m_size := 1, m_stackSize := [none, some 7] } diff2 = some s3 →
      ((1 : Nat) : Int) < s3.m_size → s3.isParam (some 7) = true) :=
  tvmStack_dropped_declaration_unbound { m_size := 2, m_stackSize := [none, some 7] }
    { m_size := 1, m_stackSize := [none, some 7] } 7 1 (-1) (by decide) (by decide)
    (by
      intro j hj
      have h0 : j = 0 := by omega
      rw [h0]
      decide)
    (by simp [TVMStack.change]) (by decide)

theorem isEmpty_eq_false_of_data (s : String) (c : Char) (cs : List Char)
    (h : s.data = c :: cs) : s.isEmpty = false := by
  obtain ⟨l⟩ := s
  simp only at h
  subst h
  simp only [String.isEmpty, String.endPos, String.utf8ByteSize, String.utf8ByteSize.go,
    beq_eq_false_iff_ne, ne_eq]
  intro hc
  have := congrArg String.Pos.byteIdx hc
  simp only at this
  have hpos := Char.utf8Size_pos c
  simp at this
  omega

theorem declaredEffect_some (genOpcode : String → Option TvmAstNode) (cmd : String)
    (stackDiff : Int) (h : declaredEffect genOpcode cmd = some stackDiff) :
    ∃ opcode isPure take ret, genOpcode cmd = some opcode ∧
      opcode.asGen = some (isPure, take, ret) ∧ stackDiff = -take + ret := by
  simp only [declaredEffect] at h
  cases hg : genOpcode cmd with
  | none => rw [hg] at h; cases h
  | some opcode =>
    rw [hg] at h
    simp only at h
    cases ha : opcode.asGen with
    | none => rw [ha] at h; cases h
    | some triple =>
      obtain ⟨isPure, take, ret⟩ := triple
      rw [ha] at h
      simp only [Option.some.injEq] at h
      exact ⟨opcode, isPure, take, ret, rfl, ha, h.symm⟩

/-- A `push(stackDiff, cmd)` whose mnemonic the parser accepts with the effect
`stackDiff` appends the parsed opcode and moves the depth by `stackDiff`. -/
theorem stackPusher_push_declared (genOpcode : String → Option TvmAstNode) (st : TVMStack)
    (block : List TvmAstNode) (outer : List (List TvmAstNode)) (stackDiff : Int) (cmd : String)
    (hcmd : cmd.isEmpty = false) (hdecl : declaredEffect genOpcode cmd = some stackDiff)
    (hsize : 0 ≤ st.m_size + stackDiff) :
    ∃ opcode, genOpcode cmd = some opcode ∧
      StackPusher.push genOpcode
          { m_stack2 := st, lockStack := 0, m_instructions := block :: outer } stackDiff cmd
        = some { m_stack2 := { st with m_size := st.m_size + stackDiff }, lockStack := 0,
                 m_instructions := (block ++ [opcode]) :: outer } := by
  obtain ⟨opcode, isPure, take, ret, hg, ha, hd⟩ := declaredEffect_some genOpcode cmd stackDiff hdecl
  refine ⟨opcode, hg, ?_⟩
  subst hd
  by_cases h0 : -take + ret = 0
  · simp [StackPusher.push, hcmd, hg, ha, StackPusher.changeTakeRet, StackPusher.change,
      TVMStack.change, h0, StackPusher.pushOpcode]
  · simp [StackPusher.push, hcmd, hg, ha, StackPusher.changeTakeRet, StackPusher.change,
      TVMStack.change, h0, hsize, StackPusher.pushOpcode]

/-- The same `push` fails by the assertion of the stack model when the depth
would become negative. -/
theorem stackPusher_push_negative (genOpcode : String → Option TvmAstNode) (st : TVMStack)
    (blocks : List (List TvmAstNode)) (stackDiff : Int) (cmd : String)
    (hcmd : cmd.isEmpty = false) (hdecl : declaredEffect genOpcode cmd = some stackDiff)
    (hdepth : 0 ≤ st.m_size) (hsize : st.m_size + stackDiff < 0) :
    StackPusher.push genOpcode
        { m_stack2 := st, lockStack := 0, m_instructions := blocks } stackDiff cmd = none := by
  obtain ⟨opcode, isPure, take, ret, hg, ha, hd⟩ := declaredEffect_some genOpcode cmd stackDiff hdecl
  subst hd
  have h0 : ¬ (-take + ret = 0) := by omega
  have h1 : ¬ (0 ≤ st.m_size + (-take + ret)) := by omega
  simp [StackPusher.push, hcmd, hg, ha, StackPusher.changeTakeRet, StackPusher.change,
    TVMStack.change, h0, h1]

theorem mnemonic_nonempty (c : Char) (cs : List Char) (arg : String) :
    (String.mk (c :: cs) ++ arg).isEmpty = false :=
  isEmpty_eq_false_of_data _ c (cs ++ arg.data) (by simp [String.data_append])

theorem pushInt_nonempty (n : Int) : ("PUSHINT " ++ toString n).isEmpty = false :=
  isEmpty_eq_false_of_data _ 'P' ("USHINT ".data ++ (toString n).data)
    (by simp [String.data_append])

theorem tuple_nonempty (n : Int) : ("TUPLE " ++ toString n).isEmpty = false :=
  isEmpty_eq_false_of_data _ 'T' ("UPLE ".data ++ (toString n).data)
    (by simp [String.data_append])

theorem untuple_nonempty (n : Int) : ("UNTUPLE " ++ toString n).isEmpty = false :=
  isEmpty_eq_false_of_data _ 'U' ("NTUPLE ".data ++ (toString n).data)
    (by simp [String.data_append])

theorem setIndexQ_nonempty (n : Int) : ("SETINDEXQ " ++ toString n).isEmpty = false :=
  isEmpty_eq_false_of_data _ 'S' ("ETINDEXQ ".data ++ (toString n).data)
    (by simp [String.data_append])

/-- The method `pushInt` on an unlocked pusher whose parser accepts the
mnemonic. -/
theorem stackPusher_pushInt (genOpcode : String → Option TvmAstNode) (st : TVMStack)
    (block : List TvmAstNode) (outer : List (List TvmAstNode)) (i : Int)
    (hdecl : declaredEffect genOpcode ("PUSHINT " ++ toString i) = some 1)
    (hsize : 0 ≤ st.m_size) :
    ∃ opcode, genOpcode ("PUSHINT " ++ toString i) = some opcode ∧
      StackPusher.pushInt genOpcode
          { m_stack2 := st, lockStack := 0, m_instructions := block :: outer } i
        = some { m_stack2 := { st with m_size := st.m_size + 1 }, lockStack := 0,
                 m_instructions := (block ++ [opcode]) :: outer } :=
  stackPusher_push_declared genOpcode st block outer 1 _ (pushInt_nonempty i) hdecl (by omega)

/-- Appending an opcode and changing the depth by `delta` on an unlocked
pusher. -/
theorem stackPusher_emit (st : TVMStack) (block : List TvmAstNode)
    (outer : List (List TvmAstNode)) (opcode : TvmAstNode) (delta result : Int)
    (hres : st.m_size + delta = result) (h : 0 ≤ result) :
    ((StackPusher.pushOpcode
        { m_stack2 := st, lockStack := 0, m_instructions := block :: outer } opcode).bind
      fun q => q.change delta)
      = some { m_stack2 := { st with m_size := result }, lockStack := 0,
               m_instructions := (block ++ [opcode]) :: outer } := by
  subst hres
  simp only [StackPusher.pushOpcode, Option.some_bind]
  rw [stackPusher_change_unlocked _ _ rfl h]

theorem stackPusher_emit_negative (st : TVMStack) (blocks : List (List TvmAstNode))
    (opcode : TvmAstNode) (delta : Int) (hdepth : 0 ≤ st.m_size) (h : st.m_size + delta < 0) :
    ((StackPusher.pushOpcode
        { m_stack2 := st, lockStack := 0, m_instructions := blocks } opcode).bind
      fun q => q.change delta) = none := by
  cases blocks with
  | nil => rfl
  | cons block outer =>
    simp only [StackPusher.pushOpcode, Option.some_bind]
    exact stackPusher_change_negative _ _ rfl hdepth h

/-- The method `tuple(qty)` for `0 <= qty <= 255`. -/
theorem stackPusher_tuple_ok (genOpcode : String → Option TvmAstNode) (st : TVMStack)
    (block : List TvmAstNode) (outer : List (List TvmAstNode)) (qty : Int)
    (hint : declaredEffect genOpcode ("PUSHINT " ++ toString qty) = some 1)
    (hgen : declaredEffect genOpcode ("TUPLE " ++ toString qty) = some (-qty + 1))
    (h0 : 0 ≤ qty) (h255 : qty ≤ 255) (hdepth : 0 ≤ st.m_size)
    (hsize : 0 ≤ st.m_size + (1 - qty)) :
    ∃ appended,
      StackPusher.tuple genOpcode
          { m_stack2 := st, lockStack := 0, m_instructions := block :: outer } qty
        = some { m_stack2 := { st with m_size := st.m_size + (1 - qty) }, lockStack := 0,
                 m_instructions := (block ++ appended) :: outer } ∧
      (qty ≤ 15 → ∃ opcode, genOpcode ("TUPLE " ++ toString qty) = some opcode ∧
        appended = [opcode]) ∧
      (15 < qty → ∃ opInt, genOpcode ("PUSHINT " ++ toString qty) = some opInt ∧
        appended = [opInt, makeGenOpcode "TUPLEVAR" (qty + 1) 1]) := by
  by_cases hc : qty ≤ 15
  · obtain ⟨opcode, hg, hp⟩ := stackPusher_push_declared genOpcode st block outer (-qty + 1) _
      (tuple_nonempty qty) hgen (by omega)
    refine ⟨[opcode], ?_, fun _ => ⟨opcode, hg, rfl⟩, fun h => absurd hc (by omega)⟩
    have e : st.m_size + (1 - qty) = st.m_size + (-qty + 1) := by ring
    simp only [StackPusher.tuple, h0, hc, decide_True, Bool.not_true, Bool.false_eq_true,
      if_false, if_true, hp, e]
  · obtain ⟨opInt, hg, hp⟩ := stackPusher_pushInt genOpcode st block outer qty hint hdepth
    refine ⟨[opInt, makeGenOpcode "TUPLEVAR" (qty + 1) 1], ?_, fun h => absurd h hc,
      fun _ => ⟨opInt, hg, rfl⟩⟩
    simp only [StackPusher.tuple, h0, hc, h255, decide_True, decide_False, Bool.not_true,
      Bool.not_false, Bool.false_eq_true, if_false, if_true, hp, Option.some_bind,
      StackPusher.changeTakeRet]
    rw [stackPusher_emit _ _ _ _ _ (st.m_size + (1 - qty)) (by simp only; ring) hsize]
    simp only [List.append_assoc, List.singleton_append]

/-- The method `untuple(n)` for `0 <= n <= 255`. -/
theorem stackPusher_untuple_ok (genOpcode : String → Option TvmAstNode) (st : TVMStack)
    (block : List TvmAstNode) (outer : List (List TvmAstNode)) (n : Int)
    (hint : declaredEffect genOpcode ("PUSHINT " ++ toString n) = some 1)
    (hgen : declaredEffect genOpcode ("UNTUPLE " ++ toString n) = some (-1 + n))
    (h0 : 0 ≤ n) (h255 : n ≤ 255) (hdepth : 0 ≤ st.m_size)
    (hsize : 0 ≤ st.m_size + (n - 1)) :
    ∃ appended,
      StackPusher.untuple genOpcode
          { m_stack2 := st, lockStack := 0, m_instructions := block :: outer } n
        = some { m_stack2 := { st with m_size := st.m_size + (n - 1) }, lockStack := 0,
                 m_instructions := (block ++ appended) :: outer } ∧
      (n ≤ 15 → ∃ opcode, genOpcode ("UNTUPLE " ++ toString n) = some opcode ∧
        appended = [opcode]) ∧
      (15 < n → ∃ opInt, genOpcode ("PUSHINT " ++ toString n) = some opInt ∧
        appended = [opInt, makeGenOpcode "UNTUPLEVAR" 2 n]) := by
  by_cases hc : n ≤ 15
  · obtain ⟨opcode, hg, hp⟩ := stackPusher_push_declared genOpcode st block outer (-1 + n) _
      (untuple_nonempty n) hgen (by omega)
    refine ⟨[opcode], ?_, fun _ => ⟨opcode, hg, rfl⟩, fun h => absurd hc (by omega)⟩
    have e : st.m_size + (n - 1) = st.m_size + (-1 + n) := by ring
    simp only [StackPusher.untuple, h0, hc, decide_True, Bool.not_true, Bool.false_eq_true,
      if_false, if_true, hp, e]
  · obtain ⟨opInt, hg, hp⟩ := stackPusher_pushInt genOpcode st block outer n hint hdepth
    refine ⟨[opInt, makeGenOpcode "UNTUPLEVAR" 2 n], ?_, fun h => absurd h hc,
      fun _ => ⟨opInt, hg, rfl⟩⟩
    simp only [StackPusher.untuple, h0, hc, h255, decide_True, decide_False, Bool.not_true,
      Bool.not_false, Bool.false_eq_true, if_false, if_true, hp, Option.some_bind,
      StackPusher.changeTakeRet]
    rw [stackPusher_emit _ _ _ _ _ (st.m_size + (n - 1)) (by simp only; ring) hsize]
    simp only [List.append_assoc, List.singleton_append]

/-- The method `setIndexQ(index)` for `0 <= index <= 254`. -/
theorem stackPusher_setIndexQ_ok (genOpcode : String → Option TvmAstNode) (st : TVMStack)
    (block : List TvmAstNode) (outer : List (List TvmAstNode)) (index : Int)
    (hint : declaredEffect genOpcode ("PUSHINT " ++ toString index) = some 1)
    (hgen : declaredEffect genOpcode ("SETINDEXQ " ++ toString index) = some (-1))
    (hvar : declaredEffect genOpcode "SETINDEXVARQ" = some (-2))
    (h0 : 0 ≤ index) (h254 : index ≤ 254) (hsize : 0 ≤ st.m_size + (-1)) :
    ∃ appended,
      StackPusher.setIndexQ genOpcode
          { m_stack2 := st, lockStack := 0, m_instructions := block :: outer } index
        = some { m_stack2 := { st with m_size := st.m_size + (-1) }, lockStack := 0,
                 m_instructions := (block ++ appended) :: outer } ∧
      (index ≤ 15 → ∃ opcode, genOpcode ("SETINDEXQ " ++ toString index) = some opcode ∧
        appended = [opcode]) ∧
      (15 < index → ∃ opInt opVar, genOpcode ("PUSHINT " ++ toString index) = some opInt ∧
        genOpcode "SETINDEXVARQ" = some opVar ∧ appended = [opInt, opVar]) := by
  have e1 : (-2 + 1 : Int) = -1 := by norm_num
  have e2 : (-1 - 2 + 1 : Int) = -2 := by norm_num
  by_cases hc : index ≤ 15
  · obtain ⟨opcode, hg, hp⟩ := stackPusher_push_declared genOpcode st block outer (-1) _
      (setIndexQ_nonempty index) hgen hsize
    refine ⟨[opcode], ?_, fun _ => ⟨opcode, hg, rfl⟩, fun h => absurd hc (by omega)⟩
    simp only [StackPusher.setIndexQ, h0, hc, decide_True, Bool.not_true, Bool.false_eq_true,
      if_false, if_true, e1, hp]
  · obtain ⟨opInt, hg, hp⟩ := stackPusher_pushInt genOpcode st block outer index hint
      (by omega)
    obtain ⟨opVar, hgv, hpv⟩ := stackPusher_push_declared genOpcode
      { st with m_size := st.m_size + 1 } (block ++ [opInt]) outer (-2) "SETINDEXVARQ"
      (by decide) hvar (by simp only; omega)
    refine ⟨[opInt, opVar], ?_, fun h => absurd h hc, fun _ => ⟨opInt, opVar, hg, hgv, rfl⟩⟩
    have e : st.m_size + 1 + -2 = st.m_size + -1 := by ring
    simp only [StackPusher.setIndexQ, h0, hc, h254, decide_True, decide_False, Bool.not_true,
      Bool.not_false, Bool.false_eq_true, if_false, if_true, hp, Option.some_bind, e2, hpv,
      List.append_assoc, List.singleton_append, e]

/-- Outside the accepted range the three methods fail by their assertions,
before any opcode is appended. -/
theorem stackPusher_tuple_range (genOpcode : String → Option TvmAstNode) (p : StackPusher)
    (n : Int) :
    (n < 0 ∨ 255 < n → p.tuple genOpcode n = none ∧ p.untuple genOpcode n = none) ∧
    (n < 0 ∨ 254 < n → p.setIndexQ genOpcode n = none) := by
  constructor
  · intro h
    rcases h with h | h
    · have h1 : ¬ (0 ≤ n) := by omega
      simp [StackPusher.tuple, StackPusher.untuple, h1]
    · have h1 : 0 ≤ n := by omega
      have h2 : ¬ (n ≤ 15) := by omega
      have h3 : ¬ (n ≤ 255) := by omega
      simp [StackPusher.tuple, StackPusher.untuple, h1, h2, h3]
  · intro h
    rcases h with h | h
    · have h1 : ¬ (0 ≤ n) := by omega
      simp [StackPusher.setIndexQ, h1]
    · have h1 : 0 ≤ n := by omega
      have h2 : ¬ (n ≤ 15) := by omega
      have h3 : ¬ (n ≤ 254) := by omega
      simp [StackPusher.setIndexQ, h1, h2, h3]

/-- In the accepted range the three methods fail by the assertion of the stack
model when the depth would become negative. -/
theorem stackPusher_tuple_negative (genOpcode : String → Option TvmAstNode) (st : TVMStack)
    (block : List TvmAstNode) (outer : List (List TvmAstNode)) (n : Int)
    (hint : declaredEffect genOpcode ("PUSHINT " ++ toString n) = some 1)
    (htuple : declaredEffect genOpcode ("TUPLE " ++ toString n) = some (-n + 1))
    (huntuple : declaredEffect genOpcode ("UNTUPLE " ++ toString n) = some (-1 + n))
    (hset : declaredEffect genOpcode ("SETINDEXQ " ++ toString n) = some (-1))
    (hvar : declaredEffect genOpcode "SETINDEXVARQ" = some (-2))
    (h0 : 0 ≤ n) (hdepth : 0 ≤ st.m_size) :
    (n ≤ 255 → st.m_size + (1 - n) < 0 →
      StackPusher.tuple genOpcode
        { m_stack2 := st, lockStack := 0, m_instructions := block :: outer } n = none) ∧
    (n ≤ 255 → st.m_size + (n - 1) < 0 →
      StackPusher.untuple genOpcode
        { m_stack2 := st, lockStack := 0, m_instructions := block :: outer } n = none) ∧
    (n ≤ 254 → st.m_size + (-1) < 0 →
      StackPusher.setIndexQ genOpcode
        { m_stack2 := st, lockStack := 0, m_instructions := block :: outer } n = none) := by
  have e1 : (-2 + 1 : Int) = -1 := by norm_num
  have e2 : (-1 - 2 + 1 : Int) = -2 := by norm_num
  refine ⟨?_, ?_, ?_⟩
  · intro h255 hneg
    by_cases hc : n ≤ 15
    · simp only [StackPusher.tuple, h0, hc, decide_True, Bool.not_true, Bool.false_eq_true,
        if_false, if_true]
      exact stackPusher_push_negative genOpcode st (block :: outer) _ _ (tuple_nonempty n) htuple hdepth
        (by omega)
    · simp only [StackPusher.tuple, h0, hc, h255, decide_True, decide_False, Bool.not_true,
        Bool.not_false, Bool.false_eq_true, if_false, if_true]
      obtain ⟨opInt, _, hp⟩ := stackPusher_pushInt genOpcode st block outer n hint hdepth
      simp only [hp, Option.some_bind, StackPusher.changeTakeRet]
      exact stackPusher_emit_negative _ _ _ _ (by simp only; omega) (by simp only; omega)
  · intro h255 hneg
    have hc : n ≤ 15 := by omega
    simp only [StackPusher.untuple, h0, hc, decide_True, Bool.not_true, Bool.false_eq_true,
      if_false, if_true]
    exact stackPusher_push_negative genOpcode st (block :: outer) _ _ (untuple_nonempty n) huntuple hdepth
      (by omega)
  · intro h254 hneg
    by_cases hc : n ≤ 15
    · simp only [StackPusher.setIndexQ, h0, hc, decide_True, Bool.not_true, Bool.false_eq_true,
        if_false, if_true, e1]
      exact stackPusher_push_negative genOpcode st (block :: outer) _ _ (setIndexQ_nonempty n) hset hdepth
        hneg
    · simp only [StackPusher.setIndexQ, h0, hc, h254, decide_True, decide_False, Bool.not_true,
        Bool.not_false, Bool.false_eq_true, if_false, if_true, e2]
      obtain ⟨opInt, _, hp⟩ := stackPusher_pushInt genOpcode st block outer n hint hdepth
      simp only [hp, Option.some_bind]
      exact stackPusher_push_negative genOpcode _ _ _ _ (by decide) hvar
        (by simp only; omega) (by simp only; omega)

/-- C21: on an unlocked pusher with an open block and a parser `gen` that
declares for the five mnemonics the effects their call sites state, for
`0 <= n <= 255` `tuple(n)` changes the modelled depth by `1 - n` and
`untuple(n)` by `n - 1`, and for `0 <= n <= 254` `setIndexQ(n)` changes it by
`-1`; for `n <= 15` one opcode `TUPLE n` / `UNTUPLE n` / `SETINDEXQ n` is
appended, for `n > 15` a `PUSHINT n` followed by `TUPLEVAR` / `UNTUPLEVAR` /
`SETINDEXVARQ`. Outside these ranges the call fails by assertion, and inside
them it fails by the assertion of the stack model when the depth would become
negative. -/
theorem stackPusher_tuple_untuple_setIndexQ (genOpcode : String → Option TvmAstNode)
    (p : StackPusher) (n : Int) (block : List TvmAstNode) (outer : List (List TvmAstNode))
    (hlock : p.lockStack = 0) (hblocks : p.m_instructions = block :: outer)
    (hdepth : 0 ≤ p.stackSize)
    (hint : declaredEffect genOpcode ("PUSHINT " ++ toString n) = some 1)
    (htuple : declaredEffect genOpcode ("TUPLE " ++ toString n) = some (-n + 1))
    (huntuple : declaredEffect genOpcode ("UNTUPLE " ++ toString n) = some (-1 + n))
    (hset : declaredEffect genOpcode ("SETINDEXQ " ++ toString n) = some (-1))
    (hvar : declaredEffect genOpcode "SETINDEXVARQ" = some (-2)) :
    (0 ≤ n → n ≤ 255 → 0 ≤ p.stackSize + (1 - n) →
      ∃ appended,
        p.tuple genOpcode n
          = some { m_stack2 := { p.m_stack2 with m_size := p.m_stack2.m_size + (1 - n) }
                   lockStack := 0
                   m_instructions := (block ++ appended) :: outer } ∧
        (n ≤ 15 → ∃ opcode, genOpcode ("TUPLE " ++ toString n) = some opcode ∧
          appended = [opcode]) ∧
        (15 < n → ∃ opInt, genOpcode ("PUSHINT " ++ toString n) = some opInt ∧
          appended = [opInt, makeGenOpcode "TUPLEVAR" (n + 1) 1])) ∧
    (0 ≤ n → n ≤ 255 → 0 ≤ p.stackSize + (n - 1) →
      ∃ appended,
        p.untuple genOpcode n
          = some { m_stack2 := { p.m_stack2 with m_size := p.m_stack2.m_size + (n - 1) }
                   lockStack := 0
                   m_instructions := (block ++ appended) :: outer } ∧
        (n ≤ 15 → ∃ opcode, genOpcode ("UNTUPLE " ++ toString n) = some opcode ∧
          appended = [opcode]) ∧
        (15 < n → ∃ opInt, genOpcode ("PUSHINT " ++ toString n) = some opInt ∧
          appended = [opInt, makeGenOpcode "UNTUPLEVAR" 2 n])) ∧
    (0 ≤ n → n ≤ 254 → 0 ≤ p.stackSize + (-1) →
      ∃ appended,
        p.setIndexQ genOpcode n
          = some { m_stack2 := { p.m_stack2 with m_size := p.m_stack2.m_size + (-1) }
                   lockStack := 0
                   m_instructions := (block ++ appended) :: outer } ∧
        (n ≤ 15 → ∃ opcode, genOpcode ("SETINDEXQ " ++ toString n) = some opcode ∧
          appended = [opcode]) ∧
        (15 < n → ∃ opInt opVar, genOpcode ("PUSHINT " ++ toString n) = some opInt ∧
          genOpcode "SETINDEXVARQ" = some opVar ∧ appended = [opInt, opVar])) ∧
    (n < 0 ∨ 255 < n → p.tuple genOpcode n = none ∧ p.untuple genOpcode n = none) ∧
    (n < 0 ∨ 254 < n → p.setIndexQ genOpcode n = none) ∧
    (0 ≤ n → n ≤ 255 → p.stackSize + (1 - n) < 0 → p.tuple genOpcode n = none) ∧
    (0 ≤ n → n ≤ 255 → p.stackSize + (n - 1) < 0 → p.untuple genOpcode n = none) ∧
    (0 ≤ n → n ≤ 254 → p.stackSize + (-1) < 0 → p.setIndexQ genOpcode n = none) := by
  obtain ⟨st, lock, instrs⟩ := p
  simp only at hlock hblocks
  subst hlock
  subst hblocks
  simp only [StackPusher.stackSize, TVMStack.size] at hdepth ⊢
  refine ⟨?_, ?_, ?_, (stackPusher_tuple_range genOpcode _ n).1,
    (stackPusher_tuple_range genOpcode _ n).2, ?_, ?_, ?_⟩
  · intro h0 h255 hsize
    exact stackPusher_tuple_ok genOpcode st block outer n hint htuple h0 h255 hdepth hsize
  · intro h0 h255 hsize
    exact stackPusher_untuple_ok genOpcode st block outer n hint huntuple h0 h255 hdepth hsize
  · intro h0 h254 hsize
    exact stackPusher_setIndexQ_ok genOpcode st block outer n hint hset hvar h0 h254 hsize
  · intro h0 h255 hneg
    exact (stackPusher_tuple_negative genOpcode st block outer n hint htuple huntuple hset hvar
      h0 hdepth).1 h255 hneg
  · intro h0 h255 hneg
    exact (stackPusher_tuple_negative genOpcode st block outer n hint htuple huntuple hset hvar
      h0 hdepth).2.1 h255 hneg
  · intro h0 h254 hneg
    exact (stackPusher_tuple_negative genOpcode st block outer n hint htuple huntuple hset hvar
      h0 hdepth).2.2 h254 hneg

/-- C21 at `n = 20` on a pusher of depth 25, with a parser that knows the five
mnemonics: `tuple(20)` appends `PUSHINT 20` and `TUPLEVAR` and leaves the depth
`25 + (1 - 20)`. -/
theorem stackPusher_tuple_untuple_setIndexQ_witness :
    ∃ appended,
      StackPusher.tuple (fun cmd =>
        if cmd = "PUSHINT 20" then some (.GenOpcode "PUSHINT" "20" "" 0 1 true)
        else if cmd = "TUPLE 20" then some (.GenOpcode "TUPLE" "20" "" 20 1 true)
        else if cmd = "UNTUPLE 20" then some (.GenOpcode "UNTUPLE" "20" "" 1 20 true)
        else if cmd = "SETINDEXQ 20" then some (.GenOpcode "SETINDEXQ" "20" "" 2 1 true)
        else if cmd = "SETINDEXVARQ" then some (.GenOpcode "SETINDEXVARQ" "" "" 3 1 true)
        else none)
          { m_stack2 := { m_size := 25, m_stackSize := [] }, lockStack := 0, m_instructions := [[]] } 20
        = some { m_stack2 := { m_size := 25 + (1 - 20), m_stackSize := [] }
                 lockStack := 0
                 m_instructions := ([] ++ appended) :: [] } ∧
      appended = [.GenOpcode "PUSHINT" "20" "" 0 1 true, makeGenOpcode "TUPLEVAR" (20 + 1) 1] :=
  match (stackPusher_tuple_untuple_setIndexQ (fun cmd =>
        if cmd = "PUSHINT 20" then some (.GenOpcode "PUSHINT" "20" "" 0 1 true)
        else if cmd = "TUPLE 20" then some (.GenOpcode "TUPLE" "20" "" 20 1 true)
        else if cmd = "UNTUPLE 20" then some (.GenOpcode "UNTUPLE" "20" "" 1 20 true)
        else if cmd = "SETINDEXQ 20" then some (.GenOpcode "SETINDEXQ" "20" "" 2 1 true)
        else if cmd = "SETINDEXVARQ" then some (.GenOpcode "SETINDEXVARQ" "" "" 3 1 true)
        else none)
      { m_stack2 := { m_size := 25, m_stackSize := [] }, lockStack := 0, m_instructions := [[]] } 20 [] [] rfl rfl (by decide) (by decide) (by decide) (by decide) (by decide)
      (by decide)).1
    (by decide) (by decide) (by decide) with
  | ⟨appended, h1, _, h3⟩ =>
    ⟨appended, h1,
      match h3 (by decide) with
      | ⟨_, hg, ha⟩ => by
        have hg1 := Option.some.inj hg
        rw [ha, ← hg1]⟩

theorem popBack_concat (l : List TvmAstNode) (x : TvmAstNode) :
    popBack (l ++ [x]) = some (l, x) := by
  simp [popBack, List.reverse_append]

/-- The call `push(delta, "")` is `change(delta)`. -/
theorem stackPusher_push_fix (genOpcode : String → Option TvmAstNode) (p : StackPusher)
    (delta : Int) : p.push genOpcode delta "" = p.change delta := by
  have h : ("" : String).isEmpty = true := by decide
  simp only [StackPusher.push, h, if_true]

/-- The method `ifJmpRef` closes the open continuation and turns it into an
`IFJMPREF` node of the enclosing block. -/
theorem stackPusher_ifJmpRef (st : TVMStack) (lock : Int) (body block : List TvmAstNode)
    (outer : List (List TvmAstNode)) :
    StackPusher.ifJmpRef
        { m_stack2 := st, lockStack := lock, m_instructions := body :: block :: outer }
      = some { m_stack2 := st, lockStack := lock,
               m_instructions :=
                (block ++ [.TvmIfElse .IFJMPREF (.mk .PUSHCONT body) none]) :: outer } := by
  simp [StackPusher.ifJmpRef, StackPusher.endContinuation, StackPusher.endCont,
    StackPusher.if_or_ifnot, popBack_concat, TvmAstNode.asCodeBlock]

/-- The lambda `pushOne` leaves the modelled depth as it was and appends the
comparison and the jump. -/
theorem pushOne_state (genOpcode : String → Option TvmAstNode) (st : TVMStack)
    (block : List TvmAstNode) (outer : List (List TvmAstNode)) (functionId : Nat)
    (name : String)
    (hint : declaredEffect genOpcode ("PUSHINT " ++ toString (functionId : Int)) = some 1)
    (heq : declaredEffect genOpcode "EQUAL" = some (-1)) (hdepth : 0 ≤ st.m_size) :
    ∃ opInt opEq,
      TVMFunctionCompiler.pushOne genOpcode
          { m_stack2 := st, lockStack := 0, m_instructions := block :: outer } functionId name
        = some { m_stack2 := st, lockStack := 0,
                 m_instructions :=
                  (block ++ [makePUSH 0, opInt, opEq,
                    .TvmIfElse .IFJMPREF
                      (.mk .PUSHCONT [makeGenOpcode ("CALL $" ++ name ++ "$") 0 0]) none])
                    :: outer } := by
  obtain ⟨m, v⟩ := st
  simp only at hdepth
  have e1 : (-2 + 1 : Int) = -1 := by norm_num
  have h1 := stackPusher_emit { m_size := m, m_stackSize := v } block outer (makePUSH 0) 1
    (m + 1) rfl (by omega)
  obtain ⟨opInt, _, h2⟩ := stackPusher_pushInt genOpcode { m_size := m + 1, m_stackSize := v }
    (block ++ [makePUSH 0]) outer functionId hint (by simp only; omega)
  obtain ⟨opEq, _, h3⟩ := stackPusher_push_declared genOpcode
    { m_size := m + 1 + 1, m_stackSize := v } (block ++ [makePUSH 0] ++ [opInt]) outer (-1)
    "EQUAL" (by decide) heq (by simp only; omega)
  have h4 := stackPusher_change_unlocked
    { m_stack2 := { m_size := m + 1 + 1 + -1, m_stackSize := v }, lockStack := 0,
      m_instructions := (block ++ [makePUSH 0] ++ [opInt] ++ [opEq]) :: outer } (-1) rfl
    (by simp only; omega)
  refine ⟨opInt, opEq, ?_⟩
  simp only [TVMFunctionCompiler.pushOne, StackPusher.pushS, ge_iff_le, le_refl, if_true] at h1 ⊢
  rw [h1]
  simp only [Option.some_bind] at h2 ⊢
  rw [h2]
  simp only [Option.some_bind, e1] at h3 ⊢
  rw [h3]
  simp only [Option.some_bind, stackPusher_push_fix]
  rw [h4]
  simp only [Option.some_bind, StackPusher.startContinuation, StackPusher.pushCall,
    StackPusher.changeTakeRet]
  rw [stackPusher_change_unlocked _ _ rfl (by simp only; omega)]
  simp only [Option.some_bind, StackPusher.pushOpcode, List.nil_append, stackPusher_ifJmpRef,
    List.append_assoc, List.singleton_append, List.cons_append]
  have e : m + 1 + 1 + -1 + -1 + (-0 + 0) = m := by ring
  rw [e]

theorem pushOne_depth (genOpcode : String → Option TvmAstNode) (hgen : SelectorGen genOpcode)
    (p : StackPusher) (outer : List (List TvmAstNode)) (functionId : Nat) (name : String)
    (hopen : OpenOn p outer) (hdepth : 0 ≤ p.m_stack2.m_size) :
    ∃ q, TVMFunctionCompiler.pushOne genOpcode p functionId name = some q ∧ OpenOn q outer ∧
      q.m_stack2.m_size = p.m_stack2.m_size := by
  obtain ⟨st, lock, instrs⟩ := p
  obtain ⟨hlock, block, hblock⟩ := hopen
  simp only at hlock hblock hdepth
  subst hlock
  subst hblock
  obtain ⟨opInt, opEq, h⟩ := pushOne_state genOpcode st block outer functionId name
    (hgen.1 functionId) hgen.2.1 hdepth
  exact ⟨_, h, ⟨rfl, _, rfl⟩, rfl⟩

theorem selectorLeaves_depth (genOpcode : String → Option TvmAstNode)
    (hgen : SelectorGen genOpcode) (functions : List (Nat × String)) (right : Nat)
    (hr : right ≤ functions.length) (outer : List (List TvmAstNode)) (fuel : Nat) :
    ∀ (i : Nat) (p : StackPusher), right - i ≤ fuel → OpenOn p outer → 0 ≤ p.m_stack2.m_size →
      ∃ q, TVMFunctionCompiler.selectorLeaves genOpcode functions right fuel i p = some q ∧
        OpenOn q outer ∧ q.m_stack2.m_size = p.m_stack2.m_size := by
  induction fuel with
  | zero =>
    intro i p h hopen _
    have : ¬ i < right := by omega
    exact ⟨p, by simp [TVMFunctionCompiler.selectorLeaves, this], hopen, rfl⟩
  | succ n ih =>
    intro i p h hopen hdepth
    rw [TVMFunctionCompiler.selectorLeaves]
    by_cases hi : i < right
    · have hil : i < functions.length := by omega
      rcases hfi : functions[i] with ⟨functionId, name⟩
      have hget : functions[i]? = some (functionId, name) := by
        rw [List.getElem?_eq_getElem hil, hfi]
      obtain ⟨p1, h1, hopen1, hsize1⟩ :=
        pushOne_depth genOpcode hgen p outer functionId name hopen hdepth
      obtain ⟨q, hq, hopenq, hsizeq⟩ := ih (i + 1) p1 (by omega) hopen1 (by omega)
      exact ⟨q, by simp [hi, hget, h1, hq], hopenq, by omega⟩
    · exact ⟨p, by simp [hi], hopen, rfl⟩

/-- The branch of an internal node up to its body: `pushS(0)`, `pushInt`, `LEQ`
and `startContinuation()` leave the model one slot deeper, and nothing lowers
it again before the body. -/
theorem selectorNode_head (genOpcode : String → Option TvmAstNode)
    (hgen : SelectorGen genOpcode) (p : StackPusher) (outer : List (List TvmAstNode))
    (functionId : Nat) (hopen : OpenOn p outer) (hdepth : 0 ≤ p.m_stack2.m_size) :
    ∃ p3 block3,
      ((p.pushS 0).bind fun p1 =>
        (p1.pushInt genOpcode functionId).bind fun p2 => p2.push genOpcode (-2 + 1) "LEQ")
        = some p3 ∧
      p3.lockStack = 0 ∧ p3.m_instructions = block3 :: outer ∧
      p3.m_stack2.m_size = p.m_stack2.m_size + 1 := by
  obtain ⟨st, lock, instrs⟩ := p
  obtain ⟨hlock, block, hblock⟩ := hopen
  simp only at hlock hblock hdepth
  subst hlock
  subst hblock
  obtain ⟨m, v⟩ := st
  simp only at hdepth
  have e1 : (-2 + 1 : Int) = -1 := by norm_num
  have h1 := stackPusher_emit { m_size := m, m_stackSize := v } block outer (makePUSH 0) 1
    (m + 1) rfl (by omega)
  obtain ⟨opInt, _, h2⟩ := stackPusher_pushInt genOpcode { m_size := m + 1, m_stackSize := v }
    (block ++ [makePUSH 0]) outer functionId (hgen.1 functionId) (by simp only; omega)
  obtain ⟨opLeq, _, h3⟩ := stackPusher_push_declared genOpcode
    { m_size := m + 1 + 1, m_stackSize := v } (block ++ [makePUSH 0] ++ [opInt]) outer (-1)
    "LEQ" (by decide) hgen.2.2 (by simp only; omega)
  refine ⟨{ m_stack2 := { m_size := m + 1 + 1 + -1, m_stackSize := v }, lockStack := 0,
            m_instructions := (block ++ [makePUSH 0] ++ [opInt] ++ [opLeq]) :: outer },
    block ++ [makePUSH 0] ++ [opInt] ++ [opLeq], ?_, rfl, rfl, ?_⟩
  · simp only [StackPusher.pushS, ge_iff_le, le_refl, if_true] at h1 ⊢
    rw [h1]
    simp only [Option.some_bind] at h2 ⊢
    rw [h2]
    simp only [Option.some_bind, e1] at h3 ⊢
    exact h3
  · simp only
    ring

theorem selectorNodes_depth (genOpcode : String → Option TvmAstNode)
    (hgen : SelectorGen genOpcode)
    (sub : Nat → Nat → StackPusher → Option StackPusher)
    (functions : List (Nat × String)) (blockSize right : Nat)
    (hbs : 1 ≤ blockSize) (hr : right ≤ functions.length)
    (hsub : ∀ i j (p : StackPusher) (outer : List (List TvmAstNode)), j ≤ right →
      j - i ≤ blockSize → OpenOn p outer → 0 ≤ p.m_stack2.m_size →
      ∃ q, sub i j p = some q ∧ OpenOn q outer ∧ p.m_stack2.m_size ≤ q.m_stack2.m_size)
    (outer : List (List TvmAstNode)) (fuel : Nat) :
    ∀ (i : Nat) (p : StackPusher), right - i ≤ fuel → OpenOn p outer → 0 ≤ p.m_stack2.m_size →
      ∃ q, TVMFunctionCompiler.selectorNodes genOpcode sub functions blockSize right fuel i p
          = some q ∧ OpenOn q outer ∧ p.m_stack2.m_size ≤ q.m_stack2.m_size ∧
        (i < right → min (i + blockSize) right - i ≠ 1 →
          p.m_stack2.m_size + 1 ≤ q.m_stack2.m_size) := by
  induction fuel with
  | zero =>
    intro i p h hopen _
    have : ¬ i < right := by omega
    exact ⟨p, by simp [TVMFunctionCompiler.selectorNodes, this], hopen, le_refl _,
      fun h => absurd h this⟩
  | succ n ih =>
    intro i p h hopen hdepth
    rw [TVMFunctionCompiler.selectorNodes]
    by_cases hi : i < right
    · have hj : min (i + blockSize) right - 1 < functions.length := by omega
      rcases hfj : functions[min (i + blockSize) right - 1] with ⟨functionId, name⟩
      have hget : functions[min (i + blockSize) right - 1]? = some (functionId, name) := by
        rw [List.getElem?_eq_getElem hj, hfj]
      by_cases h1 : min (i + blockSize) right - i = 1
      · obtain ⟨p1, hp1, hopen1, hsize1⟩ :=
          pushOne_depth genOpcode hgen p outer functionId name hopen hdepth
        obtain ⟨q, hq, hopenq, hsizeq, _⟩ := ih (i + blockSize) p1 (by omega) hopen1 (by omega)
        exact ⟨q, by simp [hi, hget, h1, hp1, hq], hopenq, by omega, fun _ hne => absurd h1 hne⟩
      · obtain ⟨p3, block3, hp3, hlock3, hinstr3, hsize3⟩ :=
          selectorNode_head genOpcode hgen p outer functionId hopen hdepth
        obtain ⟨p4, hp4, hopen4, hsize4⟩ :=
          hsub i (min (i + blockSize) right) p3.startContinuation (block3 :: outer) (by omega)
            (by omega) ⟨hlock3, [], by simp [StackPusher.startContinuation, hinstr3]⟩
            (by simp only [StackPusher.startContinuation]; omega)
        obtain ⟨st4, lock4, instrs4⟩ := p4
        obtain ⟨hlock4, body, hbody⟩ := hopen4
        simp only at hlock4 hbody hsize4
        subst hlock4
        subst hbody
        have hp5 := stackPusher_ifJmpRef st4 0 body block3 outer
        obtain ⟨q, hq, hopenq, hsizeq, _⟩ := ih (i + blockSize)
          { m_stack2 := st4, lockStack := 0,
            m_instructions :=
              (block3 ++ [.TvmIfElse .IFJMPREF (.mk .PUSHCONT body) none]) :: outer }
          (by omega) ⟨rfl, _, rfl⟩
          (by simp only [StackPusher.startContinuation] at hsize4 ⊢; omega)
        simp only [StackPusher.startContinuation] at hsize4
        simp only at hsizeq
        refine ⟨q, ?_, hopenq, by omega, fun _ _ => by omega⟩
        have hbind : ((p.pushS 0).bind fun p1 =>
            (p1.pushInt genOpcode functionId).bind fun p2 =>
              (p2.push genOpcode (-2 + 1) "LEQ").bind fun p3 =>
                (sub i (min (i + blockSize) right) p3.startContinuation).bind fun p4 =>
                  p4.ifJmpRef.bind fun p5 =>
                    TVMFunctionCompiler.selectorNodes genOpcode sub functions blockSize right n
                      (i + blockSize) p5) = some q := by
          have hassoc : ∀ (f : StackPusher → Option StackPusher),
              ((p.pushS 0).bind fun p1 =>
                (p1.pushInt genOpcode functionId).bind fun p2 =>
                  (p2.push genOpcode (-2 + 1) "LEQ").bind f)
              = (((p.pushS 0).bind fun p1 =>
                  (p1.pushInt genOpcode functionId).bind fun p2 =>
                    p2.push genOpcode (-2 + 1) "LEQ")).bind f := by
            intro f
            cases (p.pushS 0) with
            | none => rfl
            | some p1 =>
              simp only [Option.some_bind]
              cases (p1.pushInt genOpcode functionId) with
              | none => rfl
              | some p2 => rfl
          rw [hassoc, hp3]
          simp only [Option.some_bind, hp4, hp5, hq]
        simp only [hi, if_true, hget, h1, if_false]
        exact hbind
    · exact ⟨p, by simp [hi], hopen, le_refl _, fun h => absurd h hi⟩

theorem buildPublicFunctionSelector_depth (genOpcode : String → Option TvmAstNode)
    (hgen : SelectorGen genOpcode) (functions : List (Nat × String)) (fuel : Nat) :
    ∀ (left right : Nat) (p : StackPusher) (outer : List (List TvmAstNode)),
      right ≤ functions.length → right - left < fuel → OpenOn p outer →
      0 ≤ p.m_stack2.m_size →
      ∃ q, TVMFunctionCompiler.buildPublicFunctionSelector genOpcode functions fuel left right p
          = some q ∧ OpenOn q outer ∧ p.m_stack2.m_size ≤ q.m_stack2.m_size ∧
        (right - left ≤ 4 → q.m_stack2.m_size = p.m_stack2.m_size) ∧
        (4 < right - left → p.m_stack2.m_size + 1 ≤ q.m_stack2.m_size) := by
  induction fuel with
  | zero => intro left right p outer _ h; omega
  | succ n ih =>
    intro left right p outer hr h hopen hdepth
    obtain ⟨hpos, henough, hlt⟩ := selectorBlockSize_props (right - left)
    rw [TVMFunctionCompiler.buildPublicFunctionSelector]
    simp only [if_neg (show ¬ 4 * selectorBlockSize (right - left) < right - left by omega)]
    by_cases hq : right - left ≤ 4
    · simp only [if_pos hq]
      obtain ⟨q, h1, h2, h3⟩ := selectorLeaves_depth genOpcode hgen functions right hr outer
        (right - left) left p (le_refl _) hopen hdepth
      exact ⟨q, h1, h2, by omega, fun _ => h3, fun h4 => absurd hq (by omega)⟩
    · simp only [if_neg hq]
      obtain ⟨q, h1, h2, h3, h4⟩ := selectorNodes_depth genOpcode hgen
        (TVMFunctionCompiler.buildPublicFunctionSelector genOpcode functions n) functions
        (selectorBlockSize (right - left)) right hpos hr
        (fun i j p1 outer1 hj hij hopen1 hdepth1 => by
          obtain ⟨q1, hq1, hq2, hq3, _⟩ :=
            ih i j p1 outer1 (by omega) (by have := hlt (by omega); omega) hopen1 hdepth1
          exact ⟨q1, hq1, hq2, hq3⟩)
        outer (right - left) left p (le_refl _) hopen hdepth
      exact ⟨q, h1, h2, h3, fun h5 => absurd h5 hq, fun _ => h4 (by omega) (by omega)⟩

/-- On an unlocked pusher with an open block and a parser that declares the
effects stated at the calls, `generatePublicFunctionSelector` succeeds for every
function list; with at most 4 functions the modelled depth is the one before,
and with more than 4 functions it is greater: the branch of an internal node
never takes the result of `LEQ` off the model. -/
theorem publicFunctionSelector_depth (genOpcode : String → Option TvmAstNode)
    (hgen : SelectorGen genOpcode) (functions : List (Nat × String)) (p : StackPusher)
    (outer : List (List TvmAstNode)) (hopen : OpenOn p outer) (hdepth : 0 ≤ p.stackSize) :
    ∃ q, TVMFunctionCompiler.generatePublicFunctionSelector genOpcode functions p = some q ∧
      OpenOn q outer ∧
      (functions.length ≤ 4 → q.stackSize = p.stackSize) ∧
      (4 < functions.length → p.stackSize + 1 ≤ q.stackSize) := by
  obtain ⟨q, h1, h2, _, h4, h5⟩ := buildPublicFunctionSelector_depth genOpcode hgen functions
    (functions.length + 1) 0 functions.length p outer (le_refl _) (by omega) hopen hdepth
  exact ⟨q, h1, h2, fun h => h4 (by omega), fun h => h5 (by omega)⟩

/-- C27, the code at a list of five functions: on a pusher of depth 1 (the
function id) the emission of the selector ends at the modelled depth 2, while
the same emission for the first four functions ends at depth 1. -/
theorem publicFunctionSelector_five_functions :
    (TVMFunctionCompiler.generatePublicFunctionSelector
      (fun cmd =>
        if cmd = "EQUAL" ∨ cmd = "LEQ" then some (.GenOpcode cmd "" "" 2 1 true)
        else if cmd = "PUSHINT 10" ∨ cmd = "PUSHINT 20" ∨ cmd = "PUSHINT 30"
            ∨ cmd = "PUSHINT 40" ∨ cmd = "PUSHINT 50" then
          some (.GenOpcode cmd "" "" 0 1 true)
        else none)
      [(10, "a"), (20, "b"), (30, "c"), (40, "d"), (50, "e")]
      { m_stack2 := { m_size := 1, m_stackSize := [] }, lockStack := 0,
        m_instructions := [[]] }).map (fun q => q.stackSize) = some 2 ∧
    (TVMFunctionCompiler.generatePublicFunctionSelector
      (fun cmd =>
        if cmd = "EQUAL" ∨ cmd = "LEQ" then some (.GenOpcode cmd "" "" 2 1 true)
        else if cmd = "PUSHINT 10" ∨ cmd = "PUSHINT 20" ∨ cmd = "PUSHINT 30"
            ∨ cmd = "PUSHINT 40" ∨ cmd = "PUSHINT 50" then
          some (.GenOpcode cmd "" "" 0 1 true)
        else none)
      [(10, "a"), (20, "b"), (30, "c"), (40, "d")]
      { m_stack2 := { m_size := 1, m_stackSize := [] }, lockStack := 0,
        m_instructions := [[]] }).map (fun q => q.stackSize) = some 1 := by
  decide

/-- The method `dropUnder` on an unlocked pusher, for arguments that are not
negative and a depth of at least `droppedCount`. -/
theorem stackPusher_dropUnder_state (st : TVMStack) (block : List TvmAstNode)
    (outer : List (List TvmAstNode)) (droppedCount leftCount : Int)
    (hd : 0 ≤ droppedCount) (hl : 0 ≤ leftCount) (hsize : droppedCount ≤ st.m_size) :
    StackPusher.dropUnder
        { m_stack2 := st, lockStack := 0, m_instructions := block :: outer }
        droppedCount leftCount
      = some { m_stack2 := { st with m_size := st.m_size - droppedCount }, lockStack := 0,
               m_instructions := (block ++ dropUnderInstructions droppedCount leftCount)
                :: outer } := by
  by_cases h0 : droppedCount = 0
  · subst h0
    simp [StackPusher.dropUnder, hl, dropUnderInstructions]
  · by_cases hl0 : leftCount = 0
    · subst hl0
      have hc := stackPusher_change_unlocked
        { m_stack2 := st, lockStack := 0, m_instructions := block :: outer } (-droppedCount)
        rfl (by simp only; omega)
      have h1 : droppedCount ≥ 1 := by omega
      simp [StackPusher.dropUnder, hd, h0, StackPusher.drop, h1, hc, StackPusher.pushOpcode,
        sub_eq_add_neg, dropUnderInstructions]
    · by_cases h11 : droppedCount = 1 ∧ leftCount = 1
      · obtain ⟨rfl, rfl⟩ := h11
        have hc := stackPusher_change_unlocked
          { m_stack2 := st, lockStack := 0,
            m_instructions := (block ++ [makePOP 1]) :: outer } (-1)
          rfl (by simp only; omega)
        simp [StackPusher.dropUnder, StackPusher.popS, StackPusher.pushOpcode, hc,
          sub_eq_add_neg, dropUnderInstructions]
      · have hc := stackPusher_change_unlocked
          { m_stack2 := st, lockStack := 0,
            m_instructions :=
              (block ++ [.Stack .BLKDROP2 droppedCount leftCount (-1)]) :: outer }
          (-droppedCount) rfl (by simp only; omega)
        simp [StackPusher.dropUnder, hd, hl, h0, hl0, h11, StackPusher.pushOpcode, hc,
          sub_eq_add_neg, dropUnderInstructions]

theorem stackPusher_dropUnder_fails (p : StackPusher) (droppedCount leftCount : Int)
    (h : droppedCount < 0) : p.dropUnder droppedCount leftCount = none := by
  by_cases hl : leftCount ≥ 0
  · have : ¬ (droppedCount ≥ 0) := by omega
    simp [StackPusher.dropUnder, hl, this]
  · simp [StackPusher.dropUnder, hl]

theorem allJmp_eq_false_iff (m_controlFlowInfo : List ControlFlowInfo) :
    allJmp m_controlFlowInfo = false ↔ ∃ info ∈ m_controlFlowInfo, info.useJmp = false := by
  simp [allJmp, List.all_eq_false]

theorem retCount_nonneg (_return : ReturnStatement) : 0 ≤ _return.retCount := by
  simp only [ReturnStatement.retCount]
  split
  · omega
  · omega

/-- The second part of `visit(Return)`, from a pusher `q` that is unlocked and
has an open block after the returned expression: one `ReturnOrBreakOrCont` node
is appended whose body is the instructions of `dropUnder`, the flag when not
every frame jumps, and `RET`; the modelled depth is the one of `q`. -/
theorem visitReturn_state (genOpcode : String → Option TvmAstNode) (ReturnParams : Int)
    (nameToInt : String → Option Int) (m_startStackSize : Int) (m_isLibraryWithObj : Bool)
    (m_currentModifier : Int) (modifiers : Nat) (m_controlFlowInfo : List ControlFlowInfo)
    (p : StackPusher) (_return : ReturnStatement) (st : TVMStack) (block : List TvmAstNode)
    (outer : List (List TvmAstNode))
    (hexpr : TVMFunctionCompiler.visitReturnExpressions genOpcode ReturnParams nameToInt p
      _return = some { m_stack2 := st, lockStack := 0, m_instructions := block :: outer })
    (hint : allJmp m_controlFlowInfo = false →
      declaredEffect genOpcode ("PUSHINT " ++ toString ContInfo.RETURN_FLAG) = some 1)
    (hd : 0 ≤ returnDroppedCount st.m_size m_startStackSize
      (m_isLibraryWithObj && m_currentModifier == (modifiers : Int)) _return.retCount)
    (hsize : returnDroppedCount st.m_size m_startStackSize
      (m_isLibraryWithObj && m_currentModifier == (modifiers : Int)) _return.retCount
        ≤ st.m_size) :
    ∃ flag,
      TVMFunctionCompiler.visitReturn genOpcode ReturnParams nameToInt m_startStackSize
          m_isLibraryWithObj m_currentModifier modifiers m_controlFlowInfo p _return
        = some { m_stack2 := st, lockStack := 0,
                 m_instructions :=
                  (block ++ [.ReturnOrBreakOrCont _return.retCount
                    (.mk .None
                      (dropUnderInstructions
                          (returnDroppedCount st.m_size m_startStackSize
                            (m_isLibraryWithObj && m_currentModifier == (modifiers : Int))
                            _return.retCount)
                          _return.retCount
                        ++ flag ++ [makeRET]))]) :: outer } ∧
      (allJmp m_controlFlowInfo = true → flag = []) ∧
      (allJmp m_controlFlowInfo = false →
        ∃ opInt, genOpcode ("PUSHINT " ++ toString ContInfo.RETURN_FLAG) = some opInt ∧
          flag = [opInt]) := by
  obtain ⟨m, v⟩ := st
  have hr := retCount_nonneg _return
  generalize hlast : (m_isLibraryWithObj && m_currentModifier == (modifiers : Int)) = last
    at hd hsize ⊢
  simp only [TVMFunctionCompiler.visitReturn, hexpr, Option.some_bind, hlast,
    StackPusher.startContinuation, StackPusher.stackSize, TVMStack.size]
  simp only [returnDroppedCount] at hd hsize ⊢
  cases last
  · simp only [Bool.false_and, Bool.false_eq_true, if_false, sub_zero] at hd hsize ⊢
    rw [stackPusher_dropUnder_state _ _ _ _ _ hd hr hsize]
    simp only [Option.some_bind]
    cases hall : allJmp m_controlFlowInfo
    · obtain ⟨opInt, hg, hp⟩ := stackPusher_pushInt genOpcode
        { m_size := m - (m - m_startStackSize - _return.retCount), m_stackSize := v }
        ([] ++ dropUnderInstructions (m - m_startStackSize - _return.retCount) _return.retCount)
        (block :: outer) ContInfo.RETURN_FLAG (hint hall) (by simp only; omega)
      refine ⟨[opInt], ?_, (fun h => by cases h), fun _ => ⟨opInt, hg, rfl⟩⟩
      simp only [Bool.not_false, if_true, hp, Option.some_bind, stackPusher_push_fix]
      rw [stackPusher_change_unlocked _ _ rfl (by simp only; omega)]
      simp only [Option.some_bind, StackPusher.ret, StackPusher.pushOpcode,
        StackPusher.endRetOrBreakOrCont, List.nil_append, List.append_assoc]
      have e : m - (m - m_startStackSize - _return.retCount) + 1
          + (m - m_startStackSize - _return.retCount - 1) = m := by ring
      rw [e]
    · refine ⟨[], ?_, fun _ => rfl, fun h => by cases h⟩
      simp only [Bool.not_true, Bool.false_eq_true, if_false, stackPusher_push_fix]
      rw [stackPusher_change_unlocked _ _ rfl (by simp only; omega)]
      simp only [Option.some_bind, StackPusher.ret, StackPusher.pushOpcode,
        StackPusher.endRetOrBreakOrCont, List.nil_append, List.append_assoc, List.append_nil]
      have e : m - (m - m_startStackSize - _return.retCount)
          + (m - m_startStackSize - _return.retCount) = m := by ring
      rw [e]
  · simp only [if_true] at hd hsize ⊢
    have hge : m - m_startStackSize - 1 ≥ 0 := by omega
    simp only [Bool.true_and, hge, decide_True, Bool.not_true, Bool.false_eq_true, if_false]
    rw [stackPusher_dropUnder_state _ _ _ _ _ hd hr hsize]
    simp only [Option.some_bind]
    cases hall : allJmp m_controlFlowInfo
    · obtain ⟨opInt, hg, hp⟩ := stackPusher_pushInt genOpcode
        { m_size := m - (m - m_startStackSize - 1 - _return.retCount), m_stackSize := v }
        ([] ++ dropUnderInstructions (m - m_startStackSize - 1 - _return.retCount)
          _return.retCount)
        (block :: outer) ContInfo.RETURN_FLAG (hint hall) (by simp only; omega)
      refine ⟨[opInt], ?_, (fun h => by cases h), fun _ => ⟨opInt, hg, rfl⟩⟩
      simp only [Bool.not_false, if_true, hp, Option.some_bind, stackPusher_push_fix]
      rw [stackPusher_change_unlocked _ _ rfl (by simp only; omega)]
      simp only [Option.some_bind, StackPusher.ret, StackPusher.pushOpcode,
        StackPusher.endRetOrBreakOrCont, List.nil_append, List.append_assoc]
      have e : m - (m - m_startStackSize - 1 - _return.retCount) + 1
          + (m - m_startStackSize - 1 - _return.retCount - 1) = m := by ring
      rw [e]
    · refine ⟨[], ?_, fun _ => rfl, fun h => by cases h⟩
      simp only [Bool.not_true, Bool.false_eq_true, if_false, stackPusher_push_fix]
      rw [stackPusher_change_unlocked _ _ rfl (by simp only; omega)]
      simp only [Option.some_bind, StackPusher.ret, StackPusher.pushOpcode,
        StackPusher.endRetOrBreakOrCont, List.nil_append, List.append_assoc, List.append_nil]
      have e : m - (m - m_startStackSize - 1 - _return.retCount)
          + (m - m_startStackSize - 1 - _return.retCount) = m := by ring
      rw [e]

theorem dropUnderInstructions_stack (droppedCount leftCount : Int) :
    ∀ x ∈ dropUnderInstructions droppedCount leftCount,
      ∃ opcode i j k, x = TvmAstNode.Stack opcode i j k := by
  intro x hx
  simp only [dropUnderInstructions] at hx
  split_ifs at hx
  · simp at hx
  · simp only [List.mem_singleton] at hx
    exact ⟨_, _, _, _, hx⟩
  · simp only [List.mem_singleton] at hx
    exact ⟨_, _, _, _, hx⟩
  · simp only [List.mem_singleton] at hx
    exact ⟨_, _, _, _, hx⟩

/-- A negative count of slots to drop makes `visit(Return)` fail by
assertion. -/
theorem visitReturn_fails (genOpcode : String → Option TvmAstNode) (ReturnParams : Int)
    (nameToInt : String → Option Int) (m_startStackSize : Int) (m_isLibraryWithObj : Bool)
    (m_currentModifier : Int) (modifiers : Nat) (m_controlFlowInfo : List ControlFlowInfo)
    (p q : StackPusher) (_return : ReturnStatement)
    (hexpr : TVMFunctionCompiler.visitReturnExpressions genOpcode ReturnParams nameToInt p
      _return = some q)
    (hd : returnDroppedCount q.stackSize m_startStackSize
      (m_isLibraryWithObj && m_currentModifier == (modifiers : Int)) _return.retCount < 0) :
    TVMFunctionCompiler.visitReturn genOpcode ReturnParams nameToInt m_startStackSize
        m_isLibraryWithObj m_currentModifier modifiers m_controlFlowInfo p _return = none := by
  generalize hlast : (m_isLibraryWithObj && m_currentModifier == (modifiers : Int)) = last
    at hd ⊢
  simp only [TVMFunctionCompiler.visitReturn, hexpr, Option.some_bind, hlast,
    StackPusher.startContinuation, StackPusher.stackSize, TVMStack.size]
  simp only [returnDroppedCount, StackPusher.stackSize, TVMStack.size] at hd
  cases last
  · simp only [Bool.false_and, Bool.false_eq_true, if_false, sub_zero] at hd ⊢
    rw [stackPusher_dropUnder_fails _ _ _ hd]
    rfl
  · simp only [if_true] at hd
    simp only [Bool.true_and, if_true]
    split
    · rfl
    · rw [stackPusher_dropUnder_fails _ _ _ hd]
      rfl

/-- C29 as stated fails: for a function with two arguments, no named return
and one return parameter, at `return b;` (the expression is lowered by
`pushS(0)`, the depth after it is 3 and the entry depth 0) the claim's count
`3 - 0 - 2 - 0 = 1` would append `POP S1`, the instruction of
`dropUnder(1, 1)`; the code appends `BLKDROP2 2, 1`, the instruction of
`dropUnder(2, 1)`. -/
theorem visitReturn_two_arguments :
    TVMFunctionCompiler.visitReturn (fun _ => none) 0 (fun _ => none) 0 false 0 0 []
        { m_stack2 := { m_size := 2, m_stackSize := [] }, lockStack := 0,
          m_instructions := [[]] }
        { names := [], options := [], expression := some (fun p => p.pushS 0),
          functionReturnParameters := some 1 }
      = some { m_stack2 := { m_size := 3, m_stackSize := [] }, lockStack := 0,
               m_instructions :=
                [[makePUSH 0,
                  .ReturnOrBreakOrCont 1
                    (.mk .None [.Stack .BLKDROP2 2 1 (-1), makeRET])]] } ∧
    dropUnderInstructions (3 - 0 - 2 - 0) 1 = [makePOP 1] ∧
    dropUnderInstructions 2 1 = [.Stack .BLKDROP2 2 1 (-1)] := by
  refine ⟨by rfl, by simp [dropUnderInstructions], by simp [dropUnderInstructions]⟩

/-- C29, amended: when the pusher `q` after the returned expression is unlocked
with an open block, `visit(Return)` appends the instructions of
`dropUnder(trash, retCount)` with `trash = depth(q) - m_startStackSize -
retCount`, less one for a library function with object at its last modifier;
the arguments and named returns of the function are part of the slots dropped.
A negative `trash` fails by assertion. -/
theorem visitReturn_dropUnder (genOpcode : String → Option TvmAstNode) (ReturnParams : Int)
    (nameToInt : String → Option Int) (m_startStackSize : Int) (m_isLibraryWithObj : Bool)
    (m_currentModifier : Int) (modifiers : Nat) (m_controlFlowInfo : List ControlFlowInfo)
    (p q : StackPusher) (_return : ReturnStatement) (block : List TvmAstNode)
    (outer : List (List TvmAstNode))
    (hexpr : TVMFunctionCompiler.visitReturnExpressions genOpcode ReturnParams nameToInt p
      _return = some q)
    (hlock : q.lockStack = 0) (hblocks : q.m_instructions = block :: outer)
    (hint : allJmp m_controlFlowInfo = false →
      declaredEffect genOpcode ("PUSHINT " ++ toString ContInfo.RETURN_FLAG) = some 1)
    (hstart : 0 ≤ m_startStackSize) :
    (0 ≤ q.stackSize - m_startStackSize
          - (if (m_isLibraryWithObj && m_currentModifier == (modifiers : Int)) then 1 else 0)
          - _return.retCount →
      ∃ rest q1,
        TVMFunctionCompiler.visitReturn genOpcode ReturnParams nameToInt m_startStackSize
            m_isLibraryWithObj m_currentModifier modifiers m_controlFlowInfo p _return
          = some q1 ∧
        q1.m_instructions =
          (block ++ [.ReturnOrBreakOrCont _return.retCount
            (.mk .None
              (dropUnderInstructions
                  (q.stackSize - m_startStackSize
                    - (if (m_isLibraryWithObj && m_currentModifier == (modifiers : Int))
                        then 1 else 0)
                    - _return.retCount)
                  _return.retCount ++ rest))]) :: outer) ∧
    (q.stackSize - m_startStackSize
          - (if (m_isLibraryWithObj && m_currentModifier == (modifiers : Int)) then 1 else 0)
          - _return.retCount < 0 →
      TVMFunctionCompiler.visitReturn genOpcode ReturnParams nameToInt m_startStackSize
          m_isLibraryWithObj m_currentModifier modifiers m_controlFlowInfo p _return = none) := by
  constructor
  · intro hd
    obtain ⟨st, lock, instrs⟩ := q
    simp only at hlock hblocks
    subst hlock
    subst hblocks
    simp only [StackPusher.stackSize, TVMStack.size] at hd ⊢
    have hr := retCount_nonneg _return
    obtain ⟨flag, h1, _, _⟩ := visitReturn_state genOpcode ReturnParams nameToInt
      m_startStackSize m_isLibraryWithObj m_currentModifier modifiers m_controlFlowInfo p
      _return st block outer hexpr hint (by simp only [returnDroppedCount]; exact hd)
      (by
        simp only [returnDroppedCount]
        split <;> omega)
    refine ⟨flag ++ [makeRET], _, h1, ?_⟩
    simp only [returnDroppedCount, List.append_assoc]
  · intro hd
    exact visitReturn_fails genOpcode ReturnParams nameToInt m_startStackSize
      m_isLibraryWithObj m_currentModifier modifiers m_controlFlowInfo p q _return hexpr
      (by simp only [returnDroppedCount]; exact hd)

/-- C29, amended, at `return b;` in a function with two arguments and one
return parameter: the body of the node starts with `BLKDROP2 2, 1`. -/
theorem visitReturn_dropUnder_witness :
    ∃ rest q1,
      TVMFunctionCompiler.visitReturn (fun _ => none) 0 (fun _ => none) 0 false 0 0 []
          { m_stack2 := { m_size := 2, m_stackSize := [] }, lockStack := 0,
            m_instructions := [[]] }
          { names := [], options := [], expression := some (fun p => p.pushS 0),
            functionReturnParameters := some 1 }
        = some q1 ∧
      q1.m_instructions =
        ([makePUSH 0] ++ [.ReturnOrBreakOrCont 1
          (.mk .None (dropUnderInstructions (3 - 0 - 0 - 1) 1 ++ rest))]) :: [] :=
  (visitReturn_dropUnder (fun _ => none) 0 (fun _ => none) 0 false 0 0 []
    { m_stack2 := { m_size := 2, m_stackSize := [] }, lockStack := 0, m_instructions := [[]] }
    { m_stack2 := { m_size := 3, m_stackSize := [] }, lockStack := 0,
      m_instructions := [[makePUSH 0]] }
    { names := [], options := [], expression := some (fun p => p.pushS 0),
      functionReturnParameters := some 1 }
    [makePUSH 0] [] (by rfl) rfl rfl (fun h => by simp [allJmp] at h) (by decide)).1
    (by decide)

/-- C30: when the pusher `q` after the returned expression is unlocked with an
open block and the count of slots to drop is between 0 and the depth,
`visit(Return)` appends one node whose body ends with `PUSHINT RETURN_FLAG`,
`RET` if some frame of the control-flow stack has `useJmp = false`, and with
`RET` right after the instructions of `dropUnder` (stack ops) if the frame
stack is empty or every frame has `useJmp = true`; the stack model after the
statement is the one of `q`. -/
theorem visitReturn_flag (genOpcode : String → Option TvmAstNode) (ReturnParams : Int)
    (nameToInt : String → Option Int) (m_startStackSize : Int) (m_isLibraryWithObj : Bool)
    (m_currentModifier : Int) (modifiers : Nat) (m_controlFlowInfo : List ControlFlowInfo)
    (p q : StackPusher) (_return : ReturnStatement) (block : List TvmAstNode)
    (outer : List (List TvmAstNode))
    (hexpr : TVMFunctionCompiler.visitReturnExpressions genOpcode ReturnParams nameToInt p
      _return = some q)
    (hlock : q.lockStack = 0) (hblocks : q.m_instructions = block :: outer)
    (hint : allJmp m_controlFlowInfo = false →
      declaredEffect genOpcode ("PUSHINT " ++ toString ContInfo.RETURN_FLAG) = some 1)
    (hd : 0 ≤ returnDroppedCount q.stackSize m_startStackSize
      (m_isLibraryWithObj && m_currentModifier == (modifiers : Int)) _return.retCount)
    (hsize : returnDroppedCount q.stackSize m_startStackSize
      (m_isLibraryWithObj && m_currentModifier == (modifiers : Int)) _return.retCount
        ≤ q.stackSize) :
    ∃ before flag,
      TVMFunctionCompiler.visitReturn genOpcode ReturnParams nameToInt m_startStackSize
          m_isLibraryWithObj m_currentModifier modifiers m_controlFlowInfo p _return
        = some { q with
            m_instructions :=
              (block ++ [.ReturnOrBreakOrCont _return.retCount
                (.mk .None (before ++ flag ++ [makeRET]))]) :: outer } ∧
      (∀ x ∈ before, ∃ opcode i j k, x = TvmAstNode.Stack opcode i j k) ∧
      ((∃ info ∈ m_controlFlowInfo, info.useJmp = false) →
        ∃ opInt, genOpcode ("PUSHINT " ++ toString ContInfo.RETURN_FLAG) = some opInt ∧
          flag = [opInt]) ∧
      ((∀ info ∈ m_controlFlowInfo, info.useJmp = true) → flag = []) := by
  obtain ⟨st, lock, instrs⟩ := q
  simp only at hlock hblocks
  subst hlock
  subst hblocks
  simp only [StackPusher.stackSize, TVMStack.size] at hd hsize
  obtain ⟨flag, h1, h2, h3⟩ := visitReturn_state genOpcode ReturnParams nameToInt
    m_startStackSize m_isLibraryWithObj m_currentModifier modifiers m_controlFlowInfo p
    _return st block outer hexpr hint hd hsize
  refine ⟨_, flag, h1, dropUnderInstructions_stack _ _, ?_, ?_⟩
  · intro hex
    exact h3 ((allJmp_eq_false_iff m_controlFlowInfo).mpr hex)
  · intro hall
    apply h2
    simp only [allJmp, List.all_eq_true]
    exact hall

/-- C30 at `return b;` inside a loop frame (`useJmp = false`): the body of the
node is `BLKDROP2 2, 1`, `PUSHINT 3`, `RET`, and the depth stays 3. -/
theorem visitReturn_flag_witness :
    ∃ before flag,
      TVMFunctionCompiler.visitReturn
          (fun cmd => if cmd = "PUSHINT 3" then some (.GenOpcode "PUSHINT" "3" "" 0 1 true)
            else none)
          0 (fun _ => none) 0 false 0 0 [{ stackSize := 2, isLoop := true, useJmp := false }]
          { m_stack2 := { m_size := 2, m_stackSize := [] }, lockStack := 0,
            m_instructions := [[]] }
          { names := [], options := [], expression := some (fun p => p.pushS 0),
            functionReturnParameters := some 1 }
        = some { m_stack2 := { m_size := 3, m_stackSize := [] }, lockStack := 0,
                 m_instructions :=
                  ([makePUSH 0] ++ [.ReturnOrBreakOrCont 1
                    (.mk .None (before ++ flag ++ [makeRET]))]) :: [] } ∧
      flag = [.GenOpcode "PUSHINT" "3" "" 0 1 true] :=
  match visitReturn_flag
      (fun cmd => if cmd = "PUSHINT 3" then some (.GenOpcode "PUSHINT" "3" "" 0 1 true)
        else none)
      0 (fun _ => none) 0 false 0 0 [{ stackSize := 2, isLoop := true, useJmp := false }]
      { m_stack2 := { m_size := 2, m_stackSize := [] }, lockStack := 0, m_instructions := [[]] }
      { m_stack2 := { m_size := 3, m_stackSize := [] }, lockStack := 0,
        m_instructions := [[makePUSH 0]] }
      { names := [], options := [], expression := some (fun p => p.pushS 0),
        functionReturnParameters := some 1 }
      [makePUSH 0] [] (by rfl) rfl rfl (fun _ => by decide) (by decide) (by decide) with
  | ⟨before, flag, h1, _, h3, _⟩ =>
    ⟨before, flag, h1,
      match h3 ⟨_, List.mem_singleton.mpr rfl, rfl⟩ with
      | ⟨_, hg, hf⟩ => by
        have hg1 := Option.some.inj hg
        rw [hf, ← hg1]⟩

/-! ## The lowering of for-statements -/

theorem pushS_locked (st : TVMStack) (block : List TvmAstNode) (rest : List (List TvmAstNode))
    (i : Int) (hi : 0 ≤ i) :
    StackPusher.pushS { m_stack2 := st, lockStack := 1, m_instructions := block :: rest } i
      = some { m_stack2 := st, lockStack := 1,
               m_instructions := (block ++ [makePUSH i]) :: rest } := by
  simp [StackPusher.pushS, hi, StackPusher.pushOpcode, StackPusher.change]

theorem push_declared_locked (genOpcode : String → Option TvmAstNode) (st : TVMStack)
    (block : List TvmAstNode) (rest : List (List TvmAstNode)) (stackDiff : Int) (cmd : String)
    (hcmd : cmd.isEmpty = false) (hdecl : declaredEffect genOpcode cmd = some stackDiff) :
    ∃ opcode,
      StackPusher.push genOpcode
          { m_stack2 := st, lockStack := 1, m_instructions := block :: rest } stackDiff cmd
        = some { m_stack2 := st, lockStack := 1,
                 m_instructions := (block ++ [opcode]) :: rest } := by
  obtain ⟨opcode, isPure, take, ret, hg, ha, hd⟩ := declaredEffect_some genOpcode cmd stackDiff hdecl
  refine ⟨opcode, ?_⟩
  subst hd
  simp [StackPusher.push, hcmd, hg, ha, StackPusher.changeTakeRet, StackPusher.change,
    StackPusher.pushOpcode]

theorem ifret_locked (st : TVMStack) (block : List TvmAstNode) (rest : List (List TvmAstNode)) :
    StackPusher.ifret { m_stack2 := st, lockStack := 1, m_instructions := block :: rest }
      = some { m_stack2 := st, lockStack := 1,
               m_instructions := (block ++ [makeIFRET]) :: rest } := by
  simp [StackPusher.ifret, StackPusher.pushOpcode, StackPusher.changeTakeRet,
    StackPusher.change]

theorem drop_one_locked (st : TVMStack) (block : List TvmAstNode)
    (rest : List (List TvmAstNode)) :
    StackPusher.drop { m_stack2 := st, lockStack := 1, m_instructions := block :: rest } 1
      = some { m_stack2 := st, lockStack := 1,
               m_instructions := (block ++ [makeDROP 1]) :: rest } := by
  simp [StackPusher.drop, StackPusher.pushOpcode, StackPusher.change]

theorem endOpaque_state (st : TVMStack) (body block : List TvmAstNode)
    (rest : List (List TvmAstNode)) (take ret : Int) (h : 0 ≤ st.m_size + (-take + ret)) :
    StackPusher.endOpaque
        { m_stack2 := st, lockStack := 1, m_instructions := body :: block :: rest } take ret
        false
      = some { m_stack2 := { st with m_size := st.m_size + (-take + ret) }, lockStack := 0,
               m_instructions :=
                (block ++ [.Opaque (.mk .None body) take ret false]) :: rest } := by
  simp only [StackPusher.endOpaque, StackPusher.changeTakeRet]
  rw [stackPusher_change_unlocked _ _ (by norm_num) h]
  simp

/-- The method `drop(cnt)` on an unlocked pusher for `0 <= cnt <= depth`. -/
theorem drop_state (st : TVMStack) (block : List TvmAstNode) (rest : List (List TvmAstNode))
    (cnt : Int) (h0 : 0 ≤ cnt) (h : cnt ≤ st.m_size) :
    ∃ emitted,
      StackPusher.drop { m_stack2 := st, lockStack := 0, m_instructions := block :: rest } cnt
        = some { m_stack2 := { st with m_size := st.m_size - cnt }, lockStack := 0,
                 m_instructions := (block ++ emitted) :: rest } := by
  by_cases hc : cnt ≥ 1
  · refine ⟨[makeDROP cnt], ?_⟩
    simp only [StackPusher.drop, hc, if_true]
    rw [stackPusher_change_unlocked _ _ rfl (by simp only; omega)]
    simp [StackPusher.pushOpcode, sub_eq_add_neg]
  · have : cnt = 0 := by omega
    subst this
    refine ⟨[], ?_⟩
    simp [StackPusher.drop]

theorem eqint_nonempty : ("EQINT " ++ toString ContInfo.RETURN_FLAG).isEmpty = false := by
  decide

theorem gtint_nonempty : ("GTINT " ++ toString ContInfo.CONTINUE_FLAG).isEmpty = false := by
  decide

/-- The method `afterLoopCheck(ci, loopVarQty)` on an unlocked pusher: it takes
the return flag, when one was declared, and `loopVarQty` slots off the model. -/
theorem afterLoopCheck_state (genOpcode : String → Option TvmAstNode)
    (hgen : LoopGen genOpcode) (st : TVMStack) (block : List TvmAstNode)
    (outer : List (List TvmAstNode)) (m_controlFlowInfo : List ControlFlowInfo)
    (ci : ContInfo) (loopVarQty : Int) (hq : 0 ≤ loopVarQty)
    (hdepth : ci.flagQty + loopVarQty ≤ st.m_size) :
    ∃ emitted,
      TVMFunctionCompiler.afterLoopCheck genOpcode
          { m_stack2 := st, lockStack := 0, m_instructions := block :: outer }
          m_controlFlowInfo ci loopVarQty
        = some { m_stack2 := { st with m_size := st.m_size - ci.flagQty - loopVarQty },
                 lockStack := 0, m_instructions := (block ++ emitted) :: outer } := by
  obtain ⟨m, v⟩ := st
  obtain ⟨opcode, isPure, take, ret, hg, ha, hd⟩ :=
    declaredEffect_some genOpcode _ 0 hgen.2.2.2
  have hpush : ∀ (blk : List TvmAstNode) (rest : List (List TvmAstNode)),
      StackPusher.push genOpcode
          { m_stack2 := { m_size := m, m_stackSize := v }, lockStack := 1,
            m_instructions := blk :: rest } 0
          ("EQINT " ++ toString ContInfo.RETURN_FLAG)
        = some { m_stack2 := { m_size := m, m_stackSize := v }, lockStack := 1,
                 m_instructions := (blk ++ [opcode]) :: rest } := by
    intro blk rest
    simp [StackPusher.push, eqint_nonempty, hg, ha, ← hd, StackPusher.changeTakeRet,
      StackPusher.change, StackPusher.pushOpcode]
  obtain ⟨canReturn, canBreak, canContinue⟩ := ci
  simp only [ContInfo.flagQty] at hdepth ⊢
  simp only [TVMFunctionCompiler.afterLoopCheck]
  cases canReturn
  · -- no return in the body
    cases hbc : (canBreak || canContinue)
    · simp only [Bool.false_or, hbc, Bool.false_eq_true, if_false, Option.some_bind,
        sub_zero] at hdepth ⊢
      exact drop_state _ block outer loopVarQty hq (by simp only; omega)
    · simp only [Bool.false_or, hbc, if_true, Bool.false_eq_true, if_false] at hdepth ⊢
      obtain ⟨e1, h1⟩ := drop_state { m_size := m, m_stackSize := v } block outer 1
        (by norm_num) (by simp only; omega)
      rw [h1]
      simp only [Option.some_bind]
      obtain ⟨e2, h2⟩ := drop_state { m_size := m - 1, m_stackSize := v } (block ++ e1) outer
        loopVarQty hq (by simp only; omega)
      exact ⟨e1 ++ e2, by rw [h2]; simp⟩
  · -- a return in the body: the flag is tested inside an opaque block
    simp only [Bool.true_or, if_true, StackPusher.startOpaque, zero_add] at hdepth ⊢
    have hend : ∀ body : List TvmAstNode,
        StackPusher.endOpaque
            { m_stack2 := { m_size := m, m_stackSize := v }, lockStack := 1,
              m_instructions := body :: block :: outer } 1 0 false
          = some { m_stack2 := { m_size := m + (-1 + 0), m_stackSize := v }, lockStack := 0,
                   m_instructions :=
                    (block ++ [.Opaque (.mk .None body) 1 0 false]) :: outer } := by
      intro body
      exact endOpaque_state _ body block outer 1 0 (by simp only; omega)
    have hfinal : ∀ emitted0 : List TvmAstNode,
        ∃ emitted,
          StackPusher.drop
              { m_stack2 := { m_size := m + (-1 + 0), m_stackSize := v }, lockStack := 0,
                m_instructions := (block ++ emitted0) :: outer } loopVarQty
            = some { m_stack2 := { m_size := m - 1 - loopVarQty, m_stackSize := v },
                     lockStack := 0, m_instructions := (block ++ emitted) :: outer } := by
      intro emitted0
      obtain ⟨e2, h2⟩ := drop_state { m_size := m + (-1 + 0), m_stackSize := v }
        (block ++ emitted0) outer loopVarQty hq (by simp only; omega)
      refine ⟨emitted0 ++ e2, ?_⟩
      rw [h2]
      simp only [List.append_assoc]
      have e : m + (-1 + 0) - loopVarQty = m - 1 - loopVarQty := by ring
      rw [e]
    cases hall : allJmp m_controlFlowInfo
    · simp only [Bool.false_eq_true, if_false]
      rw [pushS_locked _ _ _ 0 (le_refl 0)]
      simp only [Option.some_bind]
      cases hbc : (canBreak || canContinue)
      · simp only [Bool.false_eq_true, if_false, Option.some_bind, ifret_locked,
          drop_one_locked, hend]
        exact hfinal _
      · simp only [if_true, hpush, Option.some_bind, ifret_locked, drop_one_locked, hend]
        exact hfinal _
    · simp only [if_true, hpush, Option.some_bind, ifret_locked, hend]
      exact hfinal _

theorem push_to (genOpcode : String → Option TvmAstNode) (m : Int) (v : List (Option Nat))
    (block : List TvmAstNode) (outer : List (List TvmAstNode)) (stackDiff result : Int)
    (cmd : String) (hcmd : cmd.isEmpty = false)
    (hdecl : declaredEffect genOpcode cmd = some stackDiff) (hres : m + stackDiff = result)
    (h : 0 ≤ result) :
    ∃ opcode,
      StackPusher.push genOpcode
          { m_stack2 := { m_size := m, m_stackSize := v }, lockStack := 0,
            m_instructions := block :: outer } stackDiff cmd
        = some { m_stack2 := { m_size := result, m_stackSize := v }, lockStack := 0,
                 m_instructions := (block ++ [opcode]) :: outer } := by
  subst hres
  obtain ⟨opcode, _, hp⟩ := stackPusher_push_declared genOpcode { m_size := m, m_stackSize := v }
    block outer stackDiff cmd hcmd hdecl h
  exact ⟨opcode, hp⟩

theorem fix_to (genOpcode : String → Option TvmAstNode) (m : Int) (v : List (Option Nat))
    (blocks : List (List TvmAstNode)) (delta result : Int) (hres : m + delta = result)
    (h : 0 ≤ result) :
    StackPusher.push genOpcode
        { m_stack2 := { m_size := m, m_stackSize := v }, lockStack := 0,
          m_instructions := blocks } delta ""
      = some { m_stack2 := { m_size := result, m_stackSize := v }, lockStack := 0,
               m_instructions := blocks } := by
  subst hres
  rw [stackPusher_push_fix, stackPusher_change_unlocked _ _ rfl h]

theorem drop_to (m : Int) (v : List (Option Nat)) (block : List TvmAstNode)
    (rest : List (List TvmAstNode)) (cnt result : Int) (h0 : 0 ≤ cnt) (hres : m - cnt = result)
    (h : 0 ≤ result) :
    ∃ emitted,
      StackPusher.drop
          { m_stack2 := { m_size := m, m_stackSize := v }, lockStack := 0,
            m_instructions := block :: rest } cnt
        = some { m_stack2 := { m_size := result, m_stackSize := v }, lockStack := 0,
                 m_instructions := (block ++ emitted) :: rest } := by
  subst hres
  exact drop_state { m_size := m, m_stackSize := v } block rest cnt h0 (by simp only; omega)

theorem lowers_to (f : StackPusher → Option StackPusher) (delta : Int) (hf : Lowers f delta)
    (m : Int) (v : List (Option Nat)) (block : List TvmAstNode)
    (outer : List (List TvmAstNode)) (result : Int) (hres : m + delta = result) (h : 0 ≤ m) :
    ∃ v1 emitted,
      f { m_stack2 := { m_size := m, m_stackSize := v }, lockStack := 0,
          m_instructions := block :: outer }
        = some { m_stack2 := { m_size := result, m_stackSize := v1 }, lockStack := 0,
                 m_instructions := (block ++ emitted) :: outer } := by
  subst hres
  exact hf { m_size := m, m_stackSize := v } block outer h

theorem pushS_to (m : Int) (v : List (Option Nat)) (block : List TvmAstNode)
    (outer : List (List TvmAstNode)) (i result : Int) (hi : 0 ≤ i) (hres : m + 1 = result)
    (h : 0 ≤ result) :
    StackPusher.pushS
        { m_stack2 := { m_size := m, m_stackSize := v }, lockStack := 0,
          m_instructions := block :: outer } i
      = some { m_stack2 := { m_size := result, m_stackSize := v }, lockStack := 0,
               m_instructions := (block ++ [makePUSH i]) :: outer } := by
  simp only [StackPusher.pushS, ge_iff_le, hi, if_true]
  exact stackPusher_emit _ block outer _ 1 result hres h

/-- The method `visitForOrWhileCondition` on an unlocked pusher, when the frame
`info` was made at the present depth: the condition becomes one block of the
open block and the depth is unchanged. -/
theorem visitForOrWhileCondition_state (genOpcode : String → Option TvmAstNode)
    (hgen : LoopGen genOpcode) (m : Int) (v : List (Option Nat)) (block : List TvmAstNode)
    (outer : List (List TvmAstNode)) (ci : ContInfo) (info : ControlFlowInfo)
    (hinfo : info.stackSize = m)
    (pushCondition : Option (StackPusher → Option StackPusher))
    (hcond : ∀ c, pushCondition = some c → Lowers c 1) (hdepth : 0 ≤ m) :
    ∃ v1 condition,
      TVMFunctionCompiler.visitForOrWhileCondition genOpcode
          { m_stack2 := { m_size := m, m_stackSize := v }, lockStack := 0,
            m_instructions := block :: outer } ci info pushCondition
        = some { m_stack2 := { m_size := m, m_stackSize := v1 }, lockStack := 0,
                 m_instructions := (block ++ [.Block condition]) :: outer } := by
  simp only [TVMFunctionCompiler.visitForOrWhileCondition, StackPusher.startContinuation,
    StackPusher.stackSize, TVMStack.size, hinfo]
  cases hflag : (ci.canBreak || ci.canReturn)
  · simp only [Bool.false_eq_true, if_false]
    cases pushCondition with
    | none =>
      obtain ⟨op, h1⟩ := push_to genOpcode m v [] (block :: outer) 1 (m + 1) "TRUE" (by decide)
        hgen.2.1 rfl (by omega)
      have h2 := fix_to genOpcode (m + 1) v (([] ++ [op]) :: block :: outer) (-1) m (by ring)
        hdepth
      simp only [h1, Option.some_bind, h2, StackPusher.endContinuation, StackPusher.endCont,
        StackPusher.ensureSize, beq_self_eq_true, if_true]
      exact ⟨v, _, rfl⟩
    | some c =>
      obtain ⟨v1, e1, h1⟩ := lowers_to c 1 (hcond c rfl) m v [] (block :: outer) (m + 1) rfl
        hdepth
      have h2 := fix_to genOpcode (m + 1) v1 (([] ++ e1) :: block :: outer) (-1) m (by ring)
        hdepth
      simp only [h1, Option.some_bind, h2, StackPusher.endContinuation, StackPusher.endCont,
        StackPusher.ensureSize, beq_self_eq_true, if_true]
      exact ⟨v1, _, rfl⟩
  · simp only [if_true]
    have h1 := pushS_to m v [] (block :: outer) (m - m) (m + 1) (by omega) rfl (by omega)
    obtain ⟨op2, h2⟩ := push_to genOpcode (m + 1) v ([] ++ [makePUSH (m - m)]) (block :: outer)
      0 (m + 1) "LESSINT 2" (by decide) hgen.1 (by ring) (by omega)
    have h3 := fix_to genOpcode (m + 1) v
      (([] ++ [makePUSH (m - m)] ++ [op2]) :: block :: outer) (-1) m (by ring) hdepth
    simp only [h1, Option.some_bind, h2, h3]
    cases pushCondition with
    | none =>
      simp only [Option.some_bind, StackPusher.endContinuation, StackPusher.endCont,
        StackPusher.ensureSize, beq_self_eq_true, if_true]
      exact ⟨v, _, rfl⟩
    | some c =>
      have h4 := pushS_to m v ([] ++ [makePUSH (m - m)] ++ [op2]) (block :: outer) 0 (m + 1)
        (le_refl 0) rfl (by omega)
      obtain ⟨e5, h5⟩ := drop_to (m + 1) v []
        ((([] ++ [makePUSH (m - m)] ++ [op2]) ++ [makePUSH 0]) :: block :: outer) 1 m
        (by norm_num) (by ring) hdepth
      obtain ⟨v6, e6, h6⟩ := lowers_to c 1 (hcond c rfl) m v ([] ++ e5)
        ((([] ++ [makePUSH (m - m)] ++ [op2]) ++ [makePUSH 0]) :: block :: outer) (m + 1) rfl
        hdepth
      have h8 := fix_to genOpcode (m + 1) v6
        (((([] ++ [makePUSH (m - m)] ++ [op2]) ++ [makePUSH 0])
            ++ [.LogCircuit (!ci.canReturn) .AND (.mk .None ([] ++ e5 ++ e6))])
          :: block :: outer) (-1) m (by ring) hdepth
      simp only [h4, Option.some_bind, h5, h6, StackPusher.endLogCircuit, h8,
        StackPusher.endContinuation, StackPusher.endCont, StackPusher.ensureSize,
        beq_self_eq_true, if_true]
      exact ⟨v6, _, rfl⟩

theorem while_state (st : TVMStack) (lock : Int) (front : List TvmAstNode)
    (condition body : CodeBlock) (outer : List (List TvmAstNode)) (hfront : front ≠ []) :
    StackPusher._while
        { m_stack2 := st, lockStack := lock,
          m_instructions := ((front ++ [.Block condition]) ++ [.Block body]) :: outer }
      = some { m_stack2 := st, lockStack := lock,
               m_instructions := (front ++ [.While condition body]) :: outer } := by
  have hlen : ((front ++ [TvmAstNode.Block condition]) ++ [TvmAstNode.Block body]).length ≥ 3 := by
    have : 1 ≤ front.length := List.length_pos.mpr hfront
    simp only [List.length_append, List.length_singleton]
    omega
  simp only [StackPusher._while, hlen, if_true, popBack_concat, TvmAstNode.asCodeBlock]

/-- The method `visitBodyOfForLoop` without `pushStartBody`, on an unlocked
pusher whose open block ends with the block of the condition after at least
one other instruction: condition and body become one `While` node, the depth is
unchanged and the last frame is removed. -/
theorem visitBodyOfForLoop_state (genOpcode : String → Option TvmAstNode)
    (hgen : LoopGen genOpcode) (m : Int) (v : List (Option Nat)) (front : List TvmAstNode)
    (condition : CodeBlock) (outer : List (List TvmAstNode))
    (m_controlFlowInfo : List ControlFlowInfo) (ci : ContInfo)
    (body : StackPusher → Option StackPusher) (b : Int) (hbody : Lowers body b) (hb : 0 ≤ b)
    (loopExpression : Option (StackPusher → Option StackPusher))
    (hloop : ∀ e, loopExpression = some e → Lowers e 0) (hdepth : 0 ≤ m)
    (hfront : front ≠ []) :
    ∃ v1 bodyBlock,
      TVMFunctionCompiler.visitBodyOfForLoop genOpcode
          { m_stack2 := { m_size := m, m_stackSize := v }, lockStack := 0,
            m_instructions := (front ++ [TvmAstNode.Block condition]) :: outer }
          m_controlFlowInfo ci none body loopExpression
        = some ({ m_stack2 := { m_size := m, m_stackSize := v1 }, lockStack := 0,
                  m_instructions := (front ++ [TvmAstNode.While condition bodyBlock]) :: outer },
                m_controlFlowInfo.dropLast) := by
  -- what follows the body: the loop expression, `endContinuation` and `_while`
  have htail : ∀ (v9 : List (Option Nat)) (instrs : List TvmAstNode),
      ∃ v1 bodyBlock,
        ((match loopExpression with
          | some expr => expr
              { m_stack2 := { m_size := m, m_stackSize := v9 }, lockStack := 0,
                m_instructions := instrs :: (front ++ [TvmAstNode.Block condition]) :: outer }
          | none => some
              { m_stack2 := { m_size := m, m_stackSize := v9 }, lockStack := 0,
                m_instructions := instrs :: (front ++ [TvmAstNode.Block condition]) :: outer }).bind
          fun p10 => p10.endContinuation.bind fun p11 => p11._while.bind fun p12 =>
            some (p12, m_controlFlowInfo.dropLast))
        = some ({ m_stack2 := { m_size := m, m_stackSize := v1 }, lockStack := 0,
                  m_instructions := (front ++ [TvmAstNode.While condition bodyBlock]) :: outer },
                m_controlFlowInfo.dropLast) := by
    intro v9 instrs
    cases loopExpression with
    | none =>
      simp only [Option.some_bind, StackPusher.endContinuation, StackPusher.endCont,
        while_state _ _ _ _ _ _ hfront]
      exact ⟨v9, _, rfl⟩
    | some e =>
      obtain ⟨v10, e10, h10⟩ := lowers_to e 0 (hloop e rfl) m v9 instrs
        ((front ++ [TvmAstNode.Block condition]) :: outer) m (by ring) hdepth
      simp only [h10, Option.some_bind, StackPusher.endContinuation, StackPusher.endCont,
        while_state _ _ _ _ _ _ hfront]
      exact ⟨v10, _, rfl⟩
  simp only [TVMFunctionCompiler.visitBodyOfForLoop, StackPusher.startContinuation,
    Option.some_bind, StackPusher.stackSize, TVMStack.size]
  cases hflag : (ci.canReturn || ci.canBreak || ci.canContinue)
  · simp only [Bool.false_eq_true, if_false]
    obtain ⟨v3, e3, h3⟩ := lowers_to body b hbody m v []
      ((front ++ [TvmAstNode.Block condition]) :: outer) (m + b) rfl hdepth
    obtain ⟨e4, h4⟩ := drop_to (m + b) v3 ([] ++ e3) ((front ++ [TvmAstNode.Block condition]) :: outer)
      (m + b - m) m (by omega) (by ring) hdepth
    simp only [h3, Option.some_bind, h4]
    exact htail v3 _
  · simp only [if_true]
    obtain ⟨v3, e3, h3⟩ := lowers_to body b hbody m v []
      ([] :: (front ++ [TvmAstNode.Block condition]) :: outer) (m + b) rfl hdepth
    obtain ⟨e4, h4⟩ := drop_to (m + b) v3 ([] ++ e3)
      ([] :: (front ++ [TvmAstNode.Block condition]) :: outer) (m + b - m) m (by omega) (by ring) hdepth
    simp only [h3, Option.some_bind, h4, StackPusher.callX, StackPusher.callRefOrCallX]
    cases hrb : (ci.canReturn || ci.canBreak)
    · simp only [Bool.false_eq_true, if_false, Option.some_bind]
      exact htail v3 _
    · have hflagc : (ContInfo.CONTINUE_FLAG == 1) = true := by decide
      obtain ⟨opcode, isPure, take, ret, hg, ha, hd⟩ :=
        declaredEffect_some genOpcode _ 0 hgen.2.2.1
      have hpush : ∀ (blk : List TvmAstNode) (rest : List (List TvmAstNode)),
          StackPusher.push genOpcode
              { m_stack2 := { m_size := m, m_stackSize := v3 }, lockStack := 1,
                m_instructions := blk :: rest } (-1 + 1)
              ("GTINT " ++ toString ContInfo.CONTINUE_FLAG)
            = some { m_stack2 := { m_size := m, m_stackSize := v3 }, lockStack := 1,
                     m_instructions := (blk ++ [opcode]) :: rest } := by
        intro blk rest
        have e0 : (-1 + 1 : Int) = -take + ret := by omega
        simp [StackPusher.push, gtint_nonempty, hg, ha, e0, StackPusher.changeTakeRet,
          StackPusher.change, StackPusher.pushOpcode]
      have hend : ∀ (opaqueBody blk : List TvmAstNode),
          StackPusher.endOpaque
              { m_stack2 := { m_size := m, m_stackSize := v3 }, lockStack := 1,
                m_instructions := opaqueBody :: blk ::
                  (front ++ [TvmAstNode.Block condition]) :: outer } 1 1 false
            = some { m_stack2 := { m_size := m, m_stackSize := v3 }, lockStack := 0,
                     m_instructions :=
                      (blk ++ [TvmAstNode.Opaque (.mk .None opaqueBody) 1 1 false])
                        :: (front ++ [TvmAstNode.Block condition]) :: outer } := by
        intro opaqueBody blk
        have h := endOpaque_state { m_size := m, m_stackSize := v3 } opaqueBody blk
          ((front ++ [TvmAstNode.Block condition]) :: outer) 1 1 (by simp only; omega)
        have e : m + (-1 + 1) = m := by ring
        simp only [e] at h
        exact h
      simp only [if_true, hflagc, StackPusher.startOpaque, zero_add,
        pushS_locked _ _ _ 0 (le_refl 0), Option.some_bind]
      cases ci.canContinue
      · simp only [Bool.false_eq_true, if_false, Option.some_bind, ifret_locked, hend]
        exact htail v3 _
      · simp only [if_true, hpush, Option.some_bind, ifret_locked, hend]
        exact htail v3 _

/-- The method `pushControlFlowFlagAndReturnControlFlowInfo` on an unlocked
pusher: the flag is declared when the statement needs one, and the frame
records the depth after it. -/
theorem pushControlFlowFlag_state (m : Int) (v : List (Option Nat)) (block : List TvmAstNode)
    (outer : List (List TvmAstNode)) (ci : ContInfo) (isLoop : Bool) (hdepth : 0 ≤ m) :
    ∃ emitted,
      TVMFunctionCompiler.pushControlFlowFlagAndReturnControlFlowInfo
          { m_stack2 := { m_size := m, m_stackSize := v }, lockStack := 0,
            m_instructions := block :: outer } ci isLoop
        = some ({ m_stack2 := { m_size := m + ci.flagQty, m_stackSize := v }, lockStack := 0,
                  m_instructions := (block ++ emitted) :: outer },
                { stackSize := m + ci.flagQty, isLoop := isLoop, useJmp := false }) := by
  simp only [TVMFunctionCompiler.pushControlFlowFlagAndReturnControlFlowInfo,
    ContInfo.flagQty]
  cases hflag : (ci.canReturn || ci.canBreak || ci.canContinue)
  · refine ⟨[], ?_⟩
    simp [StackPusher.stackSize, TVMStack.size]
  · refine ⟨[.DeclRetFlag], ?_⟩
    have h := stackPusher_emit { m_size := m, m_stackSize := v } block outer .DeclRetFlag
      (-0 + 1) (m + 1) (by simp only; ring) (by omega)
    simp only [if_true, StackPusher.declRetFlag, StackPusher.changeTakeRet, h, Option.some_bind,
      StackPusher.stackSize, TVMStack.size]

theorem flagQty_nonneg (ci : ContInfo) : 0 ≤ ci.flagQty := by
  simp only [ContInfo.flagQty]
  split <;> omega

/-- The statements of `visit(ForStatement)` after the initialization, from an
unlocked pusher of depth `m + k` whose open block is not empty, with
`loopVarQty <= k` passed to `afterLoopCheck`: they end at depth
`m + k - loopVarQty`. -/
theorem visitFor_rest (genOpcode : String → Option TvmAstNode) (hgen : LoopGen genOpcode)
    (m k : Int) (v1 : List (Option Nat)) (block1 : List TvmAstNode)
    (outer : List (List TvmAstNode)) (m_controlFlowInfo : List ControlFlowInfo)
    (_forStatement : ForStatement) (b loopVarQty : Int)
    (hcond : ∀ c, _forStatement.condition = some c → Lowers c 1)
    (hloop : ∀ e, _forStatement.loopExpression = some e → Lowers e 0)
    (hbody : Lowers _forStatement.body b) (hb : 0 ≤ b) (hdepth : 0 ≤ m) (hk : 0 ≤ k)
    (hq0 : 0 ≤ loopVarQty) (hqk : loopVarQty ≤ k) (hblock : block1 ≠ []) :
    ∃ v5 emitted p2 info p3 p4,
      TVMFunctionCompiler.pushControlFlowFlagAndReturnControlFlowInfo
          { m_stack2 := { m_size := m + k, m_stackSize := v1 }, lockStack := 0,
            m_instructions := block1 :: outer } _forStatement.bodyInfo true
        = some (p2, info) ∧
      TVMFunctionCompiler.visitForOrWhileCondition genOpcode p2 _forStatement.bodyInfo info
          _forStatement.condition = some p3 ∧
      TVMFunctionCompiler.visitBodyOfForLoop genOpcode p3 (m_controlFlowInfo ++ [info])
          _forStatement.bodyInfo none _forStatement.body _forStatement.loopExpression
        = some (p4, m_controlFlowInfo) ∧
      TVMFunctionCompiler.afterLoopCheck genOpcode p4 m_controlFlowInfo _forStatement.bodyInfo
          loopVarQty
        = some { m_stack2 := { m_size := m + k - loopVarQty, m_stackSize := v5 },
                 lockStack := 0, m_instructions := (block1 ++ emitted) :: outer } := by
  have hf := flagQty_nonneg _forStatement.bodyInfo
  obtain ⟨e2, h2⟩ := pushControlFlowFlag_state (m + k) v1 block1 outer
    _forStatement.bodyInfo true (by omega)
  obtain ⟨v3, cond, h3⟩ := visitForOrWhileCondition_state genOpcode hgen
    (m + k + _forStatement.bodyInfo.flagQty) v1 (block1 ++ e2) outer
    _forStatement.bodyInfo
    { stackSize := m + k + _forStatement.bodyInfo.flagQty, isLoop := true, useJmp := false }
    rfl _forStatement.condition hcond (by omega)
  obtain ⟨v4, bodyBlock, h4⟩ := visitBodyOfForLoop_state genOpcode hgen
    (m + k + _forStatement.bodyInfo.flagQty) v3 (block1 ++ e2) cond outer
    (m_controlFlowInfo ++
      [({ stackSize := m + k + _forStatement.bodyInfo.flagQty, isLoop := true,
          useJmp := false } : ControlFlowInfo)])
    _forStatement.bodyInfo _forStatement.body b hbody hb _forStatement.loopExpression hloop
    (by omega) (by simp [hblock])
  rw [List.dropLast_concat] at h4
  obtain ⟨e5, h5⟩ := afterLoopCheck_state genOpcode hgen
    { m_size := m + k + _forStatement.bodyInfo.flagQty, m_stackSize := v4 }
    (block1 ++ e2 ++ [TvmAstNode.While cond bodyBlock]) outer m_controlFlowInfo
    _forStatement.bodyInfo loopVarQty hq0 (by simp only; omega)
  refine ⟨v4, e2 ++ [TvmAstNode.While cond bodyBlock] ++ e5, _, _, _, _, h2, h3, h4, ?_⟩
  rw [h5]
  simp only [List.append_assoc]
  have e : m + k + _forStatement.bodyInfo.flagQty - _forStatement.bodyInfo.flagQty - loopVarQty
      = m + k - loopVarQty := by ring
  rw [e]

/-- The lowering of a for-statement whose parts are regular, on an unlocked
pusher with a non-empty open block: when the initialization leaves `k` new
slots, the statement ends at the depth before it for `k <= 1`, and fails at the
final `ensureSize` for `k >= 2`, where `afterLoopCheck` has dropped one slot of
the `k`. -/
theorem visitFor_depth (genOpcode : String → Option TvmAstNode) (hgen : LoopGen genOpcode)
    (st : TVMStack) (block : List TvmAstNode) (outer : List (List TvmAstNode))
    (m_controlFlowInfo : List ControlFlowInfo) (_forStatement : ForStatement) (k b : Int)
    (hinit : match _forStatement.initializationExpression with
      | some init => Lowers init k
      | none => k = 0)
    (hk : 0 ≤ k) (hcond : ∀ c, _forStatement.condition = some c → Lowers c 1)
    (hloop : ∀ e, _forStatement.loopExpression = some e → Lowers e 0)
    (hbody : Lowers _forStatement.body b) (hb : 0 ≤ b) (hdepth : 0 ≤ st.m_size)
    (hblock : block ≠ []) :
    (k ≤ 1 →
      ∃ v1 emitted,
        TVMFunctionCompiler.visitFor genOpcode
            { m_stack2 := st, lockStack := 0, m_instructions := block :: outer }
            m_controlFlowInfo _forStatement
          = some { m_stack2 := { m_size := st.m_size, m_stackSize := v1 }, lockStack := 0,
                   m_instructions := (block ++ emitted) :: outer }) ∧
    (2 ≤ k →
      TVMFunctionCompiler.visitFor genOpcode
          { m_stack2 := st, lockStack := 0, m_instructions := block :: outer }
          m_controlFlowInfo _forStatement = none) := by
  obtain ⟨m, v⟩ := st
  simp only at hdepth
  cases hi : _forStatement.initializationExpression with
  | none =>
    rw [hi] at hinit
    simp only at hinit
    subst hinit
    obtain ⟨v5, emitted, p2, info, p3, p4, h2, h3, h4, h5⟩ := visitFor_rest genOpcode hgen m 0 v
      block outer m_controlFlowInfo _forStatement b 0 hcond hloop hbody hb hdepth (le_refl 0)
      (le_refl 0) (le_refl 0) hblock
    simp only [add_zero, sub_zero] at h2 h5
    constructor
    · intro _
      refine ⟨v5, emitted, ?_⟩
      simp only [TVMFunctionCompiler.visitFor, hi, Option.some_bind, Bool.false_eq_true,
        if_false, h2, h3, h4, h5, StackPusher.ensureSize, StackPusher.stackSize, TVMStack.size,
        beq_self_eq_true, if_true]
    · intro h
      omega
  | some init =>
    rw [hi] at hinit
    simp only at hinit
    obtain ⟨v1, e1, h1⟩ := lowers_to init k hinit m v block outer (m + k) rfl hdepth
    by_cases hk0 : k = 0
    · subst hk0
      obtain ⟨v5, emitted, p2, info, p3, p4, h2, h3, h4, h5⟩ := visitFor_rest genOpcode hgen m 0
        v1 (block ++ e1) outer m_controlFlowInfo _forStatement b 0 hcond hloop hbody hb hdepth
        (le_refl 0) (le_refl 0) (le_refl 0) (by simp [hblock])
      simp only [sub_zero, add_zero] at h1 h2 h5
      constructor
      · intro _
        refine ⟨v5, e1 ++ emitted, ?_⟩
        simp only [TVMFunctionCompiler.visitFor, hi, h1, Option.some_bind,
          StackPusher.stackSize, TVMStack.size, add_zero, bne_self_eq_false,
          Bool.false_eq_true, if_false, h2, h3, h4, h5, StackPusher.ensureSize,
          beq_self_eq_true, if_true, List.append_assoc]
      · intro h
        omega
    · obtain ⟨v5, emitted, p2, info, p3, p4, h2, h3, h4, h5⟩ := visitFor_rest genOpcode hgen m k
        v1 (block ++ e1) outer m_controlFlowInfo _forStatement b 1 hcond hloop hbody hb hdepth
        hk (by norm_num) (by omega) (by simp [hblock])
      have hne : (m + k != m) = true := by
        simp only [bne_iff_ne, ne_eq]
        omega
      constructor
      · intro hk1
        have hk1' : k = 1 := by omega
        subst hk1'
        refine ⟨v5, e1 ++ emitted, ?_⟩
        have e : m + 1 - 1 = m := by ring
        rw [e] at h5
        simp only [TVMFunctionCompiler.visitFor, hi, h1, Option.some_bind,
          StackPusher.stackSize, TVMStack.size, hne, if_true, h2, h3, h4, h5,
          StackPusher.ensureSize, beq_self_eq_true, List.append_assoc]
      · intro hk2
        have hsz : ¬ (m = m + k - 1) := by omega
        simp only [TVMFunctionCompiler.visitFor, hi, h1, Option.some_bind,
          StackPusher.stackSize, TVMStack.size, hne, if_true, h2, h3, h4, h5,
          StackPusher.ensureSize, beq_self_eq_true, hsz, if_false]

/-- C28, the code at a for-statement whose initialization declares two loop
variables (lowered as two `PUSHINT`), with no condition, no loop expression, an
empty body and no `break`, `continue` or `return` in it: the cleanup drops one
slot and the final `ensureSize` fails. With one loop variable the same
statement ends at the depth before it, and so it does with none. -/
theorem visitFor_two_loop_variables :
    TVMFunctionCompiler.visitFor
        (fun cmd =>
          if cmd = "PUSHINT 0" ∨ cmd = "PUSHINT 1" ∨ cmd = "TRUE" then
            some (.GenOpcode cmd "" "" 0 1 true)
          else none)
        { m_stack2 := { m_size := 0, m_stackSize := [] }, lockStack := 0,
          m_instructions := [[.Loc "f.sol" 1]] }
        []
        { initializationExpression := some (fun p =>
            (p.pushInt (fun cmd =>
              if cmd = "PUSHINT 0" ∨ cmd = "PUSHINT 1" ∨ cmd = "TRUE" then
                some (.GenOpcode cmd "" "" 0 1 true)
              else none) 0).bind fun p1 =>
              p1.pushInt (fun cmd =>
                if cmd = "PUSHINT 0" ∨ cmd = "PUSHINT 1" ∨ cmd = "TRUE" then
                  some (.GenOpcode cmd "" "" 0 1 true)
                else none) 1)
          condition := none
          loopExpression := none
          body := fun p => some p
          bodyInfo := { canReturn := false, canBreak := false, canContinue := false } }
      = none ∧
    (TVMFunctionCompiler.visitFor
        (fun cmd =>
          if cmd = "PUSHINT 0" ∨ cmd = "PUSHINT 1" ∨ cmd = "TRUE" then
            some (.GenOpcode cmd "" "" 0 1 true)
          else none)
        { m_stack2 := { m_size := 0, m_stackSize := [] }, lockStack := 0,
          m_instructions := [[.Loc "f.sol" 1]] }
        []
        { initializationExpression := some (fun p =>
            p.pushInt (fun cmd =>
              if cmd = "PUSHINT 0" ∨ cmd = "PUSHINT 1" ∨ cmd = "TRUE" then
                some (.GenOpcode cmd "" "" 0 1 true)
              else none) 0)
          condition := none
          loopExpression := none
          body := fun p => some p
          bodyInfo := { canReturn := false, canBreak := false, canContinue := false } }).map
        (fun q => q.stackSize) = some 0 ∧
    (TVMFunctionCompiler.visitFor
        (fun cmd =>
          if cmd = "PUSHINT 0" ∨ cmd = "PUSHINT 1" ∨ cmd = "TRUE" then
            some (.GenOpcode cmd "" "" 0 1 true)
          else none)
        { m_stack2 := { m_size := 0, m_stackSize := [] }, lockStack := 0,
          m_instructions := [[.Loc "f.sol" 1]] }
        []
        { initializationExpression := none
          condition := none
          loopExpression := none
          body := fun p => some p
          bodyInfo := { canReturn := false, canBreak := false, canContinue := false } }).map
        (fun q => q.stackSize) = some 0 := by
  refine ⟨by rfl, by decide, by decide⟩

/-! ## dropUnder and the printer of BLKDROP2 -/

theorem stackPusher_change_instructions (p q : StackPusher) (delta : Int)
    (h : p.change delta = some q) : q.m_instructions = p.m_instructions := by
  unfold StackPusher.change at h
  split_ifs at h with h1 h2
  · cases hc : p.m_stack2.change delta with
    | none => rw [hc] at h; cases h
    | some st =>
      rw [hc] at h
      simp only [Option.map_some', Option.some.injEq] at h
      rw [← h]
  · cases h
    rfl

theorem stackPusher_pushOpcode_instructions (p q : StackPusher) (opcode : TvmAstNode)
    (h : p.pushOpcode opcode = some q) :
    ∃ block outer, p.m_instructions = block :: outer ∧
      q.m_instructions = (block ++ [opcode]) :: outer := by
  unfold StackPusher.pushOpcode at h
  cases hi : p.m_instructions with
  | nil => rw [hi] at h; cases h
  | cons block outer =>
    rw [hi] at h
    simp only [Option.some.injEq] at h
    exact ⟨block, outer, rfl, by rw [← h]⟩

/-- The instructions that `dropUnder` leaves in the blocks of the pusher are
those before the call with `dropUnderInstructions` appended to the open
block. -/
theorem stackPusher_dropUnder_instructions (p q : StackPusher) (droppedCount leftCount : Int)
    (h : p.dropUnder droppedCount leftCount = some q) :
    (dropUnderInstructions droppedCount leftCount = [] ∧ q.m_instructions = p.m_instructions) ∨
    ∃ block outer, p.m_instructions = block :: outer ∧
      q.m_instructions = (block ++ dropUnderInstructions droppedCount leftCount) :: outer := by
  unfold StackPusher.dropUnder at h
  by_cases hl : leftCount ≥ 0
  swap
  · simp [hl] at h
  by_cases hd : droppedCount ≥ 0
  swap
  · simp [hl, hd] at h
  by_cases h0 : droppedCount = 0
  · left
    simp [hl, hd, h0] at h
    subst h0
    exact ⟨by simp [dropUnderInstructions], by rw [← h]⟩
  right
  by_cases hl0 : leftCount = 0
  · have h1 : droppedCount ≥ 1 := by omega
    have hb : (p.change (-droppedCount)).bind
        (fun q => q.pushOpcode (makeDROP droppedCount)) = some q := by
      simpa [hl, hd, h0, hl0, StackPusher.drop, h1] using h
    obtain ⟨a, ha, hq⟩ := Option.bind_eq_some.mp hb
    obtain ⟨block, outer, hp, hq2⟩ := stackPusher_pushOpcode_instructions a q _ hq
    have := stackPusher_change_instructions p a _ ha
    refine ⟨block, outer, by rw [← this, hp], ?_⟩
    simp [dropUnderInstructions, h0, hl0, hq2]
  by_cases h11 : droppedCount = 1 ∧ leftCount = 1
  · obtain ⟨rfl, rfl⟩ := h11
    have hb : (p.pushOpcode (makePOP 1)).bind (fun q => q.change (-1)) = some q := by
      simpa [StackPusher.popS] using h
    obtain ⟨a, ha, hq⟩ := Option.bind_eq_some.mp hb
    obtain ⟨block, outer, hp, ha2⟩ := stackPusher_pushOpcode_instructions p a _ ha
    have := stackPusher_change_instructions a q _ hq
    refine ⟨block, outer, hp, ?_⟩
    simp [dropUnderInstructions, this, ha2]
  · have hb : (p.pushOpcode (.Stack .BLKDROP2 droppedCount leftCount (-1))).bind
        (fun q => q.change (-droppedCount)) = some q := by
      simpa [hl, hd, h0, hl0, h11] using h
    obtain ⟨a, ha, hq⟩ := Option.bind_eq_some.mp hb
    obtain ⟨block, outer, hp, ha2⟩ := stackPusher_pushOpcode_instructions p a _ ha
    have := stackPusher_change_instructions a q _ hq
    refine ⟨block, outer, hp, ?_⟩
    simp [dropUnderInstructions, h0, hl0, h11, this, ha2]

/-- C40: when `dropUnder(droppedCount, leftCount)` succeeds, it appends
`dropUnderInstructions droppedCount leftCount` to the open block, and every
`BLKDROP2 i, j` among these instructions with `i <= 15` and `j <= 15` meets the
condition `(i >= 2 and j >= 1) or (i >= 1 and j >= 2)` that the printer asserts;
the printer prints it as `BLKDROP2 i, j` and does not fail. -/
theorem dropUnder_blkdrop2_printable (p q : StackPusher) (droppedCount leftCount : Int)
    (m_tab : Nat) (h : p.dropUnder droppedCount leftCount = some q) :
    ((dropUnderInstructions droppedCount leftCount = [] ∧
        q.m_instructions = p.m_instructions) ∨
      ∃ block outer, p.m_instructions = block :: outer ∧
        q.m_instructions = (block ++ dropUnderInstructions droppedCount leftCount) :: outer) ∧
    ∀ i j k, TvmAstNode.Stack .BLKDROP2 i j k ∈ dropUnderInstructions droppedCount leftCount →
      i ≤ 15 → j ≤ 15 →
        ((i ≥ 2 ∧ j ≥ 1) ∨ (i ≥ 1 ∧ j ≥ 2)) ∧
        printStackOpcode m_tab .BLKDROP2 i j k
          = some ("BLKDROP2" ++ (" " ++ toString i ++ ", " ++ toString j)) := by
  refine ⟨stackPusher_dropUnder_instructions p q droppedCount leftCount h, ?_⟩
  intro i j k hmem hi hj
  have hl : leftCount ≥ 0 := by
    by_contra hn
    simp [StackPusher.dropUnder, hn] at h
  have hd : droppedCount ≥ 0 := by
    by_contra hn
    simp [StackPusher.dropUnder, hl, hn] at h
  unfold dropUnderInstructions at hmem
  split_ifs at hmem with h0 hl0 h11
  · simp at hmem
  · simp [makeDROP] at hmem
  · simp [makePOP] at hmem
  · simp only [List.mem_singleton, TvmAstNode.Stack.injEq, true_and] at hmem
    obtain ⟨rfl, rfl, rfl⟩ := hmem
    have hcond : (i ≥ 2 ∧ j ≥ 1) ∨ (i ≥ 1 ∧ j ≥ 2) := by omega
    refine ⟨hcond, ?_⟩
    have h1 : ¬ (i > 15) := by omega
    have h2 : ¬ (j > 15) := by omega
    have hi1 : ¬ (i = -1) := by omega
    have hj1 : ¬ (j = -1) := by omega
    have hc2 : (decide (i ≥ 2) && decide (j ≥ 1) || decide (i ≥ 1) && decide (j ≥ 2)) = true := by
      rcases hcond with ⟨a, b⟩ | ⟨a, b⟩ <;> simp [a, b]
    simp [printStackOpcode, h1, h2, printIndexes, hi1, hj1, hc2, String.append_assoc]

theorem dropUnder_blkdrop2_printable_witness :
    (∀ i j k, TvmAstNode.Stack .BLKDROP2 i j k ∈ dropUnderInstructions 2 3 →
      i ≤ 15 → j ≤ 15 →
        ((i ≥ 2 ∧ j ≥ 1) ∨ (i ≥ 1 ∧ j ≥ 2)) ∧
        printStackOpcode 0 .BLKDROP2 i j k
          = some ("BLKDROP2" ++ (" " ++ toString i ++ ", " ++ toString j))) ∧
    dropUnderInstructions 2 3 = [.Stack .BLKDROP2 2 3 (-1)] :=
  ⟨(dropUnder_blkdrop2_printable
      { m_stack2 := { m_size := 5, m_stackSize := [] }, lockStack := 0,
        m_instructions := [[]] }
      { m_stack2 := { m_size := 3, m_stackSize := [] }, lockStack := 0,
        m_instructions := [[.Stack .BLKDROP2 2 3 (-1)]] }
      2 3 0 (by rfl)).2, by rfl⟩

/-! ## The recursion of buildPublicFunctionSelector -/

theorem selectorNodes_congr (sub sub2 : Nat → Nat → Option (List SelInst))
    (functions : List (Nat × String)) (blockSize right : Nat) (fuel : Nat) :
    ∀ i, (∀ r ∈ selectorSubRanges blockSize right fuel i, sub r.1 r.2 = sub2 r.1 r.2) →
      selectorNodes sub functions blockSize right fuel i
        = selectorNodes sub2 functions blockSize right fuel i := by
  induction fuel with
  | zero => intro i _; simp [selectorNodes]
  | succ n ih =>
    intro i h
    rw [selectorNodes, selectorNodes]
    by_cases hi : i < right
    · simp only [if_pos hi]
      rw [selectorSubRanges, if_pos hi] at h
      cases hf : functions[min (i + blockSize) right - 1]? with
      | none => rfl
      | some fn =>
        obtain ⟨functionId, name⟩ := fn
        simp only
        by_cases hj : min (i + blockSize) right - i = 1
        · simp only [if_pos hj] at h ⊢
          rw [ih _ h]
        · simp only [if_neg hj] at h ⊢
          rw [ih _ (fun r hr => h r (List.mem_cons_of_mem _ hr)),
            h (i, min (i + blockSize) right) (List.mem_cons_self _ _)]
    · simp only [if_neg hi]

theorem selectorSubRanges_bounds (blockSize right left : Nat) (hbs : 1 ≤ blockSize)
    (fuel : Nat) :
    ∀ i, left ≤ i → ∀ r ∈ selectorSubRanges blockSize right fuel i,
      left ≤ r.1 ∧ r.1 < r.2 ∧ r.2 ≤ right ∧ 2 ≤ r.2 - r.1 ∧ r.2 - r.1 ≤ blockSize := by
  induction fuel with
  | zero => intro i _ r hr; simp [selectorSubRanges] at hr
  | succ n ih =>
    intro i hi r hr
    rw [selectorSubRanges] at hr
    by_cases hlt : i < right
    · simp only [if_pos hlt] at hr
      by_cases hj : min (i + blockSize) right - i = 1
      · simp only [if_pos hj] at hr
        exact ih (i + blockSize) (by omega) r hr
      · simp only [if_neg hj] at hr
        rcases List.mem_cons.mp hr with rfl | hr2
        · simp only
          omega
        · exact ih (i + blockSize) (by omega) r hr2
    · simp only [if_neg hlt] at hr
      cases hr

/-- C39: for a range `[left, right)` within the function list,
`buildPublicFunctionSelector(functions, left, right)` returns, with a recursion
depth of at most `right - left + 1`; the recursive calls are made at the ranges
of `selectorRecursiveCalls left right` only, and each of them lies within the
current range, has at least 2 elements and has fewer elements than the current
range. -/
theorem buildPublicFunctionSelector_terminates (functions : List (Nat × String))
    (left right : Nat) (hr : right ≤ functions.length) :
    (∃ prog, buildPublicFunctionSelector functions (right - left + 1) left right = some prog) ∧
    (∀ fuel, 4 < right - left →
      ∀ sub : Nat → Nat → Option (List SelInst),
        (∀ r ∈ selectorRecursiveCalls left right,
          sub r.1 r.2 = buildPublicFunctionSelector functions fuel r.1 r.2) →
        buildPublicFunctionSelector functions (fuel + 1) left right
          = selectorNodes sub functions (selectorBlockSize (right - left)) right
              (right - left) left) ∧
    (right - left ≤ 4 → selectorRecursiveCalls left right = []) ∧
    (∀ r ∈ selectorRecursiveCalls left right,
      left ≤ r.1 ∧ r.2 ≤ right ∧ 2 ≤ r.2 - r.1 ∧ r.2 - r.1 < right - left) := by
  obtain ⟨hpos, henough, hlt⟩ := selectorBlockSize_props (right - left)
  refine ⟨buildPublicFunctionSelector_total functions _ left right hr (by omega), ?_, ?_, ?_⟩
  · intro fuel hq sub hsub
    rw [buildPublicFunctionSelector]
    simp only [if_neg (show ¬ 4 * selectorBlockSize (right - left) < right - left by omega),
      if_neg (show ¬ right - left ≤ 4 by omega)]
    apply selectorNodes_congr
    intro r hr2
    have : selectorRecursiveCalls left right
        = selectorSubRanges (selectorBlockSize (right - left)) right (right - left) left := by
      simp [selectorRecursiveCalls, show ¬ right - left ≤ 4 by omega]
    rw [hsub r (by rw [this]; exact hr2)]
  · intro hq
    simp [selectorRecursiveCalls, hq]
  · intro r hr2
    unfold selectorRecursiveCalls at hr2
    split_ifs at hr2 with hq
    · cases hr2
    · have := selectorSubRanges_bounds _ right left hpos _ left (le_refl _) r hr2
      have := hlt (by omega)
      omega

theorem buildPublicFunctionSelector_terminates_witness :
    selectorRecursiveCalls 0 6 = [(0, 4), (4, 6)] ∧
    ∀ r ∈ selectorRecursiveCalls 0 6, 0 ≤ r.1 ∧ r.2 ≤ 6 ∧ 2 ≤ r.2 - r.1 ∧ r.2 - r.1 < 6 - 0 :=
  ⟨by decide,
   (buildPublicFunctionSelector_terminates
      [(1, "a"), (2, "b"), (3, "c"), (4, "d"), (5, "e"), (6, "f")] 0 6 (by decide)).2.2.2⟩

/-! ## The flag of a loop: header and afterLoopCheck -/

/-- C38: on an unlocked pusher of depth `m >= 0`, the loop header
`pushControlFlowFlagAndReturnControlFlowInfo(ci, true)` appends one
`DeclRetFlag` and raises the modelled depth by one exactly when the body can
return, break or continue, and appends nothing otherwise; and
`afterLoopCheck(ci, loopVarQty)` on an unlocked pusher whose depth covers the
flag and the loop variables lowers the modelled depth by that one flag slot (if
any) and by `loopVarQty`. -/
theorem loop_flag_declared_and_removed (genOpcode : String → Option TvmAstNode)
    (hgen : LoopGen genOpcode) (m : Int) (v : List (Option Nat)) (block : List TvmAstNode)
    (outer : List (List TvmAstNode)) (m_controlFlowInfo : List ControlFlowInfo)
    (ci : ContInfo) (loopVarQty : Int) (hdepth : 0 ≤ m) (hq : 0 ≤ loopVarQty) :
    ci.flagQty = (if ci.canReturn = true ∨ ci.canBreak = true ∨ ci.canContinue = true
      then 1 else 0) ∧
    TVMFunctionCompiler.pushControlFlowFlagAndReturnControlFlowInfo
        { m_stack2 := { m_size := m, m_stackSize := v }, lockStack := 0,
          m_instructions := block :: outer } ci true
      = some ({ m_stack2 := { m_size := m + ci.flagQty, m_stackSize := v }, lockStack := 0,
                m_instructions :=
                  (block ++ (if ci.canReturn = true ∨ ci.canBreak = true ∨ ci.canContinue = true
                    then [TvmAstNode.DeclRetFlag] else [])) :: outer },
              { stackSize := m + ci.flagQty, isLoop := true, useJmp := false }) ∧
    ∀ (v2 : List (Option Nat)) (block2 : List TvmAstNode) (outer2 : List (List TvmAstNode)),
      ∃ emitted,
        TVMFunctionCompiler.afterLoopCheck genOpcode
            { m_stack2 := { m_size := m + ci.flagQty + loopVarQty, m_stackSize := v2 },
              lockStack := 0, m_instructions := block2 :: outer2 }
            m_controlFlowInfo ci loopVarQty
          = some { m_stack2 := { m_size := m, m_stackSize := v2 }, lockStack := 0,
                   m_instructions := (block2 ++ emitted) :: outer2 } := by
  refine ⟨?_, ?_, ?_⟩
  · simp only [ContInfo.flagQty, Bool.or_eq_true, or_assoc]
  · simp only [TVMFunctionCompiler.pushControlFlowFlagAndReturnControlFlowInfo,
      ContInfo.flagQty]
    cases hflag : (ci.canReturn || ci.canBreak || ci.canContinue)
    · have hn : ¬ (ci.canReturn = true ∨ ci.canBreak = true ∨ ci.canContinue = true) := by
        intro h
        rcases h with h | h | h <;> simp [h] at hflag
      simp [StackPusher.stackSize, TVMStack.size, hn]
    · have hp : ci.canReturn = true ∨ ci.canBreak = true ∨ ci.canContinue = true := by
        by_contra hc
        simp only [not_or, Bool.not_eq_true] at hc
        obtain ⟨a, b, c⟩ := hc
        simp [a, b, c] at hflag
      have h := stackPusher_emit { m_size := m, m_stackSize := v } block outer .DeclRetFlag
        (-0 + 1) (m + 1) (by simp only; ring) (by omega)
      simp only [if_true, StackPusher.declRetFlag, StackPusher.changeTakeRet, h,
        Option.some_bind, StackPusher.stackSize, TVMStack.size, if_pos hp]
  · intro v2 block2 outer2
    have hf := flagQty_nonneg ci
    obtain ⟨emitted, h⟩ := afterLoopCheck_state genOpcode hgen
      { m_size := m + ci.flagQty + loopVarQty, m_stackSize := v2 } block2 outer2
      m_controlFlowInfo ci loopVarQty hq (by simp only; omega)
    refine ⟨emitted, ?_⟩
    rw [h]
    have e : m + ci.flagQty + loopVarQty - ci.flagQty - loopVarQty = m := by ring
    simp only [e]

theorem loop_flag_declared_and_removed_witness :
    (TVMFunctionCompiler.pushControlFlowFlagAndReturnControlFlowInfo
        { m_stack2 := { m_size := 2, m_stackSize := [] }, lockStack := 0,
          m_instructions := [[]] }
        { canReturn := false, canBreak := true, canContinue := false } true).map
      (fun r => (r.1.stackSize, r.2)) = some (3, { stackSize := 3, isLoop := true, useJmp := false }) ∧
    ∃ emitted,
      TVMFunctionCompiler.afterLoopCheck
          (fun cmd => if cmd = "TRUE" then some (.GenOpcode cmd "" "" 0 1 true)
            else some (.GenOpcode cmd "" "" 1 1 true))
          { m_stack2 := { m_size := 2 + 1 + 1, m_stackSize := [] },
            lockStack := 0, m_instructions := [] :: [] }
          [] { canReturn := false, canBreak := true, canContinue := false } 1
        = some { m_stack2 := { m_size := 2, m_stackSize := [] }, lockStack := 0,
                 m_instructions := ([] ++ emitted) :: [] } :=
  ⟨by decide,
   (loop_flag_declared_and_removed
      (fun cmd => if cmd = "TRUE" then some (.GenOpcode cmd "" "" 0 1 true)
        else some (.GenOpcode cmd "" "" 1 1 true))
      ⟨by decide, by decide, by decide, by decide⟩ 2 [] [] [] []
      { canReturn := false, canBreak := true, canContinue := false } 1
      (by decide) (by decide)).2.2 [] [] []⟩

/-! ## StackPusher: ifElse, _while, _if -/

theorem ifElse_state (st : TVMStack) (lock : Int) (front : List TvmAstNode)
    (trueBlock falseBlock : CodeBlock) (outer : List (List TvmAstNode)) (withJmp : Bool)
    (hfront : front ≠ []) :
    StackPusher.ifElse
        { m_stack2 := st, lockStack := lock,
          m_instructions := ((front ++ [.Block trueBlock]) ++ [.Block falseBlock]) :: outer }
        withJmp
      = some { m_stack2 := st, lockStack := lock,
               m_instructions :=
                (front ++ [.TvmIfElse (if withJmp then .IFELSE_WITH_JMP else .IFELSE)
                  trueBlock (some falseBlock)]) :: outer } := by
  have hlen : ((front ++ [TvmAstNode.Block trueBlock]) ++ [TvmAstNode.Block falseBlock]).length
      ≥ 3 := by
    have : 1 ≤ front.length := List.length_pos.mpr hfront
    simp only [List.length_append, List.length_singleton]
    omega
  simp only [StackPusher.ifElse, hlen, if_true, popBack_concat, TvmAstNode.asCodeBlock]

theorem if_or_ifnot_state (st : TVMStack) (lock : Int) (front : List TvmAstNode)
    (trueBlock : CodeBlock) (outer : List (List TvmAstNode)) (t : IfElseType) :
    StackPusher.if_or_ifnot
        { m_stack2 := st, lockStack := lock,
          m_instructions := (front ++ [.Block trueBlock]) :: outer } t
      = some { m_stack2 := st, lockStack := lock,
               m_instructions := (front ++ [.TvmIfElse t trueBlock none]) :: outer } := by
  simp only [StackPusher.if_or_ifnot, popBack_concat, TvmAstNode.asCodeBlock]

theorem popBack_nil : popBack [] = none := rfl

/-- C33: on a pusher whose current block is `front` followed by two CodeBlocks,
with `front` not empty (the methods assert a size of at least three), `ifElse`
replaces the two by one `TvmIfElse` of type `IFELSE` or `IFELSE_WITH_JMP` whose
`trueBody` is the second-to-last and whose `falseBody` is the last, and `_while`
replaces them by one `While` whose condition is the second-to-last and whose
body is the last; `_if`, `_ifNot` and `ifJmp` replace a last CodeBlock by a
one-branch `TvmIfElse` of type `IF`, `IFNOT`, `IFJMP`. The instructions `front`,
the enclosing blocks, the lock counter and the stack model are unchanged. A
current block of fewer than three instructions (`ifElse`, `_while`) or of none
(`_if`, `_ifNot`, `ifJmp`), and a last or second-to-last instruction that is
not a CodeBlock, fail by assertion. -/
theorem ifElse_while_if_replace_trailing_blocks (st : TVMStack) (lock : Int)
    (front : List TvmAstNode) (outer : List (List TvmAstNode)) :
    (front ≠ [] → ∀ (first second : CodeBlock),
      (∀ withJmp,
        StackPusher.ifElse
            { m_stack2 := st, lockStack := lock,
              m_instructions := (front ++ [.Block first, .Block second]) :: outer } withJmp
          = some { m_stack2 := st, lockStack := lock,
                   m_instructions :=
                    (front ++ [.TvmIfElse (if withJmp then .IFELSE_WITH_JMP else .IFELSE)
                      first (some second)]) :: outer }) ∧
      StackPusher._while
          { m_stack2 := st, lockStack := lock,
            m_instructions := (front ++ [.Block first, .Block second]) :: outer }
        = some { m_stack2 := st, lockStack := lock,
                 m_instructions := (front ++ [.While first second]) :: outer }) ∧
    (∀ (trueBlock : CodeBlock),
      StackPusher._if
          { m_stack2 := st, lockStack := lock,
            m_instructions := (front ++ [.Block trueBlock]) :: outer }
        = some { m_stack2 := st, lockStack := lock,
                 m_instructions := (front ++ [.TvmIfElse .IF trueBlock none]) :: outer } ∧
      StackPusher._ifNot
          { m_stack2 := st, lockStack := lock,
            m_instructions := (front ++ [.Block trueBlock]) :: outer }
        = some { m_stack2 := st, lockStack := lock,
                 m_instructions := (front ++ [.TvmIfElse .IFNOT trueBlock none]) :: outer } ∧
      StackPusher.ifJmp
          { m_stack2 := st, lockStack := lock,
            m_instructions := (front ++ [.Block trueBlock]) :: outer }
        = some { m_stack2 := st, lockStack := lock,
                 m_instructions := (front ++ [.TvmIfElse .IFJMP trueBlock none]) :: outer }) ∧
    (front.length < 3 → ∀ withJmp,
      StackPusher.ifElse { m_stack2 := st, lockStack := lock, m_instructions := front :: outer }
          withJmp = none ∧
      StackPusher._while { m_stack2 := st, lockStack := lock, m_instructions := front :: outer }
        = none) ∧
    (StackPusher._if { m_stack2 := st, lockStack := lock, m_instructions := [] :: outer } = none ∧
      StackPusher._ifNot { m_stack2 := st, lockStack := lock, m_instructions := [] :: outer }
        = none ∧
      StackPusher.ifJmp { m_stack2 := st, lockStack := lock, m_instructions := [] :: outer }
        = none) ∧
    (∀ (x y : TvmAstNode), x.asCodeBlock = none → ∀ withJmp,
      StackPusher.ifElse
          { m_stack2 := st, lockStack := lock, m_instructions := (front ++ [y, x]) :: outer }
          withJmp = none ∧
      StackPusher.ifElse
          { m_stack2 := st, lockStack := lock, m_instructions := (front ++ [x, y]) :: outer }
          withJmp = none ∧
      StackPusher._while
          { m_stack2 := st, lockStack := lock, m_instructions := (front ++ [y, x]) :: outer }
        = none ∧
      StackPusher._while
          { m_stack2 := st, lockStack := lock, m_instructions := (front ++ [x, y]) :: outer }
        = none ∧
      StackPusher._if
          { m_stack2 := st, lockStack := lock, m_instructions := (front ++ [x]) :: outer }
        = none ∧
      StackPusher._ifNot
          { m_stack2 := st, lockStack := lock, m_instructions := (front ++ [x]) :: outer }
        = none ∧
      StackPusher.ifJmp
          { m_stack2 := st, lockStack := lock, m_instructions := (front ++ [x]) :: outer }
        = none) := by
  have e2 : ∀ a b : TvmAstNode, front ++ [a, b] = (front ++ [a]) ++ [b] := by
    intro a b
    simp
  refine ⟨?_, ?_, ?_, ?_, ?_⟩
  · intro hfront first second
    refine ⟨fun withJmp => ?_, ?_⟩
    · rw [e2]
      exact ifElse_state st lock front first second outer withJmp hfront
    · rw [e2]
      exact while_state st lock front first second outer hfront
  · intro trueBlock
    exact ⟨if_or_ifnot_state st lock front trueBlock outer .IF,
      if_or_ifnot_state st lock front trueBlock outer .IFNOT,
      if_or_ifnot_state st lock front trueBlock outer .IFJMP⟩
  · intro hlen withJmp
    have : ¬ (front.length ≥ 3) := by omega
    simp [StackPusher.ifElse, StackPusher._while, this]
  · simp [StackPusher._if, StackPusher._ifNot, StackPusher.ifJmp, StackPusher.if_or_ifnot,
      popBack_nil]
  · intro x y hx withJmp
    refine ⟨?_, ?_, ?_, ?_, ?_, ?_, ?_⟩
    · rw [e2]
      simp only [StackPusher.ifElse, popBack_concat, hx]
      split <;> rfl
    · rw [e2]
      simp only [StackPusher.ifElse, popBack_concat, hx]
      split
      · cases y.asCodeBlock <;> rfl
      · rfl
    · rw [e2]
      simp only [StackPusher._while, popBack_concat, hx]
      split <;> rfl
    · rw [e2]
      simp only [StackPusher._while, popBack_concat, hx]
      split
      · cases y.asCodeBlock <;> rfl
      · rfl
    · simp only [StackPusher._if, StackPusher.if_or_ifnot, popBack_concat, hx]
    · simp only [StackPusher._ifNot, StackPusher.if_or_ifnot, popBack_concat, hx]
    · simp only [StackPusher.ifJmp, StackPusher.if_or_ifnot, popBack_concat, hx]

theorem ifElse_while_if_replace_trailing_blocks_witness :
    StackPusher.ifElse
        { m_stack2 := { m_size := 1, m_stackSize := [] }, lockStack := 0,
          m_instructions :=
            ([makePUSH 0] ++ [.Block (.mk .PUSHCONT [makeDROP 1]),
              .Block (.mk .PUSHCONT [])]) :: [] } true
      = some { m_stack2 := { m_size := 1, m_stackSize := [] }, lockStack := 0,
               m_instructions :=
                ([makePUSH 0] ++ [.TvmIfElse (if true = true then .IFELSE_WITH_JMP else .IFELSE)
                  (.mk .PUSHCONT [makeDROP 1]) (some (.mk .PUSHCONT []))]) :: [] } :=
  ((ifElse_while_if_replace_trailing_blocks { m_size := 1, m_stackSize := [] } 0 [makePUSH 0]
      []).1 (by simp) (.mk .PUSHCONT [makeDROP 1]) (.mk .PUSHCONT [])).1 true

/-! ## Dictionary values -/

/-- C37: for every key length, every category of dictionary value and every
outcome of the fit test, `prepareValueForDictOperations` with `isValueBuilder =
false` fails exactly when `doesDictStoreValueInRef` throws, and otherwise it
places the value behind a reference (returns `DataType::Cell` or emits `STBREF`)
exactly when `doesDictStoreValueInRef` returns true. -/
theorem prepareValueForDictOperations_agrees_with_doesDictStoreValueInRef
    (MAX_HASH_MAP_INFO_ABOUT_KEY CellBitLength keyLength : Int) (valueType : DictValue) :
    (prepareValueForDictOperations MAX_HASH_MAP_INFO_ABOUT_KEY CellBitLength keyLength
        valueType false).map placesValueInRef
      = doesDictStoreValueInRef MAX_HASH_MAP_INFO_ABOUT_KEY CellBitLength keyLength
          valueType := by
  obtain ⟨category, isBytes, maxLen⟩ := valueType
  cases maxLen with
  | none =>
    cases category <;> cases isBytes <;>
      simp [prepareValueForDictOperations, doesDictStoreValueInRef,
        doesFitInOneCellAndHaveNoStruct, placesValueInRef]
  | some n =>
    by_cases hfit : MAX_HASH_MAP_INFO_ABOUT_KEY + keyLength + n < CellBitLength
    · cases category <;> cases isBytes <;>
        simp [prepareValueForDictOperations, doesDictStoreValueInRef,
          doesFitInOneCellAndHaveNoStruct, placesValueInRef, hfit]
    · cases category <;> cases isBytes <;>
        simp [prepareValueForDictOperations, doesDictStoreValueInRef,
          doesFitInOneCellAndHaveNoStruct, placesValueInRef, hfit]

/-! ## tonsToBinaryString -/

theorem binaryValue_append_one (s : List Char) (c : Char) :
    binaryValue (s ++ [c]) = 2 * binaryValue s + (if c = '1' then 1 else 0) := by
  simp [binaryValue, List.foldl_append]

theorem binaryValue_replicate_zero_append (k : Nat) (s : List Char) :
    binaryValue (List.replicate k '0' ++ s) = binaryValue s := by
  have h : ∀ k, List.foldl (fun acc c => 2 * acc + (if c = '1' then 1 else 0)) 0
      (List.replicate k '0') = 0 := by
    intro k
    induction k with
    | zero => rfl
    | succ n ih =>
      rw [List.replicate_succ', List.foldl_append, ih]
      decide
  simp only [binaryValue, List.foldl_append, h]

/-- The bit loop of `tonsToBinaryString` on a value below `2 ^ rounds`, with one
round more than that left: it appends the binary digits of the value, least
significant first, and the `break` sets `len` to the number of rounds made. -/
theorem tonsBitsLoop_spec (rounds : Nat) :
    ∀ (i value : Nat) (s : List Char), value < 2 ^ rounds →
      ∃ bits : List Char,
        tonsBitsLoop (rounds + 1) i value s = (s ++ bits, i + bits.length) ∧
        (∀ c ∈ bits, c = '0' ∨ c = '1') ∧
        binaryValue bits.reverse = value ∧
        value < 2 ^ bits.length ∧
        (value ≠ 0 → 2 ^ (bits.length - 1) ≤ value) ∧
        (value = 0 → bits = []) := by
  induction rounds with
  | zero =>
    intro i value s h
    have hv : value = 0 := by simpa using h
    subst hv
    exact ⟨[], by simp [tonsBitsLoop], by simp, rfl, by simp, by simp, fun _ => rfl⟩
  | succ n ih =>
    intro i value s h
    by_cases hv : value = 0
    · subst hv
      exact ⟨[], by simp [tonsBitsLoop], by simp, rfl, by simp, by simp, fun _ => rfl⟩
    · have hlt : value / 2 < 2 ^ n := by
        rw [Nat.div_lt_iff_lt_mul (by norm_num)]
        rw [pow_succ] at h
        exact h
      obtain ⟨bits, h1, h2, h3, h4, h5, h6⟩ := ih (i + 1) (value / 2)
        (s ++ [if value % 2 = 0 then '0' else '1']) hlt
      refine ⟨(if value % 2 = 0 then '0' else '1') :: bits, ?_, ?_, ?_, ?_, ?_, ?_⟩
      · rw [tonsBitsLoop, if_neg hv, h1]
        simp only [List.append_assoc, List.singleton_append, List.length_cons, Prod.mk.injEq,
          true_and]
        omega
      · intro c hc
        rcases List.mem_cons.mp hc with rfl | hc
        · split <;> simp
        · exact h2 c hc
      · rw [List.reverse_cons, binaryValue_append_one, h3]
        by_cases hm : value % 2 = 0
        · simp only [hm, if_true]
          have : ¬ ('0' = '1') := by decide
          simp only [this, if_false]
          omega
        · simp only [hm, if_false, if_true]
          omega
      · have e : 2 ^ ((if value % 2 = 0 then '0' else '1') :: bits).length
            = 2 ^ bits.length * 2 := by
          rw [List.length_cons, pow_succ]
        rw [e]
        omega
      · intro _
        simp only [List.length_cons, Nat.add_sub_cancel]
        by_cases hb : value / 2 = 0
        · rw [h6 hb]
          simp only [List.length_nil, pow_zero]
          omega
        · have := h5 hb
          have hpos : 0 < bits.length := by
            by_contra hc
            have hz : bits.length = 0 := by omega
            rw [hz] at h4
            simp only [pow_zero, Nat.lt_one_iff] at h4
            exact hb h4
          have e : 2 ^ bits.length = 2 ^ (bits.length - 1) * 2 := by
            rw [← pow_succ]
            congr 1
            omega
          rw [e]
          omega
      · intro h0
        exact absurd h0 hv

theorem tonsBitsLoop_len_ge (rounds : Nat) :
    ∀ (i value : Nat) (s : List Char), i + rounds = 256 →
      i ≤ (tonsBitsLoop rounds i value s).2 := by
  induction rounds with
  | zero =>
    intro i value s h
    simp only [tonsBitsLoop]
    omega
  | succ n ih =>
    intro i value s h
    rw [tonsBitsLoop]
    by_cases hv : value = 0
    · simp [hv]
    · rw [if_neg hv]
      have := ih (i + 1) (value / 2) (s ++ [if value % 2 = 0 then '0' else '1']) (by omega)
      omega

/-- A value of at least `2 ^ k` keeps the bit loop running for more than `k`
rounds. -/
theorem tonsBitsLoop_len_gt (rounds : Nat) :
    ∀ (i value k : Nat) (s : List Char), 2 ^ k ≤ value → i + rounds = 256 → i + k < 256 →
      i + k < (tonsBitsLoop rounds i value s).2 := by
  induction rounds with
  | zero =>
    intro i value k s _ h hk
    simp only [tonsBitsLoop]
    omega
  | succ n ih =>
    intro i value k s hv h hk
    have hpos : 0 < 2 ^ k := Nat.pow_pos (by norm_num)
    have hv0 : value ≠ 0 := by omega
    rw [tonsBitsLoop, if_neg hv0]
    cases k with
    | zero =>
      have := tonsBitsLoop_len_ge n (i + 1) (value / 2)
        (s ++ [if value % 2 = 0 then '0' else '1']) (by omega)
      omega
    | succ m =>
      have h2 : 2 ^ m ≤ value / 2 := by
        rw [pow_succ] at hv
        omega
      have := ih (i + 1) (value / 2) m (s ++ [if value % 2 = 0 then '0' else '1']) h2
        (by omega) (by omega)
      omega

theorem tonsPadLoop_spec (fuel : Nat) :
    ∀ (s : List Char) (len : Nat), (8 - len % 8) % 8 ≤ fuel →
      tonsPadLoop fuel s len
        = (s ++ List.replicate ((8 - len % 8) % 8) '0', len + (8 - len % 8) % 8) := by
  induction fuel with
  | zero =>
    intro s len h
    have : (8 - len % 8) % 8 = 0 := by omega
    simp [tonsPadLoop, this]
  | succ n ih =>
    intro s len h
    rw [tonsPadLoop]
    by_cases hm : len % 8 = 0
    · have : (8 - len % 8) % 8 = 0 := by omega
      simp [hm]
    · have hk : (8 - len % 8) % 8 = (8 - (len + 1) % 8) % 8 + 1 := by omega
      simp only [ne_eq, hm, not_false_eq_true, if_true]
      rw [ih _ _ (by omega), hk, List.replicate_succ, List.append_assoc]
      simp only [List.singleton_append, Prod.mk.injEq, true_and]
      omega

theorem reverseLast_all (s : List Char) : reverseLast s s.length = s.reverse := by
  simp [reverseLast]

theorem tonsLen_header (L : Nat) (hL : L < 16) :
    (reverseLast (tonsLenLoop 4 L []) 4).length = 4 ∧
    (∀ c ∈ reverseLast (tonsLenLoop 4 L []) 4, c = '0' ∨ c = '1') ∧
    binaryValue (reverseLast (tonsLenLoop 4 L []) 4) = L := by
  interval_cases L <;> decide

/-- The method `tonsToBinaryString` on every value below `2 ^ 119`: a length
nibble `L` and `8 * L` bits of the value, most significant first, where `L` is
the least number of bytes that holds the value; and the failed assertion on
every value from `2 ^ 119` on. -/
theorem tonsToBinaryString_spec (v : Nat) :
    (v < 2 ^ 119 →
      ∃ (L : Nat) (res : String),
        tonsToBinaryString v = some res ∧
        res.data.length = 4 + 8 * L ∧
        (∀ c ∈ res.data, c = '0' ∨ c = '1') ∧
        v < 256 ^ L ∧ (∀ k, k < L → 256 ^ k ≤ v) ∧
        binaryValue (res.data.take 4) = L ∧
        binaryValue (res.data.drop 4) = v) ∧
    (2 ^ 119 ≤ v → tonsToBinaryString v = none) := by
  constructor
  · intro hv
    obtain ⟨bits, h1, h2, h3, h4, h5, h6⟩ := tonsBitsLoop_spec 255 0 v []
      (lt_of_lt_of_le hv (Nat.pow_le_pow_right (by norm_num) (by norm_num)))
    simp only [List.nil_append, zero_add] at h1
    have hlen : bits.length < 120 := by
      by_contra hc
      by_cases h0 : v = 0
      · rw [h6 h0] at hc
        simp at hc
      · have := h5 h0
        have h119 : 2 ^ 119 ≤ 2 ^ (bits.length - 1) :=
          Nat.pow_le_pow_right (by norm_num) (by omega)
        omega
    set k := (8 - bits.length % 8) % 8 with hk
    have hpad := tonsPadLoop_spec 8 bits bits.length (by omega)
    rw [← hk] at hpad
    have hL : (bits.length + k) / 8 < 16 := by omega
    obtain ⟨g1, g2, g3⟩ := tonsLen_header ((bits.length + k) / 8) hL
    have hfull : (bits ++ List.replicate k '0').length = bits.length + k := by simp
    have hrev : reverseLast (bits ++ List.replicate k '0') (bits.length + k)
        = List.replicate k '0' ++ bits.reverse := by
      rw [← hfull, reverseLast_all]
      simp
    refine ⟨(bits.length + k) / 8,
      String.mk (reverseLast (tonsLenLoop 4 ((bits.length + k) / 8) []) 4 ++
        (List.replicate k '0' ++ bits.reverse)), ?_, ?_, ?_, ?_, ?_, ?_, ?_⟩
    · simp only [tonsToBinaryString, h1, hlen, if_true, hpad, hrev]
    · simp only [List.length_append, g1, List.length_replicate, List.length_reverse]
      omega
    · intro c hc
      simp only [List.mem_append, List.mem_replicate, List.mem_reverse] at hc
      rcases hc with hc | hc | hc
      · exact g2 c hc
      · exact Or.inl hc.2
      · exact h2 c hc
    · have e : (256 : Nat) = 2 ^ 8 := by norm_num
      rw [e, ← pow_mul]
      exact lt_of_lt_of_le h4 (Nat.pow_le_pow_right (by norm_num) (by omega))
    · intro j hj
      have e : (256 : Nat) = 2 ^ 8 := by norm_num
      rw [e, ← pow_mul]
      have h0 : v ≠ 0 := by
        intro h0
        have hb := h6 h0
        rw [hb] at hj hk
        simp only [List.length_nil, Nat.zero_mod] at hk
        rw [hk] at hj
        simp at hj
      exact le_trans (Nat.pow_le_pow_right (by norm_num) (by omega)) (h5 h0)
    · rw [List.take_left' g1]
      exact g3
    · rw [List.drop_left' g1, binaryValue_replicate_zero_append]
      exact h3
  · intro hv
    have h := tonsBitsLoop_len_gt 256 0 v 119 [] hv (by norm_num) (by norm_num)
    have hlen : ¬ (tonsBitsLoop 256 0 v []).2 < 120 := by omega
    simp only [tonsToBinaryString]
    cases hlp : tonsBitsLoop 256 0 v [] with
    | mk s len =>
      rw [hlp] at hlen
      simp only at hlen
      simp only [hlen, if_false]

/-- C35, the code at `v = 2 ^ 119`, a value that fits 120 bits: the assertion
`len < 120` fails, since `len` is 120 there. At 255 and at 256 the method
returns the length nibble 1 with 8 bits and the length nibble 2 with 16 bits. -/
theorem tonsToBinaryString_rejects_120_bit_value :
    2 ^ 119 < 2 ^ 120 ∧
    tonsToBinaryString (2 ^ 119) = none ∧
    tonsToBinaryString 255 = some "000111111111" ∧
    tonsToBinaryString 256 = some "00100000000100000000" :=
  ⟨by norm_num, (tonsToBinaryString_spec (2 ^ 119)).2 (le_refl _), by decide, by decide⟩

/-! ## binaryStringToSlice and toBitString -/

theorem reverseLast_append (s t : List Char) :
    reverseLast (s ++ t) t.length = s ++ t.reverse := by
  simp [reverseLast]

theorem addBinaryLoop_append (rounds : Nat) :
    ∀ (value : Int) (s : List Char),
      addBinaryLoop rounds value s = s ++ addBinaryLoop rounds value [] ∧
      (addBinaryLoop rounds value []).length = rounds := by
  induction rounds with
  | zero => intro value s; simp [addBinaryLoop]
  | succ n ih =>
    intro value s
    rw [addBinaryLoop, addBinaryLoop]
    have h1 := ih (value / 2) (s ++ [if value % 2 = 0 then '0' else '1'])
    have h2 := ih (value / 2) ([] ++ [if value % 2 = 0 then '0' else '1'])
    rw [h1.1, h2.1]
    simp [h1.2]

theorem addBinaryNumberToString_acc (s : List Char) (value bitlen : Int) (n : Nat)
    (hn : bitlen.toNat = n) (hv : 0 ≤ value) :
    addBinaryNumberToString s value bitlen
      = some (s ++ (addBinaryLoop n value []).reverse) := by
  have h := addBinaryLoop_append n value s
  simp only [addBinaryNumberToString, ge_iff_le, hv, if_true, hn]
  rw [h.1]
  have e := reverseLast_append s (addBinaryLoop n value [])
  rw [h.2] at e
  rw [e]

/-- One block of four binary digits: its hexadecimal digit is not `_`, and
`toBitString` turns the digit back into the four. -/
theorem chunk_roundtrip (a b c d : Char) (ha : a = '0' ∨ a = '1') (hb : b = '0' ∨ b = '1')
    (hc : c = '0' ∨ c = '1') (hd : d = '0' ∨ d = '1') :
    stoiBinary [a, b, c, d] = some ((binaryValue [a, b, c, d] : Nat) : Int) ∧
    hexDigit (Int.toNat ((binaryValue [a, b, c, d] : Nat) : Int)) ≠ '_' ∧
    stoiHexDigit (hexDigit (Int.toNat ((binaryValue [a, b, c, d] : Nat) : Int)))
      = some ((binaryValue [a, b, c, d] : Nat) : Int) ∧
    (addBinaryLoop 4 ((binaryValue [a, b, c, d] : Nat) : Int) []).reverse = [a, b, c, d] := by
  rcases ha with rfl | rfl <;> rcases hb with rfl | rfl <;> rcases hc with rfl | rfl <;>
    rcases hd with rfl | rfl <;> decide

/-- The last block of a string whose length is not divisible by 4: the one and
the zeroes appended to it become one digit, from which `toBitString` takes the
bits before the one. -/
theorem tail_roundtrip (t : List Char) (ht : ∀ c ∈ t, c = '0' ∨ c = '1')
    (hlen : t.length % 4 ≠ 0) (hlt : t.length < 4) :
    sliceDigits (paddedTail t)
      = some [hexDigit (Int.toNat ((binaryValue (paddedTail t) : Nat) : Int))] ∧
    stoiHexDigit (hexDigit (Int.toNat ((binaryValue (paddedTail t) : Nat) : Int)))
      = some ((binaryValue (paddedTail t) : Nat) : Int) ∧
    completionTagLoop 4 ((binaryValue (paddedTail t) : Nat) : Int) 4
      = some (((binaryValue t : Nat) : Int), ((t.length : Nat) : Int)) ∧
    (addBinaryLoop t.length ((binaryValue t : Nat) : Int) []).reverse = t := by
  match t, ht, hlen, hlt with
  | [], _, h, _ => simp at h
  | [a], ht, _, _ =>
    have ha := ht a (by simp)
    rcases ha with rfl | rfl <;> decide
  | [a, b], ht, _, _ =>
    have ha := ht a (by simp)
    have hb := ht b (by simp)
    rcases ha with rfl | rfl <;> rcases hb with rfl | rfl <;> decide
  | [a, b, c], ht, _, _ =>
    have ha := ht a (by simp)
    have hb := ht b (by simp)
    have hc := ht c (by simp)
    rcases ha with rfl | rfl <;> rcases hb with rfl | rfl <;> rcases hc with rfl | rfl <;>
      decide
  | _ :: _ :: _ :: _ :: _, _, _, h =>
    simp only [List.length_cons] at h
    omega

/-- A string of `4 * k` binary digits before the rest `u`: `binaryStringToSlice`
writes `k` digits for it, and the loop of `toBitString` turns these digits back
into the string when they are not the digit before a closing `_`. -/
theorem blocks_roundtrip (k : Nat) :
    ∀ (s : List Char), s.length = 4 * k → (∀ c ∈ s, c = '0' ∨ c = '1') →
      ∃ ds : List Char,
        (∀ u, sliceDigits (s ++ u) = (sliceDigits u).map (ds ++ ·)) ∧
        (∀ acc tail, tail ≠ ['_'] →
          toBitStringLoop (ds ++ tail) acc = toBitStringLoop tail (acc ++ s)) := by
  induction k with
  | zero =>
    intro s hlen _
    have hs : s = [] := List.length_eq_zero.mp (by omega)
    subst hs
    refine ⟨[], ?_, ?_⟩
    · intro u
      cases h : sliceDigits u <;> simp [h]
    · intro acc tail _
      simp
  | succ n ih =>
    intro s hlen hbin
    match s, hlen, hbin with
    | a :: b :: c :: d :: rest, hlen, hbin =>
      have hrest : rest.length = 4 * n := by
        simp only [List.length_cons] at hlen
        omega
      obtain ⟨ds, h1, h2⟩ := ih rest hrest (fun c hc => hbin c (by simp [hc]))
      obtain ⟨g1, g2, g3, g5⟩ := chunk_roundtrip a b c d (hbin a (by simp))
        (hbin b (by simp)) (hbin c (by simp)) (hbin d (by simp))
      have g4 : (0 : Int) ≤ ((binaryValue [a, b, c, d] : Nat) : Int) := Int.natCast_nonneg _
      refine ⟨hexDigit (Int.toNat ((binaryValue [a, b, c, d] : Nat) : Int)) :: ds, ?_, ?_⟩
      · intro u
        have e : sliceDigits (a :: b :: c :: d :: (rest ++ u))
            = match stoiBinary [a, b, c, d], sliceDigits (rest ++ u) with
              | some x, some ans => some (hexDigit x.toNat :: ans)
              | _, _ => none := by
          rw [sliceDigits]
        simp only [List.cons_append]
        rw [e, g1, h1 u]
        cases sliceDigits u <;> simp
      · intro acc tail htail
        have hne : ds ++ tail ≠ ['_'] := by
          intro hc
          cases ds with
          | nil => exact htail (by simpa using hc)
          | cons e es =>
            -- the digits of `rest` would be `_` alone, but `rest` adds no digit then
            have hes : es = [] ∧ tail = [] := by
              simp only [List.cons_append, List.cons.injEq, List.append_eq_nil] at hc
              exact hc.2
            obtain ⟨rfl, rfl⟩ := hes
            have he : e = '_' := by simpa using hc
            subst he
            have h0 := h2 [] [] (by simp)
            have hstoi : stoiHexDigit '_' = none := by decide
            simp [toBitStringLoop, hstoi] at h0
        have e1 : toBitStringLoop
              ((hexDigit (Int.toNat ((binaryValue [a, b, c, d] : Nat) : Int)) :: ds) ++ tail) acc
            = toBitStringLoop (ds ++ tail) (acc ++ [a, b, c, d]) := by
          rw [List.cons_append, toBitStringLoop, if_neg hne, g3]
          simp only []
          rw [addBinaryNumberToString_acc acc _ 4 4 rfl g4, g5]
        rw [e1, h2 _ tail htail]
        simp
    | [], hlen, _ => simp at hlen
    | [_], hlen, _ => simp at hlen; omega
    | [_, _], hlen, _ => simp at hlen; omega
    | [_, _, _], hlen, _ => simp at hlen; omega

/-- The round trip on lists of characters. -/
theorem toBitString_roundtrip_list (s : List Char) (hbin : ∀ c ∈ s, c = '0' ∨ c = '1') :
    ∃ slice, binaryStringToSlice (String.mk s) = some slice ∧
      toBitString ("x" ++ slice) = some (String.mk s) := by
  have hsplit : s = s.take (4 * (s.length / 4)) ++ s.drop (4 * (s.length / 4)) :=
    (List.take_append_drop _ _).symm
  have hl1 : (s.take (4 * (s.length / 4))).length = 4 * (s.length / 4) := by
    rw [List.length_take]
    omega
  have hl2 : (s.drop (4 * (s.length / 4))).length = s.length % 4 := by
    rw [List.length_drop]
    omega
  obtain ⟨ds, h1, h2⟩ := blocks_roundtrip (s.length / 4) (s.take (4 * (s.length / 4))) hl1
    (fun c hc => hbin c (List.mem_of_mem_take hc))
  by_cases hm : s.length % 4 = 0
  · have hd : s.drop (4 * (s.length / 4)) = [] := List.length_eq_zero.mp (by omega)
    have hs : s.take (4 * (s.length / 4)) = s := by
      rw [hd, List.append_nil] at hsplit
      exact hsplit.symm
    rw [hs] at h1 h2
    have hsl := h1 []
    simp only [List.append_nil, sliceDigits, Option.map_some'] at hsl
    refine ⟨String.mk ds, ?_, ?_⟩
    · simp [binaryStringToSlice, hm, hsl]
    · have htb := h2 [] [] (by simp)
      simp only [List.append_nil, List.nil_append, toBitStringLoop] at htb
      have hx : ("x" ++ String.mk ds).data = 'x' :: ds := rfl
      simp only [toBitString, hx, if_true, htb, Option.map_some']
  · set t := s.drop (4 * (s.length / 4)) with ht
    set s0 := s.take (4 * (s.length / 4)) with hs0
    obtain ⟨g1, g2, g3, g5⟩ := tail_roundtrip t
      (fun c hc => hbin c (List.mem_of_mem_drop hc)) (by rw [hl2]; omega) (by rw [hl2]; omega)
    have g4 : (0 : Int) ≤ ((binaryValue t : Nat) : Int) := Int.natCast_nonneg _
    set h := hexDigit (Int.toNat ((binaryValue (paddedTail t) : Nat) : Int)) with hh
    have hpadlen : (s ++ ['1']).length % 4 = (t ++ ['1']).length % 4 := by
      simp only [List.length_append, List.length_singleton, hl2]
      omega
    have hpad : (s ++ ['1']) ++ List.replicate ((4 - (s ++ ['1']).length % 4) % 4) '0'
        = s0 ++ paddedTail t := by
      rw [hpadlen, paddedTail]
      conv_lhs => rw [hsplit]
      simp only [List.append_assoc]
    refine ⟨String.mk (ds ++ [h] ++ ['_']), ?_, ?_⟩
    · have hb : (s.length % 4 != 0) = true := by simpa using hm
      simp only [binaryStringToSlice, hb, if_true, hpad, h1, g1, Option.map_some']
    · have htb := h2 [] [h, '_'] (by simp)
      have hx : ("x" ++ String.mk (ds ++ [h] ++ ['_'])).data = 'x' :: (ds ++ [h, '_']) := by
        show 'x' :: (ds ++ [h] ++ ['_']) = _
        simp
      simp only [toBitString, hx, if_true, htb, toBitStringLoop, g2, g3,
        addBinaryNumberToString_acc _ _ _ t.length (Int.toNat_ofNat _) g4, g5, List.nil_append, Option.map_some']
      rw [← hsplit]

/-- C34: for every string `s` of the characters `0` and `1`, the empty string
and the lengths not divisible by 4 included, `binaryStringToSlice(s)` returns a
slice, and `toBitString("x" + slice)` returns `s`. -/
theorem toBitString_binaryStringToSlice (s : String)
    (hbin : ∀ c ∈ s.data, c = '0' ∨ c = '1') :
    ∃ slice, binaryStringToSlice s = some slice ∧ toBitString ("x" ++ slice) = some s :=
  toBitString_roundtrip_list s.data hbin

theorem toBitString_binaryStringToSlice_witness :
    ∃ slice, binaryStringToSlice "10110" = some slice ∧
      toBitString ("x" ++ slice) = some "10110" :=
  toBitString_binaryStringToSlice "10110" (by decide)

/-! ## The lowering of repeat loops -/

theorem repeat_state (st : TVMStack) (lock : Int) (front : List TvmAstNode)
    (loopBody : CodeBlock) (outer : List (List TvmAstNode)) :
    StackPusher.repeat
        { m_stack2 := st, lockStack := lock,
          m_instructions := (front ++ [.Block loopBody]) :: outer }
      = some { m_stack2 := st, lockStack := lock,
               m_instructions := (front ++ [.TvmRepeat loopBody]) :: outer } := by
  simp only [StackPusher.repeat, StackPusher.repeatOrUntil, popBack_concat,
    TvmAstNode.asCodeBlock, if_true]

/-- The statements of `visit(WhileStatement)` for a REPEAT loop after the test
of `mayDoThat`, from the pusher that the header leaves. -/
theorem visitWhile_repeat_rest (genOpcode : String → Option TvmAstNode)
    (hgen : LoopGen genOpcode) (m : Int) (v : List (Option Nat)) (block : List TvmAstNode)
    (outer : List (List TvmAstNode)) (cfi : List ControlFlowInfo)
    (condition body : StackPusher → Option StackPusher) (ci : ContInfo) (b : Int)
    (hcond : Lowers condition 1) (hbody : Lowers body b) (hb : 0 ≤ b) (hdepth : 0 ≤ m) :
    ∃ v1 emitted loopBody after p2,
      (condition { m_stack2 := { m_size := m + ci.flagQty, m_stackSize := v }, lockStack := 0,
                   m_instructions := block :: outer }).bind
          (fun p2 => p2.push genOpcode (-1) "") = some p2 ∧
      ((p2.ensureSize (m + ci.flagQty)).bind fun p4 =>
        (body p4.startContinuation).bind fun p5 =>
        (p5.drop (p5.stackSize - (m + ci.flagQty))).bind fun p6 =>
        p6.endContinuation.bind fun p7 =>
        p7.repeat.bind fun p8 =>
        (TVMFunctionCompiler.afterLoopCheck genOpcode p8 cfi ci 0).bind fun p9 =>
        p9.ensureSize m)
        = some { m_stack2 := { m_size := m, m_stackSize := v1 }, lockStack := 0,
                 m_instructions :=
                  (block ++ emitted ++ [.TvmRepeat loopBody] ++ after) :: outer } := by
  have hf := flagQty_nonneg ci
  obtain ⟨v1, e1, h1⟩ := lowers_to condition 1 hcond (m + ci.flagQty) v block outer
    (m + ci.flagQty + 1) rfl (by omega)
  have h2 := fix_to genOpcode (m + ci.flagQty + 1) v1 ((block ++ e1) :: outer) (-1)
    (m + ci.flagQty) (by ring) (by omega)
  obtain ⟨v2, e2, h3⟩ := lowers_to body b hbody (m + ci.flagQty) v1 [] ((block ++ e1) :: outer)
    (m + ci.flagQty + b) rfl (by omega)
  obtain ⟨e3, h4⟩ := drop_to (m + ci.flagQty + b) v2 ([] ++ e2) ((block ++ e1) :: outer)
    (m + ci.flagQty + b - (m + ci.flagQty)) (m + ci.flagQty) (by omega) (by ring) (by omega)
  obtain ⟨e5, h5⟩ := afterLoopCheck_state genOpcode hgen
    { m_size := m + ci.flagQty, m_stackSize := v2 }
    (block ++ e1 ++ [.TvmRepeat (.mk .PUSHCONT (([] ++ e2) ++ e3))]) outer cfi ci 0 (le_refl 0)
    (by simp only; omega)
  have e : m + ci.flagQty - ci.flagQty - 0 = m := by ring
  simp only [e] at h5
  refine ⟨v2, e1, .mk .PUSHCONT (([] ++ e2) ++ e3), e5,
    { m_stack2 := { m_size := m + ci.flagQty, m_stackSize := v1 }, lockStack := 0,
      m_instructions := (block ++ e1) :: outer }, ?_, ?_⟩
  · rw [h1, Option.some_bind, h2]
  · simp only [StackPusher.ensureSize, beq_self_eq_true, if_true, Option.some_bind,
      StackPusher.startContinuation, h3, StackPusher.stackSize, TVMStack.size, h4,
      StackPusher.endContinuation, StackPusher.endCont, repeat_state, h5]

/-- C32: `visit(WhileStatement)` on a REPEAT loop, from an unlocked pusher with
an open block, with regular lowerings of the condition and of the body: when
`ci.mayDoThat()` holds for the body, the outcome is the user-level error "Using
'break', 'continue' or 'return' is not supported yet."; when it does not hold,
the outcome is no error but a pusher at the depth before the statement whose
open block has gained a `TvmRepeat` node. So the error is raised if and only if
`mayDoThat()` holds. -/
theorem visitWhile_repeat (genOpcode : String → Option TvmAstNode) (hgen : LoopGen genOpcode)
    (m : Int) (v : List (Option Nat)) (block : List TvmAstNode)
    (outer : List (List TvmAstNode)) (m_controlFlowInfo : List ControlFlowInfo)
    (_whileStatement : WhileStatement) (b : Int)
    (hrepeat : _whileStatement.loopType = .REPEAT)
    (hcond : Lowers _whileStatement.condition 1) (hbody : Lowers _whileStatement.body b)
    (hb : 0 ≤ b) (hdepth : 0 ≤ m) :
    (_whileStatement.mayDoThat = true →
      TVMFunctionCompiler.visitWhile genOpcode
          { m_stack2 := { m_size := m, m_stackSize := v }, lockStack := 0,
            m_instructions := block :: outer } m_controlFlowInfo _whileStatement
        = .cast_error "Using 'break', 'continue' or 'return' is not supported yet.") ∧
    (_whileStatement.mayDoThat = false →
      ∃ v1 emitted loopBody after,
        TVMFunctionCompiler.visitWhile genOpcode
            { m_stack2 := { m_size := m, m_stackSize := v }, lockStack := 0,
              m_instructions := block :: outer } m_controlFlowInfo _whileStatement
          = .ok { m_stack2 := { m_size := m, m_stackSize := v1 }, lockStack := 0,
                  m_instructions :=
                    (block ++ emitted ++ [.TvmRepeat loopBody] ++ after) :: outer }) ∧
    ((∃ message, TVMFunctionCompiler.visitWhile genOpcode
          { m_stack2 := { m_size := m, m_stackSize := v }, lockStack := 0,
            m_instructions := block :: outer } m_controlFlowInfo _whileStatement
        = .cast_error message) ↔ _whileStatement.mayDoThat = true) := by
  obtain ⟨e0, h0⟩ := pushControlFlowFlag_state m v block outer _whileStatement.bodyInfo true
    hdepth
  have hne : ¬ (LoopType.REPEAT = LoopType.DO_WHILE) := by decide
  have herr : _whileStatement.mayDoThat = true →
      TVMFunctionCompiler.visitWhile genOpcode
          { m_stack2 := { m_size := m, m_stackSize := v }, lockStack := 0,
            m_instructions := block :: outer } m_controlFlowInfo _whileStatement
        = .cast_error "Using 'break', 'continue' or 'return' is not supported yet." := by
    intro hmay
    simp only [TVMFunctionCompiler.visitWhile, hrepeat, hne, if_false, h0, if_true, hmay]
  have hok : _whileStatement.mayDoThat = false →
      ∃ v1 emitted loopBody after,
        TVMFunctionCompiler.visitWhile genOpcode
            { m_stack2 := { m_size := m, m_stackSize := v }, lockStack := 0,
              m_instructions := block :: outer } m_controlFlowInfo _whileStatement
          = .ok { m_stack2 := { m_size := m, m_stackSize := v1 }, lockStack := 0,
                  m_instructions :=
                    (block ++ emitted ++ [.TvmRepeat loopBody] ++ after) :: outer } := by
    intro hmay
    obtain ⟨v1, emitted, loopBody, after, p2, h1, h2⟩ := visitWhile_repeat_rest genOpcode hgen m
      v (block ++ e0) outer
      ((m_controlFlowInfo ++ [ControlFlowInfo.mk (m + _whileStatement.bodyInfo.flagQty) true
        false]).dropLast) _whileStatement.condition _whileStatement.body
      _whileStatement.bodyInfo b hcond hbody hb hdepth
    refine ⟨v1, e0 ++ emitted, loopBody, after, ?_⟩
    simp only [StackPusher.stackSize, TVMStack.size] at h2
    simp only [TVMFunctionCompiler.visitWhile, hrepeat, hne, if_false, h0, if_true, hmay,
      Bool.false_eq_true, StackPusher.stackSize, TVMStack.size, h1, Lowered.ofOption, h2,
      List.append_assoc]
  refine ⟨herr, hok, ?_⟩
  constructor
  · rintro ⟨message, hmsg⟩
    by_contra hmay
    have hmay2 : _whileStatement.mayDoThat = false := by simpa using hmay
    obtain ⟨v1, emitted, loopBody, after, h⟩ := hok hmay2
    rw [h] at hmsg
    cases hmsg
  · intro hmay
    exact ⟨_, herr hmay⟩

theorem visitWhile_repeat_witness :
    TVMFunctionCompiler.visitWhile
        (fun cmd => if cmd = "TRUE" then some (.GenOpcode cmd "" "" 0 1 true)
          else some (.GenOpcode cmd "" "" 1 1 true))
        { m_stack2 := { m_size := 0, m_stackSize := [] }, lockStack := 0,
          m_instructions := [] :: [] } []
        { loopType := .REPEAT, condition := fun p => p.pushS 0, body := fun p => some p,
          bodyInfo := { canReturn := true, canBreak := false, canContinue := false },
          mayDoThat := true }
      = .cast_error "Using 'break', 'continue' or 'return' is not supported yet." :=
  (visitWhile_repeat
      (fun cmd => if cmd = "TRUE" then some (.GenOpcode cmd "" "" 0 1 true)
        else some (.GenOpcode cmd "" "" 1 1 true))
      ⟨by decide, by decide, by decide, by decide⟩ 0 [] [] [] []
      { loopType := .REPEAT, condition := fun p => p.pushS 0, body := fun p => some p,
        bodyInfo := { canReturn := true, canBreak := false, canContinue := false },
        mayDoThat := true }
      0 rfl
      (fun st block outer h =>
        ⟨st.m_stackSize, [makePUSH 0], pushS_to st.m_size st.m_stackSize block outer 0
          (st.m_size + 1) (le_refl 0) rfl (by omega)⟩)
      (fun st block outer _ => ⟨st.m_stackSize, [], by simp⟩)
      (le_refl 0) (le_refl 0)).1 rfl

/-! ## The lowering of if-statements -/

/-- One branch of an if-statement, from an unlocked pusher at the depth that
the last frame records: the branch becomes one block of the open block and the
depth is unchanged. -/
theorem visitIfBranch_state (genOpcode : String → Option TvmAstNode) (d : Int)
    (v : List (Option Nat)) (block : List TvmAstNode) (outer : List (List TvmAstNode))
    (cfi : List ControlFlowInfo) (back : ControlFlowInfo)
    (statement : StackPusher → Option StackPusher) (canUseJmp : Bool) (b : Int)
    (hback : back.stackSize = d) (hst : Lowers statement b) (hb : 0 ≤ b) (hd : 0 ≤ d) :
    ∃ v1 body,
      TVMFunctionCompiler.visitIfBranch genOpcode
          { m_stack2 := { m_size := d, m_stackSize := v }, lockStack := 0,
            m_instructions := block :: outer } (cfi ++ [back]) statement canUseJmp
        = some { m_stack2 := { m_size := d, m_stackSize := v1 }, lockStack := 0,
                 m_instructions := (block ++ [.Block (.mk .PUSHCONT body)]) :: outer } := by
  obtain ⟨v1, e1, h1⟩ := lowers_to statement b hst d v [] (block :: outer) (d + b) rfl hd
  have hlast : (cfi ++ [back]).getLast? = some back := by simp
  cases canUseJmp
  · -- the flag form: the slots of the branch are dropped
    obtain ⟨e2, h2⟩ := drop_to (d + b) v1 ([] ++ e1) (block :: outer) (d + b - back.stackSize) d
      (by omega) (by rw [hback]; ring) hd
    refine ⟨v1, ([] ++ e1) ++ e2, ?_⟩
    simp only [TVMFunctionCompiler.visitIfBranch, StackPusher.startContinuation, h1,
      Option.some_bind, TVMFunctionCompiler.endContinuation2, hlast, StackPusher.stackSize,
      TVMStack.size, Bool.not_false, if_true, h2, StackPusher.endContinuation,
      StackPusher.endCont]
  · -- the jump form: the model is set back
    have h2 := fix_to genOpcode (d + b) v1 (([] ++ e1) :: block :: outer)
      (-(d + b - back.stackSize)) d (by rw [hback]; ring) hd
    refine ⟨v1, [] ++ e1, ?_⟩
    simp only [TVMFunctionCompiler.visitIfBranch, StackPusher.startContinuation, h1,
      Option.some_bind, TVMFunctionCompiler.endContinuation2, hlast, StackPusher.stackSize,
      TVMStack.size, Bool.not_true, Bool.false_eq_true, if_false, h2,
      StackPusher.endContinuation, StackPusher.endCont]

/-- The check of the flag after an if-statement in the flag form: no
instruction when the statement cannot return, break or continue, and else one
opaque block that holds an `IFRET` and takes the flag off the model. -/
theorem visitIfBottom_state (genOpcode : String → Option TvmAstNode)
    (heq : declaredEffect genOpcode ("EQINT " ++ toString ContInfo.RETURN_FLAG) = some 0)
    (m : Int) (v : List (Option Nat)) (block : List TvmAstNode)
    (outer : List (List TvmAstNode)) (cfi : List ControlFlowInfo) (ci : ContInfo)
    (hm : 0 ≤ m) :
    ∃ check,
      TVMFunctionCompiler.visitIfBottom genOpcode
          { m_stack2 := { m_size := m + ci.flagQty, m_stackSize := v }, lockStack := 0,
            m_instructions := block :: outer } cfi ci
        = some { m_stack2 := { m_size := m, m_stackSize := v }, lockStack := 0,
                 m_instructions := (block ++ check) :: outer } ∧
      (if ci.canReturn = true ∨ ci.canBreak = true ∨ ci.canContinue = true then
        ∃ body, check = [.Opaque (.mk .None body) 1 0 false] ∧ makeIFRET ∈ body
       else check = []) := by
  obtain ⟨opcode, hpush⟩ : ∃ opcode, ∀ (st : TVMStack) (blk : List TvmAstNode)
      (rest : List (List TvmAstNode)),
      StackPusher.push genOpcode
          { m_stack2 := st, lockStack := 1, m_instructions := blk :: rest } 0
          ("EQINT " ++ toString ContInfo.RETURN_FLAG)
        = some { m_stack2 := st, lockStack := 1,
                 m_instructions := (blk ++ [opcode]) :: rest } := by
    obtain ⟨opcode, isPure, take, ret, hg, ha, hd⟩ := declaredEffect_some genOpcode _ 0 heq
    refine ⟨opcode, fun st blk rest => ?_⟩
    simp [StackPusher.push, eqint_nonempty, hg, ha, ← hd, StackPusher.changeTakeRet,
      StackPusher.change, StackPusher.pushOpcode]
  have hend : ∀ body : List TvmAstNode,
      StackPusher.endOpaque
          { m_stack2 := { m_size := m + 1, m_stackSize := v }, lockStack := 1,
            m_instructions := body :: block :: outer } 1 0 false
        = some { m_stack2 := { m_size := m, m_stackSize := v }, lockStack := 0,
                 m_instructions :=
                  (block ++ [.Opaque (.mk .None body) 1 0 false]) :: outer } := by
    intro body
    have h := endOpaque_state { m_size := m + 1, m_stackSize := v } body block outer 1 0
      (by simp only; omega)
    have e : m + 1 + (-1 + 0) = m := by ring
    simp only [e] at h
    exact h
  cases hflag : (ci.canReturn || ci.canBreak || ci.canContinue)
  · have hn : ¬ (ci.canReturn = true ∨ ci.canBreak = true ∨ ci.canContinue = true) := by
      intro h
      rcases h with h | h | h <;> simp [h] at hflag
    refine ⟨[], ?_, by simp only [if_neg hn]⟩
    simp only [TVMFunctionCompiler.visitIfBottom, ContInfo.flagQty, hflag, Bool.false_eq_true,
      if_false, add_zero, List.append_nil]
  · have hp : ci.canReturn = true ∨ ci.canBreak = true ∨ ci.canContinue = true := by
      by_contra hc
      simp only [not_or, Bool.not_eq_true] at hc
      obtain ⟨a, b, c⟩ := hc
      simp [a, b, c] at hflag
    simp only [if_pos hp]
    simp only [TVMFunctionCompiler.visitIfBottom, ContInfo.flagQty, hflag, if_true,
      StackPusher.startOpaque, zero_add]
    cases hret : ci.canReturn
    · refine ⟨_, ?_, [makePUSH 0, makeIFRET, makeDROP 1], rfl, by simp⟩
      simp only [Bool.false_eq_true, if_false, pushS_locked _ _ _ 0 (le_refl 0),
        Option.some_bind, ifret_locked, drop_one_locked, hend]
      rfl
    · cases hall : allJmp cfi
      · refine ⟨_, ?_, [makePUSH 0, makeIFRET, makeDROP 1], rfl, by simp⟩
        simp only [if_true, Bool.false_eq_true, if_false, pushS_locked _ _ _ 0 (le_refl 0),
          Option.some_bind, ifret_locked, drop_one_locked, hend]
        rfl
      · refine ⟨_, ?_, [opcode, makeIFRET], rfl, by simp⟩
        simp only [if_true, hpush, Option.some_bind, ifret_locked, hend]
        rfl

/-- The lowering of an if-statement on an unlocked pusher whose open block is
not empty: what it appends and where it ends. -/
theorem visitIf_state (genOpcode : String → Option TvmAstNode)
    (heq : declaredEffect genOpcode ("EQINT " ++ toString ContInfo.RETURN_FLAG) = some 0)
    (m : Int) (v : List (Option Nat)) (block : List TvmAstNode)
    (outer : List (List TvmAstNode)) (m_controlFlowInfo : List ControlFlowInfo)
    (_ifStatement : IfStatement) (bt bf : Int)
    (hcond : Lowers _ifStatement.condition 1)
    (htrue : Lowers _ifStatement.trueStatement bt) (hbt : 0 ≤ bt)
    (hfalse : ∀ f, _ifStatement.falseStatement = some f → Lowers f bf) (hbf : 0 ≤ bf)
    (hdepth : 0 ≤ m) (hblock : block ≠ []) :
    ∃ v1 emitted trueBody falseBody check,
      TVMFunctionCompiler.visitIf genOpcode
          { m_stack2 := { m_size := m, m_stackSize := v }, lockStack := 0,
            m_instructions := block :: outer } m_controlFlowInfo _ifStatement
        = some { m_stack2 := { m_size := m, m_stackSize := v1 }, lockStack := 0,
                 m_instructions :=
                  (block ++ emitted ++
                    [.TvmIfElse
                      (ifElseVariant _ifStatement.falseStatement.isSome _ifStatement.canUseJmp)
                      trueBody falseBody] ++
                    (if _ifStatement.falseStatement.isSome = true then []
                     else [.Loc _ifStatement.sourceName 0]) ++ check) :: outer } ∧
      falseBody.isSome = _ifStatement.falseStatement.isSome ∧
      (if _ifStatement.canUseJmp = false ∧
          (_ifStatement.info.canReturn = true ∨ _ifStatement.info.canBreak = true ∨
            _ifStatement.info.canContinue = true) then
        ∃ body, check = [.Opaque (.mk .None body) 1 0 false] ∧ makeIFRET ∈ body
       else check = []) := by
  -- the header: the frame, and the flag in the flag form
  obtain ⟨d, e0, info, hhead, hinfo, hd, hdm⟩ : ∃ (d : Int) (e0 : List TvmAstNode)
      (info : ControlFlowInfo),
      (if _ifStatement.canUseJmp then
        some (({ m_stack2 := { m_size := m, m_stackSize := v }, lockStack := 0,
                 m_instructions := block :: outer } : StackPusher),
              ({ stackSize := m, isLoop := false, useJmp := true } : ControlFlowInfo))
       else
        TVMFunctionCompiler.pushControlFlowFlagAndReturnControlFlowInfo
          { m_stack2 := { m_size := m, m_stackSize := v }, lockStack := 0,
            m_instructions := block :: outer } _ifStatement.info false)
        = some ({ m_stack2 := { m_size := d, m_stackSize := v }, lockStack := 0,
                  m_instructions := (block ++ e0) :: outer }, info) ∧
      info.stackSize = d ∧ 0 ≤ d ∧
      d = m + (if _ifStatement.canUseJmp then 0 else _ifStatement.info.flagQty) := by
    cases hj : _ifStatement.canUseJmp
    · obtain ⟨e0, h0⟩ := pushControlFlowFlag_state m v block outer _ifStatement.info false
        hdepth
      have := flagQty_nonneg _ifStatement.info
      exact ⟨m + _ifStatement.info.flagQty, e0, _, by simpa using h0, rfl, by omega, by simp⟩
    · exact ⟨m, [], { stackSize := m, isLoop := false, useJmp := true }, by simp, rfl, hdepth,
        by simp⟩
  obtain ⟨v1, e1, h1⟩ := lowers_to _ifStatement.condition 1 hcond d v (block ++ e0) outer
    (d + 1) rfl hd
  have h2 := fix_to genOpcode (d + 1) v1 ((block ++ e0 ++ e1) :: outer) (-1) d (by ring) hd
  obtain ⟨v2, tb, h3⟩ := visitIfBranch_state genOpcode d v1 (block ++ e0 ++ e1) outer
    m_controlFlowInfo info _ifStatement.trueStatement _ifStatement.canUseJmp bt hinfo htrue hbt hd
  have hfront : block ++ e0 ++ e1 ≠ [] := by simp [hblock]
  have hdrop : (m_controlFlowInfo ++ [info]).dropLast = m_controlFlowInfo :=
    List.dropLast_concat
  -- the rest after the node is made
  have hrest : ∀ (v3 : List (Option Nat)) (front : List TvmAstNode),
      ∃ check,
        ((if (!_ifStatement.canUseJmp) = true then
            TVMFunctionCompiler.visitIfBottom genOpcode
              { m_stack2 := { m_size := d, m_stackSize := v3 }, lockStack := 0,
                m_instructions := front :: outer } m_controlFlowInfo _ifStatement.info
          else some { m_stack2 := { m_size := d, m_stackSize := v3 }, lockStack := 0,
                      m_instructions := front :: outer }).bind
          fun p7 => p7.ensureSize m)
          = some { m_stack2 := { m_size := m, m_stackSize := v3 }, lockStack := 0,
                   m_instructions := (front ++ check) :: outer } ∧
        (if _ifStatement.canUseJmp = false ∧
            (_ifStatement.info.canReturn = true ∨ _ifStatement.info.canBreak = true ∨
              _ifStatement.info.canContinue = true) then
          ∃ body, check = [.Opaque (.mk .None body) 1 0 false] ∧ makeIFRET ∈ body
         else check = []) := by
    intro v3 front
    cases hj : _ifStatement.canUseJmp
    · rw [hj] at hdm
      simp only [Bool.false_eq_true, if_false] at hdm
      subst hdm
      obtain ⟨check, hc1, hc2⟩ := visitIfBottom_state genOpcode heq m v3 front outer
        m_controlFlowInfo _ifStatement.info hdepth
      refine ⟨check, ?_, by simpa using hc2⟩
      simp only [Bool.not_false, if_true, hc1, Option.some_bind, StackPusher.ensureSize,
        beq_self_eq_true]
    · rw [hj] at hdm
      simp only [if_true, add_zero] at hdm
      subst hdm
      refine ⟨[], ?_, by simp⟩
      simp only [Bool.not_true, Bool.false_eq_true, if_false, Option.some_bind,
        StackPusher.ensureSize, beq_self_eq_true, if_true, List.append_nil]
  cases hf : _ifStatement.falseStatement with
  | none =>
    obtain ⟨check, hc1, hc2⟩ := hrest v2 (block ++ e0 ++ e1 ++
      [.TvmIfElse (ifElseVariant false _ifStatement.canUseJmp) (.mk .PUSHCONT tb) none] ++
      [.Loc _ifStatement.sourceName 0])
    refine ⟨v2, e0 ++ e1, .mk .PUSHCONT tb, none, check, ?_, rfl, hc2⟩
    have hnode : ((if _ifStatement.canUseJmp = true then
          StackPusher.ifJmp
            { m_stack2 := { m_size := d, m_stackSize := v2 }, lockStack := 0,
              m_instructions := (block ++ e0 ++ e1 ++ [.Block (.mk .PUSHCONT tb)]) :: outer }
        else
          StackPusher._if
            { m_stack2 := { m_size := d, m_stackSize := v2 }, lockStack := 0,
              m_instructions :=
                (block ++ e0 ++ e1 ++ [.Block (.mk .PUSHCONT tb)]) :: outer }).bind
          fun p5 =>
          TVMFunctionCompiler.pushLocation p5 _ifStatement.sourceName
            _ifStatement.positionLine true)
        = some { m_stack2 := { m_size := d, m_stackSize := v2 }, lockStack := 0,
                 m_instructions := (block ++ e0 ++ e1 ++
                  [.TvmIfElse (ifElseVariant false _ifStatement.canUseJmp) (.mk .PUSHCONT tb)
                    none] ++ [.Loc _ifStatement.sourceName 0]) :: outer } := by
      have hif : ∀ t,
          StackPusher.if_or_ifnot
            { m_stack2 := { m_size := d, m_stackSize := v2 }, lockStack := 0,
              m_instructions := (block ++ e0 ++ e1 ++ [.Block (.mk .PUSHCONT tb)]) :: outer } t
          = some { m_stack2 := { m_size := d, m_stackSize := v2 }, lockStack := 0,
                   m_instructions :=
                    (block ++ e0 ++ e1 ++ [.TvmIfElse t (.mk .PUSHCONT tb) none]) :: outer } :=
        fun t => if_or_ifnot_state _ _ _ _ _ t
      cases _ifStatement.canUseJmp
      · simp only [Bool.false_eq_true, if_false, StackPusher._if, ifElseVariant, hif,
          Option.some_bind, TVMFunctionCompiler.pushLocation, if_true, StackPusher.pushLoc,
          StackPusher.pushOpcode]
      · simp only [if_true, StackPusher.ifJmp, ifElseVariant, Bool.false_eq_true, if_false, hif,
          Option.some_bind, TVMFunctionCompiler.pushLocation, StackPusher.pushLoc,
          StackPusher.pushOpcode]
    simp only [TVMFunctionCompiler.visitIf, StackPusher.stackSize, TVMStack.size, hhead,
      Option.some_bind, h1, h2, h3, hf, hnode, hdrop, hc1, Option.isSome_none,
      Bool.false_eq_true, if_false]
    simp only [List.append_assoc]
  | some f =>
    obtain ⟨v3, fb, h4⟩ := visitIfBranch_state genOpcode d v2
      (block ++ e0 ++ e1 ++ [.Block (.mk .PUSHCONT tb)]) outer
      m_controlFlowInfo info f _ifStatement.canUseJmp bf hinfo (hfalse f hf) hbf hd
    obtain ⟨check, hc1, hc2⟩ := hrest v3 (block ++ e0 ++ e1 ++
      [.TvmIfElse (ifElseVariant true _ifStatement.canUseJmp) (.mk .PUSHCONT tb)
        (some (.mk .PUSHCONT fb))])
    refine ⟨v3, e0 ++ e1, .mk .PUSHCONT tb, some (.mk .PUSHCONT fb), check, ?_, rfl, hc2⟩
    have hnode : (if _ifStatement.canUseJmp = true then
          StackPusher.ifElse
            { m_stack2 := { m_size := d, m_stackSize := v3 }, lockStack := 0,
              m_instructions := (block ++ e0 ++ e1 ++ [.Block (.mk .PUSHCONT tb)] ++
                [.Block (.mk .PUSHCONT fb)]) :: outer } true
        else
          StackPusher.ifElse
            { m_stack2 := { m_size := d, m_stackSize := v3 }, lockStack := 0,
              m_instructions := (block ++ e0 ++ e1 ++ [.Block (.mk .PUSHCONT tb)] ++
                [.Block (.mk .PUSHCONT fb)]) :: outer } false)
        = some { m_stack2 := { m_size := d, m_stackSize := v3 }, lockStack := 0,
                 m_instructions := (block ++ e0 ++ e1 ++
                  [.TvmIfElse (ifElseVariant true _ifStatement.canUseJmp) (.mk .PUSHCONT tb)
                    (some (.mk .PUSHCONT fb))]) :: outer } := by
      cases _ifStatement.canUseJmp
      · simp only [Bool.false_eq_true, if_false, ifElseVariant, if_true]
        exact ifElse_state _ _ _ _ _ _ false hfront
      · simp only [if_true, ifElseVariant]
        exact ifElse_state _ _ _ _ _ _ true hfront
    simp only [TVMFunctionCompiler.visitIf, StackPusher.stackSize, TVMStack.size, hhead,
      Option.some_bind, h1, h2, h3, hf, h4, hnode, hdrop, hc1, Option.isSome_some, if_true,
      List.append_nil]
    simp only [List.append_assoc]

/-- C31: `visit(IfStatement)` on an unlocked pusher whose open block is not
empty, with regular lowerings of the condition and of the branches. With
`canUseJmp` the conjunction of the `doThatAlways()` of the branches present, the
statement appends one `TvmIfElse` node after the code of the condition: of type
`IFELSE_WITH_JMP` with an else branch and `canUseJmp`, `IFJMP` without an else
branch and with `canUseJmp`, `IFELSE` with an else branch and without
`canUseJmp`, `IF` without both; the node has a false body exactly when there is
an else branch. Without an else branch the node is followed by the `Loc` of
`pushLocation(_ifStatement, true)`, at line 0. After that the statement appends
one opaque block that holds an `IFRET` exactly when `canUseJmp` is false and the
statement can return, break or continue, and nothing otherwise; the depth ends
where it began. -/
theorem visitIf_picks_variant (genOpcode : String → Option TvmAstNode)
    (heq : declaredEffect genOpcode ("EQINT " ++ toString ContInfo.RETURN_FLAG) = some 0)
    (m : Int) (v : List (Option Nat)) (block : List TvmAstNode)
    (outer : List (List TvmAstNode)) (m_controlFlowInfo : List ControlFlowInfo)
    (_ifStatement : IfStatement) (bt bf : Int)
    (hcond : Lowers _ifStatement.condition 1)
    (htrue : Lowers _ifStatement.trueStatement bt) (hbt : 0 ≤ bt)
    (hfalse : ∀ f, _ifStatement.falseStatement = some f → Lowers f bf) (hbf : 0 ≤ bf)
    (hdepth : 0 ≤ m) (hblock : block ≠ []) :
    (_ifStatement.canUseJmp
      = (match _ifStatement.falseStatement with
         | some _ => _ifStatement.trueDoThatAlways && _ifStatement.falseDoThatAlways
         | none => _ifStatement.trueDoThatAlways)) ∧
    ∃ v1 emitted trueBody falseBody check,
      TVMFunctionCompiler.visitIf genOpcode
          { m_stack2 := { m_size := m, m_stackSize := v }, lockStack := 0,
            m_instructions := block :: outer } m_controlFlowInfo _ifStatement
        = some { m_stack2 := { m_size := m, m_stackSize := v1 }, lockStack := 0,
                 m_instructions :=
                  (block ++ emitted ++
                    [.TvmIfElse
                      (if _ifStatement.canUseJmp = true then
                        (if _ifStatement.falseStatement.isSome = true then .IFELSE_WITH_JMP
                         else .IFJMP)
                       else
                        (if _ifStatement.falseStatement.isSome = true then .IFELSE else .IF))
                      trueBody falseBody] ++
                    (if _ifStatement.falseStatement.isSome = true then []
                     else [.Loc _ifStatement.sourceName 0]) ++ check) :: outer } ∧
      falseBody.isSome = _ifStatement.falseStatement.isSome ∧
      (if _ifStatement.canUseJmp = false ∧
          (_ifStatement.info.canReturn = true ∨ _ifStatement.info.canBreak = true ∨
            _ifStatement.info.canContinue = true) then
        ∃ body, check = [.Opaque (.mk .None body) 1 0 false] ∧ makeIFRET ∈ body
       else check = []) := by
  refine ⟨rfl, ?_⟩
  have h := visitIf_state genOpcode heq m v block outer m_controlFlowInfo _ifStatement bt bf
    hcond htrue hbt hfalse hbf hdepth hblock
  simpa only [ifElseVariant] using h

theorem visitIf_picks_variant_witness :
    ∃ v1 emitted trueBody falseBody check,
      TVMFunctionCompiler.visitIf (fun cmd => some (.GenOpcode cmd "" "" 1 1 true))
          { m_stack2 := { m_size := 0, m_stackSize := [] }, lockStack := 0,
            m_instructions := [makePUSH 0] :: [] } []
          (IfStatement.mk (fun p => p.pushS 0) (fun p => some p) none
            (ContInfo.mk true false false) false false "f.sol" 7)
        = some { m_stack2 := { m_size := 0, m_stackSize := v1 }, lockStack := 0,
                 m_instructions :=
                  ([makePUSH 0] ++ emitted ++ [.TvmIfElse .IF trueBody falseBody] ++
                    [.Loc "f.sol" 0] ++ check) :: [] } ∧
      falseBody.isSome = false ∧
      ∃ body, check = [.Opaque (.mk .None body) 1 0 false] ∧ makeIFRET ∈ body :=
  (visitIf_picks_variant (fun cmd => some (.GenOpcode cmd "" "" 1 1 true))
    (by decide) 0 [] [makePUSH 0] [] []
    (IfStatement.mk (fun p => p.pushS 0) (fun p => some p) none
      (ContInfo.mk true false false) false false "f.sol" 7)
    0 0
    (fun st block outer h =>
      ⟨st.m_stackSize, [makePUSH 0], pushS_to st.m_size st.m_stackSize block outer 0
        (st.m_size + 1) (le_refl 0) rfl (by omega)⟩)
    (fun st block outer _ => ⟨st.m_stackSize, [], by simp⟩) (le_refl 0)
    (fun f hf => by cases hf) (le_refl 0) (le_refl 0) (by simp)).2

/-! ## The call graph: addAndDoesHaveLoop -/

theorem mem_setInsert (x y : Nat) (l : List Nat) : y ∈ setInsert x l ↔ y = x ∨ y ∈ l := by
  unfold setInsert
  split_ifs with h
  · constructor
    · exact Or.inr
    · rintro (rfl | h2)
      · exact h
      · exact h2
  · rw [List.mem_orderedInsert]

theorem mem_setErase (x y : Nat) (l : List Nat) : y ∈ setErase x l ↔ y ∈ l ∧ y ≠ x := by
  simp [setErase]

theorem whiteCount_le (keys : List Nat) (c c1 : Nat → Option Color)
    (h : ∀ k ∈ keys, c1 k = some Color.White → c k = some Color.White) :
    whiteCount keys c1 ≤ whiteCount keys c := by
  induction keys with
  | nil => simp [whiteCount]
  | cons a l ih =>
    have ih2 := ih (fun k hk => h k (List.mem_cons_of_mem _ hk))
    have ha := h a (List.mem_cons_self _ _)
    simp only [whiteCount, List.countP_cons] at ih2 ⊢
    by_cases h1 : c1 a = some Color.White
    · simp only [h1, ha h1, beq_self_eq_true, if_true]
      omega
    · have : (c1 a == some Color.White) = false := by simpa using h1
      simp only [this, Bool.false_eq_true, if_false]
      split <;> omega

theorem whiteCount_lt (keys : List Nat) (c c1 : Nat → Option Color) (v : Nat)
    (hv : v ∈ keys) (hc : c v = some Color.White) (hc1 : c1 v ≠ some Color.White)
    (h : ∀ k ∈ keys, c1 k = some Color.White → c k = some Color.White) :
    whiteCount keys c1 < whiteCount keys c := by
  induction keys with
  | nil => cases hv
  | cons a l ih =>
    have hle := whiteCount_le l c c1 (fun k hk => h k (List.mem_cons_of_mem _ hk))
    simp only [whiteCount, List.countP_cons] at hle ⊢
    rcases List.mem_cons.mp hv with rfl | hv2
    · have : (c1 v == some Color.White) = false := by simpa using hc1
      simp only [this, hc, beq_self_eq_true, if_true, Bool.false_eq_true, if_false]
      omega
    · have ih2 := ih hv2 (fun k hk => h k (List.mem_cons_of_mem _ hk))
      simp only [whiteCount] at ih2
      have ha := h a (List.mem_cons_self _ _)
      by_cases h1 : c1 a = some Color.White
      · simp only [h1, ha h1, beq_self_eq_true, if_true]
        omega
      · have : (c1 a == some Color.White) = false := by simpa using h1
        simp only [this, Bool.false_eq_true, if_false]
        split <;> omega

theorem whiteCount_le_length (keys : List Nat) (c : Nat → Option Color) :
    whiteCount keys c ≤ keys.length :=
  List.countP_le_length _

theorem colorMono_refl (keys : List Nat) (c : Nat → Option Color) : ColorMono keys c c :=
  ⟨fun _ h => h, fun _ => Iff.rfl, le_refl _⟩

theorem colorMono_trans (keys : List Nat) (c c1 c2 : Nat → Option Color)
    (h1 : ColorMono keys c c1) (h2 : ColorMono keys c1 c2) : ColorMono keys c c2 :=
  ⟨fun k h => h2.1 k (h1.1 k h), fun k => (h2.2.1 k).trans (h1.2.1 k),
    le_trans h2.2.2 h1.2.2⟩

/-- Everything that a black node reaches is black. -/
theorem dfsInv_reach_black (keys : List Nat) (graph : Nat → List Nat)
    (c : Nat → Option Color) (hinv : DfsInv keys graph c) (t x : Nat)
    (ht : c t = some Color.Black) (h : Relation.ReflTransGen (CallEdge graph) t x) :
    c x = some Color.Black := by
  induction h with
  | refl => exact ht
  | tail _ hbc ih => exact hinv.closed _ _ ih hbc

/-- The loop over the successors or over the keys, given the behaviour of the
calls of `dfs` in it. -/
theorem dfsAll_spec (keys : List Nat) (graph : Nat → List Nat)
    (dfs : (Nat → Option Color) → Nat → Option (Bool × (Nat → Option Color))) (bound : Nat)
    (hdfs : ∀ c v, v ∈ keys → DfsInv keys graph c → whiteCount keys c < bound →
      ∃ b c1, dfs c v = some (b, c1) ∧
        (b = true →
          (∀ r ∈ keys, c r = some Color.Red → Relation.TransGen (CallEdge graph) r v) →
          ∃ a, Relation.TransGen (CallEdge graph) a a) ∧
        (b = false → DfsInv keys graph c1 ∧ c1 v = some Color.Black ∧ ColorMono keys c c1)) :
    ∀ (ts : List Nat) (c : Nat → Option Color), (∀ t ∈ ts, t ∈ keys) → DfsInv keys graph c →
      whiteCount keys c < bound →
      ∃ b c1, dfsAll dfs ts c = some (b, c1) ∧
        (b = true →
          (∀ t ∈ ts, ∀ r ∈ keys, c r = some Color.Red →
            Relation.TransGen (CallEdge graph) r t) →
          ∃ a, Relation.TransGen (CallEdge graph) a a) ∧
        (b = false → DfsInv keys graph c1 ∧ (∀ t ∈ ts, c1 t = some Color.Black) ∧
          ColorMono keys c c1) := by
  intro ts
  induction ts with
  | nil =>
    intro c _ hinv _
    exact ⟨false, c, rfl, (fun h => by cases h),
      fun _ => ⟨hinv, (fun t ht => by cases ht), colorMono_refl keys c⟩⟩
  | cons t rest ih =>
    intro c hts hinv hw
    obtain ⟨b, c1, h1, htrue, hfalse⟩ := hdfs c t (hts t (List.mem_cons_self _ _)) hinv hw
    cases b with
    | true =>
      refine ⟨true, c1, by simp only [dfsAll, h1], ?_, (fun h => by cases h)⟩
      intro _ hpre
      exact htrue rfl (hpre t (List.mem_cons_self _ _))
    | false =>
      obtain ⟨hinv1, hblack, hmono⟩ := hfalse rfl
      obtain ⟨b2, c2, h2, htrue2, hfalse2⟩ := ih c1
        (fun x hx => hts x (List.mem_cons_of_mem _ hx)) hinv1 (lt_of_le_of_lt hmono.2.2 hw)
      refine ⟨b2, c2, by simp only [dfsAll, h1, h2], ?_, ?_⟩
      · intro hb hpre
        exact htrue2 hb (fun x hx r hrk hr =>
          hpre x (List.mem_cons_of_mem _ hx) r hrk ((hmono.2.1 r).mp hr))
      · intro hb
        obtain ⟨hinv2, hblack2, hmono2⟩ := hfalse2 hb
        refine ⟨hinv2, ?_, colorMono_trans keys c c1 c2 hmono hmono2⟩
        intro x hx
        rcases List.mem_cons.mp hx with rfl | hx2
        · exact hmono2.1 _ hblack
        · exact hblack2 x hx2

/-- The method `dfs` on a key, with more fuel than white keys: it returns; when
it returns true and every red node reaches `v`, the graph has a cycle; when it
returns false, `v` is black and the invariant holds again. -/
theorem dfs_spec (keys : List Nat) (graph : Nat → List Nat)
    (hclosed : GraphClosed keys graph) (fuel : Nat) :
    ∀ c v, v ∈ keys → DfsInv keys graph c → whiteCount keys c < fuel →
      ∃ b c1, TVMCompilerContext.dfs keys graph fuel c v = some (b, c1) ∧
        (b = true →
          (∀ r ∈ keys, c r = some Color.Red → Relation.TransGen (CallEdge graph) r v) →
          ∃ a, Relation.TransGen (CallEdge graph) a a) ∧
        (b = false → DfsInv keys graph c1 ∧ c1 v = some Color.Black ∧ ColorMono keys c c1) := by
  induction fuel with
  | zero => intro c v _ _ h; omega
  | succ n ih =>
    intro c v hv hinv hw
    cases hcv : c v with
    | none => exact absurd hcv (hinv.defined v hv)
    | some col =>
      cases col with
      | Black =>
        refine ⟨false, c, by simp only [TVMCompilerContext.dfs, hcv], (fun h => by cases h),
          fun _ => ⟨hinv, hcv, colorMono_refl keys c⟩⟩
      | Red =>
        refine ⟨true, c, by simp only [TVMCompilerContext.dfs, hcv], ?_, (fun h => by cases h)⟩
        intro _ hpre
        exact ⟨v, hpre v hv hcv⟩
      | White =>
        -- the colours with `v` red
        have hinv0 : DfsInv keys graph (fun k => if k = v then some Color.Red else c k) := by
          refine ⟨?_, ?_, ?_⟩
          · intro k hk
            by_cases hkv : k = v
            · simp [hkv]
            · simp only [if_neg hkv]
              exact hinv.defined k hk
          · intro b t hb ht
            have hbv : b ≠ v := by
              intro h
              simp [h] at hb
            simp only [if_neg hbv] at hb
            have htb := hinv.closed b t hb ht
            have htv : t ≠ v := by
              intro h
              rw [h, hcv] at htb
              cases htb
            simp only [if_neg htv]
            exact htb
          · intro b hb
            have hbv : b ≠ v := by
              intro h
              simp [h] at hb
            simp only [if_neg hbv] at hb
            exact hinv.noCycle b hb
        have hlt0 : whiteCount keys (fun k => if k = v then some Color.Red else c k)
            < whiteCount keys c :=
          whiteCount_lt keys c (fun k => if k = v then some Color.Red else c k) v hv hcv
            (by simp) (fun k _ hk => by
              by_cases hkv : k = v
              · simp [hkv] at hk
              · simpa [hkv] using hk)
        have hw0 : whiteCount keys (fun k => if k = v then some Color.Red else c k) < n := by
          omega
        obtain ⟨b, c1, h1, htrue, hfalse⟩ := dfsAll_spec keys graph
          (TVMCompilerContext.dfs keys graph n) n ih (graph v)
          (fun k => if k = v then some Color.Red else c k)
          (fun t ht => (hclosed v t ht).2) hinv0 hw0
        cases b with
        | true =>
          refine ⟨true, c1, by simp only [TVMCompilerContext.dfs, hcv, hv, if_true, h1], ?_,
            (fun h => by cases h)⟩
          intro _ hpre
          apply htrue rfl
          intro t ht r hrk hr
          by_cases hrv : r = v
          · subst hrv
            exact Relation.TransGen.single ht
          · simp only [if_neg hrv] at hr
            exact Relation.TransGen.tail (hpre r hrk hr) ht
        | false =>
          obtain ⟨hinv1, hblack, hmono⟩ := hfalse rfl
          have hred : c1 v = some Color.Red := (hmono.2.1 v).mpr (by simp)
          refine ⟨false, fun k => if k = v then some Color.Black else c1 k,
            by simp only [TVMCompilerContext.dfs, hcv, hv, if_true, h1], (fun h => by cases h),
            fun _ => ⟨⟨?_, ?_, ?_⟩, by simp, ?_, ?_, ?_⟩⟩
          · intro k hk
            by_cases hkv : k = v
            · simp [hkv]
            · simp only [if_neg hkv]
              exact hinv1.defined k hk
          · intro b t hb ht
            by_cases htv : t = v
            · simp [htv]
            · simp only [if_neg htv]
              by_cases hbv : b = v
              · subst hbv
                exact hblack t ht
              · simp only [if_neg hbv] at hb
                exact hinv1.closed b t hb ht
          · intro b hb hcyc
            by_cases hbv : b = v
            · subst hbv
              obtain ⟨t, ht, hreach⟩ := Relation.TransGen.head'_iff.mp hcyc
              have := dfsInv_reach_black keys graph c1 hinv1 t b (hblack t ht) hreach
              rw [hred] at this
              cases this
            · simp only [if_neg hbv] at hb
              exact hinv1.noCycle b hb hcyc
          · intro k hk
            by_cases hkv : k = v
            · simp [hkv]
            · simp only [if_neg hkv]
              exact hmono.1 k (by simpa [hkv] using hk)
          · intro k
            by_cases hkv : k = v
            · subst hkv
              simp [hcv]
            · simp only [if_neg hkv]
              rw [hmono.2.1 k]
              simp [hkv]
          · have h2 : whiteCount keys (fun k => if k = v then some Color.Black else c1 k)
                ≤ whiteCount keys c1 :=
              whiteCount_le keys c1 _ (fun k _ hk => by
                by_cases hkv : k = v
                · simp [hkv] at hk
                · simpa [hkv] using hk)
            have h3 := hmono.2.2
            omega

theorem transGen_source (r : Nat → Nat → Prop) (a b : Nat) (h : Relation.TransGen r a b) :
    ∃ c, r a c := by
  obtain ⟨c, hc, _⟩ := Relation.TransGen.head'_iff.mp h
  exact ⟨c, hc⟩

/-- One call of `addAndDoesHaveLoop` on a context whose graph is acyclic and has
its edges between keys. -/
theorem addAndDoesHaveLoop_step (ctx : TVMCompilerContext) (hinv : ContextInv ctx)
    (_v _to : Nat) :
    ∃ b ctx1, ctx.addAndDoesHaveLoop _v _to = some (b, ctx1) ∧
      (b = true ↔
        ∃ a, Relation.TransGen (fun x y => CallEdge ctx.graph x y ∨ (x = _v ∧ y = _to)) a a) ∧
      (∀ a c, CallEdge ctx1.graph a c
        ↔ (CallEdge ctx.graph a c ∨ (b = false ∧ a = _v ∧ c = _to))) ∧
      ContextInv ctx1 := by
  obtain ⟨hclosed, hacyc⟩ := hinv
  -- the graph with the edge added
  have hempty : ∀ k, k ∉ ctx.graphKeys → ctx.graph k = [] := by
    intro k hk
    apply List.eq_nil_iff_forall_not_mem.mpr
    intro x hx
    exact hk (hclosed k x hx).1
  set keys1 := setInsert _v ctx.graphKeys with hkeys1
  set graph1 : Nat → List Nat := fun k =>
    if k = _v then setInsert _to (if _v ∈ ctx.graphKeys then ctx.graph _v else [])
    else ctx.graph k with hgraph1
  set keys2 := setInsert _to keys1 with hkeys2
  set graph2 : Nat → List Nat := fun k =>
    if k = _to then (if _to ∈ keys1 then graph1 _to else []) else graph1 k with hgraph2
  set color1 : Nat → Option Color :=
    fun k => if k ∈ keys2 then some Color.White else ctx.color k with hcolor1
  have hmem2 : ∀ k, k ∈ keys2 ↔ k = _to ∨ k = _v ∨ k ∈ ctx.graphKeys := by
    intro k
    rw [hkeys2, mem_setInsert, hkeys1, mem_setInsert]
  have hg1 : ∀ a c, c ∈ graph1 a ↔ c ∈ ctx.graph a ∨ (a = _v ∧ c = _to) := by
    intro a c
    by_cases hav : a = _v
    · subst hav
      simp only [hgraph1, if_true, mem_setInsert]
      by_cases hk : a ∈ ctx.graphKeys
      · simp only [if_pos hk]
        tauto
      · simp only [if_neg hk, hempty a hk]
        tauto
    · simp only [hgraph1, if_neg hav]
      tauto
  have hedge2 : ∀ a c, c ∈ graph2 a ↔ c ∈ ctx.graph a ∨ (a = _v ∧ c = _to) := by
    intro a c
    by_cases hat : a = _to
    · by_cases hk : _to ∈ keys1
      · simp only [hgraph2, if_pos hat, if_pos hk]
        rw [hat]
        exact hg1 _to c
      · simp only [hgraph2, if_pos hat, if_neg hk]
        have hne : _to ≠ _v := by
          intro h
          apply hk
          rw [hkeys1, mem_setInsert]
          exact Or.inl h
        have hnk : _to ∉ ctx.graphKeys := by
          intro h
          apply hk
          rw [hkeys1, mem_setInsert]
          exact Or.inr h
        rw [hat, hempty _to hnk]
        constructor
        · intro h
          cases h
        · rintro (h | ⟨h, _⟩)
          · cases h
          · exact absurd h hne
    · simp only [hgraph2, if_neg hat]
      exact hg1 a c
  have hclosed2 : GraphClosed keys2 graph2 := by
    intro a c hac
    rcases (hedge2 a c).mp hac with h | ⟨rfl, rfl⟩
    · have := hclosed a c h
      exact ⟨(hmem2 a).mpr (Or.inr (Or.inr this.1)), (hmem2 c).mpr (Or.inr (Or.inr this.2))⟩
    · exact ⟨(hmem2 _).mpr (Or.inr (Or.inl rfl)), (hmem2 _).mpr (Or.inl rfl)⟩
  have hwhite : ∀ k ∈ keys2, color1 k = some Color.White := by
    intro k hk
    simp only [hcolor1, if_pos hk]
  have hinv1 : DfsInv keys2 graph2 color1 := by
    refine ⟨?_, ?_, ?_⟩
    · intro k hk
      rw [hwhite k hk]
      simp
    · intro b t hb ht
      have := hwhite b (hclosed2 b t ht).1
      rw [this] at hb
      cases hb
    · intro b hb hcyc
      obtain ⟨t, ht⟩ := transGen_source _ _ _ hcyc
      have := hwhite b (hclosed2 b t ht).1
      rw [this] at hb
      cases hb
  obtain ⟨b, c2, hrun, htrue, hfalse⟩ := dfsAll_spec keys2 graph2
    (TVMCompilerContext.dfs keys2 graph2 (keys2.length + 1)) (keys2.length + 1)
    (dfs_spec keys2 graph2 hclosed2 (keys2.length + 1)) keys2 color1 (fun t ht => ht) hinv1
    (Nat.lt_succ_of_le (whiteCount_le_length keys2 color1))
  have hrel : ∀ x y, CallEdge graph2 x y ↔ (CallEdge ctx.graph x y ∨ (x = _v ∧ y = _to)) :=
    fun x y => hedge2 x y
  have hcycle_iff : (∃ a, Relation.TransGen (CallEdge graph2) a a) ↔
      ∃ a, Relation.TransGen (fun x y => CallEdge ctx.graph x y ∨ (x = _v ∧ y = _to)) a a := by
    constructor
    · rintro ⟨a, h⟩
      exact ⟨a, Relation.TransGen.mono (fun x y hxy => (hrel x y).mp hxy) h⟩
    · rintro ⟨a, h⟩
      exact ⟨a, Relation.TransGen.mono (fun x y hxy => (hrel x y).mpr hxy) h⟩
  have hdef : ctx.addAndDoesHaveLoop _v _to
      = (match dfsAll (TVMCompilerContext.dfs keys2 graph2 (keys2.length + 1)) keys2 color1 with
        | none => none
        | some (true, color2) =>
          some (true,
            { graphKeys := keys2,
              graph := fun k => if k = _v then setErase _to (graph2 _v) else graph2 k,
              color := color2 })
        | some (false, color2) =>
          some (false, { graphKeys := keys2, graph := graph2, color := color2 })) := rfl
  cases b with
  | true =>
    have hcyc : ∃ a, Relation.TransGen (CallEdge graph2) a a :=
      htrue rfl (fun t _ r hr hred => by
        rw [hwhite r hr] at hred
        cases hred)
    have hnew : _to ∉ ctx.graph _v := by
      intro hmem
      obtain ⟨a, ha⟩ := hcyc
      apply hacyc a
      refine Relation.TransGen.mono (fun x y hxy => ?_) ha
      rcases (hrel x y).mp hxy with h | ⟨rfl, rfl⟩
      · exact h
      · exact hmem
    have hedge3 : ∀ a c,
        c ∈ (fun k => if k = _v then setErase _to (graph2 _v) else graph2 k) a
          ↔ c ∈ ctx.graph a := by
      intro a c
      by_cases hav : a = _v
      · subst hav
        simp only [if_true, mem_setErase, hedge2]
        constructor
        · rintro ⟨h | ⟨_, h⟩, hne⟩
          · exact h
          · exact absurd h hne
        · intro h
          refine ⟨Or.inl h, ?_⟩
          intro hc
          rw [hc] at h
          exact hnew h
      · simp only [if_neg hav, hedge2]
        constructor
        · rintro (h | ⟨h, _⟩)
          · exact h
          · exact absurd h hav
        · exact Or.inl
    refine ⟨true,
      { graphKeys := keys2,
        graph := fun k => if k = _v then setErase _to (graph2 _v) else graph2 k,
        color := c2 }, by rw [hdef, hrun], ?_, ?_, ?_, ?_⟩
    · exact ⟨fun _ => hcycle_iff.mp hcyc, fun _ => rfl⟩
    · intro a c
      simp only [CallEdge, Bool.true_eq_false, false_and, or_false]
      exact hedge3 a c
    · intro a c hac
      have := hclosed a c ((hedge3 a c).mp hac)
      exact ⟨(hmem2 a).mpr (Or.inr (Or.inr this.1)), (hmem2 c).mpr (Or.inr (Or.inr this.2))⟩
    · intro a ha
      apply hacyc a
      exact Relation.TransGen.mono (fun x y hxy => (hedge3 x y).mp hxy) ha
  | false =>
    obtain ⟨hinv2, hblack, _⟩ := hfalse rfl
    have hacyc2 : Acyclic graph2 := by
      intro a ha
      obtain ⟨t, ht⟩ := transGen_source _ _ _ ha
      exact hinv2.noCycle a (hblack a (hclosed2 a t ht).1) ha
    refine ⟨false, { graphKeys := keys2, graph := graph2, color := c2 }, by rw [hdef, hrun],
      ?_, ?_, ?_, ?_⟩
    · constructor
      · intro h
        cases h
      · intro h
        obtain ⟨a, ha⟩ := hcycle_iff.mpr h
        exact absurd ha (hacyc2 a)
    · intro a c
      simp only [CallEdge, true_and]
      exact hedge2 a c
    · exact hclosed2
    · exact hacyc2

theorem contextInv_empty : ContextInv TVMCompilerContext.empty := by
  refine ⟨?_, ?_⟩
  · intro a b h
    simp [TVMCompilerContext.empty] at h
  · intro a h
    obtain ⟨t, ht⟩ := transGen_source _ _ _ h
    simp [CallEdge, TVMCompilerContext.empty] at ht

theorem addAll_inv (calls : List (Nat × Nat)) :
    ∀ ctx, ContextInv ctx → ∃ ctx1, ctx.addAll calls = some ctx1 ∧ ContextInv ctx1 := by
  induction calls with
  | nil => intro ctx h; exact ⟨ctx, rfl, h⟩
  | cons call rest ih =>
    intro ctx h
    obtain ⟨_v, _to⟩ := call
    obtain ⟨b, ctx1, h1, _, _, hinv1⟩ := addAndDoesHaveLoop_step ctx h _v _to
    obtain ⟨ctx2, h2, hinv2⟩ := ih ctx1 hinv1
    exact ⟨ctx2, by simp only [TVMCompilerContext.addAll, h1, h2], hinv2⟩

/-- C36: after any sequence of calls of `addAndDoesHaveLoop` from the empty
call graph, every call returned and the stored graph is acyclic. One more call
`addAndDoesHaveLoop(v, to)` returns too (the recursion of `dfs` stays within the
number of keys); it returns true exactly when the graph with the edge `v -> to`
added has a directed cycle, so also when `v = to`; after a result true the edges
are those before the call, after a result false they are those before the call
and `v -> to`; and the graph is acyclic again. -/
theorem addAndDoesHaveLoop_keeps_acyclic (calls : List (Nat × Nat)) (_v _to : Nat) :
    ∃ ctx, TVMCompilerContext.empty.addAll calls = some ctx ∧ Acyclic ctx.graph ∧
      ∃ b ctx1, ctx.addAndDoesHaveLoop _v _to = some (b, ctx1) ∧
        (b = true ↔
          ∃ a, Relation.TransGen
            (fun x y => CallEdge ctx.graph x y ∨ (x = _v ∧ y = _to)) a a) ∧
        (_v = _to → b = true) ∧
        (∀ a c, CallEdge ctx1.graph a c
          ↔ (CallEdge ctx.graph a c ∨ (b = false ∧ a = _v ∧ c = _to))) ∧
        Acyclic ctx1.graph := by
  obtain ⟨ctx, h1, hinv⟩ := addAll_inv calls TVMCompilerContext.empty contextInv_empty
  obtain ⟨b, ctx1, h2, hiff, hedges, hinv1⟩ := addAndDoesHaveLoop_step ctx hinv _v _to
  refine ⟨ctx, h1, hinv.2, b, ctx1, h2, hiff, ?_, hedges, hinv1.2⟩
  intro hvt
  exact hiff.mpr ⟨_v, Relation.TransGen.single (Or.inr ⟨rfl, hvt⟩)⟩

/-- The calls `(1, 2)`, `(2, 3)`, `(3, 1)`, `(3, 4)` from the empty graph: the
third would close a cycle and is refused, the others are kept. -/
theorem addAndDoesHaveLoop_example :
    (TVMCompilerContext.empty.addAndDoesHaveLoop 1 2).map (fun r => r.1) = some false ∧
    ((TVMCompilerContext.empty.addAll [(1, 2), (2, 3)]).bind
      (fun ctx => ctx.addAndDoesHaveLoop 3 1)).map (fun r => (r.1, r.2.graph 3)) =
        some (true, []) ∧
    ((TVMCompilerContext.empty.addAll [(1, 2), (2, 3), (3, 1)]).bind
      (fun ctx => ctx.addAndDoesHaveLoop 3 4)).map
        (fun r => (r.1, r.2.graphKeys, r.2.graph 1, r.2.graph 3)) =
        some (false, [1, 2, 3, 4], [2], [4]) := by
  refine ⟨by decide, by decide, by decide⟩

end TvmAst
